import Mathlib

/-!
# Relational RAM expectation: flattening, Rampart rotation, group planning

A shallow embedding of `src/src/omxRAMExpectation.cpp` (namespace
`RelationalRAMExpectation`).  Stateful C++ code is rendered as explicit state
passing; `mxThrow` becomes `Except.error`; `double` arithmetic is rendered over
an arbitrary field `α` together with a square-root function `sqrt : α → α`, so
that every definition stays executable and the theorems can be read at
`α = ℝ`, `sqrt = Real.sqrt` (exact real arithmetic).
-/

namespace RelationalRAMExpectation

/-! ## Rotation plan (`applyRotationPlan`, `unapplyRotationPlan`) -/

section Rotation

variable {α : Type} [Field α]

/-- The storage reached through a `UnitAccessor`: the cell of observation `obs`
of unit `unit`.  In the source the cell is `dataVec[obsStart(unit) + obs]`;
distinct `(unit, obs)` pairs with `obs < numObs(unit)` are distinct cells. -/
abbrev Accessor (α : Type) := Nat → Nat → α

/-- Assignment `accessor(unit, obs) = x`. -/
def Accessor.set (acc : Accessor α) (unit obs : Nat) (x : α) : Accessor α :=
  fun u o => if u = unit ∧ o = obs then x else acc u o

/-- Loop-carried variables of the inner loop of `applyRotationPlan`. -/
structure ApplyLoop (α : Type) where
  acc : Accessor α
  partialSum : α
  prev : α

/-- One iteration `i` (for `1 ≤ i < units.size()`) of the inner loop of
`applyRotationPlan` (source lines 1641-1649). -/
def applyStep (sqrt : α → α) (units : List Nat) (ox : Nat)
    (st : ApplyLoop α) (i : Nat) : ApplyLoop α :=
  let k : α := ((units.length - i : Nat) : α)
  let partialSum := st.partialSum - st.prev
  let prevContrib := sqrt (k / (k + 1)) * st.prev
  let prev := st.acc (units.getD i 0) ox
  { acc := st.acc.set (units.getD i 0) ox
      (partialSum * sqrt (1 / (k * (k + 1))) - prevContrib)
    partialSum := partialSum
    prev := prev }

/-- Body of the `ox` loop of `applyRotationPlan` for one plan entry
(source lines 1631-1649). -/
def applyObs (sqrt : α → α) (units : List Nat) (acc : Accessor α) (ox : Nat) :
    Accessor α :=
  let partialSum := units.foldl (fun s u => s + acc u ox) 0
  let prev := acc (units.getD 0 0) ox
  let acc1 := acc.set (units.getD 0 0) ox (partialSum / sqrt (units.length : α))
  ((List.range' 1 (units.length - 1)).foldl (applyStep sqrt units ox)
    { acc := acc1, partialSum := partialSum, prev := prev }).acc

/-- One rotation plan entry of `applyRotationPlan`: every observation index of
the specimen `layout[units[0]]`. -/
def applyEntry (sqrt : α → α) (numObs : Nat → Nat) (acc : Accessor α)
    (units : List Nat) : Accessor α :=
  (List.range (numObs (units.getD 0 0))).foldl (applyObs sqrt units) acc

/-- `state::applyRotationPlan` (source lines 1614-1654); `numObs u` is
`layout[u].numObs()`. -/
def applyRotationPlan (sqrt : α → α) (numObs : Nat → Nat)
    (rotationPlan : List (List Nat)) (acc : Accessor α) : Accessor α :=
  rotationPlan.foldl (applyEntry sqrt numObs) acc

/-- Loop-carried variables of the inner loop of `unapplyRotationPlan`. -/
structure UnapplyLoop (α : Type) where
  acc : Accessor α
  p1 : α

/-- One iteration `ii` of the inner loop of `unapplyRotationPlan`
(source lines 1595-1609); `M_SQRT1_2` is `sqrt (1/2)`. -/
def unapplyStep (sqrt : α → α) (units : List Nat) (ox : Nat)
    (st : UnapplyLoop α) (ii : Nat) : UnapplyLoop α :=
  let numUnits := units.length
  let k : α := ((numUnits - ii : Nat) : α)
  let p1 :=
    if 1 ≤ ii ∧ ii + 1 < numUnits then
      st.p1 + sqrt (1 / (k * (k + 1))) * st.acc (units.getD ii 0) ox
    else st.p1
  let p2 : α :=
    if numUnits ≤ ii + 2 then
      (if ii + 1 = numUnits then - sqrt (1 / 2) else sqrt (1 / 2))
    else - sqrt ((k - 1) / k)
  { acc := st.acc.set (units.getD ii 0) ox
      (p1 + p2 * st.acc (units.getD (min (ii + 1) (numUnits - 1)) 0) ox)
    p1 := p1 }

/-- Body of the `ox` loop of `unapplyRotationPlan` for one plan entry. -/
def unapplyObs (sqrt : α → α) (units : List Nat) (acc : Accessor α) (ox : Nat) :
    Accessor α :=
  let p1 := sqrt (1 / (units.length : α)) * acc (units.getD 0 0) ox
  ((List.range units.length).foldl (unapplyStep sqrt units ox)
    { acc := acc, p1 := p1 }).acc

/-- One rotation plan entry of `unapplyRotationPlan`. -/
def unapplyEntry (sqrt : α → α) (numObs : Nat → Nat) (acc : Accessor α)
    (units : List Nat) : Accessor α :=
  (List.range (numObs (units.getD 0 0))).foldl (unapplyObs sqrt units) acc

/-- `state::unapplyRotationPlan` (source lines 1586-1612): the plan entries are
visited in the same order as in `applyRotationPlan`. -/
def unapplyRotationPlan (sqrt : α → α) (numObs : Nat → Nat)
    (rotationPlan : List (List Nat)) (acc : Accessor α) : Accessor α :=
  rotationPlan.foldl (unapplyEntry sqrt numObs) acc

/-- The rows `1 .. n-1` of the rotation applied to the values `x :: rest`: the
value left in the unit after the one that held `x`, then those of the later
units. -/
def helmertTail (sqrt : α → α) : List α → List α
  | [] => []
  | [_] => []
  | x :: y :: rest =>
    let k : α := (((y :: rest).length : Nat) : α)
    ((y :: rest).sum * sqrt (1 / (k * (k + 1))) - sqrt (k / (k + 1)) * x) ::
      helmertTail sqrt (y :: rest)

/-- The values left by one rotation in the units of a plan entry that held the
values `v`. -/
def helmert (sqrt : α → α) (v : List α) : List α :=
  match v with
  | [] => []
  | _ :: _ => (v.sum / sqrt ((v.length : Nat) : α)) :: helmertTail sqrt v

end Rotation

/-- The data of the two-unit example: unit 0 holds 0, unit 1 holds 1. -/
def twoUnitData : Accessor ℝ := fun u _ => if u = 1 then 1 else 0

/-! ## Data model consumed from the collaborators -/

/-- A between matrix as far as the planner reads it: the foreign-key column
(`getJoinKey()`) and the number of the joined expectation (`getJoinModel()`). -/
structure Between where
  joinKey : Nat
  joinModel : Nat
  deriving DecidableEq

/-- The expectations and data sets the planner reads.  Expectations and data
sets are named by numbers; a data cell that is not finite (NA, NaN) is `none`.
-/
structure Model (α : Type) where
  /-- The expectation the plan is built for: `homeEx`. -/
  homeEx : Nat
  /-- The data set of an expectation: `expectation->data`. -/
  data : Nat → Nat
  /-- The between matrices of an expectation: `ram->between`. -/
  between : Nat → List Between
  /-- Whether the expectation has a mean matrix: `ram->M != 0`. -/
  hasM : Nat → Bool
  /-- Number of model variables of an expectation: `ram->F->cols`. -/
  numVars : Nat → Nat
  /-- The data columns of an expectation: `expectation->getDataColumns()`. -/
  dataColumns : Nat → List Nat
  /-- Number of rows of a data set: `data->rows`. -/
  rows : Nat → Nat
  /-- Primary key declared: `data->hasPrimaryKey()`. -/
  hasPrimaryKey : Nat → Bool
  /-- Key cell `omxKeyDataElement(data, row, col)`; `none` is `NA_INTEGER`. -/
  keyElement : Nat → Nat → Nat → Option Int
  /-- Row of a key, `data->lookupRowOfKey(key)`; `none` when the lookup throws. -/
  lookupRowOfKey : Nat → Int → Option Nat
  /-- Data cell `omxDoubleDataElement(data, row, col)`. -/
  doubleElement : Nat → Nat → Nat → Option α
  /-- Columns of the definition variables of a data set: `data->defVars[k].column`. -/
  defVars : Nat → List Nat := fun _ => []
  /-- The flags `ram->dvInfluenceMean` of an expectation. -/
  dvInfluenceMean : Nat → List Bool := fun _ => []
  /-- The flags `ram->dvInfluenceVar` of an expectation. -/
  dvInfluenceVar : Nat → List Bool := fun _ => []
  /-- The flags `ram->latentFilter` of an expectation: variable `vx` is manifest. -/
  latentFilter : Nat → List Bool := fun _ => []
  /-- `ram->forceSingleGroup` of the home expectation. -/
  forceSingleGroup : Bool := false
  /-- `ram->useSufficientSets` of the home expectation. -/
  useSufficientSets : Bool := true
  /-- `ram->rampartEnabled()` of the home expectation. -/
  rampartEnabled : Bool := true
  /-- `ram->rampartCycleLimit`; `none` is `NA_INTEGER`. -/
  rampartCycleLimit : Option Int := none
  /-- `ram->rampartUnitLimit`; `none` is `NA_INTEGER`. -/
  rampartUnitLimit : Option Int := none
  /-- `ram->optimizeMean` of the home expectation. -/
  optimizeMean : Int := 0
  /-- The option `Global->RAMInverseOpt`. -/
  ramInverseOpt : Bool := true

/-- The errors thrown with `mxThrow` by the embedded code.  `recursionBudget`
has no counterpart in the source: it is returned when the recursion budget of
the embedding of a recursive function is used up. -/
inductive Error where
  | cycleDetected (data row : Nat)
  | keyNotFound (data : Nat) (key : Int)
  | cannotFindRow (row data : Nat)
  | alreadyAssigned (ax : Nat)
  | numObsMismatch (ax : Nat)
  | indexOutOfRange (ax : Nat)
  | nonzeroDiagonal (pos : Nat)
  | notInTopologicalOrder
  | recursionBudget
  deriving DecidableEq

/-- The hot part of a unit: `struct addr`. -/
structure Addr (α : Type) where
  /-- Expectation number of the unit: `setModel(expectation)`. -/
  model : Nat
  row : Nat
  numObsCache : Nat
  rampartScale : α
  quickRotationFactor : α
  /-- The independent group of the unit; `none` is the null pointer. -/
  ig : Option Nat
  igIndex : Nat
  nextMean : Nat

/-- The planning part of a unit: `struct addrSetup`; `none` is `NA_INTEGER`. -/
structure AddrSetup where
  numKids : Int
  numJoins : Int
  parent1 : Option Nat
  fk1 : Option Int
  clumped : Bool
  clump : List Nat
  heterogenousMean : Bool
  skipMean : Option Int
  rset : Option Int
  deriving DecidableEq

/-- A placement: the offsets of a unit inside its independent group. -/
structure Placement where
  modelStart : Nat
  obsStart : Nat
  deriving DecidableEq

/-- A sufficient set: a run of `length` clumps that starts at clump `start`,
with the summary of its data written by `finalizeData`. -/
structure SufficientSet (α : Type) where
  start : Nat
  length : Nat
  dataMean : List α
  dataCov : List (List α)

/-- An independent group, as far as planning writes it. -/
structure IndependentGroup (α : Type) where
  clumpSize : Nat
  placements : List Placement
  gMap : List Nat
  sufficientSets : List (SufficientSet α)
  clumpVars : Nat
  clumpObs : Nat
  /-- The observed data of the units in placement order: `dataVec`. -/
  dataVec : List α
  /-- The flags `latentFilter` of the group, one per model variable. -/
  latentFilter : List Bool
  /-- The map `rowToPlacementMap`, keyed by (data set, row). -/
  rowToPlacementMap : Nat × Nat → Option Nat

/-- The part of `state` written while the plan is built. -/
structure State (α : Type) where
  layout : List (Addr α)
  layoutSetup : List AddrSetup
  /-- The map `rowToLayoutMap`, keyed by (data set, row). -/
  rowToLayoutMap : Nat × Nat → Option Int
  /-- The set `allEx`. -/
  allEx : List Nat
  /-- Whether an error was raised with `omxRaiseErrorf`: `isErrorRaised()`. -/
  errorRaised : Bool
  rotationPlan : List (List Nat) := []
  modelRotationPlanFilter : List Bool := []
  rampartUsage : List Nat := []
  /-- The vector `group` of independent groups. -/
  group : List (IndependentGroup α) := []

/-- The state before `state::init` flattens the first row. -/
def State.empty {α : Type} : State α :=
  { layout := [], layoutSetup := [], rowToLayoutMap := fun _ => none, allEx := [],
    errorRaised := false }

/-- Assignment `rowToLayoutMap[key] = v`. -/
def mapInsert (f : Nat × Nat → Option Int) (key : Nat × Nat) (v : Int) :
    Nat × Nat → Option Int :=
  fun k => if k = key then some v else f k

section Flatten

variable {α : Type} [Field α]

/-- The data row of a unit, `omxDataRow(expectation, frow, smallCol)`: the cells
of the data columns of the expectation. -/
def Model.dataRow (m : Model α) (e frow : Nat) : List (Option α) :=
  (m.dataColumns e).map (fun col => m.doubleElement (m.data e) frow col)

/-- Variables of the join loop of `flattenOneRow` (source lines 737-751): the
state, `maxSize`, the loop counter `jx`, `as1.fk1`, `as1.parent1` and the
vector `parents`. -/
structure JoinLoop (α : Type) where
  st : State α
  maxSize : Nat
  jx : Nat
  fk1 : Option Int
  parent1 : Option Nat
  parents : List Nat

/-- One iteration of the join loop of `flattenOneRow` for the between matrix
`b1`; `visit` is the recursive call. -/
def joinStep (m : Model α)
    (visit : Nat → Nat → State α × Nat → Except Error (Nat × State α × Nat))
    (data frow : Nat) (acc : JoinLoop α) (b1 : Between) :
    Except Error (JoinLoop α) :=
  match m.keyElement data frow b1.joinKey with
  | none => .ok { acc with jx := acc.jx + 1 }
  | some key =>
    let e1 := b1.joinModel
    match m.lookupRowOfKey (m.data e1) key with
    | none => .error (Error.keyNotFound (m.data e1) key)
    | some row =>
      match visit e1 row (acc.st, acc.maxSize) with
      | .error err => .error err
      | .ok (parentPos, st, maxSize) =>
        .ok { st := st, maxSize := maxSize, jx := acc.jx + 1,
              fk1 := if acc.jx = 0 then some key else acc.fk1,
              parent1 := if acc.jx = 0 then some parentPos else acc.parent1,
              parents := acc.parents ++ [parentPos] }

/-- The statement `layoutSetup[px].numKids += 1` of the second loop of
`flattenOneRow` (source lines 753-757). -/
def bumpKids (ls : List AddrSetup) (px : Nat) : List AddrSetup :=
  ls.modify (fun pop => { pop with numKids := pop.numKids + 1 }) px

/-- The memo test at the head of `flattenOneRow` (source lines 707-714): the
entry of the row in `rowToLayoutMap` when the data set has a primary key. -/
def memoOf (m : Model α) (st : State α) (expectation frow : Nat) : Option Int :=
  if m.hasPrimaryKey (m.data expectation) then
    st.rowToLayoutMap (m.data expectation, frow)
  else none

/-- The state in which the joins of a new row are followed: `allEx` holds the
expectation and a row of a keyed data set carries the marker `-1`
(source lines 703 and 716). -/
def beginRow (m : Model α) (st0 : State α) (expectation frow : Nat) : State α :=
  let st1 : State α := { st0 with allEx := st0.allEx.insert expectation }
  let map2 := mapInsert st1.rowToLayoutMap (m.data expectation, frow) (-1)
  if m.hasPrimaryKey (m.data expectation) then { st1 with rowToLayoutMap := map2 }
  else st1

/-- The unit `a1` built by `flattenOneRow` (source lines 719-734 and 759-775):
`numObsCache` counts the finite cells of the data row. -/
def newAddr (m : Model α) (expectation frow : Nat) : Addr α :=
  { model := expectation, row := frow,
    numObsCache := ((m.dataRow expectation frow).filter Option.isSome).length,
    rampartScale := 1, quickRotationFactor := 1, ig := none, igIndex := 0,
    nextMean := 1 }

/-- The test `jCols && !ram->M` of `flattenOneRow` (source lines 760-762): the
expectation has data columns but no mean matrix. -/
def Model.missingMeans (m : Model α) (expectation : Nat) : Bool :=
  decide ((m.dataColumns expectation).length ≠ 0) && !m.hasM expectation

/-- The part of `flattenOneRow` after the join loop (source lines 753-786):
the parents' `numKids` are raised, then either the missing means are reported
with `complainAboutMissingMeans` (which raises its error with `omxRaiseErrorf`
and returns) and `0` is returned, or the unit is appended. -/
def finishRow (m : Model α) (expectation frow : Nat) (jl : JoinLoop α) :
    Nat × State α × Nat :=
  let setup1 := jl.parents.foldl bumpKids jl.st.layoutSetup
  let numJoins : Int := jl.parents.length
  let st3 : State α := { jl.st with layoutSetup := setup1 }
  if m.missingMeans expectation then
    (0, { st3 with errorRaised := true }, jl.maxSize)
  else
    let a1 : Addr α := newAddr m expectation frow
    let as1 : AddrSetup :=
      { numKids := 0, numJoins := numJoins, parent1 := jl.parent1, fk1 := jl.fk1,
        clumped := false, clump := [], heterogenousMean := false, skipMean := none,
        rset := none }
    let layout := st3.layout ++ [a1]
    let st4 : State α :=
      { st3 with layout := layout, layoutSetup := st3.layoutSetup ++ [as1] }
    let last : Int := (layout.length : Int) - 1
    let map5 := mapInsert st4.rowToLayoutMap (m.data expectation, frow) last
    let st5 : State α :=
      if m.hasPrimaryKey (m.data expectation) then { st4 with rowToLayoutMap := map5 }
      else st4
    (layout.length - 1, st5, jl.maxSize + m.numVars expectation)

/-- `state::flattenOneRow` (source lines 701-787), the first visitor.  The
first argument bounds the depth of the recursion; the result is the returned
unit index together with the new state and the new value of `maxSize`. -/
def flattenOneRow (m : Model α) :
    Nat → Nat → Nat → State α × Nat → Except Error (Nat × State α × Nat)
  | 0, _, _, _ => .error Error.recursionBudget
  | fuel + 1, expectation, frow, (st0, maxSize0) =>
    match memoOf m st0 expectation frow with
    | some v =>
      if v < 0 then .error (Error.cycleDetected (m.data expectation) frow)
      else .ok (v.toNat, { st0 with allEx := st0.allEx.insert expectation }, maxSize0)
    | none =>
      match (m.between expectation).foldlM
          (joinStep m (flattenOneRow m fuel) (m.data expectation) frow)
          { st := beginRow m st0 expectation frow, maxSize := maxSize0, jx := 0,
            fk1 := none, parent1 := none, parents := [] } with
      | .error err => .error err
      | .ok jl => .ok (finishRow m expectation frow jl)

/-- The flattening loop of `state::init` (source lines 1720-1725) over the rows
`row, row+1, ...` of the home data set (`count` of them): it returns as soon as
an error has been raised. -/
def flattenRows (m : Model α) (fuel : Nat) :
    Nat → Nat → State α × Nat → Except Error (State α × Nat)
  | 0, _, sm => .ok sm
  | count + 1, row, sm =>
    match flattenOneRow m fuel m.homeEx row sm with
    | .error err => .error err
    | .ok (_, st, maxSize) =>
      if st.errorRaised then .ok (st, maxSize)
      else flattenRows m fuel count (row + 1) (st, maxSize)

/-- Flattening as done by `state::init`: all rows of the home data set, from
the empty state and `maxSize = 0`. -/
def flatten (m : Model α) (fuel : Nat) : Except Error (State α × Nat) :=
  flattenRows m fuel (m.rows (m.data m.homeEx)) 0 (State.empty, 0)

/-! ### The join graph -/

/-- Row `x = (expectation, row)` joins row `y`: some between matrix of `x`
has a key in row `x` that is the key of row `y` of the joined expectation. -/
def Model.Joins (m : Model α) (x y : Nat × Nat) : Prop :=
  ∃ b ∈ m.between x.1, ∃ key, m.keyElement (m.data x.1) x.2 b.joinKey = some key ∧
    b.joinModel = y.1 ∧ m.lookupRowOfKey (m.data y.1) key = some y.2

/-- The input constraints on linked data sets: every expectation owns its data
set, only a data set with a primary key is a join target, the rows found by
key lie in the finite set `nodes` of (data set, row) pairs, and every foreign
key that is present is the key of some row. -/
structure Model.WellFormed (m : Model α) (nodes : Finset (Nat × Nat)) : Prop where
  data_inj : ∀ e e', m.data e = m.data e' → e = e'
  key_declared : ∀ d k r, m.lookupRowOfKey d k = some r → m.hasPrimaryKey d = true
  rows_finite : ∀ d k r, m.lookupRowOfKey d k = some r → (d, r) ∈ nodes
  keys_resolve : ∀ e r b key, b ∈ m.between e →
    m.keyElement (m.data e) r b.joinKey = some key →
    ∃ r1, m.lookupRowOfKey (m.data b.joinModel) key = some r1

/-- What every returning call of `flattenOneRow` keeps: a raised error stays
raised, the layout is extended at its end, and an entry of `rowToLayoutMap`
that was present is unchanged. -/
structure StateExt (st st' : State α) : Prop where
  error_mono : st.errorRaised = true → st'.errorRaised = true
  layout_ext : ∃ new, st'.layout = st.layout ++ new
  map_stable : ∀ k v, st.rowToLayoutMap k = some v → st'.rowToLayoutMap k = some v

/-- The row `k` carries the in-progress marker (a negative entry) in
`rowToLayoutMap`. -/
def State.inProgress (st : State α) (k : Nat × Nat) : Prop :=
  ∃ v : Int, st.rowToLayoutMap k = some v ∧ v < 0

/-- The key of row `x = (expectation, row)` in `rowToLayoutMap`. -/
def Model.key (m : Model α) (x : Nat × Nat) : Nat × Nat := (m.data x.1, x.2)

/-- Number of rows of `nodes` without an entry in `rowToLayoutMap`. -/
def State.unvisited (st : State α) (nodes : Finset (Nat × Nat)) : Nat :=
  (nodes.filter (fun k => st.rowToLayoutMap k = none)).card

/-- Row `x` is grounded: every chain of joins that starts at `x` ends, so `x`
neither lies on a cycle of joins nor reaches one. -/
def Model.Grounded (m : Model α) (x : Nat × Nat) : Prop :=
  Acc (fun y x => m.Joins x y) x

/-- The (data set, row) key of a unit in `rowToLayoutMap`. -/
def Model.keyOf (m : Model α) (a : Addr α) : Nat × Nat := (m.data a.model, a.row)

/-- The relation between `layout` and `rowToLayoutMap` kept by flattening:
an entry that is not negative is the index of the unit of its row, the unit of
a row of a keyed data set is entered under its index, only rows of keyed data
sets are entered, no two units have the same (data set, row) key, the two
arrays have the same length and, as long as no error has been raised, every
row joined by a unit has a unit of smaller index. -/
structure FlatInv (m : Model α) (st : State α) : Prop where
  map_unit : ∀ k v, st.rowToLayoutMap k = some v → 0 ≤ v →
    ∃ a, st.layout[v.toNat]? = some a ∧ m.keyOf a = k
  unit_map : ∀ (i : Nat) (a : Addr α), st.layout[i]? = some a →
    m.hasPrimaryKey (m.data a.model) = true →
    st.rowToLayoutMap (m.keyOf a) = some (i : Int)
  map_pk : ∀ k v, st.rowToLayoutMap k = some v → m.hasPrimaryKey k.1 = true
  nodup : (st.layout.map m.keyOf).Nodup
  setup_len : st.layoutSetup.length = st.layout.length
  joined : st.errorRaised = false → ∀ (i : Nat) (a : Addr α), st.layout[i]? = some a →
    ∀ y, m.Joins (a.model, a.row) y →
      ∃ (j : Nat) (b : Addr α), j < i ∧ st.layout[j]? = some b ∧ (b.model, b.row) = y

/-- No row of the home data set is joined by a row. -/
def Model.HomeNotJoined (m : Model α) : Prop :=
  ∀ z y, m.Joins z y → y.1 ≠ m.homeEx

/-- Among the units of the home expectation, the order of the unit indices is
the order of the rows. -/
def State.HomeRowOrder (m : Model α) (st : State α) : Prop :=
  ∀ (i j : Nat) (a b : Addr α), st.layout[i]? = some a → st.layout[j]? = some b →
    a.model = m.homeEx → b.model = m.homeEx → a.row < b.row → i < j

/-- The states met between two calls of `flattenOneRow` by `state::init`: the
empty state, and every state returned by a call of `flattenOneRow` on such a
state that raised no error. -/
inductive CleanState (m : Model α) : State α → Prop where
  | empty : CleanState m State.empty
  | step (fuel e r : Nat) (st : State α) (ms : Nat) (i : Nat) (st' : State α) (ms' : Nat) :
      CleanState m st → flattenOneRow m fuel e r (st, ms) = .ok (i, st', ms') →
      st'.errorRaised = false → CleanState m st'

/-- The invariant of the flattening loop of `state::init` before row `n` of the
home data set is flattened. -/
structure RowsInv (m : Model α) (n : Nat) (st : State α) : Prop where
  inv : FlatInv m st
  clean : CleanState m st
  units : ∀ r, r < n → ∃ (i : Nat) (a : Addr α),
    st.layout[i]? = some a ∧ (a.model, a.row) = (m.homeEx, r)
  home_rows : m.HomeNotJoined → ∀ a ∈ st.layout, a.model = m.homeEx → a.row < n
  home_order : m.HomeNotJoined → st.HomeRowOrder m

/-- The units of a successful flattening as (expectation, row) pairs in the
order of their indices; `none` when flattening throws or raises an error. -/
def flattenedRows (m : Model α) (fuel : Nat) : Option (List (Nat × Nat)) :=
  match flatten m fuel with
  | .ok (st, _) => if st.errorRaised then none else some (st.layout.map fun a => (a.model, a.row))
  | .error _ => none

/-- What flattening leaves in the fields that only planning writes: every
unit is as `flattenOneRow` builds it, no unit is clumped, and there is neither
a group nor a rotation. -/
structure FreshUnits (m : Model α) (st : State α) : Prop where
  units : ∀ a ∈ st.layout, a = newAddr m a.model a.row
  setup : ∀ s ∈ st.layoutSetup, s.clumped = false ∧ s.clump = [] ∧
    s.heterogenousMean = false ∧ s.skipMean = none
  no_group : st.group = []
  no_plan : st.rotationPlan = []

end Flatten

/-! ## Comparison of units (`CompareLib`) -/

section Compare

variable {α : Type} [LinearOrderedField α]

/-- The unit `layout[ax]`; indexing outside the vector is an error. -/
def State.getAddr (st : State α) (ax : Nat) : Except Error (Addr α) :=
  match st.layout[ax]? with
  | some a => .ok a
  | none => .error (Error.indexOutOfRange ax)

/-- The record `layoutSetup[ax]`; indexing outside the vector is an error. -/
def State.getSetup (st : State α) (ax : Nat) : Except Error AddrSetup :=
  match st.layoutSetup[ax]? with
  | some a => .ok a
  | none => .error (Error.indexOutOfRange ax)

/-- Equality `lv == rv` of two data cells; a cell that is not finite is equal
to nothing. -/
def cellEq (lv rv : Option α) : Bool :=
  match lv, rv with
  | some x, some y => decide (x = y)
  | _, _ => false

/-- Order `lv < rv` of two data cells; a cell that is not finite is below
nothing and above nothing. -/
def cellLt (lv rv : Option α) : Bool :=
  match lv, rv with
  | some x, some y => decide (x < y)
  | _, _ => false

/-- `CompareLib::getMissingnessPattern` (source lines 868-878): for every data
column of the unit, whether the cell is finite. -/
def getMissingnessPattern (m : Model α) (a1 : Addr α) : List Bool :=
  (m.dataRow a1.model a1.row).map Option.isSome

/-- The loop over two missingness patterns of equal length (source lines
897-900): at the first position where they differ, `int(l) < int(r)`. -/
def firstPatternDiff : List Bool → List Bool → Option Bool
  | l :: ls, r :: rs => if l = r then firstPatternDiff ls rs else some (!l && r)
  | _, _ => none

/-- The loop of `compareCovDefVars` and `compareMeanDefVars` (source lines
941-948 and 960-967) from definition variable `k` on; the result is the
returned value together with `mismatch`. -/
def compareDefVarsFrom (m : Model α) (influence : List Bool) (data lrow rrow : Nat) :
    Nat → List Nat → Bool × Bool
  | _, [] => (false, false)
  | k, col :: rest =>
    if influence.getD k false = false then
      compareDefVarsFrom m influence data lrow rrow (k + 1) rest
    else
      let lv := m.doubleElement data lrow col
      let rv := m.doubleElement data rrow col
      if cellEq lv rv then compareDefVarsFrom m influence data lrow rrow (k + 1) rest
      else (cellLt lv rv, true)

/-- `CompareLib::compareCovDefVars` (source lines 935-952). -/
def compareCovDefVars (m : Model α) (la ra : Addr α) : Bool × Bool :=
  compareDefVarsFrom m (m.dvInfluenceVar la.model) (m.data la.model) la.row ra.row 0
    (m.defVars (m.data la.model))

/-- `CompareLib::compareMeanDefVars` (source lines 954-971). -/
def compareMeanDefVars (m : Model α) (la ra : Addr α) : Bool × Bool :=
  compareDefVarsFrom m (m.dvInfluenceMean la.model) (m.data la.model) la.row ra.row 0
    (m.defVars (m.data la.model))

/-- `CompareLib::compareMissingnessAndCov` (source lines 880-910); the result is
the returned value together with `mismatch`. -/
def compareMissingnessAndCov (m : Model α) (la ra : Addr α) : Bool × Bool :=
  if la.model ≠ ra.model then (decide (la.model < ra.model), true)
  else if m.numVars la.model ≠ m.numVars ra.model then
    (decide (m.numVars la.model < m.numVars ra.model), true)
  else
    let lmp := getMissingnessPattern m la
    let rmp := getMissingnessPattern m ra
    if lmp.length ≠ rmp.length then (decide (lmp.length < rmp.length), true)
    else
      match firstPatternDiff lmp rmp with
      | some got => (got, true)
      | none =>
        if la.rampartScale ≠ ra.rampartScale then
          (decide (la.rampartScale < ra.rampartScale), true)
        else
          let r := compareCovDefVars m la ra
          if r.2 then (r.1, true) else (false, false)

/-- The loop of `cmpCovClump` over the clump members (source lines 925-929);
`cmp` is the recursive call. -/
def clumpLoop (cmp : Nat → Nat → Except Error (Bool × Bool)) :
    List (Nat × Nat) → Except Error (Bool × Bool)
  | [] => .ok (false, false)
  | (l, r) :: rest =>
    match cmp l r with
    | .error err => .error err
    | .ok (got, mismatch) => if mismatch then .ok (got, true) else clumpLoop cmp rest

/-- `CompareLib::cmpCovClump` (source lines 912-933) on the units `l` and `r`;
the first argument bounds the depth of the recursion through nested clumps. -/
def cmpCovClump (m : Model α) (st : State α) :
    Nat → Nat → Nat → Except Error (Bool × Bool)
  | 0, _, _ => .error Error.recursionBudget
  | fuel + 1, l, r =>
    match st.getAddr l, st.getAddr r with
    | .ok la, .ok ra =>
      let c := compareMissingnessAndCov m la ra
      if c.2 then .ok (c.1, true)
      else
        match st.getSetup l, st.getSetup r with
        | .ok lhss, .ok rhss =>
          if lhss.clump.length ≠ rhss.clump.length then
            .ok (decide (lhss.clump.length < rhss.clump.length), true)
          else clumpLoop (cmpCovClump m st fuel) (lhss.clump.zip rhss.clump)
        | .error err, _ => .error err
        | _, .error err => .error err
    | .error err, _ => .error err
    | _, .error err => .error err

/-- `CompatibleCovCompare::operator()` (source lines 978-989) on two clumps. -/
def compatibleCovLoop (m : Model α) (st : State α) :
    List (Nat × Nat) → Except Error Bool
  | [] => .ok false
  | (l, r) :: rest =>
    match st.getAddr l, st.getAddr r with
    | .ok la, .ok ra =>
      let c := compareMissingnessAndCov m la ra
      if c.2 then .ok c.1 else compatibleCovLoop m st rest
    | .error err, _ => .error err
    | _, .error err => .error err

/-- `CompatibleCovCompare::operator()` (source lines 978-989). -/
def compatibleCovCompare (m : Model α) (st : State α) (lhs rhs : List Nat) :
    Except Error Bool :=
  if lhs.length ≠ rhs.length then .ok (decide (lhs.length < rhs.length))
  else compatibleCovLoop m st (lhs.zip rhs)

/-- `CompatibleMeanCompare::joinedWith` (source lines 995-1010): the index of
the unit joined through between matrix `b1`, `none` when the key is missing. -/
def joinedWith (m : Model α) (st : State α) (la : Addr α) (b1 : Between) :
    Except Error (Option Nat) :=
  match m.keyElement (m.data la.model) la.row b1.joinKey with
  | none => .ok none
  | some key =>
    match m.lookupRowOfKey (m.data b1.joinModel) key with
    | none => .error (Error.keyNotFound (m.data b1.joinModel) key)
    | some row =>
      match st.rowToLayoutMap (m.data b1.joinModel, row) with
      | none => .error (Error.cannotFindRow row (m.data b1.joinModel))
      | some v => .ok (some v.toNat)

/-- The loop of `compareMeanDeep` over the between matrices `jx, jx+1, ...` of
`la` (source lines 1015-1025); `cmp` is the recursive call.  The result is
`none` when the loop ends without a mismatch. -/
def meanJoinLoop (m : Model α) (st : State α)
    (cmp : Nat → Nat → Except Error (Bool × Bool)) (la ra : Addr α) :
    Nat → List Between → Except Error (Option Bool)
  | _, [] => .ok none
  | jx, b1 :: rest =>
    match (m.between ra.model)[jx]? with
    | none => .error (Error.indexOutOfRange jx)
    | some b2 =>
      match joinedWith m st la b1, joinedWith m st ra b2 with
      | .ok lp, .ok rp =>
        match lp, rp with
        | none, none => meanJoinLoop m st cmp la ra (jx + 1) rest
        | some l, some r =>
          match cmp l r with
          | .error err => .error err
          | .ok (got, mismatch) =>
            if mismatch then .ok (some got) else meanJoinLoop m st cmp la ra (jx + 1) rest
        | none, some _ => .ok (some true)
        | some _, none => .ok (some false)
      | .error err, _ => .error err
      | _, .error err => .error err

/-- `CompatibleMeanCompare::compareMeanDeep` (source lines 1012-1031) on the
units `l` and `r`; the first argument bounds the depth of the recursion
through the joins; the result is the returned value together with `mismatch`.
-/
def compareMeanDeep (m : Model α) (st : State α) :
    Nat → Nat → Nat → Except Error (Bool × Bool)
  | 0, _, _ => .error Error.recursionBudget
  | fuel + 1, l, r =>
    match st.getAddr l, st.getAddr r with
    | .ok la, .ok ra =>
      match meanJoinLoop m st (compareMeanDeep m st fuel) la ra 0 (m.between la.model) with
      | .error err => .error err
      | .ok (some got) => .ok (got, true)
      | .ok none =>
        let c := compareMeanDefVars m la ra
        if c.2 then .ok (c.1, true) else .ok (false, false)
    | .error err, _ => .error err
    | _, .error err => .error err

/-- `CompatibleMeanCompare::operator()` (source lines 1033-1043) on two clumps
of the same length. -/
def compatibleMeanCompare (m : Model α) (st : State α) (fuel : Nat) :
    List Nat → List Nat → Except Error Bool
  | l :: ls, rhs =>
    match rhs with
    | [] => .error (Error.indexOutOfRange 0)
    | r :: rs =>
      match compareMeanDeep m st fuel l r with
      | .error err => .error err
      | .ok (got, mismatch) => if mismatch then .ok got else compatibleMeanCompare m st fuel ls rs
  | [], _ => .ok false

/-- `RampartTodoCompare::operator()` (source lines 1049-1059) on the units
`lhs` and `rhs`: first the foreign key `fk1` (`NA_INTEGER` is the least
integer), then `cmpCovClump`. -/
def rampartTodoCompare (m : Model α) (st : State α) (fuel : Nat) (lhs rhs : Nat) :
    Except Error Bool :=
  match st.getSetup lhs, st.getSetup rhs with
  | .ok lhss, .ok rhss =>
    if lhss.fk1 ≠ rhss.fk1 then
      .ok (match lhss.fk1, rhss.fk1 with
        | none, some _ => true
        | some x, some y => decide (x < y)
        | _, none => false)
    else
      match cmpCovClump m st fuel lhs rhs with
      | .error err => .error err
      | .ok c => .ok c.1
  | .error err, _ => .error err
  | _, .error err => .error err

/-- `RampartClumpCompare::clumpCmp` (source lines 1065-1070). -/
def rampartClumpCompare (m : Model α) (st : State α) (fuel : Nat) (lhs rhs : Nat) :
    Except Error Bool :=
  match cmpCovClump m st fuel lhs rhs with
  | .error err => .error err
  | .ok (got, mismatch) => if mismatch then .ok got else .ok (decide (lhs < rhs))

/-- The three-way result of a comparison that returns `got` and sets
`mismatch`: equal without a mismatch, else below or above by `got`. -/
def ord3 (p : Bool × Bool) : Ordering :=
  if p.2 then (if p.1 then .lt else .gt) else .eq

/-- A three-way comparison behaves as an order among the elements related by
`R`: swapping the arguments swaps the result, "below" is transitive, and equal
elements compare alike with a third. -/
structure LawfulOn {X : Type} (R : X → X → Prop) (c : X → X → Ordering) : Prop where
  sym : ∀ a b, R a b → c b a = (c a b).swap
  trans : ∀ a b d, R a b → R b d → R a d → c a b = .lt → c b d = .lt → c a d = .lt
  eqc : ∀ a b d, R a b → R b d → R a d → c a b = .eq → c a d = c b d

end Compare

/-! ## Rampart rotation (`rampartRotate`, `oertzenRotate`) -/

section Rampart

variable {α : Type} [LinearOrderedField α]

/-- The statement `m[k]` on a `std::map` with comparison `cmp`, followed by the
update `f` of the entry; a new entry starts from `init`.  The map is the list
of its entries in the order of the comparison: the entry found is the first
one that is not before `k`, if `k` is not before it either. -/
def mapUpsertM {κ ν : Type} (cmp : κ → κ → Except Error Bool) (k : κ) (init : ν)
    (f : ν → ν) : List (κ × ν) → Except Error (List (κ × ν))
  | [] => .ok [(k, f init)]
  | (k', v) :: rest =>
    match cmp k' k with
    | .error err => .error err
    | .ok true =>
      match mapUpsertM cmp k init f rest with
      | .error err => .error err
      | .ok rest' => .ok ((k', v) :: rest')
    | .ok false =>
      match cmp k k' with
      | .error err => .error err
      | .ok true => .ok ((k, f init) :: (k', v) :: rest)
      | .ok false => .ok ((k', f v) :: rest)

/-- Assignment to fields of `layout[ax]`. -/
def State.modifyAddr (st : State α) (ax : Nat) (f : Addr α → Addr α) : State α :=
  { st with layout := st.layout.modify f ax }

/-- Assignment to fields of `layoutSetup[ax]`. -/
def State.modifySetup (st : State α) (ax : Nat) (f : AddrSetup → AddrSetup) : State α :=
  { st with layoutSetup := st.layoutSetup.modify f ax }

/-- Modelled from the spec: `state::clumpWith(upper, lower)` is declared in a
header that is not part of the sources at hand.  The spec describes clumping
membership as the units collapsed into a unit: `lower` is appended to the
clump of `upper` and marked as clumped. -/
def State.clumpWith (st : State α) (upper lower : Nat) : State α :=
  (st.modifySetup upper (fun a => { a with clump := a.clump ++ [lower] })).modifySetup lower
    (fun a => { a with clumped := true })

/-- The loop of `oertzenRotate` that compares the means of the first unit with
those of the others (source lines 1475-1478): whether a mismatch was found. -/
def meanMismatch (m : Model α) (st : State α) (budget first : Nat) :
    List Nat → Except Error Bool
  | [] => .ok false
  | u :: rest =>
    match compareMeanDeep m st budget first u with
    | .error err => .error err
    | .ok (_, mismatch) => if mismatch then .ok true else meanMismatch m st budget first rest

/-- The vector `t2` of `oertzenRotate` (source lines 1497-1502): member `cx` of
the clump of every unit of `t1`. -/
def clumpColumn (st : State α) (cx : Nat) : List Nat → Except Error (List Nat)
  | [] => .ok []
  | tx :: rest =>
    match st.getSetup tx with
    | .error err => .error err
    | .ok a1 =>
      match a1.clump[cx]? with
      | none => .error (Error.indexOutOfRange cx)
      | some c =>
        match clumpColumn st cx rest with
        | .error err => .error err
        | .ok t2 => .ok (c :: t2)

/-- The part of `oertzenRotate` before its recursive calls (source lines
1479-1494), given whether the means mismatch. -/
def oertzenMark (sqrt : α → α) (canOptimize mismatch : Bool) (t1 : List Nat)
    (st : State α) : State α :=
  let st1 : State α :=
    if mismatch then
      t1.foldl (fun s u => s.modifySetup u (fun a => { a with heterogenousMean := true })) st
    else if canOptimize then
      let s0 := st.modifyAddr (t1.getD 0 0) (fun a =>
        { a with quickRotationFactor := a.quickRotationFactor * sqrt (t1.length : α) })
      (t1.drop 1).foldl (fun s u =>
        (s.modifySetup u (fun a => { a with skipMean := some 1 })).modifyAddr u
          (fun a => { a with quickRotationFactor := 0 })) s0
    else st
  let keep : Bool := mismatch || !canOptimize
  { st1 with modelRotationPlanFilter := st1.modelRotationPlanFilter ++ [keep],
             rotationPlan := st1.rotationPlan ++ [t1] }

/-- The loop of `oertzenRotate` over the clump members of the specimen (source
lines 1496-1504), from member `cx` on, `count` members; `rotate` is the
recursive call. -/
def oertzenLoop (rotate : List Nat → State α → Except Error (State α)) (t1 : List Nat) :
    Nat → Nat → State α → Except Error (State α)
  | 0, _, st => .ok st
  | count + 1, cx, st =>
    match clumpColumn st cx t1 with
    | .error err => .error err
    | .ok t2 =>
      match rotate t2 st with
      | .error err => .error err
      | .ok st' => oertzenLoop rotate t1 count (cx + 1) st'

/-- `state::oertzenRotate` (source lines 1468-1505) on the units `t1`; the
first argument bounds the depth of the recursion through nested clumps, and
`budget` that of the comparisons. -/
def oertzenRotate (m : Model α) (sqrt : α → α) (budget : Nat) (canOptimize : Bool) :
    Nat → List Nat → State α → Except Error (State α)
  | 0, _, _ => .error Error.recursionBudget
  | fuel + 1, t1, st =>
    match st.getSetup (t1.getD 0 0) with
    | .error err => .error err
    | .ok specimen =>
      match meanMismatch m st budget (t1.getD 0 0) (t1.drop 1) with
      | .error err => .error err
      | .ok mismatch =>
        oertzenLoop (oertzenRotate m sqrt budget canOptimize fuel) t1 specimen.clump.length 0
          (oertzenMark sqrt canOptimize mismatch t1 st)

/-- The first loop of `rampartRotate` (source lines 1516-1522) over the units
`ax, ax+1, ...` (`count` of them): every unit without kids, with exactly one
join and not clumped is entered into the map `todo`. -/
def rampartCollect (m : Model α) (st : State α) (budget : Nat) :
    Nat → Nat → List (Nat × List Nat) → Except Error (List (Nat × List Nat))
  | 0, _, todo => .ok todo
  | count + 1, ax, todo =>
    match st.getSetup ax with
    | .error err => .error err
    | .ok as1 =>
      if as1.numKids ≠ 0 ∨ as1.numJoins ≠ 1 ∨ as1.clumped = true then
        rampartCollect m st budget count (ax + 1) todo
      else
        match mapUpsertM (rampartTodoCompare m st budget) ax [] (fun t1 => t1 ++ [ax]) todo with
        | .error err => .error err
        | .ok todo' => rampartCollect m st budget count (ax + 1) todo'

/-- The parent `layoutSetup[t1[0]].parent1` of a group, which then indexes
`layoutSetup`; `NA_INTEGER` and any other index outside the vector is an
error. -/
def groupParent (st : State α) (t1 : List Nat) : Except Error Nat :=
  match st.getSetup (t1.getD 0 0) with
  | .error err => .error err
  | .ok s =>
    match s.parent1 with
    | none => .error (Error.indexOutOfRange st.layoutSetup.length)
    | some parent1 =>
      if parent1 < st.layoutSetup.length then .ok parent1
      else .error (Error.indexOutOfRange parent1)

/-- The body of the second loop of `rampartRotate` for one group `t1` of the
map (source lines 1524-1551). -/
def rampartGroup (m : Model α) (sqrt : α → α) (budget : Nat) (st : State α)
    (t1 : List Nat) : Except Error (State α) :=
  if 2 ≤ t1.length then
    match oertzenRotate m sqrt budget (decide (1 ≤ m.optimizeMean)) budget t1 st with
    | .error err => .error err
    | .ok st1 =>
      let st2 := st1.modifyAddr (t1.getD 0 0)
        (fun a => { a with rampartScale := sqrt (t1.length : α) })
      match groupParent st2 t1 with
      | .error err => .error err
      | .ok parent1 =>
        let st3 := st2.modifySetup parent1
          (fun a => { a with numKids := a.numKids - (t1.length : Int) })
        let st4 := st3.clumpWith parent1 (t1.getD 0 0)
        .ok ((t1.drop 1).foldl (fun s u =>
          (s.modifyAddr u (fun a => { a with rampartScale := 0 })).modifySetup u
            (fun a => { a with numJoins := 0 })) st4)
  else
    match groupParent st t1 with
    | .error err => .error err
    | .ok parent1 =>
      let st1 := st.modifySetup parent1
        (fun a => { a with numKids := a.numKids - (t1.length : Int) })
      .ok (t1.foldl (fun s u => s.clumpWith parent1 u) st1)

/-- The second loop of `rampartRotate` (source lines 1523-1552) over the
entries of `todo`; the result carries `unlinked`. -/
def rampartGroups (m : Model α) (sqrt : α → α) (budget : Nat) :
    List (Nat × List Nat) → State α × Nat → Except Error (State α × Nat)
  | [], su => .ok su
  | (_, t1) :: rest, (st, unlinked) =>
    match rampartGroup m sqrt budget st t1 with
    | .error err => .error err
    | .ok st' => rampartGroups m sqrt budget rest (st', unlinked + (t1.length - 1))

/-- Insertion of `x` into a list sorted by `cmp`. -/
def orderedInsertM (cmp : Nat → Nat → Except Error Bool) (x : Nat) :
    List Nat → Except Error (List Nat)
  | [] => .ok [x]
  | y :: ys =>
    match cmp x y with
    | .error err => .error err
    | .ok true => .ok (x :: y :: ys)
    | .ok false =>
      match orderedInsertM cmp x ys with
      | .error err => .error err
      | .ok ys' => .ok (y :: ys')

/-- The call `std::sort(begin, end, cmp)`, as sorting by insertion. -/
def sortM (cmp : Nat → Nat → Except Error Bool) : List Nat → Except Error (List Nat)
  | [] => .ok []
  | x :: xs =>
    match sortM cmp xs with
    | .error err => .error err
    | .ok sorted => orderedInsertM cmp x sorted

/-- The third loop of `rampartRotate` (source lines 1553-1565) over the units
`ax, ax+1, ...` (`count` of them): every clump of more than one unit is sorted
with `RampartClumpCompare`. -/
def rampartSort (m : Model α) (budget : Nat) :
    Nat → Nat → State α → Except Error (State α)
  | 0, _, st => .ok st
  | count + 1, ax, st =>
    match st.getSetup ax with
    | .error err => .error err
    | .ok a1 =>
      if a1.clump.length ≤ 1 then rampartSort m budget count (ax + 1) st
      else
        match sortM (rampartClumpCompare m st budget) a1.clump with
        | .error err => .error err
        | .ok sorted =>
          rampartSort m budget count (ax + 1)
            (st.modifySetup ax (fun a => { a with clump := sorted }))

/-- The bound `loopTo` of the first loop of `rampartRotate` (source lines
1513-1515). -/
def rampartLoopTo (m : Model α) (st : State α) : Nat :=
  match m.rampartUnitLimit with
  | none => st.layout.length
  | some limit => (min limit (st.layout.length : Int)).toNat

/-- `state::rampartRotate` (source lines 1507-1567); the result carries the
returned count `unlinked`.  `budget` bounds the depth of the recursions. -/
def rampartRotate (m : Model α) (sqrt : α → α) (budget : Nat) (st : State α) :
    Except Error (State α × Nat) :=
  match rampartCollect m st budget (rampartLoopTo m st) 0 [] with
  | .error err => .error err
  | .ok todo =>
    match rampartGroups m sqrt budget todo (st, 0) with
    | .error err => .error err
    | .ok (st1, unlinked) =>
      match rampartSort m budget st1.layout.length 0 st1 with
      | .error err => .error err
      | .ok st2 => .ok (st2, unlinked)

/-- The `while` loop of `state::init` that calls `rampartRotate` (source lines
1757-1764); the first argument bounds the number of rounds. -/
def rampartLoop (m : Model α) (sqrt : α → α) (budget : Nat) :
    Nat → Option Int → State α → Except Error (State α)
  | 0, _, _ => .error Error.recursionBudget
  | fuel + 1, maxIter, st =>
    match rampartRotate m sqrt budget st with
    | .error err => .error err
    | .ok (st1, more) =>
      if more = 0 then .ok st1
      else
        let st2 : State α := { st1 with rampartUsage := st1.rampartUsage ++ [more] }
        match maxIter with
        | none => rampartLoop m sqrt budget fuel none st2
        | some k =>
          if k - 1 = 0 then .ok st2 else rampartLoop m sqrt budget fuel (some (k - 1)) st2

/-- The Rampart part of `state::init` (source lines 1756-1768). -/
def rampart (m : Model α) (sqrt : α → α) (budget fuel : Nat) (st : State α) :
    Except Error (State α) :=
  if m.rampartEnabled then rampartLoop m sqrt budget fuel m.rampartCycleLimit st
  else .ok st

/-- The units that the first loop of `rampartRotate` enters into its map
(source lines 1516-1522): the units within the unit limit with `numKids = 0`,
`numJoins = 1` and `clumped = false`. -/
def eligibleUnits (m : Model α) (st : State α) : List Nat :=
  (List.range (rampartLoopTo m st)).filter (fun ax =>
    match st.layoutSetup[ax]? with
    | some as1 => decide (as1.numKids = 0 ∧ as1.numJoins = 1 ∧ as1.clumped = false)
    | none => false)

/-- Number of units that are not clumped and still have `numJoins = 1`. -/
def activeUnits (st : State α) : Nat :=
  st.layoutSetup.countP (fun s => !s.clumped && decide (s.numJoins = 1))

/-- The `while` loop of `state::init` that calls `rampartRotate` (source lines
1757-1764) together with the number of calls of `rampartRotate` it makes; the
first argument bounds the number of rounds and the result is `none` when this
bound is used up. -/
def rampartRounds (m : Model α) (sqrt : α → α) (budget : Nat) :
    Nat → Option Int → State α → Option (Nat × Except Error (State α))
  | 0, _, _ => none
  | fuel + 1, maxIter, st =>
    match rampartRotate m sqrt budget st with
    | .error err => some (1, .error err)
    | .ok (st1, more) =>
      if more = 0 then some (1, .ok st1)
      else
        let st2 : State α := { st1 with rampartUsage := st1.rampartUsage ++ [more] }
        match maxIter with
        | none =>
          (rampartRounds m sqrt budget fuel none st2).map (fun nr => (nr.1 + 1, nr.2))
        | some k =>
          if k - 1 = 0 then some (1, .ok st2)
          else (rampartRounds m sqrt budget fuel (some (k - 1)) st2).map
            (fun nr => (nr.1 + 1, nr.2))

/-- What a round of `rampartRotate` keeps: `rampartUsage` is not written, the
number of units is kept, `numJoins` of a unit is kept or set to `0`, and a unit
that is clumped stays clumped. -/
structure RoundFrame (st st' : State α) : Prop where
  usage : st'.rampartUsage = st.rampartUsage
  setup : ∀ (u : Nat) (s : AddrSetup), st.layoutSetup[u]? = some s →
    ∃ s', st'.layoutSetup[u]? = some s' ∧ (s'.numJoins = s.numJoins ∨ s'.numJoins = 0) ∧
      (s.clumped = true → s'.clumped = true)
  setup_len : st'.layoutSetup.length = st.layoutSetup.length

end Rampart

/-! ## Independent groups (`computeConnected`, `planModelEval`, `place`, `prep`) -/

section Plan

variable {α : Type} [LinearOrderedField α]

/-- Insertion into a `std::set<int>`: the members in increasing order. -/
def setInsert (x : Nat) : List Nat → List Nat
  | [] => [x]
  | y :: ys => if x < y then x :: y :: ys else if x = y then y :: ys else y :: setInsert x ys

/-- Modelled from the spec: the class `Connectedness` is declared in a header
that is not part of the sources at hand.  The spec has it compute the connected
components of the unit graph under the between relation taken as undirected:
`region[ax]` is `none` (`-1` in the source) for a unit that was never
connected and otherwise the number of its component, and `connected[c]` is the
set of the units of component `c`. -/
structure Connectedness where
  region : List (Option Nat)
  connected : List (List Nat)

/-- Modelled from the spec: the constructor `Connectedness(region, connected,
size, verbose)`: no unit is connected. -/
def Connectedness.init (size : Nat) : Connectedness :=
  { region := List.replicate size none, connected := [] }

/-- Modelled from the spec: the first step of `Connectedness::connect`: a unit
without component opens a new component of its own. -/
def Connectedness.preconnect (cc : Connectedness) (ax : Nat) : Connectedness :=
  match cc.region.getD ax none with
  | some _ => cc
  | none => { region := cc.region.set ax (some cc.connected.length),
              connected := cc.connected ++ [[ax]] }

/-- Modelled from the spec: the merge of component `rb` into component `ra`. -/
def Connectedness.merge (cc : Connectedness) (ra rb : Nat) : Connectedness :=
  { region := cc.region.map (fun r => if r = some rb then some ra else r),
    connected := (cc.connected.modify
      (fun s => (cc.connected.getD rb []).foldl (fun t x => setInsert x t) s) ra).set rb [] }

/-- Modelled from the spec: `Connectedness::connect(ax, bx)` puts the two units
into one component: `ax` opens a component when it has none, `bx` enters the
component of `ax` when it has none, and otherwise the component of `bx` is
merged into that of `ax`. -/
def Connectedness.connect (cc : Connectedness) (ax bx : Nat) : Connectedness :=
  match (cc.preconnect ax).region.getD ax none with
  | none => cc.preconnect ax
  | some ra =>
    match (cc.preconnect ax).region.getD bx none with
    | none => { region := (cc.preconnect ax).region.set bx (some ra),
                connected := (cc.preconnect ax).connected.modify (setInsert bx) ra }
    | some rb => if ra = rb then cc.preconnect ax else (cc.preconnect ax).merge ra rb

/-- Every unit with a component is a member of the set of its component. -/
def Connectedness.Inv (cc : Connectedness) : Prop :=
  ∀ (u rg : Nat), cc.region[u]? = some (some rg) → u ∈ (cc.connected[rg]?).getD []

/-- The two units are in one component. -/
def Connectedness.Linked (cc : Connectedness) (a b : Nat) : Prop :=
  ∃ rg : Nat, cc.region[a]? = some (some rg) ∧ cc.region[b]? = some (some rg)

/-- The loop of `computeConnected` over the between matrices of unit `ax`
(source lines 610-622). -/
def connectJoins (m : Model α) (st : State α) (ax : Nat) (a1 : Addr α) :
    List Between → Connectedness → Except Error Connectedness
  | [], cc => .ok cc
  | b1 :: rest, cc =>
    match m.keyElement (m.data a1.model) a1.row b1.joinKey with
    | none => connectJoins m st ax a1 rest cc
    | some key =>
      match m.lookupRowOfKey (m.data b1.joinModel) key with
      | none => .error (Error.keyNotFound (m.data b1.joinModel) key)
      | some row =>
        match st.rowToLayoutMap (m.data b1.joinModel, row) with
        | none => .error (Error.cannotFindRow row (m.data b1.joinModel))
        | some bx => connectJoins m st ax a1 rest (cc.connect ax bx.toNat)

/-- The loop of `computeConnected` over the units `count-1, ..., 0` (source
lines 605-623). -/
def connectUnits (m : Model α) (st : State α) :
    Nat → Connectedness → Except Error Connectedness
  | 0, cc => .ok cc
  | ax + 1, cc =>
    match st.getAddr ax with
    | .error err => .error err
    | .ok a1 =>
      if a1.rampartScale = 0 ∨ (m.between a1.model).length = 0 then connectUnits m st ax cc
      else
        match connectJoins m st ax a1 (m.between a1.model) cc with
        | .error err => .error err
        | .ok cc' => connectUnits m st ax cc'

/-- `state::computeConnected` (source lines 601-624). -/
def computeConnected (m : Model α) (st : State α) : Except Error Connectedness :=
  connectUnits m st st.layout.length (Connectedness.init st.layout.length)

/-- The loop of `appendClump` over the clump members; `app` is the recursive
call. -/
def appendClumpLoop (app : Nat → List Nat → Except Error (List Nat)) :
    List Nat → List Nat → Except Error (List Nat)
  | [], clump => .ok clump
  | c :: rest, clump =>
    match app c clump with
    | .error err => .error err
    | .ok clump' => appendClumpLoop app rest clump'

/-- `state::appendClump` (source lines 1080-1088); the first argument bounds the
depth of the recursion through nested clumps. -/
def appendClump (st : State α) : Nat → Nat → List Nat → Except Error (List Nat)
  | 0, _, _ => .error Error.recursionBudget
  | fuel + 1, ax, clump =>
    match st.getSetup ax with
    | .error err => .error err
    | .ok a1 => appendClumpLoop (appendClump st fuel) a1.clump (clump ++ [ax])

/-- The first member of `unsortedClump` that is not clumped (the `for` loop of
source lines 1265-1275 up to its `break`). -/
def firstLoose (st : State α) : List Nat → Except Error (Option Nat)
  | [] => .ok none
  | u :: rest =>
    match st.getSetup u with
    | .error err => .error err
    | .ok as2 => if as2.clumped then firstLoose st rest else .ok (some u)

/-- The `while` loop of `planModelEval` that orders a component (source lines
1263-1277): the result is `clump` together with what is left of
`unsortedClump`.  The first argument bounds the number of rounds; every round
that moves some unit removes it from `unsortedClump`. -/
def sortClump (st : State α) (budget : Nat) :
    Nat → List Nat → List Nat → Except Error (List Nat × List Nat)
  | 0, unsortedClump, clump => .ok (clump, unsortedClump)
  | n + 1, unsortedClump, clump =>
    match firstLoose st unsortedClump with
    | .error err => .error err
    | .ok none => .ok (clump, unsortedClump)
    | .ok (some u) =>
      match appendClump st budget u clump with
      | .error err => .error err
      | .ok clump' =>
        sortClump st budget n
          (unsortedClump.filter (fun x => !((clump'.drop clump.length).contains x))) clump'

/-- The order of `std::vector<int>` in a `std::set`: lexicographic. -/
def lexLt : List Nat → List Nat → Bool
  | [], [] => false
  | [], _ :: _ => true
  | _ :: _, [] => false
  | x :: xs, y :: ys => if x < y then true else if y < x then false else lexLt xs ys

/-- Insertion into a `std::set<std::vector<int>>`. -/
def clumpSetInsert (x : List Nat) : List (List Nat) → List (List Nat)
  | [] => [x]
  | y :: ys =>
    if lexLt x y then x :: y :: ys else if lexLt y x then y :: clumpSetInsert x ys else y :: ys

/-- Variables of the first loop of `planModelEval`: the components and the map
`cgm` from a clump to the set of the clumps compatible with it. -/
structure ClumpLoop where
  connected : List (List Nat)
  cgm : List (List Nat × List (List Nat))

/-- The first loop of `planModelEval` (source lines 1252-1281) over the units
`ax, ax+1, ...` (`count` of them). -/
def collectClumps (m : Model α) (st : State α) (budget : Nat) (region : List (Option Nat)) :
    Nat → Nat → ClumpLoop → Except Error ClumpLoop
  | 0, _, acc => .ok acc
  | count + 1, ax, acc =>
    match region.getD ax none with
    | none =>
      match mapUpsertM (compatibleCovCompare m st) [ax] [] (clumpSetInsert [ax]) acc.cgm with
      | .error err => .error err
      | .ok cgm => collectClumps m st budget region count (ax + 1) { acc with cgm := cgm }
    | some rg =>
      let unsortedClump := acc.connected.getD rg []
      if unsortedClump.length = 0 then collectClumps m st budget region count (ax + 1) acc
      else
        match sortClump st budget unsortedClump.length unsortedClump [] with
        | .error err => .error err
        | .ok (clump0, left) =>
          let clump := clump0 ++ left
          match mapUpsertM (compatibleCovCompare m st) clump [] (clumpSetInsert clump)
              acc.cgm with
          | .error err => .error err
          | .ok cgm =>
            collectClumps m st budget region count (ax + 1)
              { connected := acc.connected.set rg left, cgm := cgm }

/-- A new independent group with the given `clumpSize`. -/
def IndependentGroup.new (clumpSize : Nat) : IndependentGroup α :=
  { clumpSize := clumpSize, placements := [], gMap := [], sufficientSets := [],
    clumpVars := 0, clumpObs := 0, dataVec := [], latentFilter := [],
    rowToPlacementMap := fun _ => none }

/-- The state and the group under construction, which becomes `group[gi]`. -/
structure PlaceState (α : Type) where
  st : State α
  ig : IndependentGroup α

/-- `independentGroup::place` (source lines 1335-1355) for the group that
becomes `group[gi]`; `numObs()` is `numObsCache`. -/
def place (m : Model α) (gi : Nat) (ps : PlaceState α) (ax : Nat) :
    Except Error (PlaceState α) :=
  match ps.st.getAddr ax with
  | .error err => .error err
  | .ok a0 =>
    if a0.ig.isSome then .error (Error.alreadyAssigned ax)
    else
      let st1 := ps.st.modifyAddr ax (fun a => { a with ig := some gi })
      match ps.ig.placements.getLast?, ps.ig.gMap.getLast? with
      | some prev, some lastUnit =>
        match st1.getAddr lastUnit with
        | .error err => .error err
        | .ok a1 =>
          .ok { st := st1,
                ig := { ps.ig with
                  placements := ps.ig.placements ++
                    [{ modelStart := prev.modelStart + m.numVars a1.model,
                       obsStart := prev.obsStart + a1.numObsCache }],
                  gMap := ps.ig.gMap ++ [ax] } }
      | _, _ =>
        .ok { st := st1,
              ig := { ps.ig with
                placements := ps.ig.placements ++ [{ modelStart := 0, obsStart := 0 }],
                gMap := ps.ig.gMap ++ [ax] } }

/-- The inner loop of `placeSet` over the units of one clump (source lines
1213-1216); the result carries `heterogenousMean`. -/
def placeClump (m : Model α) (gi : Nat) :
    List Nat → PlaceState α × Bool → Except Error (PlaceState α × Bool)
  | [], acc => .ok acc
  | u :: rest, (ps, het) =>
    match ps.st.getSetup u with
    | .error err => .error err
    | .ok su =>
      match place m gi ps u with
      | .error err => .error err
      | .ok ps' => placeClump m gi rest (ps', het || su.heterogenousMean)

/-- `state::placeSet` (source lines 1206-1219). -/
def placeSet (m : Model α) (gi : Nat) :
    List (List Nat) → PlaceState α × Bool → Except Error (PlaceState α × Bool)
  | [], acc => .ok acc
  | clump :: rest, acc =>
    match placeClump m gi clump acc with
    | .error err => .error err
    | .ok acc' => placeSet m gi rest acc'

/-- The loop of `planModelEval` that builds the map `cmm` of one group (source
lines 1298-1302). -/
def collectMeans (m : Model α) (st : State α) (budget : Nat) :
    List (List Nat) → List (List Nat × List (List Nat)) →
      Except Error (List (List Nat × List (List Nat)))
  | [], cmm => .ok cmm
  | clump :: rest, cmm =>
    match mapUpsertM (compatibleMeanCompare m st budget) clump [] (clumpSetInsert clump) cmm with
    | .error err => .error err
    | .ok cmm' => collectMeans m st budget rest cmm'

/-- The loop of `planModelEval` that places the clumps whose means are shared
with no other clump (source lines 1305-1312). -/
def placeLoose (m : Model α) (gi : Nat) :
    List (List Nat × List (List Nat)) → PlaceState α → Except Error (PlaceState α)
  | [], ps => .ok ps
  | (_, clumps) :: rest, ps =>
    if 1 < clumps.length then placeLoose m gi rest ps
    else
      match placeSet m gi clumps (ps, false) with
      | .error err => .error err
      | .ok (ps', _) => placeLoose m gi rest ps'

/-- The loop of `planModelEval` that places the sets of clumps with shared means
and records them as sufficient sets (source lines 1314-1328). -/
def placeSufficient (m : Model α) (gi : Nat) :
    List (List Nat × List (List Nat)) → PlaceState α → Except Error (PlaceState α)
  | [], ps => .ok ps
  | (_, clumps) :: rest, ps =>
    if clumps.length = 1 then placeSufficient m gi rest ps
    else
      let «from» := ps.ig.placements.length
      match placeSet m gi clumps (ps, false) with
      | .error err => .error err
      | .ok (ps', het) =>
        if het then placeSufficient m gi rest ps'
        else
          let ss : SufficientSet α :=
            { start := «from» / ps'.ig.clumpSize,
              length := (ps'.ig.placements.length - «from») / ps'.ig.clumpSize,
              dataMean := [], dataCov := [] }
          placeSufficient m gi rest
            { ps' with ig := { ps'.ig with sufficientSets := ps'.ig.sufficientSets ++ [ss] } }

/-- The observed data of a unit as `prep` reads them (source lines 1439-1453):
the finite cells of the data row at the manifest variables, `ncol` counting
the manifest variables met so far. -/
def observedFrom (m : Model α) (row : List (Option α)) : Nat → List Bool → List (Nat × α)
  | _, [] => []
  | ncol, isManifest :: rest =>
    if isManifest then
      match row.getD ncol none with
      | some val => (ncol, val) :: observedFrom m row (ncol + 1) rest
      | none => observedFrom m row (ncol + 1) rest
    else observedFrom m row ncol rest

/-- The flags that `prep` writes into the `latentFilter` of the group for one
unit (source line 1446): one flag per model variable, set where the variable is
manifest and its cell is finite. -/
def observedFlags (row : List (Option α)) : Nat → List Bool → List Bool
  | _, [] => []
  | ncol, isManifest :: rest =>
    if isManifest then (row.getD ncol none).isSome :: observedFlags row (ncol + 1) rest
    else false :: observedFlags row ncol rest

/-- The observed data vector of a unit: the entries it contributes to
`dataVec`. -/
def unitData (m : Model α) (a1 : Addr α) : List α :=
  if (m.dataColumns a1.model).length = 0 then []
  else (observedFrom m (m.dataRow a1.model a1.row) 0
    ((m.latentFilter a1.model).take (m.numVars a1.model))).map Prod.snd

/-- The check of `determineShallowDepth` (source lines 803-814) for one unit of
the first clump: every row it joins is found in `rowToPlacementMap`. -/
def shallowJoins (m : Model α) (ig : IndependentGroup α) (a1 : Addr α) :
    List Between → Except Error Unit
  | [] => .ok ()
  | betA :: rest =>
    match m.keyElement (m.data a1.model) a1.row betA.joinKey with
    | none => shallowJoins m ig a1 rest
    | some key =>
      match m.lookupRowOfKey (m.data betA.joinModel) key with
      | none => .error (Error.keyNotFound (m.data betA.joinModel) key)
      | some frow =>
        match ig.rowToPlacementMap (m.data betA.joinModel, frow) with
        | none => .error (Error.cannotFindRow frow (m.data betA.joinModel))
        | some _ => shallowJoins m ig a1 rest

/-- The loop of `determineShallowDepth` over the units of the first clump
(source lines 793-837), as far as it can throw; the pattern of the path matrix
and the depth of its inverse are not part of this embedding. -/
def determineShallowDepth (m : Model α) (st : State α) (ig : IndependentGroup α) :
    List Nat → Except Error Unit
  | [] => .ok ()
  | u :: rest =>
    match st.getAddr u with
    | .error err => .error err
    | .ok a1 =>
      if a1.rampartScale ≠ 0 then
        match shallowJoins m ig a1 (m.between a1.model) with
        | .error err => .error err
        | .ok _ => determineShallowDepth m st ig rest
      else determineShallowDepth m st ig rest

/-- The loop of `prep` over the placements `ax, ax+1, ...` (source lines
1411-1462), over the units `gMap[ax], ...` paired with their placements. -/
def prepLoop (m : Model α) :
    Nat → List (Nat × Placement) → PlaceState α → Except Error (PlaceState α)
  | _, [], ps => .ok ps
  | ax, (u, _) :: rest, ps =>
    match ps.st.getAddr u with
    | .error err => .error err
    | .ok a1 =>
      let st1 := ps.st.modifyAddr u (fun a => { a with igIndex := ax })
      let data := unitData m a1
      if (m.dataColumns a1.model).length ≠ 0 ∧ a1.numObsCache ≠ data.length then
        .error (Error.numObsMismatch u)
      else
        let flags :=
          if (m.dataColumns a1.model).length = 0 then List.replicate (m.numVars a1.model) false
          else observedFlags (m.dataRow a1.model a1.row) 0
            ((m.latentFilter a1.model).take (m.numVars a1.model))
        prepLoop m (ax + 1) rest
          { st := st1,
            ig := { ps.ig with
              rowToPlacementMap := fun k =>
                if k = (m.data a1.model, a1.row) then some ax else ps.ig.rowToPlacementMap k,
              dataVec := ps.ig.dataVec ++ data,
              latentFilter := ps.ig.latentFilter ++ flags } }

/-- `independentGroup::prep` (source lines 1373-1466), as far as it writes the
fields of this embedding: `clumpVars` and `clumpObs` from the last placement of
the first clump, then per placement `igIndex`, `rowToPlacementMap`, `dataVec`
and `latentFilter`, then `determineShallowDepth`. -/
def prep (m : Model α) (ps : PlaceState α) : Except Error (PlaceState α) :=
  if ps.ig.clumpSize = 0 then .error (Error.indexOutOfRange 0)
  else
    match ps.ig.placements[ps.ig.clumpSize - 1]?, ps.ig.gMap[ps.ig.clumpSize - 1]? with
    | some «end», some lastUnit =>
      match ps.st.getAddr lastUnit with
      | .error err => .error err
      | .ok a1 =>
        let ig1 : IndependentGroup α :=
          { ps.ig with clumpVars := «end».modelStart + m.numVars a1.model,
                       clumpObs := «end».obsStart + a1.numObsCache }
        match prepLoop m 0 (ig1.gMap.zip ig1.placements) { st := ps.st, ig := ig1 } with
        | .error err => .error err
        | .ok ps1 =>
          if m.ramInverseOpt then
            match determineShallowDepth m ps1.st ps1.ig (ps1.ig.gMap.take ps1.ig.clumpSize) with
            | .error err => .error err
            | .ok _ => .ok ps1
          else .ok ps1
    | _, _ => .error (Error.indexOutOfRange (ps.ig.clumpSize - 1))

/-- The body of the second loop of `planModelEval` for one entry of `cgm`
(source lines 1292-1331): the group of the clumps `clumps`. -/
def planGroup (m : Model α) (budget : Nat) (st : State α) (clumps : List (List Nat)) :
    Except Error (State α) :=
  let gi := st.group.length
  let ig0 : IndependentGroup α := IndependentGroup.new ((clumps.headD []).length)
  match collectMeans m st budget clumps [] with
  | .error err => .error err
  | .ok cmm =>
    match placeLoose m gi cmm { st := st, ig := ig0 } with
    | .error err => .error err
    | .ok ps1 =>
      match placeSufficient m gi cmm ps1 with
      | .error err => .error err
      | .ok ps2 =>
        let ps3 : PlaceState α :=
          if m.useSufficientSets then ps2
          else { ps2 with ig := { ps2.ig with sufficientSets := [] } }
        match prep m ps3 with
        | .error err => .error err
        | .ok ps4 => .ok { ps4.st with group := ps4.st.group ++ [ps4.ig] }

/-- The second loop of `planModelEval` (source lines 1290-1332) over the
entries of `cgm`. -/
def planGroups (m : Model α) (budget : Nat) :
    List (List Nat × List (List Nat)) → State α → Except Error (State α)
  | [], st => .ok st
  | (_, clumps) :: rest, st =>
    match planGroup m budget st clumps with
    | .error err => .error err
    | .ok st' => planGroups m budget rest st'

/-- The loop `for (ax...) ig->place(ax)` of `planModelEval` with
`forceSingleGroup` (source line 1227). -/
def placeAll (m : Model α) (gi : Nat) : List Nat → PlaceState α → Except Error (PlaceState α)
  | [], ps => .ok ps
  | ax :: rest, ps =>
    match place m gi ps ax with
    | .error err => .error err
    | .ok ps' => placeAll m gi rest ps'

/-- `state::planModelEval` (source lines 1221-1333), the second visitor;
`budget` bounds the depth of the recursions. -/
def planModelEval (m : Model α) (budget : Nat) (st : State α) : Except Error (State α) :=
  if m.forceSingleGroup then
    match placeAll m st.group.length (List.range st.layout.length)
        { st := st, ig := IndependentGroup.new st.layout.length } with
    | .error err => .error err
    | .ok ps =>
      match prep m ps with
      | .error err => .error err
      | .ok ps' => .ok { ps'.st with group := ps'.st.group ++ [ps'.ig] }
  else
    match computeConnected m st with
    | .error err => .error err
    | .ok cc =>
      match collectClumps m st budget cc.region st.layout.length 0
          { connected := cc.connected, cgm := [] } with
      | .error err => .error err
      | .ok acc => planGroups m budget acc.cgm st

/-- Two clumps are not told apart by `CompatibleCovCompare`. -/
def CovEq (m : Model α) (st : State α) (k c : List Nat) : Prop :=
  k = c ∨ (compatibleCovCompare m st k c = .ok false ∧ compatibleCovCompare m st c k = .ok false)

/-- Some clump of the map holds unit `u` together with every unit of its
component. -/
def Covered (cc : Connectedness) (cgm : List (List Nat × List (List Nat))) (u : Nat) : Prop :=
  ∃ e ∈ cgm, ∃ c ∈ e.2, u ∈ c ∧ ∀ v, cc.Linked u v → v ∈ c

/-- Some clump of the map holds all units of component `rg`. -/
def RegionDone (cc : Connectedness) (cgm : List (List Nat × List (List Nat))) (rg : Nat) :
    Prop :=
  ∃ e ∈ cgm, ∃ c ∈ e.2, ∀ v ∈ (cc.connected[rg]?).getD [], v ∈ c

/-- The invariant of the first loop of `planModelEval` before unit `ax`. -/
structure ClumpInv (m : Model α) (st : State α) (cc : Connectedness) (ax : Nat)
    (acc : ClumpLoop) : Prop where
  covered : ∀ u, u < ax → Covered cc acc.cgm u
  regions : ∀ rg, acc.connected[rg]? = cc.connected[rg]? ∨ RegionDone cc acc.cgm rg
  cov_eq : ∀ e ∈ acc.cgm, ∀ c ∈ e.2, CovEq m st e.1 c

/-- The fields of a unit that planning does not write. -/
def Addr.core (a : Addr α) : Nat × Nat × Nat × α × α × Nat :=
  (a.model, a.row, a.numObsCache, a.rampartScale, a.quickRotationFactor, a.nextMean)

/-- The second state differs from the first at most in the fields `ig` and
`igIndex` of the units and in the vector `group`. -/
structure PlanFrame (st st' : State α) : Prop where
  core : st'.layout.map Addr.core = st.layout.map Addr.core
  setup : st'.layoutSetup = st.layoutSetup
  map : st'.rowToLayoutMap = st.rowToLayoutMap
  err : st'.errorRaised = st.errorRaised

/-- The relation between the field `ig` of the units and the lists `gMap` of
the groups `groups`: a unit is assigned to group `g` exactly when it is in the
list of that group, the lists hold indices of units, and no list holds a unit
twice. -/
structure AssignInv (groups : List (List Nat)) (st : State α) : Prop where
  ig_iff : ∀ (u : Nat) (a : Addr α) (g : Nat), st.layout[u]? = some a →
    (a.ig = some g ↔ u ∈ (groups[g]?).getD [])
  valid : ∀ gm ∈ groups, ∀ u ∈ gm, u < st.layout.length
  nodup : ∀ gm ∈ groups, gm.Nodup

/-- Number of observations of unit `u`: `layout[u].numObs()`. -/
def unitObs (st : State α) (u : Nat) : Nat :=
  match st.layout[u]? with
  | some a => a.numObsCache
  | none => 0

/-- Number of model variables of unit `u`: `layout[u].numVars()`. -/
def unitVars (m : Model α) (st : State α) (u : Nat) : Nat :=
  match st.layout[u]? with
  | some a => m.numVars a.model
  | none => 0

/-- The invariant of a group under construction, for the groups `G` built
before it and the state `st0` at the start of planning: the assignment of the
units, the frame, and the offsets of the placements as sums over the units
placed before. -/
structure PSInv (m : Model α) (G : List (List Nat)) (st0 : State α) (ps : PlaceState α) :
    Prop where
  assign : AssignInv (G ++ [ps.ig.gMap]) ps.st
  frame : PlanFrame st0 ps.st
  plen : ps.ig.placements.length = ps.ig.gMap.length
  offsets : ∀ (q : Nat) (pl : Placement), ps.ig.placements[q]? = some pl →
    pl.obsStart = ((ps.ig.gMap.take q).map (unitObs st0)).sum ∧
    pl.modelStart = ((ps.ig.gMap.take q).map (unitVars m st0)).sum

/-- The invariant of the placing loops of one group: `cl` lists the clumps
placed so far, each of them one of `clumps`; the group has no data yet, and
every sufficient set is a run of placed clumps. -/
structure PlacedInv (m : Model α) (G : List (List Nat)) (st0 : State α)
    (grp : List (IndependentGroup α)) (clumps cl : List (List Nat)) (ps : PlaceState α) :
    Prop where
  inv : PSInv m G st0 ps
  gmap : ps.ig.gMap = cl.flatten
  sub : ∀ c ∈ cl, c ∈ clumps
  group : ps.st.group = grp
  size : ps.ig.clumpSize = (clumps.headD []).length
  no_data : ps.ig.dataVec = []
  no_filter : ps.ig.latentFilter = []
  no_map : ps.ig.rowToPlacementMap = fun _ => none
  sets : ∀ ss ∈ ps.ig.sufficientSets, ∃ pre mid post, cl = pre ++ mid ++ post ∧
    ss.start = pre.flatten.length / ps.ig.clumpSize ∧
    ss.length = mid.flatten.length / ps.ig.clumpSize ∧ ss.dataMean = [] ∧ ss.dataCov = [] ∧
    mid ≠ []

/-- The observed data of unit `u`. -/
def unitDataOf (m : Model α) (st : State α) (u : Nat) : List α :=
  match st.layout[u]? with
  | some a => unitData m a
  | none => []

/-- The (data set, row) key of unit `u`. -/
def unitKey (m : Model α) (st : State α) (u : Nat) : Option (Nat × Nat) :=
  (st.layout[u]?).map m.keyOf

/-- A finished independent group, built from the clumps `clumps` of one entry
of the map `cgm`, against the state `st0` at the start of planning: `cl` lists
the clumps in the order in which they were placed. -/
structure GroupSpec (m : Model α) (st0 : State α) (clumps cl : List (List Nat))
    (ig : IndependentGroup α) : Prop where
  gmap : ig.gMap = cl.flatten
  sub : ∀ c ∈ cl, c ∈ clumps
  all : ∀ c ∈ clumps, c ∈ cl
  size : ig.clumpSize = (clumps.headD []).length
  size_pos : 0 < ig.clumpSize
  size_le : ig.clumpSize ≤ ig.gMap.length
  plen : ig.placements.length = ig.gMap.length
  offsets : ∀ (q : Nat) (pl : Placement), ig.placements[q]? = some pl →
    pl.obsStart = ((ig.gMap.take q).map (unitObs st0)).sum ∧
    pl.modelStart = ((ig.gMap.take q).map (unitVars m st0)).sum
  clump_obs : ig.clumpObs = ((ig.gMap.take ig.clumpSize).map (unitObs st0)).sum
  clump_vars : ig.clumpVars = ((ig.gMap.take ig.clumpSize).map (unitVars m st0)).sum
  data : ig.dataVec = (ig.gMap.map (unitDataOf m st0)).flatten
  counted : ∀ u ∈ ig.gMap, ∀ a, st0.layout[u]? = some a →
    (m.dataColumns a.model).length ≠ 0 → a.numObsCache = (unitData m a).length
  lookup : ∀ (q u : Nat), ig.gMap[q]? = some u → ∃ k, unitKey m st0 u = some k ∧
    ∃ (q' u' : Nat), ig.rowToPlacementMap k = some q' ∧ ig.gMap[q']? = some u' ∧
      unitKey m st0 u' = some k
  lookup_only : ∀ k, (∀ u ∈ ig.gMap, unitKey m st0 u ≠ some k) → ig.rowToPlacementMap k = none
  sets : ∀ ss ∈ ig.sufficientSets, ∃ pre mid post, cl = pre ++ mid ++ post ∧
    ss.start = pre.flatten.length / ig.clumpSize ∧
    ss.length = mid.flatten.length / ig.clumpSize ∧ ss.dataMean = [] ∧ ss.dataCov = [] ∧
    mid ≠ []

/-- The invariant of the second loop of `planModelEval`: `done` lists the sets
of clumps of the entries worked off, one group each. -/
structure PlanInv (m : Model α) (st0 : State α) (done : List (List (List Nat)))
    (st : State α) : Prop where
  len : st.group.length = done.length
  groups : ∀ (i : Nat) (clumps : List (List Nat)) (ig : IndependentGroup α),
    done[i]? = some clumps → st.group[i]? = some ig → ∃ cl, GroupSpec m st0 clumps cl ig
  assign : AssignInv (st.group.map (fun g => g.gMap) ++ [[]]) st
  frame : PlanFrame st0 st

/-- The state at the start of planning: no group, no unit assigned. -/
structure PlanStart (st : State α) : Prop where
  no_group : st.group = []
  no_ig : ∀ a ∈ st.layout, a.ig = none

/-- The fields of a unit that neither rotation nor planning of the mean
writes. -/
def Addr.rotKey (a : Addr α) : Nat × Nat × Nat × Option Nat × Nat × Nat :=
  (a.model, a.row, a.numObsCache, a.ig, a.igIndex, a.nextMean)

/-- The fields of `addrSetup` that `oertzenRotate` does not write. -/
def AddrSetup.planKey (s : AddrSetup) :
    Int × Int × Option Nat × Option Int × Bool × List Nat × Option Int :=
  (s.numKids, s.numJoins, s.parent1, s.fk1, s.clumped, s.clump, s.rset)

/-- The frame of `oertzenRotate`: of a unit only `quickRotationFactor`,
`heterogenousMean` and `skipMean` change; the plan of rotations grows. -/
structure OertzenFrame (st st' : State α) : Prop where
  units : st'.layout.map (fun a => (a.rotKey, a.rampartScale)) =
    st.layout.map (fun a => (a.rotKey, a.rampartScale))
  setup : st'.layoutSetup.map AddrSetup.planKey = st.layoutSetup.map AddrSetup.planKey
  map : st'.rowToLayoutMap = st.rowToLayoutMap
  err : st'.errorRaised = st.errorRaised
  group : st'.group = st.group

/-- What every step of `rampartRotate` keeps: the identity of the units, the
maps, `parent1` and `fk1`; a unit that is clumped stays clumped, a clump keeps
its members, and `numJoins` stays `0` once it is `0`. -/
structure RotMono (st st' : State α) : Prop where
  keys : st'.layout.map Addr.rotKey = st.layout.map Addr.rotKey
  map : st'.rowToLayoutMap = st.rowToLayoutMap
  err : st'.errorRaised = st.errorRaised
  group : st'.group = st.group
  setup : ∀ (u : Nat) (s : AddrSetup), st.layoutSetup[u]? = some s →
    ∃ s', st'.layoutSetup[u]? = some s' ∧ s'.parent1 = s.parent1 ∧ s'.fk1 = s.fk1 ∧
      (s.clumped = true → s'.clumped = true) ∧ (∀ x ∈ s.clump, x ∈ s'.clump) ∧
      (s.numJoins = 0 → s'.numJoins = 0)
  setup_len : st'.layoutSetup.length = st.layoutSetup.length

/-- The units outside `T` keep their `rampartScale`. -/
def ScaleKept (T : List Nat) (st st' : State α) : Prop :=
  ∀ (u : Nat) (a : Addr α), u ∉ T → st.layout[u]? = some a →
    ∃ a', st'.layout[u]? = some a' ∧ a'.rampartScale = a.rampartScale

/-- The invariant of the first loop of `rampartRotate` before unit `bound`:
the groups of the map hold units below `bound` in increasing order, no unit
twice, each of them without kids, with one join and not clumped. -/
structure TodoInv (st : State α) (bound : Nat) (todo : List (Nat × List Nat)) : Prop where
  lt : ∀ e ∈ todo, ∀ u ∈ e.2, u < bound
  sorted : ∀ e ∈ todo, e.2.Pairwise (fun x y => x < y)
  nodup : (todo.map (fun e => e.2)).flatten.Nodup
  eligible : ∀ e ∈ todo, ∀ u ∈ e.2, ∃ s, st.layoutSetup[u]? = some s ∧ s.numKids = 0 ∧
    s.numJoins = 1 ∧ s.clumped = false
  nonempty : ∀ e ∈ todo, e.2 ≠ []

/-- The state that `state::init` hands to `planModelEval`: flattened without
error, rotated, not yet planned. -/
structure PlanReady (m : Model α) (st : State α) : Prop where
  inv : FlatInv m st
  no_marker : ∀ k v, st.rowToLayoutMap k = some v → 0 ≤ v
  start : PlanStart st
  counted : ∀ a ∈ st.layout,
    a.numObsCache = ((m.dataRow a.model a.row).filter Option.isSome).length
  no_error : st.errorRaised = false

/-- The lookups of the between loop of `independentGroup::refreshUnitA` (source
lines 650-660) for the unit `a1` of group `ig`: for every between matrix whose
key is present, the index `plIndex->second` of the placement of the joined row,
at whose `modelStart` the entries of the between matrix are written.  The
source uses the iterator returned by `find` without a test; a lookup that
misses is the error `cannotFindRow` here. -/
def joinPlacements (m : Model α) (ig : IndependentGroup α) (a1 : Addr α) :
    List Between → Except Error (List Nat)
  | [] => .ok []
  | betA :: rest =>
    match m.keyElement (m.data a1.model) a1.row betA.joinKey with
    | none => joinPlacements m ig a1 rest
    | some key =>
      match m.lookupRowOfKey (m.data betA.joinModel) key with
      | none => .error (Error.keyNotFound (m.data betA.joinModel) key)
      | some frow =>
        match ig.rowToPlacementMap (m.data betA.joinModel, frow) with
        | none => .error (Error.cannotFindRow frow (m.data betA.joinModel))
        | some q =>
          match joinPlacements m ig a1 rest with
          | .error err => .error err
          | .ok qs => .ok (q :: qs)

/-- The between part of `independentGroup::refreshUnitA` (source lines
647-672) for placement `px` of group `ig`: the placements `p2` to which the
unit of placement `px` is coupled by entries of the path matrix; none when its
`rampartScale` is `0`. -/
def refreshUnitAJoins (m : Model α) (st : State α) (ig : IndependentGroup α) (px : Nat) :
    Except Error (List Nat) :=
  match ig.gMap[px]? with
  | none => .error (Error.indexOutOfRange px)
  | some u =>
    match st.getAddr u with
    | .error err => .error err
    | .ok a1 =>
      if a1.rampartScale = 0 then .ok []
      else joinPlacements m ig a1 (m.between a1.model)

/-- Two clumps agree position by position in the number of variables and the
number of observations of their units. -/
def SameShape (m : Model α) (st : State α) (k d : List Nat) : Prop :=
  k.length = d.length ∧ ∀ (i u v : Nat), k[i]? = some u → d[i]? = some v →
    unitObs st u = unitObs st v ∧ unitVars m st u = unitVars m st v

/-- The factor `layout[u].quickRotationFactor`. -/
def unitFactor (st : State α) (u : Nat) : α :=
  match st.layout[u]? with
  | some a => a.quickRotationFactor
  | none => 1

/-- The units visited by a loop `for (ax = 0; ax < layoutSize; ax +=
layout[ax].nextMean)` of `state::computeMean` from unit `ax` on; the first
argument bounds the number of iterations. -/
def meanLoopUnits (st : State α) : Nat → Nat → List Nat
  | 0, _ => []
  | fuel + 1, ax =>
    match st.layout[ax]? with
    | none => []
    | some a => ax :: meanLoopUnits st fuel (ax + a.nextMean)

/-- The statement `expectedVec.segment(a1Start, a1.numObs()) *=
a1.quickRotationFactor` of `state::computeMean` for unit `ax` (source lines
2075-2079), on the cells reached through `UnitAccessor<true>`. -/
def scaleUnit (st : State α) (acc : Accessor α) (ax : Nat) : Accessor α :=
  fun u o => if u = ax ∧ o < unitObs st ax then acc u o * unitFactor st ax else acc u o

/-- The end of `state::computeMean` (source lines 2073-2083): with
`optimizeMean >= 1` the expected values of every visited unit are multiplied by
its `quickRotationFactor`, then the rotation plan is applied to the expected
values. -/
def rotateExpected (m : Model α) (sqrt : α → α) (st : State α) (acc : Accessor α) :
    Accessor α :=
  let acc1 :=
    if 1 ≤ m.optimizeMean then
      (meanLoopUnits st st.layout.length 0).foldl (scaleUnit st) acc
    else acc
  applyRotationPlan sqrt (unitObs st) st.rotationPlan acc1

/-- Whether `layoutSetup[u].skipMean` is `v`. -/
def skipMeanIs (ls : List AddrSetup) (u : Nat) (v : Int) : Bool :=
  match ls[u]? with
  | some s => decide (s.skipMean = some v)
  | none => false

/-- `state::optimizeModelRotation` (source lines 1656-1692): the entries of the
rotation plan whose flag in `modelRotationPlanFilter` is set are kept (the two
vectors are filled together by `oertzenRotate`); with `optimizeMean > 1` the
units of every kept entry that has a unit whose `skipMean` is not `1` get
`skipMean = 0`, last entry first, and only the entries whose first unit has
`skipMean = 0` stay. -/
def optimizeModelRotation (m : Model α) (st : State α) : State α :=
  let plan1 := (st.rotationPlan.zip st.modelRotationPlanFilter).filterMap
    (fun e => if e.2 then some e.1 else none)
  if m.optimizeMean ≤ 1 then { st with rotationPlan := plan1 }
  else
    let setup2 := plan1.reverse.foldl (fun ls vec =>
      if vec.all (fun v => skipMeanIs ls v 1) then ls
      else vec.foldl (fun ls2 v => ls2.modify (fun s => { s with skipMean := some 0 }) v) ls)
      st.layoutSetup
    { st with layoutSetup := setup2,
              rotationPlan := plan1.filter (fun vec => skipMeanIs setup2 (vec.getD 0 0) 0) }

/-- The matrices of the expectations that `refreshUnitA` reads, as they are
once the definition variables of a row are loaded and the matrices are
recomputed.  `matA e row rx cx` is the entry `(rx, cx)` of the path matrix
`ram->A` of expectation `e`, a square matrix of dimension `numVars e`;
`matBetween e jx row rx cx` is the entry `(rx, cx)` of the between matrix
`ram->between[jx]` of expectation `e`; `matS e row rx cx` is the entry
`(rx, cx)` of the residual matrix `ram->S` of expectation `e`, which
`refreshModel` reads; `matM e row i` is the entry `i` of the mean vector
`ram->M` of an expectation `e` that has one, and `matZ e row rx cx` is the
entry `(rx, cx)` of the matrix that `ram->getZ(fc)` returns, which
`computeMean` reads. -/
structure PathMatrices (α : Type) where
  matA : Nat → Nat → Nat → Nat → α
  matBetween : Nat → Nat → Nat → Nat → Nat → α
  matS : Nat → Nat → Nat → Nat → α
  matM : Nat → Nat → Nat → α
  matZ : Nat → Nat → Nat → Nat → α

/-- The sparse matrix `asymT.fullA`: the coefficient at `(row, col)`. -/
abbrev SparseMatrix (α : Type) := Nat → Nat → α

/-- Assignment `fullA.coeffRef(i, j) = x`. -/
def SparseMatrix.set (A : SparseMatrix α) (i j : Nat) (x : α) : SparseMatrix α :=
  fun r c => if r = i ∧ c = j then x else A r c

/-- The inner loop of the first loop of `refreshUnitA` (source lines 635-645)
for column `cx`, over the rows `rx, rx+1, ...` (`count` of them); `sign` is
`asymT.getSign()`. -/
def pathsColumn (sign : α) (modelStart : Nat) (eA : Nat → Nat → α) (cx : Nat) :
    Nat → Nat → SparseMatrix α → Except Error (SparseMatrix α)
  | 0, _, fullA => .ok fullA
  | count + 1, rx, fullA =>
    if eA rx cx ≠ 0 then
      if rx = cx then .error (Error.nonzeroDiagonal (1 + modelStart + cx))
      else pathsColumn sign modelStart eA cx count (rx + 1)
        (fullA.set (modelStart + cx) (modelStart + rx) (sign * eA rx cx))
    else pathsColumn sign modelStart eA cx count (rx + 1) fullA

/-- The first loop of `refreshUnitA` (source lines 634-646) over the columns
`cx, cx+1, ...` (`count` of them) of a matrix with `rows` rows. -/
def pathsLoop (sign : α) (modelStart : Nat) (eA : Nat → Nat → α) (rows : Nat) :
    Nat → Nat → SparseMatrix α → Except Error (SparseMatrix α)
  | 0, _, fullA => .ok fullA
  | count + 1, cx, fullA =>
    match pathsColumn sign modelStart eA cx rows 0 fullA with
    | .error err => .error err
    | .ok fullA1 => pathsLoop sign modelStart eA rows count (cx + 1) fullA1

/-- The two inner loops of the between loop of `refreshUnitA` (source lines
662-669) for one between matrix `betA`: the rows `rx` of the unit and the
columns `cx` of the joined expectation. -/
def betweenEntries (sign scale : α) (betA : Nat → Nat → α) (rows cols : Nat)
    (lower upper : Nat) (fullA : SparseMatrix α) : SparseMatrix α :=
  (List.range rows).foldl (fun A rx =>
    (List.range cols).foldl (fun A2 cx =>
      if betA rx cx = 0 then A2
      else A2.set (upper + cx) (lower + rx) (sign * betA rx cx * scale)) A) fullA

/-- The between loop of `refreshUnitA` (source lines 650-671) from the between
matrix `jx` on.  The source uses the iterator returned by `find` without a
test; a lookup that misses is an error here. -/
def betweenLoop (m : Model α) (mats : PathMatrices α) (sign : α) (ig : IndependentGroup α)
    (a1 : Addr α) (pl : Placement) :
    Nat → List Between → SparseMatrix α → Except Error (SparseMatrix α)
  | _, [], fullA => .ok fullA
  | jx, betA :: rest, fullA =>
    match m.keyElement (m.data a1.model) a1.row betA.joinKey with
    | none => betweenLoop m mats sign ig a1 pl (jx + 1) rest fullA
    | some key =>
      match m.lookupRowOfKey (m.data betA.joinModel) key with
      | none => .error (Error.keyNotFound (m.data betA.joinModel) key)
      | some frow =>
        match ig.rowToPlacementMap (m.data betA.joinModel, frow) with
        | none => .error (Error.cannotFindRow frow (m.data betA.joinModel))
        | some q =>
          match ig.placements[q]? with
          | none => .error (Error.indexOutOfRange q)
          | some p2 =>
            betweenLoop m mats sign ig a1 pl (jx + 1) rest
              (betweenEntries sign a1.rampartScale (mats.matBetween a1.model jx a1.row)
                (m.numVars a1.model) (m.numVars betA.joinModel) pl.modelStart p2.modelStart
                fullA)

/-- `independentGroup::refreshUnitA` (source lines 626-672) for placement `px`
of group `ig`, on the matrix `fullA`. -/
def refreshUnitA (m : Model α) (mats : PathMatrices α) (sign : α) (st : State α)
    (ig : IndependentGroup α) (px : Nat) (fullA : SparseMatrix α) :
    Except Error (SparseMatrix α) :=
  match ig.placements[px]? with
  | none => .error (Error.indexOutOfRange px)
  | some pl =>
    match ig.gMap[px]? with
    | none => .error (Error.indexOutOfRange px)
    | some u =>
      match st.getAddr u with
      | .error err => .error err
      | .ok a1 =>
        match pathsLoop sign pl.modelStart (mats.matA a1.model a1.row) (m.numVars a1.model)
            (m.numVars a1.model) 0 fullA with
        | .error err => .error err
        | .ok fullA1 =>
          if a1.rampartScale = 0 then .ok fullA1
          else betweenLoop m mats sign ig a1 pl 0 (m.between a1.model) fullA1

/-- The entries of column `cx` written by the inner loop for the rows from
`lo` up to `hi`. -/
def columnWritten (sign : α) (modelStart : Nat) (eA : Nat → Nat → α) (cx lo hi : Nat)
    (fullA : SparseMatrix α) : SparseMatrix α :=
  fun i j =>
    if i = modelStart + cx ∧ modelStart + lo ≤ j ∧ j < modelStart + hi ∧
        eA (j - modelStart) cx ≠ 0 then sign * eA (j - modelStart) cx
    else fullA i j

/-- The entries written by the first loop for the columns from `lo` up to
`hi`. -/
def pathsWritten (sign : α) (modelStart : Nat) (eA : Nat → Nat → α) (rows lo hi : Nat)
    (fullA : SparseMatrix α) : SparseMatrix α :=
  fun i j =>
    if modelStart + lo ≤ i ∧ i < modelStart + hi ∧ modelStart ≤ j ∧ j < modelStart + rows ∧
        eA (j - modelStart) (i - modelStart) ≠ 0 then
      sign * eA (j - modelStart) (i - modelStart)
    else fullA i j

/-- The residual loop of `refreshModel` (source lines 689-696) for one unit:
the columns `cx` of `eS` and the rows `rx` from `cx` on; a zero entry of `eS`
is passed over. -/
def residualEntries (eS : Nat → Nat → α) (n : Nat) (modelStart : Nat)
    (fullS : SparseMatrix α) : SparseMatrix α :=
  (List.range n).foldl (fun S cx =>
    (List.range' cx (n - cx)).foldl (fun S2 rx =>
      if eS rx cx ≠ 0 then S2.set (modelStart + rx) (modelStart + cx) (eS rx cx)
      else S2) S) fullS

/-- `independentGroup::refreshModel` (source lines 675-698) from placement `ax`
on (`count` placements), on the pair of `asymT.fullA` and `fullS`.  Loading the
definition variables and recomputing `A` and `S` is reading `mats` at the row
of the unit. -/
def refreshModel (m : Model α) (mats : PathMatrices α) (sign : α) (st : State α)
    (ig : IndependentGroup α) :
    Nat → Nat → SparseMatrix α × SparseMatrix α →
      Except Error (SparseMatrix α × SparseMatrix α)
  | 0, _, mat => .ok mat
  | count + 1, ax, (fullA, fullS) =>
    match ig.placements[ax]? with
    | none => .error (Error.indexOutOfRange ax)
    | some pl =>
      match ig.gMap[ax]? with
      | none => .error (Error.indexOutOfRange ax)
      | some u =>
        match st.getAddr u with
        | .error err => .error err
        | .ok a1 =>
          match refreshUnitA m mats sign st ig ax fullA with
          | .error err => .error err
          | .ok fullA1 =>
            refreshModel m mats sign st ig count (ax + 1)
              (fullA1, residualEntries (mats.matS a1.model a1.row) (m.numVars a1.model)
                pl.modelStart fullS)

/-- `fullS.conservativeResize(n, n)`: the entries inside the new bounds are
kept, and there is none outside. -/
def SparseMatrix.conservativeResize (A : SparseMatrix α) (n : Nat) : SparseMatrix α :=
  fun r c => if r < n ∧ c < n then A r c else 0

/-- `independentGroup::computeCov1` (source lines 1848-1855) for a group that is
its own parent, on the pair of `asymT.fullA` and `fullS` that the previous
evaluation left. -/
def computeCov1 (m : Model α) (mats : PathMatrices α) (sign : α) (st : State α)
    (ig : IndependentGroup α) (mat : SparseMatrix α × SparseMatrix α) :
    Except Error (SparseMatrix α × SparseMatrix α) :=
  if ig.dataVec.length = 0 then .ok mat
  else refreshModel m mats sign st ig ig.clumpSize 0
    (mat.1, mat.2.conservativeResize ig.clumpVars)

/-- The assignment `fullMean.segment(start, n) = w` in the vector `fullMean` of
group `g`; the vectors `fullMean` of all groups are one function of the group
and the position. -/
def setSegment (fullMean : Nat → Nat → α) (g start n : Nat) (w : Nat → α) : Nat → Nat → α :=
  fun g2 i => if g2 = g ∧ start ≤ i ∧ i < start + n then w (i - start) else fullMean g2 i

/-- The product of a matrix with `cols` columns and a vector. -/
def matVec (mat : Nat → Nat → α) (cols : Nat) (v : Nat → α) : Nat → α :=
  fun r => ((List.range cols).map (fun c => mat r c * v c)).sum

/-- The between loop of `state::computeMean` (source lines 2030-2044) for unit
`ax`, whose segment of `fullMean` starts at `a1Start` in group `g1`, from the
between matrix `jx` on.  `rowToLayoutMap[...]` on a key that is absent yields
0; indexing a vector outside its bounds and a null group pointer are errors
here. -/
def meanJoins (m : Model α) (mats : PathMatrices α) (st : State α) (ax : Nat) (a1 : Addr α)
    (g1 a1Start : Nat) :
    Nat → List Between → (Nat → Nat → α) → Except Error (Nat → Nat → α)
  | _, [], fullMean => .ok fullMean
  | jx, betA :: rest, fullMean =>
    match m.keyElement (m.data a1.model) a1.row betA.joinKey with
    | none => meanJoins m mats st ax a1 g1 a1Start (jx + 1) rest fullMean
    | some key =>
      match m.lookupRowOfKey (m.data betA.joinModel) key with
      | none => .error (Error.keyNotFound (m.data betA.joinModel) key)
      | some frow =>
        if (ax : Int) < (st.rowToLayoutMap (m.data betA.joinModel, frow)).getD 0 then
          .error Error.notInTopologicalOrder
        else if (st.rowToLayoutMap (m.data betA.joinModel, frow)).getD 0 < 0 then
          .error (Error.indexOutOfRange 0)
        else
          match st.layout[((st.rowToLayoutMap (m.data betA.joinModel, frow)).getD 0).toNat]? with
          | none =>
            .error (Error.indexOutOfRange
              ((st.rowToLayoutMap (m.data betA.joinModel, frow)).getD 0).toNat)
          | some a2 =>
            match a2.ig with
            | none => .error (Error.indexOutOfRange 0)
            | some g2 =>
              match st.group[g2]? with
              | none => .error (Error.indexOutOfRange g2)
              | some ig2 =>
                match ig2.placements[a2.igIndex]? with
                | none => .error (Error.indexOutOfRange a2.igIndex)
                | some p2 =>
                  meanJoins m mats st ax a1 g1 a1Start (jx + 1) rest
                    (setSegment fullMean g1 a1Start (m.numVars a1.model) (fun i =>
                      fullMean g1 (a1Start + i) +
                        matVec (mats.matBetween a1.model jx a1.row) (m.numVars betA.joinModel)
                          (fun c => fullMean g2 (p2.modelStart + c)) i))

/-- One pass of the first loop of `state::computeMean` (source lines 2010-2051)
for unit `ax`: the segment of the unit is set to `M` or to zero, the products
of the between matrices and the segments of the joined units are added, and
the segment is multiplied by the matrix `Z` that `getZ` returns. -/
def meanVisit (m : Model α) (mats : PathMatrices α) (st : State α) (ax : Nat) (a1 : Addr α)
    (fullMean : Nat → Nat → α) : Except Error (Nat → Nat → α) :=
  match a1.ig with
  | none => .error (Error.indexOutOfRange ax)
  | some g1 =>
    match st.group[g1]? with
    | none => .error (Error.indexOutOfRange g1)
    | some ig1 =>
      match ig1.placements[a1.igIndex]? with
      | none => .error (Error.indexOutOfRange a1.igIndex)
      | some pl1 =>
        match meanJoins m mats st ax a1 g1 pl1.modelStart 0 (m.between a1.model)
            (setSegment fullMean g1 pl1.modelStart (m.numVars a1.model)
              (if m.hasM a1.model then mats.matM a1.model a1.row else fun _ => 0)) with
        | .error err => .error err
        | .ok fullMean2 =>
          .ok (setSegment fullMean2 g1 pl1.modelStart (m.numVars a1.model)
            (matVec (mats.matZ a1.model a1.row) (m.numVars a1.model)
              (fun k => fullMean2 g1 (pl1.modelStart + k))))

/-- The first loop of `state::computeMean` (source lines 2010-2051) from unit
`ax` on: `for (ax; ax < layoutSize; ax += layout[ax].nextMean)`; the first
argument bounds the number of iterations. -/
def computeMeanLoop (m : Model α) (mats : PathMatrices α) (st : State α) :
    Nat → Nat → (Nat → Nat → α) → Except Error (Nat → Nat → α)
  | 0, _, _ => .error Error.recursionBudget
  | fuel + 1, ax, fullMean =>
    match st.layout[ax]? with
    | none => .ok fullMean
    | some a1 =>
      match meanVisit m mats st ax a1 fullMean with
      | .error err => .error err
      | .ok fullMean1 => computeMeanLoop m mats st fuel (ax + a1.nextMean) fullMean1

/-- The term `sum over the non-missing joins j of B_j * fullMean(parent_j)` of
the mean recursion, component `k`, for the between matrices from `jx` on: the
joined unit is the one that `rowToLayoutMap` gives for the joined row, and its
segment is read at its placement in its group. -/
def parentMeanSum (m : Model α) (mats : PathMatrices α) (st : State α) (a1 : Addr α)
    (fullMean : Nat → Nat → α) (k : Nat) : Nat → List Between → α
  | _, [] => 0
  | jx, betA :: rest =>
    (match m.keyElement (m.data a1.model) a1.row betA.joinKey with
     | none => 0
     | some key =>
       match m.lookupRowOfKey (m.data betA.joinModel) key with
       | none => 0
       | some frow =>
         match st.layout[((st.rowToLayoutMap (m.data betA.joinModel, frow)).getD 0).toNat]? with
         | none => 0
         | some a2 =>
           match a2.ig with
           | none => 0
           | some g2 =>
             match st.group[g2]? with
             | none => 0
             | some ig2 =>
               match ig2.placements[a2.igIndex]? with
               | none => 0
               | some p2 =>
                 matVec (mats.matBetween a1.model jx a1.row) (m.numVars betA.joinModel)
                   (fun c => fullMean g2 (p2.modelStart + c)) k) +
      parentMeanSum m mats st a1 fullMean k (jx + 1) rest

/-- Every unit's joined rows have units of smaller index, which
`rowToLayoutMap` gives. -/
def ParentsFirst (m : Model α) (st : State α) : Prop :=
  ∀ (u : Nat) (a : Addr α), st.layout[u]? = some a → ∀ b ∈ m.between a.model, ∀ key,
    m.keyElement (m.data a.model) a.row b.joinKey = some key →
    ∃ (frow j : Nat) (p : Addr α), m.lookupRowOfKey (m.data b.joinModel) key = some frow ∧
      st.rowToLayoutMap (m.data b.joinModel, frow) = some (j : Int) ∧ j < u ∧
      st.layout[j]? = some p ∧ p.model = b.joinModel ∧ p.row = frow

/-- The flag `layoutSetup[u].heterogenousMean`. -/
def hetOf (st : State α) (u : Nat) : Bool :=
  match st.layoutSetup[u]? with
  | some s => s.heterogenousMean
  | none => false

/-- The sufficient set `ss` of group `ig` is a run of clumps: before it `frm`
units were placed, a multiple of `clumpSize`; then the clumps `mid`, two or
more, each of `clumpSize` units none of which is flagged `heterogenousMean`,
were placed one after the other; `start` and `length` count clumps. -/
def SetRun (st0 : State α) (ig : IndependentGroup α) (ss : SufficientSet α) : Prop :=
  ∃ (mid : List (List Nat)) (frm : Nat), 2 ≤ mid.length ∧
    (∀ c ∈ mid, c.length = ig.clumpSize) ∧ ig.clumpSize ∣ frm ∧
    ss.start = frm / ig.clumpSize ∧ ss.length = mid.length ∧
    (ig.gMap.drop frm).take (mid.length * ig.clumpSize) = mid.flatten ∧
    frm + mid.length * ig.clumpSize ≤ ig.gMap.length ∧
    ∀ c ∈ mid, ∀ u ∈ c, hetOf st0 u = false

/-- The invariant of the sufficient sets of a group under construction: each
is a run of clumps, each lies before the next, and whole clumps have been
placed. -/
structure SetsInv (st0 : State α) (ig : IndependentGroup α) : Prop where
  runs : ∀ ss ∈ ig.sufficientSets, SetRun st0 ig ss
  sorted : ig.sufficientSets.Pairwise (fun a b => a.start + a.length ≤ b.start)
  aligned : ig.clumpSize ∣ ig.gMap.length

/-- Unit `v` is a member of the clump of unit `u`. -/
def Child (st : State α) (u v : Nat) : Prop :=
  ∃ s, st.layoutSetup[u]? = some s ∧ v ∈ s.clump

/-- Unit `u` is not clumped. -/
def Loose (st : State α) (u : Nat) : Prop :=
  ∃ s, st.layoutSetup[u]? = some s ∧ s.clumped = false

/-- The clumps form a forest: a unit is a member of at most one clump and at
most once, the members of a clump come after the unit of the clump, and the
units that are members of a clump are the clumped units. -/
structure ClumpForest (st : State α) : Prop where
  uniq : ∀ u u2 v, Child st u v → Child st u2 v → u = u2
  lt : ∀ u v, Child st u v → u < v
  nodup : ∀ (u : Nat) (s : AddrSetup), st.layoutSetup[u]? = some s → s.clump.Nodup
  child_clumped : ∀ u v, Child st u v → ∃ sv, st.layoutSetup[v]? = some sv ∧ sv.clumped = true
  clumped_child : ∀ (v : Nat) (sv : AddrSetup), st.layoutSetup[v]? = some sv →
    sv.clumped = true →
    ∃ u, Child st u v

/-- Every member of the set of a component is a unit of that component. -/
def Connectedness.Members (cc : Connectedness) : Prop :=
  ∀ (rg u : Nat), u ∈ (cc.connected[rg]?).getD [] → cc.region[u]? = some (some rg)

/-- The units of the clumps of the entries of a map of clumps, entry by
entry. -/
def clumpUnits (cgm : List (List Nat × List (List Nat))) : List Nat :=
  (cgm.map (fun e => e.2.flatten)).flatten

/-- The invariant of the first loop of `planModelEval` before unit `ax` that
keeps the clumps apart: no unit is in two clumps of the map or twice in one,
every unit in a clump is a unit without component below `ax` or a unit of a
component whose set has been emptied, and the set of a component is as
`computeConnected` left it or empty. -/
structure ClumpsApart (cc : Connectedness) (ax : Nat) (acc : ClumpLoop) : Prop where
  nodup : (clumpUnits acc.cgm).Nodup
  done : ∀ w ∈ clumpUnits acc.cgm, (cc.region[w]? = some none ∧ w < ax) ∨
    ∃ rg, cc.region[w]? = some (some rg) ∧ acc.connected.getD rg [] = []
  kept : ∀ rg, acc.connected.getD rg [] = cc.connected.getD rg [] ∨
    acc.connected.getD rg [] = []

/-- The error is the one that `independentGroup::place` throws: "Unit already
assigned". -/
def Error.isAssigned : Error → Bool
  | .alreadyAssigned _ => true
  | _ => false

/-- What the rounds of `rampartRotate` keep about the clumps: a clump holds no
unit twice, a member of the clump of `u` is clumped, has `u` as `parent1` and
a scale that is not zero, a clumped unit is a member of a clump, a unit that
may still be clumped has a scale that is not zero, and `parent1` lies before
the unit. -/
structure ClumpTrack (st : State α) : Prop where
  len : st.layoutSetup.length = st.layout.length
  nodup : ∀ (u : Nat) (s : AddrSetup), st.layoutSetup[u]? = some s → s.clump.Nodup
  child : ∀ (u v : Nat), Child st u v → ∃ (sv : AddrSetup) (av : Addr α),
    st.layoutSetup[v]? = some sv ∧ sv.clumped = true ∧ sv.parent1 = some u ∧
    st.layout[v]? = some av ∧ av.rampartScale ≠ 0
  clumped_child : ∀ (v : Nat) (sv : AddrSetup), st.layoutSetup[v]? = some sv →
    sv.clumped = true → ∃ u, Child st u v
  scale : ∀ (v : Nat) (sv : AddrSetup) (av : Addr α), st.layoutSetup[v]? = some sv →
    st.layout[v]? = some av → sv.clumped = false → sv.numJoins = 1 → av.rampartScale ≠ 0
  parent_lt : ∀ (v : Nat) (sv : AddrSetup) (p : Nat), st.layoutSetup[v]? = some sv →
    sv.parent1 = some p → p < v

/-- A step of `rampartRotate` that clumps no unit: the clumps keep their
members, `clumped` and `parent1` are kept, `numJoins` is kept or is not `1`
afterwards, and a scale is kept, or is not zero afterwards, or belongs to a
unit that can no longer be clumped. -/
structure TrackStep (st st' : State α) : Prop where
  setup : ∀ (u : Nat) (s2 : AddrSetup), st'.layoutSetup[u]? = some s2 →
    ∃ s, st.layoutSetup[u]? = some s ∧ s2.clump.Perm s.clump ∧ s2.clumped = s.clumped ∧
      s2.parent1 = s.parent1 ∧ (s2.numJoins = s.numJoins ∨ s2.numJoins ≠ 1)
  setup_len : st'.layoutSetup.length = st.layoutSetup.length
  layout : ∀ (v : Nat) (a2 : Addr α), st'.layout[v]? = some a2 →
    ∃ a, st.layout[v]? = some a ∧ (a2.rampartScale = a.rampartScale ∨ a2.rampartScale ≠ 0 ∨
      ∀ sv, st'.layoutSetup[v]? = some sv → sv.clumped = false ∧ sv.numJoins ≠ 1)
  layout_len : st'.layout.length = st.layout.length

/-- The units outside `T` keep `clumped`, `numJoins` and `parent1`. -/
def FlagsKept (T : List Nat) (st st' : State α) : Prop :=
  ∀ (u : Nat) (s : AddrSetup), u ∉ T → st.layoutSetup[u]? = some s →
    ∃ s', st'.layoutSetup[u]? = some s' ∧ s'.clumped = s.clumped ∧
      s'.numJoins = s.numJoins ∧ s'.parent1 = s.parent1

/-- The meaning of `parent1` after flattening: the unit at `parent1` comes
before the unit and is the unit of the row joined through the first between
matrix of the expectation. -/
def ParentLink (m : Model α) (st : State α) : Prop :=
  ∀ (v : Nat) (sv : AddrSetup) (av : Addr α) (p : Nat), st.layoutSetup[v]? = some sv →
    st.layout[v]? = some av → sv.parent1 = some p →
    p < v ∧ ∃ (b0 : Between) (key : Int) (row : Nat) (ap : Addr α),
      (m.between av.model)[0]? = some b0 ∧
      m.keyElement (m.data av.model) av.row b0.joinKey = some key ∧
      m.lookupRowOfKey (m.data b0.joinModel) key = some row ∧
      st.layout[p]? = some ap ∧ (ap.model, ap.row) = (b0.joinModel, row)

end Plan

/-- The planning part of `state::init` (source lines 1720-1770): flattening,
return when an error has been raised, the Rampart rounds, `planModelEval`. -/
def planInit {α : Type} [LinearOrderedField α] (m : Model α) (sqrt : α → α)
    (budget : Nat) : Except Error (State α) :=
  match flatten m budget with
  | .error err => .error err
  | .ok (st, _) =>
    if st.errorRaised then .ok st
    else
      match rampart m sqrt budget budget st with
      | .error err => .error err
      | .ok st1 => planModelEval m budget st1

/-- The connected components that `planModelEval` starts from, that is the
nonempty sets of `connected`: flattening, the Rampart rounds, then
`computeConnected`; `none` when one of them fails. -/
def planComponents {α : Type} [LinearOrderedField α] (m : Model α) (sqrt : α → α)
    (budget : Nat) : Option (List (List Nat)) :=
  match flatten m budget with
  | .error _ => none
  | .ok (st, _) =>
    match rampart m sqrt budget budget st with
    | .error _ => none
    | .ok st1 =>
      match computeConnected m st1 with
      | .error _ => none
      | .ok cc => some (cc.connected.filter (fun c => !c.isEmpty))

/-- The independent groups of a plan, each as its `clumpSize` and its `gMap`;
`none` when planning failed. -/
def groupShapes {α : Type} (r : Except Error (State α)) : Option (List (Nat × List Nat)) :=
  match r with
  | .ok st => some (st.group.map fun g => (g.clumpSize, g.gMap))
  | .error _ => none

/-! ## Example inputs -/

/-- The family and child scenario: the data set of expectation 1 (`family`)
has 2 rows with the keys 0 and 1 and no joins; the home data set of
expectation 0 (`child`) has 6 rows with complete data, rows 0, 1, 2 joined to
family row 0 and rows 3, 4, 5 to family row 1.  Each expectation has one
variable, which is manifest.  `rampart` switches the Rampart rotation on. -/
def familyModel (rampart : Bool) : Model ℚ :=
  { homeEx := 0
    data := fun e => e
    between := fun e => if e = 0 then [{ joinKey := 0, joinModel := 1 }] else []
    hasM := fun _ => true
    numVars := fun _ => 1
    dataColumns := fun _ => [1]
    rows := fun d => if d = 0 then 6 else 2
    hasPrimaryKey := fun d => d == 1
    keyElement := fun d r _ => if d = 0 then (if r < 3 then some 0 else some 1) else none
    lookupRowOfKey := fun d k =>
      if d = 1 then (if k = 0 then some 0 else if k = 1 then some 1 else none) else none
    doubleElement := fun d r _ => some ((10 * d + r : Nat) : ℚ)
    latentFilter := fun _ => [true]
    rampartEnabled := rampart }


/-- Two child rows (home expectation 0, no primary key) joined crosswise to two
family rows (expectation 1, keys 0 and 1): child row 0 holds the key of family
row 1 and child row 1 the key of family row 0. -/
def crossModel : Model ℚ :=
  { homeEx := 0
    data := fun e => e
    between := fun e => if e = 0 then [{ joinKey := 0, joinModel := 1 }] else []
    hasM := fun _ => true
    numVars := fun _ => 1
    dataColumns := fun _ => [1]
    rows := fun _ => 2
    hasPrimaryKey := fun d => d == 1
    keyElement := fun d r _ => if d = 0 then (if r = 0 then some 1 else some 0) else none
    lookupRowOfKey := fun d k =>
      if d = 1 then (if k = 0 then some 0 else if k = 1 then some 1 else none) else none
    doubleElement := fun _ _ _ => some 0 }

/-- One keyed data set whose single row holds its own key as foreign key. -/
def selfJoinModel : Model ℚ :=
  { homeEx := 0
    data := fun e => e
    between := fun e => if e = 0 then [{ joinKey := 0, joinModel := 0 }] else []
    hasM := fun _ => true
    numVars := fun _ => 1
    dataColumns := fun _ => [1]
    rows := fun _ => 1
    hasPrimaryKey := fun _ => true
    keyElement := fun d r _ => if d = 0 ∧ r = 0 then some 0 else none
    lookupRowOfKey := fun d k => if d = 0 ∧ k = 0 then some 0 else none
    doubleElement := fun _ _ _ => some 0 }

/-- The family and child scenario after flattening: the state on which
`state::init` calls `rampartRotate`. -/
def familyFlat : State ℚ :=
  match flatten (familyModel true) 10 with
  | .ok (st, _) => st
  | .error _ => State.empty

/-- Three units of one observation each, as flattening builds them. -/
def threeUnits : State ℝ :=
  { layout := [0, 1, 2].map (fun r =>
      { model := 0, row := r, numObsCache := 1, rampartScale := 1,
        quickRotationFactor := 1, ig := none, igIndex := 0, nextMean := 1 }),
    layoutSetup := [0, 1, 2].map (fun _ =>
      { numKids := 0, numJoins := 0, parent1 := none, fk1 := none, clumped := false,
        clump := [], heterogenousMean := false, skipMean := none, rset := none }),
    rowToLayoutMap := fun _ => none, allEx := [0], errorRaised := false }

/-- An expectation without joins, with `optimizeMean = 1`. -/
def meanModel : Model ℝ :=
  { homeEx := 0, data := fun e => e, between := fun _ => [], hasM := fun _ => true,
    numVars := fun _ => 1, dataColumns := fun _ => [0], rows := fun _ => 3,
    hasPrimaryKey := fun _ => false, keyElement := fun _ _ _ => none,
    lookupRowOfKey := fun _ _ => none, doubleElement := fun _ _ _ => some 5,
    optimizeMean := 1 }

/-- The expected values of the three-unit example: every unit holds 5. -/
def constData : Accessor ℝ := fun _ _ => 5

/-- The data of the three-unit example: unit `u` holds the value `u`. -/
def rampData : Accessor ℝ := fun u _ => (u : ℝ)

/-- A home data set of 2 rows (expectation 0, with a mean matrix and one data
column) whose row 0 has no foreign key and whose row 1 holds the key 7 of row 0
of the data set of expectation 1, which has one data column but no mean
matrix. -/
def missingMeansModel : Model ℚ :=
  { homeEx := 0
    data := fun e => e
    between := fun e => if e = 0 then [{ joinKey := 0, joinModel := 1 }] else []
    hasM := fun e => e == 0
    numVars := fun _ => 1
    dataColumns := fun _ => [1]
    rows := fun d => if d = 0 then 2 else 1
    hasPrimaryKey := fun d => d == 1
    keyElement := fun d r _ => if d = 0 ∧ r = 1 then some 7 else none
    lookupRowOfKey := fun d k => if d = 1 ∧ k = 7 then some 0 else none
    doubleElement := fun _ _ _ => some 0 }

/-- What is read off a call of `flattenOneRow`: the returned index, whether an
error has been raised, the number of units and the `numKids` and `parent1` of
every unit. -/
structure FlattenSummary where
  index : Nat
  errorRaised : Bool
  units : Nat
  numKids : List Int
  parent1 : List (Option Nat)
  deriving DecidableEq

/-- The summary of a returning call of `flattenOneRow`. -/
def flattenSummary (r : Except Error (Nat × State ℚ × Nat)) : Option FlattenSummary :=
  match r with
  | .ok (i, st, _) =>
    some { index := i, errorRaised := st.errorRaised, units := st.layout.length,
           numKids := st.layoutSetup.map (fun s => s.numKids),
           parent1 := st.layoutSetup.map (fun s => s.parent1) }
  | .error _ => none

/-- The state returned by a call of `flattenOneRow`. -/
def flattenState (r : Except Error (Nat × State ℚ × Nat)) : State ℚ × Nat :=
  match r with
  | .ok (_, st, ms) => (st, ms)
  | .error _ => (State.empty, 0)

/-- Two grandparents, four parents joined two per grandparent, and one child
per parent: the home data set of expectation 0 (`child`) has 4 rows, row `r`
joined to row `r` of the data set of expectation 1 (`parent`), whose row `r` is
joined to row `r / 2` of the data set of expectation 2 (`grandparent`).  Each
expectation has one variable, which is manifest.  There is neither a cycle
limit nor a unit limit. -/
def grandModel : Model ℚ :=
  { homeEx := 0
    data := fun e => e
    between := fun e =>
      if e = 0 then [{ joinKey := 0, joinModel := 1 }]
      else if e = 1 then [{ joinKey := 0, joinModel := 2 }] else []
    hasM := fun _ => true
    numVars := fun _ => 1
    dataColumns := fun _ => [1]
    rows := fun d => if d = 2 then 2 else 4
    hasPrimaryKey := fun d => d == 1 || d == 2
    keyElement := fun d r _ =>
      if d = 0 then some (r : Int) else if d = 1 then some ((r / 2 : Nat) : Int) else none
    lookupRowOfKey := fun d k =>
      if d = 1 then (if 0 ≤ k ∧ k < 4 then some k.toNat else none)
      else if d = 2 then (if 0 ≤ k ∧ k < 2 then some k.toNat else none) else none
    doubleElement := fun d r _ => some ((10 * d + r : Nat) : ℚ)
    latentFilter := fun _ => [true] }

/-- The grandparent scenario after flattening: the state on which
`state::init` starts the Rampart loop.  The units are, in the order of their
indices: grandparent 0, parent 0, child 0, parent 1, child 1, grandparent 1,
parent 2, child 2, parent 3, child 3. -/
def grandFlat : State ℚ :=
  match flatten grandModel 10 with
  | .ok (st, _) => st
  | .error _ => State.empty

/-- One expectation with two variables and no joins. -/
def pathModel : Model ℚ :=
  { homeEx := 0, data := fun e => e, between := fun _ => [], hasM := fun _ => true,
    numVars := fun _ => 2, dataColumns := fun _ => [0], rows := fun _ => 1,
    hasPrimaryKey := fun _ => false, keyElement := fun _ _ _ => none,
    lookupRowOfKey := fun _ _ => none, doubleElement := fun _ _ _ => some 0 }

/-- A path matrix with the single nonzero entry `A(1, 0) = 3`, and the
residual matrix with the single nonzero entry `S(0, 0) = 2`. -/
def pathMatrices : PathMatrices ℚ :=
  { matA := fun _ _ rx cx => if rx = 1 ∧ cx = 0 then 3 else 0,
    matBetween := fun _ _ _ _ _ => 0,
    matS := fun _ _ rx cx => if rx = 0 ∧ cx = 0 then 2 else 0,
    matM := fun _ _ _ => 0,
    matZ := fun _ _ rx cx => if rx = cx then 1 else if rx = 1 ∧ cx = 0 then 3 else 0 }

/-- One unit of `pathModel`. -/
def pathState : State ℚ :=
  { layout := [{ model := 0, row := 0, numObsCache := 1, rampartScale := 1,
                 quickRotationFactor := 1, ig := some 0, igIndex := 0, nextMean := 1 }],
    layoutSetup := [{ numKids := 0, numJoins := 0, parent1 := none, fk1 := none,
                      clumped := false, clump := [], heterogenousMean := false,
                      skipMean := none, rset := none }],
    rowToLayoutMap := fun _ => none, allEx := [0], errorRaised := false }

/-- The group of the unit of `pathState`, placed at `modelStart = 0`. -/
def pathGroup : IndependentGroup ℚ :=
  { clumpSize := 1, placements := [{ modelStart := 0, obsStart := 0 }], gMap := [0],
    sufficientSets := [], clumpVars := 2, clumpObs := 1, dataVec := [0],
    latentFilter := [true, false], rowToPlacementMap := fun _ => none }

/-- The matrices of `pathMatrices` once the parameter behind `S(0, 0)` is 0. -/
def clearedMatrices : PathMatrices ℚ :=
  { matA := pathMatrices.matA, matBetween := pathMatrices.matBetween,
    matS := fun _ _ _ _ => 0, matM := pathMatrices.matM, matZ := pathMatrices.matZ }

/-- A group of two units, a family unit at `modelStart = 0` and a child unit
at `modelStart = 1`. -/
def joinGroup : IndependentGroup ℚ :=
  { clumpSize := 2,
    placements := [{ modelStart := 0, obsStart := 0 }, { modelStart := 1, obsStart := 1 }],
    gMap := [0, 1], sufficientSets := [], clumpVars := 2, clumpObs := 2, dataVec := [10, 0],
    latentFilter := [true, true],
    rowToPlacementMap := fun k => if k = (1, 0) then some 0 else if k = (0, 0) then some 1 else none }

/-- A family unit (expectation 1, row 0) and a child unit (expectation 0,
row 0) of `familyModel` in the group `joinGroup`; the child unit has the
scale 2. -/
def joinState : State ℚ :=
  { layout := [{ model := 1, row := 0, numObsCache := 1, rampartScale := 1,
                 quickRotationFactor := 1, ig := some 0, igIndex := 0, nextMean := 1 },
               { model := 0, row := 0, numObsCache := 1, rampartScale := 2,
                 quickRotationFactor := 1, ig := some 0, igIndex := 1, nextMean := 1 }],
    layoutSetup := [{ numKids := 1, numJoins := 0, parent1 := none, fk1 := none,
                      clumped := false, clump := [], heterogenousMean := false,
                      skipMean := none, rset := none },
                    { numKids := 0, numJoins := 1, parent1 := some 0, fk1 := some 0,
                      clumped := false, clump := [], heterogenousMean := false,
                      skipMean := none, rset := none }],
    rowToLayoutMap := fun k => if k = (1, 0) then some 0 else if k = (0, 0) then some 1 else none,
    allEx := [0, 1], errorRaised := false, group := [joinGroup] }

/-- No paths inside a unit, and the between matrix of the child with the
single entry 5; the mean of a family is 10 and the mean of a child is 3. -/
def joinMatrices : PathMatrices ℚ :=
  { matA := fun _ _ _ _ => 0, matBetween := fun _ _ _ _ _ => 5,
    matS := fun _ _ _ _ => 1, matM := fun e _ _ => if e = 1 then 10 else 3,
    matZ := fun _ _ _ _ => 1 }

section Cache
variable {α : Type} [LinearOrderedField α]

/-- The part of `omxRAMExpectation` that `flatten` and `invalidateCache` touch:
the expectation as the planner reads it, and the plan `rram`; `none` is the
null pointer.  A plan is the state that `state::init` built, or the error that
`init` threw: the object that `flatten` allocated then stays in `rram`. -/
structure omxRAMExpectation (α : Type) where
  model : Model α
  rram : Option (Except Error (State α))

/-- `omxRAMExpectation::flatten` (source lines 24-29); `state::init` is
`planInit`. -/
def omxRAMExpectation.flatten (sqrt : α → α) (budget : Nat) (e : omxRAMExpectation α) :
    omxRAMExpectation α :=
  match e.rram with
  | some _ => e
  | none => { e with rram := some (planInit e.model sqrt budget) }

/-- `omxRAMExpectation::invalidateCache` (source lines 55-61). -/
def omxRAMExpectation.invalidateCache (e : omxRAMExpectation α) : omxRAMExpectation α :=
  match e.rram with
  | some _ => { e with rram := none }
  | none => e

end Cache

/-- What `omxInitWLSFitFunction` reads: whether the type of the data is "acov"
or "cov", whether the expected means, the observed means and the expected
thresholds are present, the array of observed thresholds (`none` is the null
pointer) as the `numThresholds` of its columns, `omxDataNumFactor`, the number
of columns of the observed covariance, and the rows and columns of the weight
matrix (`none` is the null pointer). -/
structure WLSInput where
  dataTypeOk : Bool
  expectedMeans : Bool
  observedMeans : Bool
  expectedThresholds : Bool
  observedThresholds : Option (List Nat)
  numFactor : Nat
  observedCovCols : Nat
  weights : Option (Nat × Nat)
  deriving DecidableEq

/-- How `omxInitWLSFitFunction` ends: with one of its errors, or with the
fit function set up for vectors of length `vectorSize`. -/
inductive WLSOutcome where
  | unsupportedDataType
  | observedMeansMissing
  | expectedMeansMissing
  | observedThresholdsMissing
  | expectedThresholdsMissing
  | incorrectlySizedWeights
  | ready (vectorSize : Nat)
  deriving DecidableEq

/-- The value of `vectorSize` computed by `omxInitWLSFitFunction` (source lines
270-279). -/
def wlsVectorSize (inp : WLSInput) : Nat :=
  let ncol := inp.observedCovCols
  let v0 := (ncol * (ncol + 1)) / 2
  let v1 := if inp.expectedMeans then v0 + ncol else v0
  match inp.observedThresholds with
  | none => v1
  | some thr => (List.range inp.numFactor).foldl (fun v i => v + thr.getD i 0) v1

/-- `omxInitWLSFitFunction` (source lines 193-303) as far as its checks go. -/
def omxInitWLSFitFunction (inp : WLSInput) : WLSOutcome :=
  if !inp.dataTypeOk then .unsupportedDataType
  else if inp.expectedMeans != inp.observedMeans then
    (if inp.expectedMeans then .observedMeansMissing else .expectedMeansMissing)
  else if inp.expectedThresholds != inp.observedThresholds.isSome then
    (if inp.expectedThresholds then .observedThresholdsMissing
     else .expectedThresholdsMissing)
  else
    let vectorSize := wlsVectorSize inp
    match inp.weights with
    | some (rows, cols) =>
      if rows ≠ cols ∧ cols ≠ vectorSize then .incorrectlySizedWeights
      else .ready vectorSize
    | none => .ready vectorSize

/-- An observed covariance of 2 columns without means and thresholds, with a
weight matrix of 2 rows and 2 columns. -/
def squareWeights : WLSInput :=
  { dataTypeOk := true
    expectedMeans := false
    observedMeans := false
    expectedThresholds := false
    observedThresholds := none
    numFactor := 0
    observedCovCols := 2
    weights := some (2, 2) }

/-- A home data set of 2 rows (expectation 0) with two between matrices into
the data set of expectation 1, which has one row with the key 0: in both home
rows the first join key (column 0) is missing and the second (column 1) is
present. -/
def twoJoinModel : Model ℚ :=
  { homeEx := 0
    data := fun e => e
    between := fun e =>
      if e = 0 then [{ joinKey := 0, joinModel := 1 }, { joinKey := 1, joinModel := 1 }] else []
    hasM := fun _ => true
    numVars := fun _ => 1
    dataColumns := fun _ => [2]
    rows := fun d => if d = 0 then 2 else 1
    hasPrimaryKey := fun d => d == 1
    keyElement := fun d _ col => if d = 0 ∧ col = 1 then some 0 else none
    lookupRowOfKey := fun d k => if d = 1 ∧ k = 0 then some 0 else none
    doubleElement := fun d r _ => some ((10 * d + r : Nat) : ℚ)
    latentFilter := fun _ => [true] }

/-- The scenario of `twoJoinModel` after flattening. -/
def twoJoinFlat : State ℚ :=
  match flatten twoJoinModel 10 with
  | .ok (st, _) => st
  | .error _ => State.empty

section RAM
variable {α : Type} [LinearOrderedField α]

/-- Eigen's `eF.col(cx).maxCoeff(&dest)` on a column of `rows` coefficients
(`rows` is not 0): the greatest coefficient and the first row that holds it. -/
def maxCoeff (F : Nat → Nat → α) (rows cx : Nat) : α × Nat :=
  (List.range' 1 (rows - 1)).foldl
    (fun best i => if best.1 < F i cx then (F i cx, i) else best) (F 0 cx, 0)

/-- The column `newDest` of `studyF` (source line 435): `dataColumns[dest]`
when there are data columns, else `dest`. -/
def newDest (dataColumns : List Nat) (dest : Nat) : Nat :=
  if dataColumns.length ≠ 0 then dataColumns.getD dest 0 else dest

/-- The loop of `omxRAMExpectation::studyF` (source lines 428-444) over the
columns `cx` of `F`, on `latentFilter`, `dataCols` and the counter `dx`. -/
def studyFLoop (F : Nat → Nat → α) (rows : Nat) (dataColumns : List Nat) :
    List Nat → List Bool × List Nat × Nat → List Bool × List Nat × Nat
  | [], acc => acc
  | cx :: rest, (latentFilter, dataCols, dx) =>
    if (maxCoeff F rows cx).1 ≠ 0 then
      studyFLoop F rows dataColumns rest
        (latentFilter.set cx true,
          dataCols.set dx (newDest dataColumns (maxCoeff F rows cx).2), dx + 1)
    else studyFLoop F rows dataColumns rest (latentFilter.set cx false, dataCols, dx)

/-- `omxRAMExpectation::studyF` (source lines 419-445) for a filter matrix `F`
of `rows` rows and `cols` columns: the vectors `latentFilter` and `dataCols`
(in the source `latentFilter[cx]` is `true` for a manifest variable). -/
def studyF (F : Nat → Nat → α) (rows cols : Nat) (dataColumns : List Nat) :
    List Bool × List Nat :=
  if rows = 0 then (List.replicate cols false, [])
  else
    ((studyFLoop F rows dataColumns (List.range cols)
        (List.replicate cols false, List.replicate rows 0, 0)).1,
      (studyFLoop F rows dataColumns (List.range cols)
        (List.replicate cols false, List.replicate rows 0, 0)).2.1)

/-- The product of two matrices with `inner` the number of columns of the
first. -/
def matMul (A B : Nat → Nat → α) (inner : Nat) : Nat → Nat → α :=
  fun i j => ((List.range inner).map (fun l => A i l * B l j)).sum

/-- The transposed matrix. -/
def matTranspose (A : Nat → Nat → α) : Nat → Nat → α := fun i j => A j i

/-- Modelled from the spec: `omxDGEMM(transA, transB, alpha, A, B, beta, C)` is
the general matrix product of BLAS, `C = alpha * op(A) * op(B) + beta * C`;
`inner` is the number of columns of `op(A)`.  Its code is not part of the
sources at hand. -/
def omxDGEMM (transA transB : Bool) (alpha : α) (A B : Nat → Nat → α) (inner : Nat)
    (beta : α) (C : Nat → Nat → α) : Nat → Nat → α :=
  fun i j =>
    alpha * matMul (if transA then matTranspose A else A)
      (if transB then matTranspose B else B) inner i j + beta * C i j

/-- Modelled from the spec: `omxDGEMV(transA, alpha, A, x, beta, y)` is the
matrix-vector product of BLAS, `y = alpha * op(A) * x + beta * y`.  Its code is
not part of the sources at hand. -/
def omxDGEMV (transA : Bool) (alpha : α) (A : Nat → Nat → α) (x : Nat → α) (inner : Nat)
    (beta : α) (y : Nat → α) : Nat → α :=
  fun i => alpha * matVec (if transA then matTranspose A else A) inner x i + beta * y i

/-- The loop of `CalculateRAMCovarianceAndMeans` that copies the rows of `Z`
of the manifest variables to `Y` (source lines 185-189), over the rows `rx`,
on `Y` and the counter `dx`. -/
def fillY (Z : Nat → Nat → α) (latentFilter : List Bool) :
    List Nat → (Nat → Nat → α) × Nat → (Nat → Nat → α) × Nat
  | [], acc => acc
  | rx :: rest, (Y, dx) =>
    if latentFilter.getD rx false then
      fillY Z latentFilter rest (fun r c => if r = dx then Z rx c else Y r c, dx + 1)
    else fillY Z latentFilter rest (Y, dx)

/-- The matrices of an `omxRAMExpectation` that
`CalculateRAMCovarianceAndMeans` reads and writes: `rows` is `F->rows`,
`numVars` the dimension of `A`, `matZ` the matrix that `getZ` returns; `none`
is a null pointer. -/
structure RAMMatrices (α : Type) where
  rows : Nat
  numVars : Nat
  latentFilter : List Bool
  matZ : Nat → Nat → α
  matS : Nat → Nat → α
  matM : Option (Nat → α)
  slope : Option (Nat → Nat → α)
  numExoPred : Nat
  exoPredMean : Nat → α
  matY : Nat → Nat → α
  matX : Nat → Nat → α
  cov : Option (Nat → Nat → α)
  means : Option (Nat → α)

/-- `omxRAMExpectation::CalculateRAMCovarianceAndMeans` (source lines 163-209)
with the work matrices allocated.  The result is `none` where the source hands
the null pointer `cov` to `omxDGEMM`. -/
def CalculateRAMCovarianceAndMeans (e : RAMMatrices α) : Option (RAMMatrices α) :=
  if e.rows = 0 then some e
  else if e.cov.isNone ∧ e.means.isNone then some e
  else
    match e.cov with
    | none => none
    | some cov0 =>
      some { e with
        matY := (fillY e.matZ e.latentFilter (List.range e.numVars) (e.matY, 0)).1
        matX := omxDGEMM false false 1
          (fillY e.matZ e.latentFilter (List.range e.numVars) (e.matY, 0)).1 e.matS
          e.numVars 0 e.matX
        cov := some (omxDGEMM false true 1
          (omxDGEMM false false 1
            (fillY e.matZ e.latentFilter (List.range e.numVars) (e.matY, 0)).1 e.matS
            e.numVars 0 e.matX)
          (fillY e.matZ e.latentFilter (List.range e.numVars) (e.matY, 0)).1 e.numVars 0 cov0)
        means :=
          match e.matM, e.means with
          | some vecM, some means0 =>
            match e.slope with
            | some sl =>
              some (fun i =>
                omxDGEMV false 1
                  (fillY e.matZ e.latentFilter (List.range e.numVars) (e.matY, 0)).1 vecM
                  e.numVars 0 means0 i + matVec sl e.numExoPred e.exoPredMean i)
            | none =>
              some (omxDGEMV false 1
                (fillY e.matZ e.latentFilter (List.range e.numVars) (e.matY, 0)).1 vecM
                e.numVars 0 means0)
          | _, _ => e.means }

/-- The covariance `F * Z * S * Z^T * F^T` of the documentation of
`CalculateRAMCovarianceAndMeans`, for `numVars` model variables. -/
def ramCovariance (F Z S : Nat → Nat → α) (numVars : Nat) : Nat → Nat → α :=
  matMul (matMul (matMul (matMul F Z numVars) S numVars) (matTranspose Z) numVars)
    (matTranspose F) numVars

/-- The means `F * Z * M` of the documentation of
`CalculateRAMCovarianceAndMeans`. -/
def ramMeans (F Z : Nat → Nat → α) (vecM : Nat → α) (numVars : Nat) : Nat → α :=
  matVec (matMul F Z numVars) numVars vecM

end RAM

/-- A filter matrix for two manifest variables whose row 0 selects variable 1
and whose row 1 selects variable 0. -/
def swapF : Nat → Nat → ℚ :=
  fun i j => if (i = 0 ∧ j = 1) ∨ (i = 1 ∧ j = 0) then 1 else 0

/-- An expectation with the filter matrix `swapF`, `Z` the identity, the
residual variances 1 and 2, and the means 5 and 7. -/
def swapRAM : RAMMatrices ℚ :=
  { rows := 2, numVars := 2, latentFilter := (studyF swapF 2 2 [7, 9]).1,
    matZ := fun i j => if i = j then 1 else 0,
    matS := fun i j => if i = j then (if i = 0 then 1 else 2) else 0,
    matM := some (fun i => if i = 0 then 5 else 7),
    slope := none, numExoPred := 0, exoPredMean := fun _ => 0,
    matY := fun _ _ => 0, matX := fun _ _ => 0,
    cov := some (fun _ _ => 0), means := some (fun _ => 0) }

section Simulate
variable {α : Type} [LinearOrderedField α]

/-- The view `fullS.selfadjointView<Eigen::Lower>()`: the symmetric matrix
with the lower triangle of `fullS`. -/
def selfadjointLower (S : Nat → Nat → α) : Nat → Nat → α :=
  fun i j => if j ≤ i then S i j else S j i

/-- `independentGroup::computeCov2` (source lines 1857-1875): `iaf` is the
matrix `asymT.IAF` that `asymT.invert()` and `asymT.filter()` leave, of `inner`
rows; the result is `fullCov`. -/
def computeCov2 (iaf : Nat → Nat → α) (inner : Nat) (fullS : Nat → Nat → α) : Nat → Nat → α :=
  matMul (matMul (matTranspose iaf) (selfadjointLower fullS) inner) iaf inner

/-- What `simulate` reads of `SimpCholesky<Eigen::MatrixXd>` after `compute`:
whether `info()` is `Eigen::Success`, the pivots `vectorD()`, the factor
`matrixU()` and the permutation `transpositionsP()` as a matrix. -/
structure Decomposition (α : Type) where
  success : Bool
  vectorD : List α
  matrixU : Nat → Nat → α
  transpositionsP : Nat → Nat → α

/-- What `simulate` writes: the vector `simDataVec`, whether an error has been
raised with `omxRaiseErrorf`, and the number of calls of `Rf_rnorm` so far. -/
structure SimState (α : Type) where
  simDataVec : List α
  errorRaised : Bool
  draws : Nat

/-- One pass of the loop over the clumps of `simulate` (source lines
1902-1907) for clump `cx`: `clumpObs` draws `sim1`, then
`simDataVec.segment(cx*clumpObs, clumpObs) += sim1.transpose() * res`;
`rnorm k` is the value of call number `k` of `Rf_rnorm`. -/
def simulateClump (rnorm : Nat → α) (clumpObs : Nat) (res : Nat → Nat → α)
    (s : SimState α) (cx : Nat) : SimState α :=
  { simDataVec := s.simDataVec.enum.map (fun ix =>
      if cx * clumpObs ≤ ix.1 ∧ ix.1 < cx * clumpObs + clumpObs then
        ix.2 + ((List.range clumpObs).map (fun ob =>
          rnorm (s.draws + ob) * res ob (ix.1 - cx * clumpObs))).sum
      else ix.2),
    errorRaised := s.errorRaised,
    draws := s.draws + clumpObs }

/-- `independentGroup::simulate` (source lines 1877-1908): `compute` is
`SimpCholesky::compute`, `dim` the dimension of `fullCov`. -/
def simulate (sqrt : α → α) (compute : (Nat → Nat → α) → Decomposition α) (rnorm : Nat → α)
    (ig : IndependentGroup α) (expectedVec : List α) (fullCov : Nat → Nat → α) (dim : Nat)
    (s : SimState α) : SimState α :=
  if ig.dataVec.length = 0 then s
  else if (compute fullCov).success = false ∨
      ¬ ((compute fullCov).vectorD.all (fun x => decide (0 < x)) = true) then
    { simDataVec := expectedVec, errorRaised := true, draws := s.draws }
  else
    (List.range (ig.placements.length / ig.clumpSize)).foldl
      (simulateClump rnorm ig.clumpObs (fun i j =>
        sqrt ((compute fullCov).vectorD.getD i 0) *
          matMul (compute fullCov).matrixU
            (matMul (compute fullCov).transpositionsP (fun a b => if a = b then 1 else 0) dim)
            dim i j))
      { simDataVec := expectedVec, errorRaised := s.errorRaised, draws := s.draws }

end Simulate

/-- A group with one observation. -/
def oneObsGroup : IndependentGroup ℝ :=
  { clumpSize := 1, placements := [{ modelStart := 0, obsStart := 0 }], gMap := [0],
    sufficientSets := [], clumpVars := 1, clumpObs := 1, dataVec := [0],
    latentFilter := [true], rowToPlacementMap := fun _ => none }

/-- A decomposition of a matrix of dimension 1: the one pivot is the one
entry, the factors are the identity. -/
def pivotOnly (cov : Nat → Nat → ℝ) : Decomposition ℝ :=
  { success := true, vectorD := [cov 0 0], matrixU := fun a b => if a = b then 1 else 0,
    transpositionsP := fun a b => if a = b then 1 else 0 }

/-- The family and child scenario without Rampart rotation after `flatten`:
a state that has its layout and no group yet. -/
def plainFlat : State ℚ :=
  match flatten (familyModel false) 10 with
  | .ok (st, _) => st
  | .error _ => State.empty

end RelationalRAMExpectation

namespace RelationalRAMExpectation

section RotationTheory

set_option linter.unusedSectionVars false

variable {α : Type} [Field α]

theorem foldl_add_eq_sum (f : Nat → α) (l : List Nat) (s : α) :
    l.foldl (fun s u => s + f u) s = s + (l.map f).sum := by
  induction l generalizing s with
  | nil => simp
  | cons a l ih => simp [ih, add_assoc]

theorem accessor_set_same (acc : Accessor α) (u o : Nat) (x : α) :
    acc.set u o x u o = x := by
  simp [Accessor.set]

theorem accessor_set_other (acc : Accessor α) (u o u' o' : Nat) (x : α)
    (h : ¬ (u' = u ∧ o' = o)) : acc.set u o x u' o' = acc u' o' := by
  simp [Accessor.set, h]

/-- The inner loop of `applyRotationPlan` from iteration `i` on. -/
theorem applyStep_fold (sqrt : α → α) (units : List Nat) (ox : Nat) (acc : Accessor α)
    (hnd : units.Nodup) :
    ∀ (m i : Nat) (st : ApplyLoop α), i + m = units.length → 1 ≤ i →
      st.partialSum = ((units.drop (i - 1)).map (fun u => acc u ox)).sum →
      st.prev = acc (units.getD (i - 1) 0) ox →
      (∀ j, i ≤ j → j < units.length → st.acc (units.getD j 0) ox = acc (units.getD j 0) ox) →
      (∀ u o, (∀ j, i ≤ j → j < units.length → ¬ (u = units.getD j 0 ∧ o = ox)) →
        ((List.range' i m).foldl (applyStep sqrt units ox) st).acc u o = st.acc u o) ∧
      (∀ j, i ≤ j → j < units.length →
        ((List.range' i m).foldl (applyStep sqrt units ox) st).acc (units.getD j 0) ox =
          ((units.drop j).map (fun u => acc u ox)).sum *
              sqrt (1 / (((units.length - j : Nat) : α) * (((units.length - j : Nat) : α) + 1))) -
            sqrt (((units.length - j : Nat) : α) / (((units.length - j : Nat) : α) + 1)) *
              acc (units.getD (j - 1) 0) ox) := by
  intro m
  induction m with
  | zero =>
    intro i st him _ _ _ _
    refine ⟨fun u o _ => by simp, fun j hij hj => by omega⟩
  | succ m ih =>
    intro i st him hi hps hprev hacc
    have hilt : i < units.length := by omega
    have hdrop : units.drop (i - 1) = units.getD (i - 1) 0 :: units.drop i := by
      have h1 : i - 1 < units.length := by omega
      have := List.drop_eq_getElem_cons h1
      rw [this]
      have h2 : i - 1 + 1 = i := by omega
      rw [h2, List.getD_eq_getElem _ _ h1]
    have hne : ∀ j, i + 1 ≤ j → j < units.length → units.getD j 0 ≠ units.getD i 0 := by
      intro j hj hjl heq
      rw [List.getD_eq_getElem _ _ hjl, List.getD_eq_getElem _ _ hilt] at heq
      have := (List.Nodup.getElem_inj_iff hnd).1 heq
      omega
    have hps' : (applyStep sqrt units ox st i).partialSum =
        ((units.drop (i + 1 - 1)).map (fun u => acc u ox)).sum := by
      simp only [applyStep, hps, hprev, hdrop, Nat.add_sub_cancel]
      simp
    have hprev' : (applyStep sqrt units ox st i).prev = acc (units.getD (i + 1 - 1) 0) ox := by
      simp only [applyStep, Nat.add_sub_cancel]
      exact hacc i (le_refl _) hilt
    have hacc' : ∀ j, i + 1 ≤ j → j < units.length →
        (applyStep sqrt units ox st i).acc (units.getD j 0) ox = acc (units.getD j 0) ox := by
      intro j hj hjl
      simp only [applyStep]
      rw [accessor_set_other _ _ _ _ _ _ (fun h => hne j hj hjl h.1)]
      exact hacc j (by omega) hjl
    obtain ⟨hframe, hval⟩ := ih (i + 1) (applyStep sqrt units ox st i) (by omega) (by omega)
      hps' hprev' hacc'
    have hfold : (List.range' i (m + 1)).foldl (applyStep sqrt units ox) st =
        (List.range' (i + 1) m).foldl (applyStep sqrt units ox) (applyStep sqrt units ox st i) := by
      simp [List.range']
    rw [hfold]
    constructor
    · intro u o h
      rw [hframe u o (fun j hj hjl => h j (by omega) hjl)]
      simp only [applyStep]
      exact accessor_set_other _ _ _ _ _ _ (h i (le_refl _) hilt)
    · intro j hij hjl
      rcases Nat.eq_or_lt_of_le hij with heq | hlt
      · subst heq
        rw [hframe _ _ (fun j hj hjl h => hne j hj hjl h.1.symm)]
        simp only [applyStep]
        rw [accessor_set_same, hps, hprev, hdrop]
        simp
      · exact hval j hlt hjl

/-- The values left by the body of the `ox` loop of `applyRotationPlan` for one
plan entry of distinct units: nothing outside the cells `(units[j], ox)` is
changed, the first unit holds the sum divided by `sqrt n`, and unit `j ≥ 1`
holds the scaled sum of the values from `j` on minus the scaled value of unit
`j - 1`. -/
theorem applyObs_spec (sqrt : α → α) (units : List Nat) (ox : Nat) (acc : Accessor α)
    (hnd : units.Nodup) (hn : 1 ≤ units.length) :
    (∀ u o, (∀ j, j < units.length → ¬ (u = units.getD j 0 ∧ o = ox)) →
        applyObs sqrt units acc ox u o = acc u o) ∧
    applyObs sqrt units acc ox (units.getD 0 0) ox =
      (units.map (fun u => acc u ox)).sum / sqrt (units.length : α) ∧
    (∀ j, 1 ≤ j → j < units.length →
      applyObs sqrt units acc ox (units.getD j 0) ox =
        ((units.drop j).map (fun u => acc u ox)).sum *
            sqrt (1 / (((units.length - j : Nat) : α) * (((units.length - j : Nat) : α) + 1))) -
          sqrt (((units.length - j : Nat) : α) / (((units.length - j : Nat) : α) + 1)) *
            acc (units.getD (j - 1) 0) ox) := by
  have hsum : units.foldl (fun s u => s + acc u ox) 0 = (units.map (fun u => acc u ox)).sum := by
    rw [foldl_add_eq_sum (fun u => acc u ox) units 0, zero_add]
  have hne : ∀ j, 1 ≤ j → j < units.length → units.getD j 0 ≠ units.getD 0 0 := by
    intro j hj hjl heq
    rw [List.getD_eq_getElem _ _ hjl, List.getD_eq_getElem _ _ (by omega : 0 < units.length)] at heq
    have := (List.Nodup.getElem_inj_iff hnd).1 heq
    omega
  obtain ⟨hframe, hval⟩ := applyStep_fold sqrt units ox acc hnd (units.length - 1) 1
    { acc := acc.set (units.getD 0 0) ox
        (units.foldl (fun s u => s + acc u ox) 0 / sqrt (units.length : α)),
      partialSum := units.foldl (fun s u => s + acc u ox) 0,
      prev := acc (units.getD 0 0) ox }
    (by omega) (le_refl _) (by simpa using hsum) (by simp)
    (fun j hj hjl => accessor_set_other _ _ _ _ _ _ (fun h => hne j hj hjl h.1))
  refine ⟨?_, ?_, ?_⟩
  · intro u o h
    show ((List.range' 1 (units.length - 1)).foldl (applyStep sqrt units ox) _).acc u o = _
    rw [hframe u o (fun j _ hjl => h j hjl)]
    show Accessor.set _ _ _ _ _ _ = _
    exact accessor_set_other _ _ _ _ _ _ (h 0 (by omega))
  · show ((List.range' 1 (units.length - 1)).foldl (applyStep sqrt units ox) _).acc _ _ = _
    rw [hframe _ _ (fun j hj hjl h => hne j hj hjl h.1.symm)]
    show Accessor.set _ _ _ _ _ _ = _
    rw [accessor_set_same, hsum]
  · intro j hj hjl
    exact hval j hj hjl

/-- The body of the `ox` loop changes no cell of another observation index. -/
theorem applyObs_other_obs (sqrt : α → α) (units : List Nat) (ox : Nat) (acc : Accessor α)
    (hnd : units.Nodup) (hn : 1 ≤ units.length) (u o : Nat) (ho : o ≠ ox) :
    applyObs sqrt units acc ox u o = acc u o :=
  (applyObs_spec sqrt units ox acc hnd hn).1 u o (fun _ _ h => ho h.2)

/-- The values left at observation index `ox` depend only on the values held
at observation index `ox`. -/
theorem applyObs_congr (sqrt : α → α) (units : List Nat) (ox : Nat) (acc acc' : Accessor α)
    (hnd : units.Nodup) (hn : 1 ≤ units.length) (h : ∀ u, acc u ox = acc' u ox) (u : Nat) :
    applyObs sqrt units acc ox u ox = applyObs sqrt units acc' ox u ox := by
  obtain ⟨hf, h0, hj⟩ := applyObs_spec sqrt units ox acc hnd hn
  obtain ⟨hf', h0', hj'⟩ := applyObs_spec sqrt units ox acc' hnd hn
  have hfun : (fun u => acc u ox) = (fun u => acc' u ox) := funext h
  by_cases hu : ∃ j, j < units.length ∧ u = units.getD j 0
  · obtain ⟨j, hjl, rfl⟩ := hu
    rcases Nat.eq_zero_or_pos j with rfl | hpos
    · rw [h0, h0', hfun]
    · rw [hj j hpos hjl, hj' j hpos hjl, hfun, h]
  · have hno : ∀ j, j < units.length → ¬ (u = units.getD j 0 ∧ ox = ox) :=
      fun j hjl hh => hu ⟨j, hjl, hh.1⟩
    rw [hf u ox hno, hf' u ox hno, h]

/-- The loop over the observation indices of one plan entry: each index is
rotated from the values the units held at that index. -/
theorem applyObs_foldl (sqrt : α → α) (units : List Nat)
    (hnd : units.Nodup) (hn : 1 ≤ units.length) :
    ∀ (l : List Nat) (acc : Accessor α), l.Nodup → ∀ u o,
      (l.foldl (applyObs sqrt units) acc) u o =
        if o ∈ l then applyObs sqrt units acc o u o else acc u o := by
  intro l
  induction l with
  | nil => intro acc _ u o; simp
  | cons ox rest ih =>
    intro acc hl u o
    have hl' := List.nodup_cons.1 hl
    rw [List.foldl_cons, ih _ hl'.2]
    by_cases hor : o ∈ rest
    · have hne : o ≠ ox := fun h => hl'.1 (h ▸ hor)
      rw [if_pos hor, if_pos (List.mem_cons_of_mem _ hor)]
      exact applyObs_congr sqrt units o _ _ hnd hn
        (fun u' => applyObs_other_obs sqrt units ox acc hnd hn u' o hne) u
    · rw [if_neg hor]
      by_cases hox : o = ox
      · subst hox; simp
      · rw [if_neg (by simp [hox, hor])]
        exact applyObs_other_obs sqrt units ox acc hnd hn u o hox

/-- For a plan of one entry `applyRotationPlan` leaves, at every observation
index of the specimen, the values of the body of its `ox` loop. -/
theorem applyRotationPlan_single (sqrt : α → α) (numObs : Nat → Nat) (units : List Nat)
    (acc : Accessor α) (hnd : units.Nodup) (hn : 1 ≤ units.length) (u ox : Nat)
    (hox : ox < numObs (units.getD 0 0)) :
    applyRotationPlan sqrt numObs [units] acc u ox = applyObs sqrt units acc ox u ox := by
  simp only [applyRotationPlan, List.foldl_cons, List.foldl_nil, applyEntry]
  rw [applyObs_foldl sqrt units hnd hn _ acc (List.nodup_range _) u ox,
    if_pos (List.mem_range.2 hox)]

theorem helmertTail_length (sqrt : α → α) : ∀ v : List α,
    (helmertTail sqrt v).length = v.length - 1
  | [] => rfl
  | [_] => rfl
  | x :: y :: rest => by
    simp [helmertTail, helmertTail_length sqrt (y :: rest)]

theorem helmertTail_getElem? (sqrt : α → α) : ∀ (v : List α) (j : Nat), j + 1 < v.length →
    (helmertTail sqrt v)[j]? = some
      ((v.drop (j + 1)).sum *
          sqrt (1 / (((v.length - (j + 1) : Nat) : α) * (((v.length - (j + 1) : Nat) : α) + 1))) -
        sqrt (((v.length - (j + 1) : Nat) : α) / (((v.length - (j + 1) : Nat) : α) + 1)) *
          v.getD j 0)
  | [], j, h => by simp at h
  | [_], j, h => by simp at h
  | x :: y :: rest, 0, _ => by
    simp [helmertTail]
  | x :: y :: rest, j + 1, h => by
    have h' : j + 1 < (y :: rest).length := by simpa using h
    have := helmertTail_getElem? sqrt (y :: rest) j h'
    simp only [helmertTail, List.getElem?_cons_succ, this]
    simp

/-- The values left at observation index `ox` in the units of a plan entry of
distinct units, in the order of the entry, are the rotation of the values they
held. -/
theorem applyObs_map_eq_helmert (sqrt : α → α) (units : List Nat) (ox : Nat)
    (acc : Accessor α) (hnd : units.Nodup) (hn : 1 ≤ units.length) :
    units.map (fun u => applyObs sqrt units acc ox u ox) =
      helmert sqrt (units.map (fun u => acc u ox)) := by
  obtain ⟨_, h0, hj⟩ := applyObs_spec sqrt units ox acc hnd hn
  have hlen : (helmert sqrt (units.map (fun u => acc u ox))).length = units.length := by
    cases units with
    | nil => simp at hn
    | cons a l => simp [helmert, helmertTail_length]
  apply List.ext_getElem?
  intro j
  by_cases hjl : j < units.length
  · rw [List.getElem?_map, List.getElem?_eq_getElem hjl, Option.map_some']
    have hget : units[j] = units.getD j 0 := (List.getD_eq_getElem _ _ hjl).symm
    rw [hget]
    cases units with
    | nil => simp at hn
    | cons a l =>
      cases j with
      | zero =>
        have := h0
        simp only [List.getD_cons_zero] at this ⊢
        rw [this]
        simp [helmert]
      | succ j =>
        have hjl' : j + 1 < ((a :: l).map (fun u => acc u ox)).length := by simpa using hjl
        have := helmertTail_getElem? sqrt ((a :: l).map (fun u => acc u ox)) j hjl'
        have hh : helmert sqrt ((a :: l).map (fun u => acc u ox)) =
            (((a :: l).map (fun u => acc u ox)).sum /
                sqrt ((((a :: l).map (fun u => acc u ox)).length : Nat) : α)) ::
              helmertTail sqrt ((a :: l).map (fun u => acc u ox)) := rfl
        rw [hj (j + 1) (by omega) hjl, hh, List.getElem?_cons_succ, this]
        have hg : ((a :: l).map (fun u => acc u ox)).getD j 0 = acc ((a :: l).getD (j + 1 - 1) 0) ox := by
          have hj2 : j < (a :: l).length := by omega
          rw [List.getD_eq_getElem _ _ (by simpa using hj2), List.getD_eq_getElem _ _ (by simpa using hj2)]
          exact List.getElem_map (fun u => acc u ox)
        rw [hg, List.length_map, List.map_drop]
  · rw [List.getElem?_eq_none (by simpa using hjl), List.getElem?_eq_none (by rw [hlen]; omega)]

/-- The squares of the rows `1 .. n-1` of the rotation and the square of the
scaled sum add up to the squares of the values. -/
theorem helmertTail_sq_sum : ∀ v : List ℝ, v ≠ [] →
    ((helmertTail Real.sqrt v).map (fun x => x ^ 2)).sum + v.sum ^ 2 / (v.length : ℝ) =
      (v.map (fun x => x ^ 2)).sum
  | [], h => absurd rfl h
  | [x], _ => by simp [helmertTail]
  | x :: y :: rest, _ => by
    have ih := helmertTail_sq_sum (y :: rest) (by simp)
    have hk : (0 : ℝ) < (((y :: rest).length : Nat) : ℝ) := by
      simp only [List.length_cons, Nat.cast_add, Nat.cast_one]
      positivity
    generalize hkk : (((y :: rest).length : Nat) : ℝ) = k at ih hk
    generalize hs : (y :: rest).sum = s at ih
    have ha : Real.sqrt (1 / (k * (k + 1))) ^ 2 = 1 / (k * (k + 1)) :=
      Real.sq_sqrt (by positivity)
    have hb : Real.sqrt (k / (k + 1)) ^ 2 = k / (k + 1) := Real.sq_sqrt (by positivity)
    have hab : Real.sqrt (1 / (k * (k + 1))) * Real.sqrt (k / (k + 1)) = 1 / (k + 1) := by
      rw [← Real.sqrt_mul (by positivity)]
      have : 1 / (k * (k + 1)) * (k / (k + 1)) = (1 / (k + 1)) ^ 2 := by
        field_simp
        ring
      rw [this, Real.sqrt_sq (by positivity)]
    have hlen : (((x :: y :: rest).length : Nat) : ℝ) = k + 1 := by
      rw [← hkk]
      simp
    have hsum : (x :: y :: rest).sum = x + s := by
      rw [← hs]
      simp
    have hhead : helmertTail Real.sqrt (x :: y :: rest) =
        (s * Real.sqrt (1 / (k * (k + 1))) - Real.sqrt (k / (k + 1)) * x) ::
          helmertTail Real.sqrt (y :: rest) := by
      simp only [helmertTail, hkk, hs]
    rw [hhead, hlen, hsum, List.map_cons, List.sum_cons, List.map_cons, List.sum_cons, ← ih]
    have hsq : (s * Real.sqrt (1 / (k * (k + 1))) - Real.sqrt (k / (k + 1)) * x) ^ 2 =
        s ^ 2 * Real.sqrt (1 / (k * (k + 1))) ^ 2 -
          2 * s * x * (Real.sqrt (1 / (k * (k + 1))) * Real.sqrt (k / (k + 1))) +
          Real.sqrt (k / (k + 1)) ^ 2 * x ^ 2 := by ring
    rw [hsq, ha, hb, hab]
    have hk1 : k ≠ 0 := ne_of_gt hk
    have hk2 : k + 1 ≠ 0 := by positivity
    field_simp
    ring

/-- The rotation keeps the sum of squares. -/
theorem helmert_sq_sum (v : List ℝ) :
    ((helmert Real.sqrt v).map (fun x => x ^ 2)).sum = (v.map (fun x => x ^ 2)).sum := by
  cases v with
  | nil => simp [helmert]
  | cons a l =>
    have h := helmertTail_sq_sum (a :: l) (by simp)
    have hn : (0 : ℝ) ≤ (((a :: l).length : Nat) : ℝ) := by positivity
    simp only [helmert, List.map_cons, List.sum_cons] at h ⊢
    rw [← h, div_pow, Real.sq_sqrt hn]
    ring

/-- The rows `1 .. n-1` of the rotation of `n` equal values are zero. -/
theorem helmertTail_replicate (mu : ℝ) : ∀ n : Nat, ∀ x ∈ helmertTail Real.sqrt (List.replicate n mu),
    x = 0
  | 0, x, h => by simp [helmertTail] at h
  | 1, x, h => by simp [helmertTail] at h
  | n + 2, x, h => by
    have hk : (0 : ℝ) < ((n + 1 : Nat) : ℝ) := by positivity
    have hrep : List.replicate (n + 2) mu = mu :: mu :: List.replicate n mu := rfl
    rw [hrep] at h
    simp only [helmertTail, List.mem_cons] at h
    rcases h with h | h
    · rw [h]
      have hlen : ((mu :: List.replicate n mu).length : ℝ) = ((n + 1 : Nat) : ℝ) := by simp
      have hsum : (mu :: List.replicate n mu).sum = ((n + 1 : Nat) : ℝ) * mu := by
        simp [List.sum_replicate]
        ring
      rw [hlen, hsum]
      generalize ((n + 1 : Nat) : ℝ) = k at hk
      have h1 : Real.sqrt (1 / (k * (k + 1))) = 1 / (Real.sqrt k * Real.sqrt (k + 1)) := by
        rw [Real.sqrt_div (by norm_num), Real.sqrt_one, Real.sqrt_mul (le_of_lt hk)]
      have h2 : Real.sqrt (k / (k + 1)) = Real.sqrt k / Real.sqrt (k + 1) :=
        Real.sqrt_div (le_of_lt hk) _
      have h3 : Real.sqrt k * Real.sqrt k = k := Real.mul_self_sqrt (le_of_lt hk)
      have h4 : Real.sqrt k ≠ 0 := by positivity
      have h5 : Real.sqrt (k + 1) ≠ 0 := by positivity
      rw [h1, h2]
      field_simp
      nth_rewrite 1 [← h3]
      ring
    · exact helmertTail_replicate mu (n + 1) x h

end RotationTheory

section FlattenTheory

set_option linter.unusedSectionVars false

variable {α : Type} [Field α]

/-- A loop invariant indexed by the processed prefix holds at the end of a
`foldlM` in `Except` that returns. -/
theorem foldlM_ok_mem {β γ ε : Type} (f : β → γ → Except ε β)
    (I : List γ → β → Prop) (l0 : List γ)
    (hstep : ∀ pre b c b', c ∈ l0 → I pre b → f b c = .ok b' → I (pre ++ [c]) b') :
    ∀ (l pre : List γ) (b b' : β), (∀ c ∈ l, c ∈ l0) → I pre b →
      l.foldlM f b = .ok b' → I (pre ++ l) b' := by
  intro l
  induction l with
  | nil =>
    intro pre b b' _ hI h
    simp [List.foldlM, pure, Except.pure] at h
    subst h
    simpa using hI
  | cons c l ih =>
    intro pre b b' hsub hI h
    rw [List.foldlM_cons] at h
    cases hf : f b c with
    | error err => rw [hf] at h; simp [bind, Except.bind] at h
    | ok b1 =>
      rw [hf] at h
      simp only [bind, Except.bind] at h
      have := ih (pre ++ [c]) b1 b' (fun c' hc' => hsub c' (List.mem_cons_of_mem _ hc'))
        (hstep pre b c b1 (hsub c (List.mem_cons_self _ _)) hI hf) h
      simpa using this

/-- When a `foldlM` in `Except` fails, some step failed in a state reached
through the invariant. -/
theorem foldlM_error_mem {β γ ε : Type} (f : β → γ → Except ε β)
    (I : List γ → β → Prop) (l0 : List γ)
    (hstep : ∀ pre b c b', c ∈ l0 → I pre b → f b c = .ok b' → I (pre ++ [c]) b') :
    ∀ (l pre : List γ) (b : β) (err : ε), (∀ c ∈ l, c ∈ l0) → I pre b →
      l.foldlM f b = .error err →
      ∃ pre' b1 c, c ∈ l ∧ I pre' b1 ∧ f b1 c = .error err := by
  intro l
  induction l with
  | nil =>
    intro pre b err _ hI h
    simp [List.foldlM, pure, Except.pure] at h
  | cons c l ih =>
    intro pre b err hsub hI h
    rw [List.foldlM_cons] at h
    cases hf : f b c with
    | error err1 =>
      rw [hf] at h
      simp only [bind, Except.bind] at h
      cases h
      exact ⟨pre, b, c, by simp, hI, hf⟩
    | ok b1 =>
      rw [hf] at h
      simp only [bind, Except.bind] at h
      obtain ⟨pre', b2, c', hc', hI', hf'⟩ := ih (pre ++ [c]) b1 err
        (fun c' hc' => hsub c' (List.mem_cons_of_mem _ hc'))
        (hstep pre b c b1 (hsub c (List.mem_cons_self _ _)) hI hf) h
      exact ⟨pre', b2, c', by simp [hc'], hI', hf'⟩

theorem foldlM_ok_inv {β γ ε : Type} (f : β → γ → Except ε β)
    (I : List γ → β → Prop)
    (hstep : ∀ pre b c b', I pre b → f b c = .ok b' → I (pre ++ [c]) b') :
    ∀ (l pre : List γ) (b b' : β), I pre b → l.foldlM f b = .ok b' → I (pre ++ l) b' :=
  fun l pre b b' hI h =>
    foldlM_ok_mem f I l (fun pre b c b' _ => hstep pre b c b') l pre b b' (fun _ hc => hc) hI h

theorem foldlM_error_inv {β γ ε : Type} (f : β → γ → Except ε β)
    (I : List γ → β → Prop)
    (hstep : ∀ pre b c b', I pre b → f b c = .ok b' → I (pre ++ [c]) b') :
    ∀ (l pre : List γ) (b : β) (err : ε), I pre b → l.foldlM f b = .error err →
      ∃ pre' b1 c, c ∈ l ∧ I pre' b1 ∧ f b1 c = .error err :=
  fun l pre b err hI h =>
    foldlM_error_mem f I l (fun pre b c b' _ => hstep pre b c b') l pre b err
      (fun _ hc => hc) hI h

theorem StateExt.refl (st : State α) : StateExt st st :=
  ⟨fun h => h, ⟨[], by simp⟩, fun _ _ h => h⟩

theorem StateExt.trans {a b c : State α} (h1 : StateExt a b) (h2 : StateExt b c) :
    StateExt a c := by
  obtain ⟨n1, hn1⟩ := h1.layout_ext
  obtain ⟨n2, hn2⟩ := h2.layout_ext
  exact ⟨fun h => h2.error_mono (h1.error_mono h), ⟨n1 ++ n2, by rw [hn2, hn1, List.append_assoc]⟩,
    fun k v h => h2.map_stable k v (h1.map_stable k v h)⟩

theorem finishRow_layout (m : Model α) (e r : Nat) (jl : JoinLoop α) :
    (finishRow m e r jl).2.1.layout =
      if m.missingMeans e then jl.st.layout else jl.st.layout ++ [newAddr m e r] := by
  unfold finishRow
  by_cases hmm : m.missingMeans e = true
  · simp [hmm]
  · by_cases hpk : m.hasPrimaryKey (m.data e) = true <;> simp [hmm, hpk]

theorem finishRow_error (m : Model α) (e r : Nat) (jl : JoinLoop α) :
    (finishRow m e r jl).2.1.errorRaised = (jl.st.errorRaised || m.missingMeans e) := by
  unfold finishRow
  by_cases hmm : m.missingMeans e = true
  · simp [hmm]
  · by_cases hpk : m.hasPrimaryKey (m.data e) = true <;> simp [hmm, hpk]

theorem finishRow_map (m : Model α) (e r : Nat) (jl : JoinLoop α) :
    (finishRow m e r jl).2.1.rowToLayoutMap =
      if m.missingMeans e = false ∧ m.hasPrimaryKey (m.data e) = true then
        mapInsert jl.st.rowToLayoutMap (m.data e, r) (jl.st.layout.length : Int)
      else jl.st.rowToLayoutMap := by
  unfold finishRow
  by_cases hmm : m.missingMeans e = true
  · simp [hmm]
  · by_cases hpk : m.hasPrimaryKey (m.data e) = true <;> simp [hmm, hpk]

theorem finishRow_index (m : Model α) (e r : Nat) (jl : JoinLoop α) :
    (finishRow m e r jl).1 = if m.missingMeans e then 0 else jl.st.layout.length := by
  unfold finishRow
  by_cases hmm : m.missingMeans e = true <;> simp [hmm]

theorem beginRow_layout (m : Model α) (st : State α) (e r : Nat) :
    (beginRow m st e r).layout = st.layout := by
  unfold beginRow
  by_cases hpk : m.hasPrimaryKey (m.data e) = true <;> simp [hpk]

theorem beginRow_error (m : Model α) (st : State α) (e r : Nat) :
    (beginRow m st e r).errorRaised = st.errorRaised := by
  unfold beginRow
  by_cases hpk : m.hasPrimaryKey (m.data e) = true <;> simp [hpk]

theorem beginRow_map (m : Model α) (st : State α) (e r : Nat) :
    (beginRow m st e r).rowToLayoutMap =
      if m.hasPrimaryKey (m.data e) = true then
        mapInsert st.rowToLayoutMap (m.data e, r) (-1)
      else st.rowToLayoutMap := by
  unfold beginRow
  by_cases hpk : m.hasPrimaryKey (m.data e) = true <;> simp [hpk]

theorem memoOf_none (m : Model α) (st : State α) (e r : Nat) (h : memoOf m st e r = none) :
    m.hasPrimaryKey (m.data e) = true → st.rowToLayoutMap (m.data e, r) = none := by
  intro hpk
  simpa [memoOf, hpk] using h

theorem memoOf_some (m : Model α) (st : State α) (e r : Nat) (v : Int)
    (h : memoOf m st e r = some v) :
    m.hasPrimaryKey (m.data e) = true ∧ st.rowToLayoutMap (m.data e, r) = some v := by
  unfold memoOf at h
  by_cases hpk : m.hasPrimaryKey (m.data e) = true
  · simpa [hpk] using h
  · simp [hpk] at h

theorem beginRow_ext (m : Model α) (st : State α) (e r : Nat) (h : memoOf m st e r = none) :
    StateExt st (beginRow m st e r) := by
  refine ⟨fun he => by rw [beginRow_error]; exact he, ⟨[], by simp [beginRow_layout]⟩, ?_⟩
  intro k v hk
  rw [beginRow_map]
  by_cases hpk : m.hasPrimaryKey (m.data e) = true
  · have hnone := memoOf_none m st e r h hpk
    have hne : k ≠ (m.data e, r) := by
      intro hk'; rw [hk', hnone] at hk; cases hk
    simp [hpk, mapInsert, hne, hk]
  · simp [hpk, hk]

/-- Unfolding of `flattenOneRow` at a row that is not memoized. -/
theorem flattenOneRow_succ_none (m : Model α) (fuel e r : Nat) (st : State α) (ms : Nat)
    (h : memoOf m st e r = none) :
    flattenOneRow m (fuel + 1) e r (st, ms) =
      match (m.between e).foldlM (joinStep m (flattenOneRow m fuel) (m.data e) r)
          { st := beginRow m st e r, maxSize := ms, jx := 0,
            fk1 := none, parent1 := none, parents := [] } with
      | .error err => .error err
      | .ok jl => .ok (finishRow m e r jl) := by
  rw [flattenOneRow, h]

/-- Unfolding of `flattenOneRow` at a memoized row. -/
theorem flattenOneRow_succ_some (m : Model α) (fuel e r : Nat) (st : State α) (ms : Nat)
    (v : Int) (h : memoOf m st e r = some v) :
    flattenOneRow m (fuel + 1) e r (st, ms) =
      if v < 0 then .error (Error.cycleDetected (m.data e) r)
      else .ok (v.toNat, { st with allEx := st.allEx.insert e }, ms) := by
  rw [flattenOneRow, h]

/-- The two ways in which an iteration of the join loop returns. -/
theorem joinStep_ok (m : Model α)
    (visit : Nat → Nat → State α × Nat → Except Error (Nat × State α × Nat))
    (data frow : Nat) (acc acc' : JoinLoop α) (b1 : Between)
    (h : joinStep m visit data frow acc b1 = .ok acc') :
    (m.keyElement data frow b1.joinKey = none ∧ acc' = { acc with jx := acc.jx + 1 }) ∨
    ∃ key row parentPos st ms,
      m.keyElement data frow b1.joinKey = some key ∧
      m.lookupRowOfKey (m.data b1.joinModel) key = some row ∧
      visit b1.joinModel row (acc.st, acc.maxSize) = .ok (parentPos, st, ms) ∧
      acc' = { st := st, maxSize := ms, jx := acc.jx + 1,
               fk1 := if acc.jx = 0 then some key else acc.fk1,
               parent1 := if acc.jx = 0 then some parentPos else acc.parent1,
               parents := acc.parents ++ [parentPos] } := by
  cases hkey : m.keyElement data frow b1.joinKey with
  | none =>
    left
    simp only [joinStep, hkey, Except.ok.injEq] at h
    exact ⟨rfl, h.symm⟩
  | some key =>
    right
    cases hrow : m.lookupRowOfKey (m.data b1.joinModel) key with
    | none => simp [joinStep, hkey, hrow] at h
    | some row =>
      cases hvisit : visit b1.joinModel row (acc.st, acc.maxSize) with
      | error err => simp [joinStep, hkey, hrow, hvisit] at h
      | ok res =>
        obtain ⟨parentPos, st, ms⟩ := res
        simp only [joinStep, hkey, hrow, hvisit, Except.ok.injEq] at h
        exact ⟨key, row, parentPos, st, ms, rfl, hrow, hvisit, h.symm⟩

/-- The two ways in which an iteration of the join loop throws. -/
theorem joinStep_error (m : Model α)
    (visit : Nat → Nat → State α × Nat → Except Error (Nat × State α × Nat))
    (data frow : Nat) (acc : JoinLoop α) (b1 : Between) (err : Error)
    (h : joinStep m visit data frow acc b1 = .error err) :
    ∃ key, m.keyElement data frow b1.joinKey = some key ∧
      ((m.lookupRowOfKey (m.data b1.joinModel) key = none ∧
          err = Error.keyNotFound (m.data b1.joinModel) key) ∨
       ∃ row, m.lookupRowOfKey (m.data b1.joinModel) key = some row ∧
          visit b1.joinModel row (acc.st, acc.maxSize) = .error err) := by
  cases hkey : m.keyElement data frow b1.joinKey with
  | none => simp [joinStep, hkey] at h
  | some key =>
    refine ⟨key, rfl, ?_⟩
    cases hrow : m.lookupRowOfKey (m.data b1.joinModel) key with
    | none =>
      left
      simp only [joinStep, hkey, hrow, Except.error.injEq] at h
      exact ⟨rfl, h.symm⟩
    | some row =>
      right
      cases hvisit : visit b1.joinModel row (acc.st, acc.maxSize) with
      | error err1 =>
        simp only [joinStep, hkey, hrow, hvisit, Except.error.injEq] at h
        exact ⟨row, rfl, by rw [← h]; exact hvisit⟩
      | ok res =>
        obtain ⟨parentPos, st, ms⟩ := res
        simp [joinStep, hkey, hrow, hvisit] at h

theorem finishRow_ext (m : Model α) (e r : Nat) (jl : JoinLoop α) (st : State α)
    (hmemo : memoOf m st e r = none) (h : StateExt st jl.st) :
    StateExt st (finishRow m e r jl).2.1 := by
  obtain ⟨new, hnew⟩ := h.layout_ext
  refine ⟨fun he => ?_, ?_, ?_⟩
  · rw [finishRow_error, h.error_mono he]; rfl
  · rw [finishRow_layout]
    by_cases hmm : m.missingMeans e = true
    · exact ⟨new, by simp [hmm, hnew]⟩
    · exact ⟨new ++ [newAddr m e r], by simp [hmm, hnew]⟩
  · intro k v hk
    rw [finishRow_map]
    by_cases hc : m.missingMeans e = false ∧ m.hasPrimaryKey (m.data e) = true
    · have hnone := memoOf_none m st e r hmemo hc.2
      have hne : k ≠ (m.data e, r) := by
        intro hk'; rw [hk', hnone] at hk; cases hk
      simp only [hc, and_self, if_true, mapInsert, hne, if_false]
      exact h.map_stable k v hk
    · rw [if_neg hc]
      exact h.map_stable k v hk

/-- Every returning call of `flattenOneRow` extends the state. -/
theorem flattenOneRow_ext (m : Model α) :
    ∀ (fuel e r : Nat) (st : State α) (ms i : Nat) (st' : State α) (ms' : Nat),
      flattenOneRow m fuel e r (st, ms) = .ok (i, st', ms') → StateExt st st' := by
  intro fuel
  induction fuel with
  | zero => intro e r st ms i st' ms' h; simp [flattenOneRow] at h
  | succ fuel ih =>
    intro e r st ms i st' ms' h
    cases hmemo : memoOf m st e r with
    | some v =>
      rw [flattenOneRow_succ_some m fuel e r st ms v hmemo] at h
      by_cases hv : v < 0
      · simp [hv] at h
      · simp only [hv, if_false, Except.ok.injEq, Prod.mk.injEq] at h
        obtain ⟨-, hst, -⟩ := h
        subst hst
        exact ⟨fun he => he, ⟨[], by simp⟩, fun _ _ hk => hk⟩
    | none =>
      rw [flattenOneRow_succ_none m fuel e r st ms hmemo] at h
      split at h
      · cases h
      · rename_i jl hfold
        simp only [Except.ok.injEq] at h
        have hjl : StateExt st jl.st := by
          have := foldlM_ok_inv (joinStep m (flattenOneRow m fuel) (m.data e) r)
            (fun _ acc => StateExt st acc.st) ?_ (m.between e) [] _ jl
            (beginRow_ext m st e r hmemo) hfold
          · exact this
          · intro pre b c b' hb hstep
            rcases joinStep_ok m _ _ _ b b' c hstep with ⟨-, rfl⟩ |
              ⟨key, row, parentPos, st1, ms1, -, -, hvisit, rfl⟩
            · exact hb
            · exact hb.trans (ih _ _ _ _ _ _ _ hvisit)
        have := finishRow_ext m e r jl st hmemo hjl
        rw [h] at this
        exact this

/-- A returning call of `flattenOneRow` that raised no missing-means error
leaves no new in-progress marker behind. -/
theorem flattenOneRow_no_new_marker (m : Model α) :
    ∀ (fuel e r : Nat) (st : State α) (ms i : Nat) (st' : State α) (ms' : Nat),
      flattenOneRow m fuel e r (st, ms) = .ok (i, st', ms') →
      (st'.errorRaised = false ∨ ∀ e', m.missingMeans e' = false) →
      ∀ k, st'.inProgress k → st.inProgress k := by
  intro fuel
  induction fuel with
  | zero => intro e r st ms i st' ms' h; simp [flattenOneRow] at h
  | succ fuel ih =>
    intro e r st ms i st' ms' h hclean k hk
    cases hmemo : memoOf m st e r with
    | some v =>
      rw [flattenOneRow_succ_some m fuel e r st ms v hmemo] at h
      by_cases hv : v < 0
      · simp [hv] at h
      · simp only [hv, if_false, Except.ok.injEq, Prod.mk.injEq] at h
        obtain ⟨-, hst, -⟩ := h
        subst hst
        exact hk
    | none =>
      rw [flattenOneRow_succ_none m fuel e r st ms hmemo] at h
      split at h
      · cases h
      · rename_i jl hfold
        simp only [Except.ok.injEq] at h
        have hst' : st' = (finishRow m e r jl).2.1 := by rw [h]
        have hmiss : m.missingMeans e = false := by
          rcases hclean with hc | hc
          · rw [hst', finishRow_error] at hc
            simp only [Bool.or_eq_false_iff] at hc
            exact hc.2
          · exact hc e
        have hcl : jl.st.errorRaised = false ∨ ∀ e', m.missingMeans e' = false := by
          rcases hclean with hc | hc
          · rw [hst', finishRow_error] at hc
            simp only [Bool.or_eq_false_iff] at hc
            exact Or.inl hc.1
          · exact Or.inr hc
        have hjl := foldlM_ok_inv (joinStep m (flattenOneRow m fuel) (m.data e) r)
          (fun _ acc => (acc.st.errorRaised = false ∨ ∀ e', m.missingMeans e' = false) →
            ∀ k, acc.st.inProgress k →
              (m.hasPrimaryKey (m.data e) = true ∧ k = (m.data e, r)) ∨ st.inProgress k)
          ?_ (m.between e) [] _ jl ?_ hfold hcl
        · rw [hst'] at hk
          obtain ⟨v, hv, hneg⟩ := hk
          rw [finishRow_map] at hv
          by_cases hpk : m.hasPrimaryKey (m.data e) = true
          · simp only [hmiss, hpk, and_self, if_true, mapInsert] at hv
            by_cases hkx : k = (m.data e, r)
            · simp only [hkx, if_true, Option.some.injEq] at hv
              omega
            · simp only [hkx, if_false] at hv
              rcases hjl k ⟨v, hv, hneg⟩ with ⟨-, h1⟩ | h1
              · exact absurd h1 hkx
              · exact h1
          · simp [hpk] at hv
            rcases hjl k ⟨v, hv, hneg⟩ with ⟨h1, -⟩ | h1
            · exact absurd h1 hpk
            · exact h1
        · intro pre b c b' hb hstep hcl' k' hk'
          rcases joinStep_ok m _ _ _ b b' c hstep with ⟨-, rfl⟩ |
            ⟨key, row, parentPos, st1, ms1, -, -, hvisit, rfl⟩
          · exact hb hcl' k' hk'
          · have hext := flattenOneRow_ext m _ _ _ _ _ _ _ _ hvisit
            have hclb : b.st.errorRaised = false ∨ ∀ e', m.missingMeans e' = false := by
              rcases hcl' with hc | hc
              · left
                cases hbe : b.st.errorRaised with
                | false => rfl
                | true => rw [hext.error_mono hbe] at hc; cases hc
              · exact Or.inr hc
            exact hb hclb k' (ih _ _ _ _ _ _ _ hvisit hcl' k' hk')
        · intro _ k' hk'
          obtain ⟨v, hv, hneg⟩ := hk'
          simp only [beginRow_map] at hv
          by_cases hpk : m.hasPrimaryKey (m.data e) = true
          · simp only [hpk, if_true, mapInsert] at hv
            by_cases hkx : k' = (m.data e, r)
            · exact Or.inl ⟨hpk, hkx⟩
            · simp only [hkx, if_false] at hv
              exact Or.inr ⟨v, hv, hneg⟩
          · simp only [hpk, if_false] at hv
            exact Or.inr ⟨v, hv, hneg⟩

theorem key_inj (m : Model α) (hinj : ∀ e e', m.data e = m.data e' → e = e')
    (x y : Nat × Nat) (h : m.key x = m.key y) : x = y := by
  obtain ⟨x1, x2⟩ := x
  obtain ⟨y1, y2⟩ := y
  simp only [Model.key, Prod.mk.injEq] at h
  rw [hinj _ _ h.1, h.2]

/-- A returning call of `flattenOneRow` was made on a grounded row, and it keeps
the rows with an entry in `rowToLayoutMap` grounded, the rows `G` that were in
progress before the call apart. -/
theorem flattenOneRow_grounded (m : Model α)
    (hinj : ∀ e e', m.data e = m.data e' → e = e') :
    ∀ (fuel e r : Nat) (st : State α) (ms i : Nat) (st' : State α) (ms' : Nat)
      (G : Nat × Nat → Prop),
      (∀ k, G k → st.inProgress k) →
      (∀ t, st.rowToLayoutMap (m.key t) ≠ none → ¬ G (m.key t) → m.Grounded t) →
      flattenOneRow m fuel e r (st, ms) = .ok (i, st', ms') →
      (∀ t, st'.rowToLayoutMap (m.key t) ≠ none → ¬ G (m.key t) → m.Grounded t) ∧
        m.Grounded (e, r) := by
  intro fuel
  induction fuel with
  | zero => intro e r st ms i st' ms' G _ _ h; simp [flattenOneRow] at h
  | succ fuel ih =>
    intro e r st ms i st' ms' G hG hacc h
    cases hmemo : memoOf m st e r with
    | some v =>
      rw [flattenOneRow_succ_some m fuel e r st ms v hmemo] at h
      obtain ⟨hpk, hmap⟩ := memoOf_some m st e r v hmemo
      by_cases hv : v < 0
      · simp [hv] at h
      · simp only [hv, if_false, Except.ok.injEq, Prod.mk.injEq] at h
        obtain ⟨-, hst, -⟩ := h
        subst hst
        refine ⟨hacc, hacc (e, r) ?_ ?_⟩
        · simp [Model.key, hmap]
        · intro hg
          obtain ⟨v', hv', hneg⟩ := hG _ hg
          simp only [Model.key] at hv'
          rw [hmap] at hv'
          cases hv'
          exact hv hneg
    | none =>
      rw [flattenOneRow_succ_none m fuel e r st ms hmemo] at h
      split at h
      · cases h
      · rename_i jl hfold
        simp only [Except.ok.injEq] at h
        have hst' : st' = (finishRow m e r jl).2.1 := by rw [h]
        have hjl := foldlM_ok_inv (joinStep m (flattenOneRow m fuel) (m.data e) r)
          (fun pre acc =>
            (∀ k, (G k ∨ (m.hasPrimaryKey (m.data e) = true ∧ k = (m.data e, r))) →
              acc.st.inProgress k) ∧
            (∀ t, acc.st.rowToLayoutMap (m.key t) ≠ none →
              ¬ (G (m.key t) ∨ (m.hasPrimaryKey (m.data e) = true ∧ m.key t = (m.data e, r))) →
              m.Grounded t) ∧
            (∀ b ∈ pre, ∀ key row, m.keyElement (m.data e) r b.joinKey = some key →
              m.lookupRowOfKey (m.data b.joinModel) key = some row →
              m.Grounded (b.joinModel, row)))
          ?_ (m.between e) [] _ jl ?_ hfold
        · obtain ⟨-, hjacc, hjedges⟩ := hjl
          have hx : m.Grounded (e, r) := by
            refine Acc.intro _ (fun y hy => ?_)
            obtain ⟨b, hb, key, hkey, hjm, hrow⟩ := hy
            have := hjedges b (by simpa using hb) key y.2 hkey (by rw [hjm]; exact hrow)
            rw [hjm] at this
            exact this
          refine ⟨?_, hx⟩
          intro t ht hnG
          by_cases htx : m.key t = (m.data e, r)
          · have : t = (e, r) := key_inj m hinj t (e, r) htx
            rw [this]; exact hx
          · refine hjacc t ?_ ?_
            · rw [hst', finishRow_map] at ht
              by_cases hc : m.missingMeans e = false ∧ m.hasPrimaryKey (m.data e) = true
              · simpa [hc, mapInsert, htx] using ht
              · rw [if_neg hc] at ht; exact ht
            · rintro (hg | ⟨-, hk⟩)
              · exact hnG hg
              · exact htx hk
        · intro pre b c b' hb hstep
          obtain ⟨hb1, hb2, hb3⟩ := hb
          rcases joinStep_ok m _ _ _ b b' c hstep with ⟨hnone, rfl⟩ |
            ⟨key, row, parentPos, st1, ms1, hkey, hrow, hvisit, rfl⟩
          · refine ⟨hb1, hb2, ?_⟩
            intro b0 hb0 key row hkey hrow
            rcases List.mem_append.1 hb0 with hb0 | hb0
            · exact hb3 b0 hb0 key row hkey hrow
            · simp only [List.mem_singleton] at hb0
              subst hb0
              rw [hnone] at hkey; cases hkey
          · have hext := flattenOneRow_ext m _ _ _ _ _ _ _ _ hvisit
            obtain ⟨hacc1, hchild⟩ := ih _ _ _ _ _ _ _ _ hb1 hb2 hvisit
            refine ⟨?_, hacc1, ?_⟩
            · intro k hk
              obtain ⟨v, hv, hneg⟩ := hb1 k hk
              exact ⟨v, hext.map_stable k v hv, hneg⟩
            · intro b0 hb0 key0 row0 hkey0 hrow0
              rcases List.mem_append.1 hb0 with hb0 | hb0
              · exact hb3 b0 hb0 key0 row0 hkey0 hrow0
              · simp only [List.mem_singleton] at hb0
                subst hb0
                rw [hkey] at hkey0; cases hkey0
                rw [hrow] at hrow0; cases hrow0
                exact hchild
        · refine ⟨?_, ?_, ?_⟩
          · rintro k (hg | ⟨hpk, hk⟩)
            · obtain ⟨v, hv, hneg⟩ := hG k hg
              exact ⟨v, (beginRow_ext m st e r hmemo).map_stable k v hv, hneg⟩
            · refine ⟨-1, ?_, by omega⟩
              simp [beginRow_map, hpk, mapInsert, hk]
          · intro t ht hnG
            refine hacc t ?_ (fun hg => hnG (Or.inl hg))
            simp only [beginRow_map] at ht
            by_cases hpk : m.hasPrimaryKey (m.data e) = true
            · have hne : m.key t ≠ (m.data e, r) := fun hk => hnG (Or.inr ⟨hpk, hk⟩)
              simpa [hpk, mapInsert, hne] using ht
            · simpa [hpk] using ht
          · intro b hb; simp at hb

theorem unvisited_mono (st st' : State α) (nodes : Finset (Nat × Nat))
    (h : ∀ k v, st.rowToLayoutMap k = some v → st'.rowToLayoutMap k = some v) :
    st'.unvisited nodes ≤ st.unvisited nodes := by
  unfold State.unvisited
  apply Finset.card_le_card
  intro k hk
  simp only [Finset.mem_filter] at hk ⊢
  refine ⟨hk.1, ?_⟩
  cases hv : st.rowToLayoutMap k with
  | none => rfl
  | some v => rw [h k v hv] at hk; cases hk.2

theorem unvisited_beginRow_lt (m : Model α) (st : State α) (e r : Nat)
    (nodes : Finset (Nat × Nat)) (hmemo : memoOf m st e r = none)
    (hpk : m.hasPrimaryKey (m.data e) = true) (hx : (m.data e, r) ∈ nodes) :
    (beginRow m st e r).unvisited nodes + 1 ≤ st.unvisited nodes := by
  unfold State.unvisited
  apply Finset.card_lt_card
  have hnone := memoOf_none m st e r hmemo hpk
  constructor
  · intro k hk
    simp only [Finset.mem_filter] at hk ⊢
    refine ⟨hk.1, ?_⟩
    cases hv : st.rowToLayoutMap k with
    | none => rfl
    | some v => rw [(beginRow_ext m st e r hmemo).map_stable k v hv] at hk; cases hk.2
  · intro hsub
    have := hsub (Finset.mem_filter.2 ⟨hx, hnone⟩)
    simp [beginRow_map, hpk, mapInsert] at this

/-- With a recursion budget above the number of unvisited rows, a call of
`flattenOneRow` that does not return throws the cycle error, naming a row `t`
that the row of the call reaches through joins; when no expectation lacks its
means, `t` was in progress before the call or joins itself through a chain. -/
theorem flattenOneRow_error (m : Model α) (nodes : Finset (Nat × Nat))
    (hwf : m.WellFormed nodes) :
    ∀ (fuel e r : Nat) (st : State α) (ms : Nat) (err : Error),
      ((m.hasPrimaryKey (m.data e) = true ∧ (m.data e, r) ∈ nodes ∧
          st.unvisited nodes + 1 ≤ fuel) ∨ st.unvisited nodes + 2 ≤ fuel) →
      flattenOneRow m fuel e r (st, ms) = .error err →
      ∃ t : Nat × Nat, err = Error.cycleDetected (m.data t.1) t.2 ∧
        Relation.ReflTransGen m.Joins (e, r) t ∧
        ((∀ e', m.missingMeans e' = false) →
          st.inProgress (m.key t) ∨ Relation.TransGen m.Joins t t) := by
  intro fuel
  induction fuel with
  | zero =>
    intro e r st ms err hfuel h
    rcases hfuel with ⟨-, -, h1⟩ | h1 <;> omega
  | succ fuel ih =>
    intro e r st ms err hfuel h
    cases hmemo : memoOf m st e r with
    | some v =>
      rw [flattenOneRow_succ_some m fuel e r st ms v hmemo] at h
      obtain ⟨hpk, hmap⟩ := memoOf_some m st e r v hmemo
      by_cases hv : v < 0
      · simp only [hv, if_true, Except.error.injEq] at h
        exact ⟨(e, r), h.symm, Relation.ReflTransGen.refl, fun _ => Or.inl ⟨v, hmap, hv⟩⟩
      · simp [hv] at h
    | none =>
      rw [flattenOneRow_succ_none m fuel e r st ms hmemo] at h
      split at h
      · rename_i err1 hfold
        simp only [Except.error.injEq] at h
        subst h
        have hbudget : (beginRow m st e r).unvisited nodes + 1 ≤ fuel := by
          rcases hfuel with ⟨hpk, hx, h1⟩ | h1
          · have := unvisited_beginRow_lt m st e r nodes hmemo hpk hx
            omega
          · have := unvisited_mono st (beginRow m st e r) nodes
              (beginRow_ext m st e r hmemo).map_stable
            omega
        have hinv : ∀ (pre : List Between) (b : JoinLoop α) (c : Between) (b' : JoinLoop α),
            (StateExt (beginRow m st e r) b.st ∧
              ((∀ e', m.missingMeans e' = false) →
                ∀ k, b.st.inProgress k → (beginRow m st e r).inProgress k)) →
            joinStep m (flattenOneRow m fuel) (m.data e) r b c = .ok b' →
            (StateExt (beginRow m st e r) b'.st ∧
              ((∀ e', m.missingMeans e' = false) →
                ∀ k, b'.st.inProgress k → (beginRow m st e r).inProgress k)) := by
          intro pre b c b' hb hstep
          rcases joinStep_ok m _ _ _ b b' c hstep with ⟨-, rfl⟩ |
            ⟨key, row, parentPos, st1, ms1, -, -, hvisit, rfl⟩
          · exact hb
          · refine ⟨hb.1.trans (flattenOneRow_ext m _ _ _ _ _ _ _ _ hvisit), ?_⟩
            intro hM k hk
            exact hb.2 hM k (flattenOneRow_no_new_marker m _ _ _ _ _ _ _ _ hvisit (Or.inr hM) k hk)
        obtain ⟨pre, b1, c, hc, ⟨hext, hgray⟩, hstep⟩ :=
          foldlM_error_inv (joinStep m (flattenOneRow m fuel) (m.data e) r)
            (fun _ acc => StateExt (beginRow m st e r) acc.st ∧
              ((∀ e', m.missingMeans e' = false) →
                ∀ k, acc.st.inProgress k → (beginRow m st e r).inProgress k))
          hinv (m.between e) [] _ err1 ⟨StateExt.refl _, fun _ _ hk => hk⟩ hfold
        obtain ⟨key, hkey, hcase⟩ := joinStep_error m _ _ _ b1 c err1 hstep
        rcases hcase with ⟨hnone, -⟩ | ⟨row, hrow, hvisit⟩
        · obtain ⟨r1, hr1⟩ := hwf.keys_resolve e r c key hc hkey
          rw [hnone] at hr1; cases hr1
        · have hfuel' : (m.hasPrimaryKey (m.data c.joinModel) = true ∧
              (m.data c.joinModel, row) ∈ nodes ∧ b1.st.unvisited nodes + 1 ≤ fuel) ∨
              b1.st.unvisited nodes + 2 ≤ fuel := by
            left
            refine ⟨hwf.key_declared _ _ _ hrow, hwf.rows_finite _ _ _ hrow, ?_⟩
            have := unvisited_mono _ b1.st nodes hext.map_stable
            omega
          obtain ⟨t, ht, hreach, hname⟩ := ih _ _ _ _ _ hfuel' hvisit
          have hedge : m.Joins (e, r) (c.joinModel, row) :=
            ⟨c, hc, key, hkey, rfl, hrow⟩
          refine ⟨t, ht, Relation.ReflTransGen.head hedge hreach, ?_⟩
          intro hM
          rcases hname hM with hin | hcyc
          · obtain ⟨v, hv, hneg⟩ := hgray hM _ hin
            rw [beginRow_map] at hv
            by_cases hpk : m.hasPrimaryKey (m.data e) = true
            · simp only [hpk, if_true, mapInsert] at hv
              by_cases hkx : m.key t = (m.data e, r)
              · right
                have htx : t = (e, r) := key_inj m hwf.data_inj t (e, r) hkx
                rw [htx] at hreach ⊢
                exact Relation.TransGen.head' hedge hreach
              · simp only [hkx, if_false] at hv
                exact Or.inl ⟨v, hv, hneg⟩
            · simp only [hpk] at hv
              exact Or.inl ⟨v, hv, hneg⟩
          · exact Or.inr hcyc
      · cases h

theorem acc_not_self {β : Type} (rel : β → β → Prop) (a : β) (h : Acc rel a) : ¬ rel a a := by
  induction h with
  | intro x _ ih => intro hx; exact ih x hx hx

/-- A grounded row reaches only grounded rows. -/
theorem grounded_of_reach (m : Model α) (x y : Nat × Nat)
    (h : Relation.ReflTransGen m.Joins x y) (hx : m.Grounded x) : m.Grounded y := by
  induction h with
  | refl => exact hx
  | tail _ hbc ih => exact Acc.inv ih hbc

/-- A grounded row does not join itself through a chain. -/
theorem grounded_not_cycle (m : Model α) (c : Nat × Nat) (hc : m.Grounded c) :
    ¬ Relation.TransGen m.Joins c c := by
  intro hcyc
  have h1 : Acc (Relation.TransGen (fun y x => m.Joins x y)) c := Acc.transGen hc
  refine acc_not_self _ c h1 ?_
  exact Relation.transGen_swap.2 hcyc

/-- Between two calls of `flattenOneRow` by `state::init` no row is in
progress. -/
theorem CleanState.no_marker (m : Model α) (st : State α) (h : CleanState m st) :
    ∀ k, ¬ st.inProgress k := by
  induction h with
  | empty => intro k hk; obtain ⟨v, hv, -⟩ := hk; simp [State.empty] at hv
  | step fuel e r st ms i st' ms' _ hcall herr ih =>
    intro k hk
    exact ih k (flattenOneRow_no_new_marker m _ _ _ _ _ _ _ _ hcall (Or.inl herr) k hk)

/-- Between two calls of `flattenOneRow` by `state::init` every row with an
entry in `rowToLayoutMap` is grounded. -/
theorem CleanState.grounded (m : Model α) (hinj : ∀ e e', m.data e = m.data e' → e = e')
    (st : State α) (h : CleanState m st) :
    ∀ t, st.rowToLayoutMap (m.key t) ≠ none → m.Grounded t := by
  induction h with
  | empty => intro t ht; simp [State.empty] at ht
  | step fuel e r st ms i st' ms' _ hcall _ ih =>
    intro t ht
    exact (flattenOneRow_grounded m hinj _ _ _ _ _ _ _ _ (fun _ => False)
      (fun _ hk => hk.elim) (fun t ht _ => ih t ht) hcall).1 t ht (fun hk => hk)

theorem unvisited_le_card (st : State α) (nodes : Finset (Nat × Nat)) :
    st.unvisited nodes ≤ nodes.card :=
  Finset.card_le_card (Finset.filter_subset _ _)

theorem bumpKids_foldl_length (parents : List Nat) (ls : List AddrSetup) :
    (parents.foldl bumpKids ls).length = ls.length := by
  induction parents generalizing ls with
  | nil => rfl
  | cons p ps ih => simp [List.foldl_cons, ih, bumpKids]

theorem finishRow_setup_length (m : Model α) (e r : Nat) (jl : JoinLoop α) :
    (finishRow m e r jl).2.1.layoutSetup.length =
      if m.missingMeans e then jl.st.layoutSetup.length else jl.st.layoutSetup.length + 1 := by
  unfold finishRow
  by_cases hmm : m.missingMeans e = true
  · simp [hmm, bumpKids_foldl_length]
  · by_cases hpk : m.hasPrimaryKey (m.data e) = true <;>
      simp [hmm, hpk, bumpKids_foldl_length]

theorem beginRow_setup (m : Model α) (st : State α) (e r : Nat) :
    (beginRow m st e r).layoutSetup = st.layoutSetup := by
  unfold beginRow
  by_cases hpk : m.hasPrimaryKey (m.data e) = true <;> simp [hpk]

theorem joins_target_keyed (m : Model α) (nodes : Finset (Nat × Nat))
    (hwf : m.WellFormed nodes) (z y : Nat × Nat) (h : m.Joins z y) :
    m.hasPrimaryKey (m.data y.1) = true := by
  obtain ⟨b, -, key, -, -, hrow⟩ := h
  exact hwf.key_declared _ _ _ hrow

theorem flatInv_empty (m : Model α) : FlatInv m (State.empty : State α) := by
  refine ⟨?_, ?_, ?_, ?_, ?_, ?_⟩ <;> simp [State.empty]

theorem flatInv_beginRow (m : Model α) (st : State α) (e r : Nat)
    (hmemo : memoOf m st e r = none) (h : FlatInv m st) : FlatInv m (beginRow m st e r) := by
  by_cases hpk : m.hasPrimaryKey (m.data e) = true
  · have hnone := memoOf_none m st e r hmemo hpk
    refine ⟨?_, ?_, ?_, ?_, ?_, ?_⟩
    · intro k v hk hv
      rw [beginRow_map] at hk
      simp only [hpk, if_true, mapInsert] at hk
      by_cases hkx : k = (m.data e, r)
      · simp only [hkx, if_true, Option.some.injEq] at hk; omega
      · simp only [hkx, if_false] at hk
        rw [beginRow_layout]
        exact h.map_unit k v hk hv
    · intro i a ha hapk
      rw [beginRow_layout] at ha
      have := h.unit_map i a ha hapk
      rw [beginRow_map]
      simp only [hpk, if_true, mapInsert]
      by_cases hkx : m.keyOf a = (m.data e, r)
      · rw [hkx, hnone] at this; cases this
      · simp only [hkx, if_false]; exact this
    · intro k v hk
      rw [beginRow_map] at hk
      simp only [hpk, if_true, mapInsert] at hk
      by_cases hkx : k = (m.data e, r)
      · rw [hkx]; exact hpk
      · simp only [hkx, if_false] at hk
        exact h.map_pk k v hk
    · rw [beginRow_layout]; exact h.nodup
    · rw [beginRow_layout, beginRow_setup]; exact h.setup_len
    · rw [beginRow_layout, beginRow_error]; exact h.joined
  · refine ⟨?_, ?_, ?_, ?_, ?_, ?_⟩
    · intro k v hk hv
      rw [beginRow_map] at hk
      simp only [hpk] at hk
      rw [beginRow_layout]
      exact h.map_unit k v hk hv
    · intro i a ha hapk
      rw [beginRow_layout] at ha
      rw [beginRow_map]
      simp only [hpk]
      exact h.unit_map i a ha hapk
    · intro k v hk
      rw [beginRow_map] at hk
      simp only [hpk] at hk
      exact h.map_pk k v hk
    · rw [beginRow_layout]; exact h.nodup
    · rw [beginRow_layout, beginRow_setup]; exact h.setup_len
    · rw [beginRow_layout, beginRow_error]; exact h.joined

theorem finishRow_setup_len_eq (m : Model α) (e r : Nat) (jl : JoinLoop α)
    (h : jl.st.layoutSetup.length = jl.st.layout.length) :
    (finishRow m e r jl).2.1.layoutSetup.length = (finishRow m e r jl).2.1.layout.length := by
  rw [finishRow_setup_length, finishRow_layout]
  by_cases hmm : m.missingMeans e = true
  · simp [hmm, h]
  · simp [hmm, h]

theorem newAddr_key (m : Model α) (e r : Nat) : m.keyOf (newAddr m e r) = (m.data e, r) := rfl

theorem flatInv_finishRow (m : Model α) (e r : Nat) (jl : JoinLoop α)
    (hinv : FlatInv m jl.st)
    (hx : (m.data e, r) ∉ jl.st.layout.map m.keyOf)
    (hedges : jl.st.errorRaised = false → ∀ y, m.Joins (e, r) y →
      ∃ (j : Nat) (b : Addr α), jl.st.layout[j]? = some b ∧ (b.model, b.row) = y) :
    FlatInv m (finishRow m e r jl).2.1 := by
  by_cases hmm : m.missingMeans e = true
  · refine ⟨?_, ?_, ?_, ?_, finishRow_setup_len_eq m e r jl hinv.setup_len, ?_⟩
    · intro k v hk hv
      rw [finishRow_map] at hk
      simp only [hmm, Bool.true_eq_false, false_and, if_false] at hk
      rw [finishRow_layout]
      simp only [hmm, if_true]
      exact hinv.map_unit k v hk hv
    · intro i a ha hapk
      rw [finishRow_layout] at ha
      simp only [hmm, if_true] at ha
      rw [finishRow_map]
      simp only [hmm, Bool.true_eq_false, false_and, if_false]
      exact hinv.unit_map i a ha hapk
    · intro k v hk
      rw [finishRow_map] at hk
      simp only [hmm, Bool.true_eq_false, false_and, if_false] at hk
      exact hinv.map_pk k v hk
    · rw [finishRow_layout]; simp only [hmm, if_true]; exact hinv.nodup
    · intro herr
      rw [finishRow_error] at herr
      simp [hmm] at herr
  · have hmf : m.missingMeans e = false := by simpa using hmm
    have hlay : (finishRow m e r jl).2.1.layout = jl.st.layout ++ [newAddr m e r] := by
      rw [finishRow_layout]; simp [hmf]
    have hget_old : ∀ (i : Nat) (a : Addr α), jl.st.layout[i]? = some a →
        (jl.st.layout ++ [newAddr m e r])[i]? = some a := by
      intro i a ha
      have hi : i < jl.st.layout.length := by
        rcases Nat.lt_or_ge i jl.st.layout.length with h | h
        · exact h
        · rw [List.getElem?_eq_none h] at ha; cases ha
      rw [List.getElem?_append_left hi]; exact ha
    have hget_new : ∀ (i : Nat) (a : Addr α),
        (jl.st.layout ++ [newAddr m e r])[i]? = some a →
        jl.st.layout[i]? = some a ∨ (i = jl.st.layout.length ∧ a = newAddr m e r) := by
      intro i a ha
      rcases Nat.lt_or_ge i jl.st.layout.length with h | h
      · rw [List.getElem?_append_left h] at ha; exact Or.inl ha
      · rw [List.getElem?_append_right h] at ha
        rcases Nat.eq_or_lt_of_le h with h1 | h1
        · right
          rw [← h1] at ha
          simp only [Nat.sub_self, List.getElem?_cons_zero, Option.some.injEq] at ha
          exact ⟨h1.symm, ha.symm⟩
        · have : i - jl.st.layout.length ≠ 0 := by omega
          obtain ⟨n, hn⟩ := Nat.exists_eq_succ_of_ne_zero this
          rw [hn] at ha
          simp at ha
    refine ⟨?_, ?_, ?_, ?_, finishRow_setup_len_eq m e r jl hinv.setup_len, ?_⟩
    · intro k v hk hv
      rw [finishRow_map] at hk
      rw [hlay]
      by_cases hpk : m.hasPrimaryKey (m.data e) = true
      · simp only [hmf, hpk, and_self, if_true, mapInsert] at hk
        by_cases hkx : k = (m.data e, r)
        · simp only [hkx, if_true, Option.some.injEq] at hk
          refine ⟨newAddr m e r, ?_, by rw [hkx]; rfl⟩
          rw [← hk]
          simp
        · simp only [hkx, if_false] at hk
          obtain ⟨a, ha, hak⟩ := hinv.map_unit k v hk hv
          exact ⟨a, hget_old _ a ha, hak⟩
      · have hk' : jl.st.rowToLayoutMap k = some v := by simpa [hmf, hpk] using hk
        obtain ⟨a, ha, hak⟩ := hinv.map_unit k v hk' hv
        exact ⟨a, hget_old _ a ha, hak⟩
    · intro i a ha hapk
      rw [hlay] at ha
      rw [finishRow_map]
      rcases hget_new i a ha with hold | ⟨hi, hnew⟩
      · have hkx : m.keyOf a ≠ (m.data e, r) := by
          intro hk
          apply hx
          rw [← hk]
          exact List.mem_map.2 ⟨a, List.getElem?_mem hold, rfl⟩
        have := hinv.unit_map i a hold hapk
        by_cases hc : m.missingMeans e = false ∧ m.hasPrimaryKey (m.data e) = true
        · simp only [hc, and_self, if_true, mapInsert, hkx, if_false]; exact this
        · rw [if_neg hc]; exact this
      · subst hnew
        have hpk : m.hasPrimaryKey (m.data e) = true := hapk
        simp [hmf, hpk, mapInsert, newAddr_key, hi]
    · intro k v hk
      rw [finishRow_map] at hk
      by_cases hpk : m.hasPrimaryKey (m.data e) = true
      · simp only [hmf, hpk, and_self, if_true, mapInsert] at hk
        by_cases hkx : k = (m.data e, r)
        · rw [hkx]; exact hpk
        · simp only [hkx, if_false] at hk
          exact hinv.map_pk k v hk
      · have hk' : jl.st.rowToLayoutMap k = some v := by simpa [hmf, hpk] using hk
        exact hinv.map_pk k v hk'
    · rw [hlay, List.map_append, List.map_singleton, newAddr_key]
      refine List.Nodup.append hinv.nodup (List.nodup_singleton _) ?_
      intro k hk1 hk2
      simp only [List.mem_singleton] at hk2
      rw [hk2] at hk1
      exact hx hk1
    · intro herr i a ha y hy
      rw [finishRow_error] at herr
      simp only [Bool.or_eq_false_iff] at herr
      rw [hlay] at ha ⊢
      rcases hget_new i a ha with hold | ⟨hi, hnew⟩
      · obtain ⟨j, b, hj, hb, hby⟩ := hinv.joined herr.1 i a hold y hy
        exact ⟨j, b, hj, hget_old j b hb, hby⟩
      · subst hnew
        obtain ⟨j, b, hb, hby⟩ := hedges herr.1 y hy
        have hj : j < jl.st.layout.length := by
          rcases Nat.lt_or_ge j jl.st.layout.length with h | h
          · exact h
          · rw [List.getElem?_eq_none h] at hb; cases hb
        exact ⟨j, b, by omega, hget_old j b hb, hby⟩

theorem getElem?_append_of_some {β : Type} (l l' : List β) (i : Nat) (a : β)
    (h : l[i]? = some a) : (l ++ l')[i]? = some a := by
  have hi : i < l.length := by
    rcases Nat.lt_or_ge i l.length with h1 | h1
    · exact h1
    · rw [List.getElem?_eq_none h1] at h; cases h
  rw [List.getElem?_append_left hi]; exact h

/-- The invariant of flattening is kept by every returning call of
`flattenOneRow`; the units appended by the call are the unit of its row and
units of rows that are joined, none of which had an entry in `rowToLayoutMap`;
and when no error has been raised the returned index is that of the unit of the
row, the last unit when the row was not memoized. -/
theorem flattenOneRow_inv (m : Model α) (nodes : Finset (Nat × Nat))
    (hwf : m.WellFormed nodes) :
    ∀ (fuel e r : Nat) (st : State α) (ms i : Nat) (st' : State α) (ms' : Nat),
      FlatInv m st →
      (m.hasPrimaryKey (m.data e) = false → (m.data e, r) ∉ st.layout.map m.keyOf) →
      flattenOneRow m fuel e r (st, ms) = .ok (i, st', ms') →
      FlatInv m st' ∧
      (∃ new, st'.layout = st.layout ++ new ∧
        ∀ a ∈ new, st.rowToLayoutMap (m.keyOf a) = none ∧
          ((a.model, a.row) = (e, r) ∨ ∃ z, m.Joins z (a.model, a.row))) ∧
      (st'.errorRaised = false →
        ∃ a, st'.layout[i]? = some a ∧ (a.model, a.row) = (e, r) ∧
          (memoOf m st e r = none → i + 1 = st'.layout.length)) := by
  intro fuel
  induction fuel with
  | zero => intro e r st ms i st' ms' _ _ h; simp [flattenOneRow] at h
  | succ fuel ih =>
    intro e r st ms i st' ms' hinv hkeyless h
    cases hmemo : memoOf m st e r with
    | some v =>
      rw [flattenOneRow_succ_some m fuel e r st ms v hmemo] at h
      obtain ⟨hpk, hmap⟩ := memoOf_some m st e r v hmemo
      by_cases hv : v < 0
      · simp [hv] at h
      · simp only [hv, if_false, Except.ok.injEq, Prod.mk.injEq] at h
        obtain ⟨hi, hst, -⟩ := h
        subst hst
        refine ⟨⟨hinv.map_unit, hinv.unit_map, hinv.map_pk, hinv.nodup, hinv.setup_len,
          hinv.joined⟩, ⟨[], by simp, by simp⟩, ?_⟩
        intro _
        obtain ⟨a, ha, hak⟩ := hinv.map_unit _ v hmap (by omega)
        refine ⟨a, by rw [← hi]; exact ha, ?_, fun hn => by cases hn⟩
        exact key_inj m hwf.data_inj (a.model, a.row) (e, r) hak
    | none =>
      rw [flattenOneRow_succ_none m fuel e r st ms hmemo] at h
      split at h
      · cases h
      · rename_i jl hfold
        simp only [Except.ok.injEq] at h
        have hst' : st' = (finishRow m e r jl).2.1 := by rw [h]
        have hi : i = (finishRow m e r jl).1 := by rw [h]
        have hxnone : st.rowToLayoutMap (m.data e, r) = none := by
          by_cases hpk : m.hasPrimaryKey (m.data e) = true
          · exact memoOf_none m st e r hmemo hpk
          · cases hv : st.rowToLayoutMap (m.data e, r) with
            | none => rfl
            | some v => exact absurd (hinv.map_pk _ v hv) hpk
        have hx0 : (m.data e, r) ∉ st.layout.map m.keyOf := by
          by_cases hpk : m.hasPrimaryKey (m.data e) = true
          · intro hmem
            obtain ⟨a, ha, hak⟩ := List.mem_map.1 hmem
            obtain ⟨n, hn⟩ := List.mem_iff_getElem?.1 ha
            have hapk : m.hasPrimaryKey (m.data a.model) = true := by
              have : m.data a.model = m.data e := congrArg Prod.fst hak
              rw [this]; exact hpk
            have := hinv.unit_map n a hn hapk
            rw [hak, hxnone] at this
            cases this
          · exact hkeyless (by simpa using hpk)
        have hstep : ∀ (pre : List Between) (b : JoinLoop α) (c : Between) (b' : JoinLoop α),
            c ∈ m.between e →
            (FlatInv m b.st ∧ StateExt (beginRow m st e r) b.st ∧
              (m.data e, r) ∉ b.st.layout.map m.keyOf ∧
              (∃ new, b.st.layout = st.layout ++ new ∧
                ∀ a ∈ new, st.rowToLayoutMap (m.keyOf a) = none ∧
                  ∃ z, m.Joins z (a.model, a.row)) ∧
              (b.st.errorRaised = false → ∀ b0 ∈ pre, ∀ key row,
                m.keyElement (m.data e) r b0.joinKey = some key →
                m.lookupRowOfKey (m.data b0.joinModel) key = some row →
                ∃ (j : Nat) (a : Addr α), b.st.layout[j]? = some a ∧
                  (a.model, a.row) = (b0.joinModel, row))) →
            joinStep m (flattenOneRow m fuel) (m.data e) r b c = .ok b' →
            (FlatInv m b'.st ∧ StateExt (beginRow m st e r) b'.st ∧
              (m.data e, r) ∉ b'.st.layout.map m.keyOf ∧
              (∃ new, b'.st.layout = st.layout ++ new ∧
                ∀ a ∈ new, st.rowToLayoutMap (m.keyOf a) = none ∧
                  ∃ z, m.Joins z (a.model, a.row)) ∧
              (b'.st.errorRaised = false → ∀ b0 ∈ pre ++ [c], ∀ key row,
                m.keyElement (m.data e) r b0.joinKey = some key →
                m.lookupRowOfKey (m.data b0.joinModel) key = some row →
                ∃ (j : Nat) (a : Addr α), b'.st.layout[j]? = some a ∧
                  (a.model, a.row) = (b0.joinModel, row))) := by
          intro pre b c b' hc hb hjs
          obtain ⟨hb1, hb2, hb3, ⟨new, hnew, hnewp⟩, hb5⟩ := hb
          rcases joinStep_ok m _ _ _ b b' c hjs with ⟨hnone, rfl⟩ |
            ⟨key, row, parentPos, st1, ms1, hkey, hrow, hvisit, rfl⟩
          · refine ⟨hb1, hb2, hb3, ⟨new, hnew, hnewp⟩, ?_⟩
            intro herr b0 hb0 key row hkey hrow
            rcases List.mem_append.1 hb0 with hb0 | hb0
            · exact hb5 herr b0 hb0 key row hkey hrow
            · simp only [List.mem_singleton] at hb0
              subst hb0
              rw [hnone] at hkey; cases hkey
          · have hext := flattenOneRow_ext m _ _ _ _ _ _ _ _ hvisit
            have hcpk : m.hasPrimaryKey (m.data c.joinModel) = true :=
              hwf.key_declared _ _ _ hrow
            obtain ⟨hinv1, ⟨new1, hnew1, hnew1p⟩, hres1⟩ :=
              ih _ _ _ _ _ _ _ hb1 (fun hf => by rw [hcpk] at hf; cases hf) hvisit
            have hstable : ∀ k v, st.rowToLayoutMap k = some v →
                b.st.rowToLayoutMap k = some v := fun k v hk =>
              hb2.map_stable k v ((beginRow_ext m st e r hmemo).map_stable k v hk)
            refine ⟨hinv1, hb2.trans hext, ?_, ⟨new ++ new1, ?_, ?_⟩, ?_⟩
            · show (m.data e, r) ∉ st1.layout.map m.keyOf
              rw [hnew1, List.map_append, List.mem_append]
              rintro (hm | hm)
              · exact hb3 hm
              · obtain ⟨a, ha, hak⟩ := List.mem_map.1 hm
                obtain ⟨hanone, hatarget⟩ := hnew1p a ha
                by_cases hpk : m.hasPrimaryKey (m.data e) = true
                · have hmark : b.st.rowToLayoutMap (m.data e, r) = some (-1) := by
                    apply hb2.map_stable
                    simp [beginRow_map, hpk, mapInsert]
                  rw [hak, hmark] at hanone
                  cases hanone
                · have hapk : m.hasPrimaryKey (m.data a.model) = true := by
                    rcases hatarget with hat | ⟨z, hz⟩
                    · have : a.model = c.joinModel := congrArg Prod.fst hat
                      rw [this]; exact hcpk
                    · exact joins_target_keyed m nodes hwf z _ hz
                  have : m.data a.model = m.data e := congrArg Prod.fst hak
                  rw [this] at hapk
                  exact hpk hapk
            · show st1.layout = st.layout ++ (new ++ new1)
              rw [hnew1, hnew, List.append_assoc]
            · intro a ha
              rcases List.mem_append.1 ha with ha | ha
              · exact hnewp a ha
              · obtain ⟨hanone, hatarget⟩ := hnew1p a ha
                refine ⟨?_, ?_⟩
                · cases hv : st.rowToLayoutMap (m.keyOf a) with
                  | none => rfl
                  | some v => rw [hstable _ v hv] at hanone; cases hanone
                · rcases hatarget with hat | hz
                  · refine ⟨(e, r), ?_⟩
                    rw [hat]
                    exact ⟨c, hc, key, hkey, rfl, hrow⟩
                  · exact hz
            · intro herr b0 hb0 key0 row0 hkey0 hrow0
              show ∃ (j : Nat) (a : Addr α), st1.layout[j]? = some a ∧ _
              rcases List.mem_append.1 hb0 with hb0 | hb0
              · have hberr : b.st.errorRaised = false := by
                  cases hbe : b.st.errorRaised with
                  | false => rfl
                  | true => rw [hext.error_mono hbe] at herr; cases herr
                obtain ⟨j, a, ha, hak⟩ := hb5 hberr b0 hb0 key0 row0 hkey0 hrow0
                exact ⟨j, a, by rw [hnew1]; exact getElem?_append_of_some _ _ _ _ ha, hak⟩
              · simp only [List.mem_singleton] at hb0
                subst hb0
                rw [hkey] at hkey0; cases hkey0
                rw [hrow] at hrow0; cases hrow0
                obtain ⟨a, ha, hak, -⟩ := hres1 herr
                exact ⟨parentPos, a, ha, hak⟩
        obtain ⟨hj1, hj2, hj3, ⟨new, hnew, hnewp⟩, hj5⟩ :=
          foldlM_ok_mem (joinStep m (flattenOneRow m fuel) (m.data e) r)
            (fun pre b => FlatInv m b.st ∧ StateExt (beginRow m st e r) b.st ∧
              (m.data e, r) ∉ b.st.layout.map m.keyOf ∧
              (∃ new, b.st.layout = st.layout ++ new ∧
                ∀ a ∈ new, st.rowToLayoutMap (m.keyOf a) = none ∧
                  ∃ z, m.Joins z (a.model, a.row)) ∧
              (b.st.errorRaised = false → ∀ b0 ∈ pre, ∀ key row,
                m.keyElement (m.data e) r b0.joinKey = some key →
                m.lookupRowOfKey (m.data b0.joinModel) key = some row →
                ∃ (j : Nat) (a : Addr α), b.st.layout[j]? = some a ∧
                  (a.model, a.row) = (b0.joinModel, row)))
            (m.between e) hstep (m.between e) [] _ jl (fun _ hc => hc)
            ⟨flatInv_beginRow m st e r hmemo hinv, StateExt.refl _,
              by rw [beginRow_layout]; exact hx0,
              ⟨[], by rw [beginRow_layout]; simp, by simp⟩,
              fun _ b0 hb0 => by simp at hb0⟩ hfold
        have hedges : jl.st.errorRaised = false → ∀ y, m.Joins (e, r) y →
            ∃ (j : Nat) (b : Addr α), jl.st.layout[j]? = some b ∧ (b.model, b.row) = y := by
          intro herr y hy
          obtain ⟨b, hb, key, hkey, hjm, hrow⟩ := hy
          obtain ⟨j, a, ha, hak⟩ := hj5 herr b (by simpa using hb) key y.2 hkey
            (by rw [hjm]; exact hrow)
          exact ⟨j, a, ha, by rw [hak, hjm]⟩
        refine ⟨by rw [hst']; exact flatInv_finishRow m e r jl hj1 hj3 hedges, ?_, ?_⟩
        · rw [hst', finishRow_layout]
          by_cases hmm : m.missingMeans e = true
          · refine ⟨new, by simp [hmm, hnew], fun a ha => ?_⟩
            exact ⟨(hnewp a ha).1, Or.inr (hnewp a ha).2⟩
          · refine ⟨new ++ [newAddr m e r], by simp [hmm, hnew], fun a ha => ?_⟩
            rcases List.mem_append.1 ha with ha | ha
            · exact ⟨(hnewp a ha).1, Or.inr (hnewp a ha).2⟩
            · simp only [List.mem_singleton] at ha
              subst ha
              exact ⟨hxnone, Or.inl rfl⟩
        · intro herr
          rw [hst', finishRow_error] at herr
          simp only [Bool.or_eq_false_iff] at herr
          refine ⟨newAddr m e r, ?_, rfl, fun _ => ?_⟩
          · rw [hst', hi, finishRow_layout, finishRow_index]
            simp [herr.2]
          · rw [hst', hi, finishRow_layout, finishRow_index]
            simp [herr.2]

theorem getElem?_append_cases {β : Type} (l l' : List β) (i : Nat) (a : β)
    (h : (l ++ l')[i]? = some a) :
    l[i]? = some a ∨ (l.length ≤ i ∧ a ∈ l') := by
  rcases Nat.lt_or_ge i l.length with h1 | h1
  · rw [List.getElem?_append_left h1] at h; exact Or.inl h
  · rw [List.getElem?_append_right h1] at h
    exact Or.inr ⟨h1, List.getElem?_mem h⟩

theorem getElem?_lt_length {β : Type} (l : List β) (i : Nat) (a : β) (h : l[i]? = some a) :
    i < l.length := by
  rcases Nat.lt_or_ge i l.length with h1 | h1
  · exact h1
  · rw [List.getElem?_eq_none h1] at h; cases h

/-- A data set without primary key is not a join target. -/
theorem homeNotJoined_of_keyless (m : Model α) (nodes : Finset (Nat × Nat))
    (hwf : m.WellFormed nodes) (h : m.hasPrimaryKey (m.data m.homeEx) = false) :
    m.HomeNotJoined := by
  intro z y hzy hy
  have := joins_target_keyed m nodes hwf z y hzy
  rw [hy, h] at this
  cases this

theorem rowsInv_step (m : Model α) (nodes : Finset (Nat × Nat)) (hwf : m.WellFormed nodes)
    (fuel n : Nat) (st : State α) (ms i : Nat) (st' : State α) (ms' : Nat)
    (h : RowsInv m n st)
    (hcall : flattenOneRow m fuel m.homeEx n (st, ms) = .ok (i, st', ms'))
    (herr : st'.errorRaised = false) : RowsInv m (n + 1) st' := by
  have hkeyless : m.hasPrimaryKey (m.data m.homeEx) = false →
      (m.data m.homeEx, n) ∉ st.layout.map m.keyOf := by
    intro hpk hmem
    obtain ⟨a, ha, hak⟩ := List.mem_map.1 hmem
    have hax : (a.model, a.row) = (m.homeEx, n) :=
      key_inj m hwf.data_inj (a.model, a.row) (m.homeEx, n) hak
    have := h.home_rows (homeNotJoined_of_keyless m nodes hwf hpk) a ha (congrArg Prod.fst hax)
    have hrow : a.row = n := congrArg Prod.snd hax
    omega
  obtain ⟨hinv', ⟨new, hnew, hnewp⟩, hres⟩ :=
    flattenOneRow_inv m nodes hwf _ _ _ _ _ _ _ _ h.inv hkeyless hcall
  have hnewhome : m.HomeNotJoined → ∀ a ∈ new, a.model = m.homeEx → a.row = n := by
    intro hH a ha hmodel
    rcases (hnewp a ha).2 with hx | ⟨z, hz⟩
    · exact congrArg Prod.snd hx
    · exact absurd hmodel (hH z _ hz)
  refine ⟨hinv', CleanState.step fuel m.homeEx n st ms i st' ms' h.clean hcall herr, ?_, ?_, ?_⟩
  · intro r hr
    rcases Nat.lt_or_ge r n with h1 | h1
    · obtain ⟨j, a, ha, hak⟩ := h.units r h1
      exact ⟨j, a, by rw [hnew]; exact getElem?_append_of_some _ _ _ _ ha, hak⟩
    · have : r = n := by omega
      subst this
      obtain ⟨a, ha, hak, -⟩ := hres herr
      exact ⟨i, a, ha, hak⟩
  · intro hH a ha hmodel
    rw [hnew] at ha
    rcases List.mem_append.1 ha with ha | ha
    · have := h.home_rows hH a ha hmodel; omega
    · have := hnewhome hH a ha hmodel; omega
  · intro hH i1 i2 a b ha hb hma hmb hlt
    rw [hnew] at ha hb
    rcases getElem?_append_cases _ _ _ _ ha with ha1 | ⟨hi1, ha1⟩
    · rcases getElem?_append_cases _ _ _ _ hb with hb1 | ⟨hi2, hb1⟩
      · exact h.home_order hH i1 i2 a b ha1 hb1 hma hmb hlt
      · have := getElem?_lt_length _ _ _ ha1
        omega
    · have harow := hnewhome hH a ha1 hma
      rcases getElem?_append_cases _ _ _ _ hb with hb1 | ⟨hi2, hb1⟩
      · have := h.home_rows hH b (List.getElem?_mem hb1) hmb
        omega
      · have := hnewhome hH b hb1 hmb
        omega

/-- The flattening loop of `state::init`, when it returns without a raised
error, has flattened every row it was asked for. -/
theorem flattenRows_inv (m : Model α) (nodes : Finset (Nat × Nat)) (hwf : m.WellFormed nodes)
    (fuel : Nat) :
    ∀ (count row : Nat) (st : State α) (ms : Nat) (st' : State α) (ms' : Nat),
      RowsInv m row st → flattenRows m fuel count row (st, ms) = .ok (st', ms') →
      st'.errorRaised = false → RowsInv m (row + count) st' := by
  intro count
  induction count with
  | zero =>
    intro row st ms st' ms' h hrun _
    simp only [flattenRows, Except.ok.injEq, Prod.mk.injEq] at hrun
    rw [← hrun.1]
    exact h
  | succ count ih =>
    intro row st ms st' ms' h hrun herr
    rw [flattenRows] at hrun
    cases hcall : flattenOneRow m fuel m.homeEx row (st, ms) with
    | error err => rw [hcall] at hrun; cases hrun
    | ok res =>
      obtain ⟨i, st1, ms1⟩ := res
      rw [hcall] at hrun
      simp only at hrun
      cases he : st1.errorRaised with
      | true =>
        rw [he] at hrun
        simp only [if_true, Except.ok.injEq, Prod.mk.injEq] at hrun
        rw [← hrun.1, he] at herr
        cases herr
      | false =>
        rw [he] at hrun
        simp only [Bool.false_eq_true, if_false] at hrun
        have := ih (row + 1) st1 ms1 st' ms' (rowsInv_step m nodes hwf fuel row st ms i st1 ms1 h
          hcall he) hrun herr
        rw [show row + (count + 1) = row + 1 + count by omega]
        exact this

theorem rowsInv_empty (m : Model α) : RowsInv m 0 (State.empty : State α) := by
  refine ⟨flatInv_empty m, CleanState.empty, ?_, ?_, ?_⟩
  · intro r hr; omega
  · intro _ a ha; simp [State.empty] at ha
  · intro _ i j a b ha; simp [State.empty] at ha

/-- Flattening as done by `state::init`, when it succeeds. -/
theorem flatten_inv (m : Model α) (nodes : Finset (Nat × Nat)) (hwf : m.WellFormed nodes)
    (fuel : Nat) (st : State α) (ms : Nat) (h : flatten m fuel = .ok (st, ms))
    (herr : st.errorRaised = false) : RowsInv m (m.rows (m.data m.homeEx)) st := by
  have := flattenRows_inv m nodes hwf fuel _ 0 State.empty 0 st ms (rowsInv_empty m) h herr
  simpa using this

theorem nodup_index_unique {β γ : Type} (f : β → γ) (l : List β) (h : (l.map f).Nodup)
    (i j : Nat) (a b : β) (ha : l[i]? = some a) (hb : l[j]? = some b) (hab : f a = f b) :
    i = j := by
  have hi := getElem?_lt_length l i a ha
  have hj := getElem?_lt_length l j b hb
  have hi' : i < (l.map f).length := by simpa using hi
  have hj' : j < (l.map f).length := by simpa using hj
  have h1 : (l.map f)[i] = f a := by
    rw [List.getElem_map]
    rw [List.getElem?_eq_getElem hi] at ha
    rw [Option.some.inj ha]
  have h2 : (l.map f)[j] = f b := by
    rw [List.getElem_map]
    rw [List.getElem?_eq_getElem hj] at hb
    rw [Option.some.inj hb]
  exact (@List.Nodup.getElem_inj_iff _ _ h i hi' j hj').1 (by rw [h1, h2, hab])

/-- In a state with the flattening invariant and no raised error, every row
reached through joins from the row of a unit has a unit. -/
theorem flatInv_reached (m : Model α) (st : State α) (hinv : FlatInv m st)
    (herr : st.errorRaised = false) (x y : Nat × Nat)
    (hxy : Relation.ReflTransGen m.Joins x y) :
    (∃ (i : Nat) (a : Addr α), st.layout[i]? = some a ∧ (a.model, a.row) = x) →
    ∃ (i : Nat) (a : Addr α), st.layout[i]? = some a ∧ (a.model, a.row) = y := by
  induction hxy with
  | refl => exact fun h => h
  | tail _ hbc ih =>
    intro hx
    obtain ⟨i, a, ha, hak⟩ := ih hx
    rw [← hak] at hbc
    obtain ⟨j, b, -, hb, hbk⟩ := hinv.joined herr i a ha _ hbc
    exact ⟨j, b, hb, hbk⟩

theorem crossModel_wellFormed : crossModel.WellFormed {(1, 0), (1, 1)} := by
  refine ⟨fun e e' h => h, ?_, ?_, ?_⟩
  · intro d k r h
    simp only [crossModel] at h ⊢
    by_cases hd : d = 1
    · simp [hd]
    · simp [hd] at h
  · intro d k r h
    simp only [crossModel] at h
    by_cases hd : d = 1
    · subst hd
      by_cases hk0 : k = 0
      · simp [hk0] at h; simp [← h]
      · by_cases hk1 : k = 1
        · simp [hk1] at h; simp [← h]
        · simp [hk0, hk1] at h
    · simp [hd] at h
  · intro e r b key hb hkey
    simp only [crossModel] at hb hkey ⊢
    by_cases he : e = 0
    · subst he
      simp only [if_true, List.mem_singleton] at hb
      subst hb
      by_cases hr : r = 0
      · simp [hr] at hkey; simp [← hkey]
      · simp [hr] at hkey; simp [← hkey]
    · simp [he] at hb

theorem crossModel_homeNotJoined : crossModel.HomeNotJoined := by
  intro z y h hy
  obtain ⟨b, hb, key, -, hjm, -⟩ := h
  simp only [crossModel] at hb hy
  by_cases he : z.1 = 0
  · simp only [he, if_true, List.mem_singleton] at hb
    subst hb
    simp only at hjm
    omega
  · simp [he] at hb

theorem selfJoinModel_wellFormed : selfJoinModel.WellFormed {(0, 0)} := by
  refine ⟨fun e e' h => h, ?_, ?_, ?_⟩
  · intro d k r _
    rfl
  · intro d k r h
    simp only [selfJoinModel] at h
    by_cases hd : d = 0 ∧ k = 0
    · simp [hd] at h; simp [hd.1, ← h]
    · simp [hd] at h
  · intro e r b key hb hkey
    simp only [selfJoinModel] at hb hkey ⊢
    by_cases he : e = 0
    · subst he
      simp only [if_true, List.mem_singleton] at hb
      subst hb
      by_cases hr : r = 0
      · simp [hr] at hkey; simp [← hkey]
      · simp [hr] at hkey
    · simp [he] at hb

theorem selfJoinModel_joins : selfJoinModel.Joins (0, 0) (0, 0) :=
  ⟨{ joinKey := 0, joinModel := 0 }, by simp [selfJoinModel], 0, by simp [selfJoinModel], rfl,
    by simp [selfJoinModel]⟩

/-- A property of the state kept by the three places where `flattenOneRow`
writes the state is kept by every returning call. -/
theorem flattenOneRow_preserves (m : Model α) (P : State α → Prop)
    (hallEx : ∀ (st : State α) (e : Nat), P st → P { st with allEx := st.allEx.insert e })
    (hbegin : ∀ (st : State α) (e r : Nat), P st → P (beginRow m st e r))
    (hfinish : ∀ (e r : Nat) (jl : JoinLoop α), P jl.st → P (finishRow m e r jl).2.1) :
    ∀ (fuel e r : Nat) (st : State α) (ms i : Nat) (st' : State α) (ms' : Nat),
      flattenOneRow m fuel e r (st, ms) = .ok (i, st', ms') → P st → P st' := by
  intro fuel
  induction fuel with
  | zero => intro e r st ms i st' ms' h; simp [flattenOneRow] at h
  | succ fuel ih =>
    intro e r st ms i st' ms' h hP
    cases hmemo : memoOf m st e r with
    | some v =>
      rw [flattenOneRow_succ_some m fuel e r st ms v hmemo] at h
      by_cases hv : v < 0
      · simp [hv] at h
      · simp only [hv, if_false, Except.ok.injEq, Prod.mk.injEq] at h
        obtain ⟨-, hst, -⟩ := h
        subst hst
        exact hallEx st e hP
    | none =>
      rw [flattenOneRow_succ_none m fuel e r st ms hmemo] at h
      split at h
      · cases h
      · rename_i jl hfold
        simp only [Except.ok.injEq] at h
        have hjl : P jl.st := by
          have := foldlM_ok_inv (joinStep m (flattenOneRow m fuel) (m.data e) r)
            (fun _ acc => P acc.st) ?_ (m.between e) [] _ jl (hbegin st e r hP) hfold
          · exact this
          · intro pre b c b' hb hstep
            rcases joinStep_ok m _ _ _ b b' c hstep with ⟨-, rfl⟩ |
              ⟨key, row, parentPos, st1, ms1, -, -, hvisit, rfl⟩
            · exact hb
            · exact ih _ _ _ _ _ _ _ hvisit hb
        have := hfinish e r jl hjl
        rw [h] at this
        exact this

theorem flattenRows_preserves (m : Model α) (P : State α → Prop)
    (hallEx : ∀ (st : State α) (e : Nat), P st → P { st with allEx := st.allEx.insert e })
    (hbegin : ∀ (st : State α) (e r : Nat), P st → P (beginRow m st e r))
    (hfinish : ∀ (e r : Nat) (jl : JoinLoop α), P jl.st → P (finishRow m e r jl).2.1)
    (fuel : Nat) :
    ∀ (count row : Nat) (st : State α) (ms : Nat) (st' : State α) (ms' : Nat),
      flattenRows m fuel count row (st, ms) = .ok (st', ms') → P st → P st' := by
  intro count
  induction count with
  | zero =>
    intro row st ms st' ms' h hP
    simp only [flattenRows, Except.ok.injEq, Prod.mk.injEq] at h
    rw [← h.1]; exact hP
  | succ count ih =>
    intro row st ms st' ms' h hP
    rw [flattenRows] at h
    cases h1 : flattenOneRow m fuel m.homeEx row (st, ms) with
    | error err => rw [h1] at h; cases h
    | ok res =>
      obtain ⟨i, st1, ms1⟩ := res
      rw [h1] at h
      simp only at h
      have hP1 := flattenOneRow_preserves m P hallEx hbegin hfinish _ _ _ _ _ _ _ _ h1 hP
      split at h
      · simp only [Except.ok.injEq, Prod.mk.injEq] at h
        rw [← h.1]; exact hP1
      · exact ih _ _ _ _ _ h hP1

theorem freshUnits_flatten (m : Model α) (fuel : Nat) (st : State α) (ms : Nat)
    (h : flatten m fuel = .ok (st, ms)) : FreshUnits m st := by
  unfold flatten at h
  refine flattenRows_preserves m (FreshUnits m) ?_ ?_ ?_ fuel _ _ _ _ _ _ h
    ⟨fun a ha => by simp [State.empty] at ha, fun s hs => by simp [State.empty] at hs, rfl, rfl⟩
  · intro st e hP
    exact ⟨hP.units, hP.setup, hP.no_group, hP.no_plan⟩
  · intro st e r hP
    unfold beginRow
    simp only
    split
    · exact ⟨hP.units, hP.setup, hP.no_group, hP.no_plan⟩
    · exact ⟨hP.units, hP.setup, hP.no_group, hP.no_plan⟩
  · intro e r jl hP
    have hsetup : ∀ (parents : List Nat) (ls : List AddrSetup),
        (∀ s ∈ ls, s.clumped = false ∧ s.clump = [] ∧ s.heterogenousMean = false ∧
          s.skipMean = none) →
        ∀ s ∈ parents.foldl bumpKids ls, s.clumped = false ∧ s.clump = [] ∧
          s.heterogenousMean = false ∧ s.skipMean = none := by
      intro parents
      induction parents with
      | nil => intro ls hls; simpa using hls
      | cons p rest ih =>
        intro ls hls
        simp only [List.foldl_cons]
        apply ih
        intro s hs
        unfold bumpKids at hs
        obtain ⟨i, hi⟩ := List.getElem?_of_mem hs
        rw [List.getElem?_modify] at hi
        cases hl : ls[i]? with
        | none => rw [hl] at hi; cases hi
        | some s0 =>
          rw [hl] at hi
          simp only [Option.map_eq_map, Option.map_some', Option.some.injEq] at hi
          have := hls s0 (List.getElem?_mem hl)
          rw [← hi]
          split <;> exact this
    unfold finishRow
    simp only
    split
    · exact ⟨hP.units, hsetup _ _ hP.setup, hP.no_group, hP.no_plan⟩
    · refine ⟨?_, ?_, ?_, ?_⟩
      · intro a ha
        have ha' : a ∈ jl.st.layout ++ [newAddr m e r] := by
          split at ha <;> exact ha
        rcases List.mem_append.1 ha' with h1 | h1
        · exact hP.units a h1
        · simp only [List.mem_singleton] at h1
          subst h1
          rfl
      · intro s hs
        have hs' : s ∈ jl.parents.foldl bumpKids jl.st.layoutSetup ++
            [{ numKids := 0, numJoins := (jl.parents.length : Int), parent1 := jl.parent1,
               fk1 := jl.fk1, clumped := false, clump := [], heterogenousMean := false,
               skipMean := none, rset := none }] := by
          split at hs <;> exact hs
        rcases List.mem_append.1 hs' with h1 | h1
        · exact hsetup _ _ hP.setup s h1
        · simp only [List.mem_singleton] at h1
          subst h1
          exact ⟨rfl, rfl, rfl, rfl⟩
      · split <;> exact hP.no_group
      · split <;> exact hP.no_plan

end FlattenTheory

section PlanTheory

set_option linter.unusedSectionVars false

variable {α : Type} [LinearOrderedField α]

/-- The statement `m[k]` followed by an update either changes the value of one
entry whose key is equivalent to `k` or inserts a new entry for `k`; all other
entries stay as they are, in their order. -/
theorem mapUpsertM_ok {κ ν : Type} (cmp : κ → κ → Except Error Bool) (k : κ) (init : ν)
    (f : ν → ν) :
    ∀ (l l' : List (κ × ν)), mapUpsertM cmp k init f l = .ok l' →
      ∃ l1 l2, (l = l1 ++ l2 ∧ l' = l1 ++ (k, f init) :: l2) ∨
        (∃ k' v, l = l1 ++ (k', v) :: l2 ∧ l' = l1 ++ (k', f v) :: l2 ∧
          cmp k' k = .ok false ∧ cmp k k' = .ok false) := by
  intro l
  induction l with
  | nil =>
    intro l' h
    simp only [mapUpsertM, Except.ok.injEq] at h
    exact ⟨[], [], Or.inl ⟨rfl, by simp [← h]⟩⟩
  | cons e rest ih =>
    intro l' h
    obtain ⟨k', v⟩ := e
    rw [mapUpsertM] at h
    cases h1 : cmp k' k with
    | error err => rw [h1] at h; cases h
    | ok b1 =>
      rw [h1] at h
      cases b1 with
      | true =>
        simp only at h
        cases h2 : mapUpsertM cmp k init f rest with
        | error err => rw [h2] at h; cases h
        | ok rest' =>
          rw [h2] at h
          simp only [Except.ok.injEq] at h
          obtain ⟨l1, l2, hcase⟩ := ih rest' h2
          refine ⟨(k', v) :: l1, l2, ?_⟩
          rcases hcase with ⟨ha, hb⟩ | ⟨k'', v'', ha, hb, hc⟩
          · left; exact ⟨by rw [ha]; rfl, by rw [← h, hb]; rfl⟩
          · right; exact ⟨k'', v'', by rw [ha]; rfl, by rw [← h, hb]; rfl, hc⟩
      | false =>
        simp only at h
        cases h2 : cmp k k' with
        | error err => rw [h2] at h; cases h
        | ok b2 =>
          rw [h2] at h
          cases b2 with
          | true =>
            simp only [Except.ok.injEq] at h
            exact ⟨[], (k', v) :: rest, Or.inl ⟨rfl, by rw [← h]; rfl⟩⟩
          | false =>
            simp only [Except.ok.injEq] at h
            exact ⟨[], rest, Or.inr ⟨k', v, rfl, by rw [← h]; rfl, h1, h2⟩⟩

theorem setInsert_mem (x y : Nat) (l : List Nat) : y ∈ setInsert x l ↔ y = x ∨ y ∈ l := by
  induction l with
  | nil => simp [setInsert]
  | cons z zs ih =>
    unfold setInsert
    by_cases h1 : x < z
    · simp [h1]
    · by_cases h2 : x = z
      · simp [h1, h2]
      · simp only [h1, h2, if_false, List.mem_cons, ih]
        tauto

theorem foldl_setInsert_mem (members : List Nat) (y : Nat) :
    ∀ s : List Nat, y ∈ members.foldl (fun t x => setInsert x t) s ↔ y ∈ members ∨ y ∈ s := by
  induction members with
  | nil => intro s; simp
  | cons z zs ih =>
    intro s
    simp only [List.foldl_cons, ih, setInsert_mem, List.mem_cons]
    tauto

theorem Connectedness.inv_rg_lt (cc : Connectedness) (h : cc.Inv) (u rg : Nat)
    (hu : cc.region[u]? = some (some rg)) : rg < cc.connected.length := by
  have := h u rg hu
  rcases Nat.lt_or_ge rg cc.connected.length with h1 | h1
  · exact h1
  · rw [List.getElem?_eq_none h1] at this
    simp at this

theorem preconnect_region_length (cc : Connectedness) (ax : Nat) :
    (cc.preconnect ax).region.length = cc.region.length := by
  unfold Connectedness.preconnect
  split <;> simp

theorem connect_region_length (cc : Connectedness) (ax bx : Nat) :
    (cc.connect ax bx).region.length = cc.region.length := by
  unfold Connectedness.connect
  split
  · exact preconnect_region_length cc ax
  · split
    · simp [preconnect_region_length]
    · split
      · exact preconnect_region_length cc ax
      · simp [Connectedness.merge, preconnect_region_length]

theorem preconnect_inv (cc : Connectedness) (ax : Nat) (h : cc.Inv) : (cc.preconnect ax).Inv := by
  unfold Connectedness.preconnect
  split
  · exact h
  · rename_i hnone
    intro u rg hu
    simp only [List.getElem?_set] at hu
    by_cases hax : ax = u
    · subst hax
      by_cases hlt : ax < cc.region.length
      · simp only [hlt, if_true, Option.some.injEq] at hu
        subst hu
        simp
      · simp [hlt] at hu
    · simp only [hax, if_false] at hu
      have hlt := Connectedness.inv_rg_lt cc h u rg hu
      have := h u rg hu
      rw [List.getElem?_append_left hlt]
      exact this

theorem preconnect_some (cc : Connectedness) (ax : Nat) (hax : ax < cc.region.length) :
    ∃ ra, (cc.preconnect ax).region[ax]? = some (some ra) := by
  unfold Connectedness.preconnect
  split
  · rename_i r hr
    simp only [List.getD_eq_getElem?_getD] at hr
    rw [List.getElem?_eq_getElem hax] at hr ⊢
    simp only [Option.getD_some] at hr
    exact ⟨r, by rw [hr]⟩
  · exact ⟨cc.connected.length, by simp [List.getElem?_set, hax]⟩

theorem preconnect_region_mono (cc : Connectedness) (ax u rg : Nat)
    (h : cc.region[u]? = some (some rg)) : (cc.preconnect ax).region[u]? = some (some rg) := by
  unfold Connectedness.preconnect
  split
  · exact h
  · rename_i hnone
    simp only [List.getElem?_set]
    by_cases hax : ax = u
    · subst hax
      simp only [List.getD_eq_getElem?_getD, h, Option.getD_some] at hnone
      cases hnone
    · simp [hax, h]

theorem merge_inv (cc : Connectedness) (ra rb : Nat) (hne : ra ≠ rb)
    (hlt : ra < cc.connected.length) (h : cc.Inv) : (cc.merge ra rb).Inv := by
  intro u rg hu
  simp only [Connectedness.merge, List.getElem?_map, Option.map_eq_some'] at hu
  obtain ⟨r, hr, hrr⟩ := hu
  simp only [Connectedness.merge]
  by_cases hrb : r = some rb
  · simp only [hrb, if_true, Option.some.injEq] at hrr
    subst hrr
    subst hrb
    have hmem := h u rb hr
    rw [List.getElem?_set_ne (Ne.symm hne), List.getElem?_modify_eq,
      List.getElem?_eq_getElem hlt]
    simp only [Option.map_eq_map, Option.map_some', Option.getD_some, foldl_setInsert_mem]
    left
    simpa [List.getD_eq_getElem?_getD] using hmem
  · simp only [hrb, if_false] at hrr
    subst hrr
    have hmem := h u rg hr
    have hne2 : rb ≠ rg := fun hh => hrb (by rw [hh])
    rw [List.getElem?_set_ne hne2]
    by_cases hra : ra = rg
    · subst hra
      rw [List.getElem?_modify_eq]
      cases hs : cc.connected[ra]? with
      | none => rw [hs] at hmem; simp at hmem
      | some s =>
        rw [hs] at hmem
        simp only [Option.map_eq_map, Option.map_some', Option.getD_some, foldl_setInsert_mem]
        right
        simpa using hmem
    · rw [List.getElem?_modify_ne _ _ hra]
      exact hmem

theorem connect_inv (cc : Connectedness) (ax bx : Nat) (h : cc.Inv) :
    (cc.connect ax bx).Inv := by
  have hp := preconnect_inv cc ax h
  unfold Connectedness.connect
  split
  · exact hp
  · rename_i ra hra
    have hra' : (cc.preconnect ax).region[ax]? = some (some ra) := by
      simp only [List.getD_eq_getElem?_getD] at hra
      cases hv : (cc.preconnect ax).region[ax]? with
      | none => rw [hv] at hra; simp at hra
      | some v => rw [hv] at hra; simp only [Option.getD_some] at hra; rw [hra]
    have hlt := Connectedness.inv_rg_lt _ hp ax ra hra'
    split
    · rename_i hbx
      intro u rg hu
      simp only [List.getElem?_set] at hu
      by_cases hb : bx = u
      · subst hb
        by_cases hblt : bx < (cc.preconnect ax).region.length
        · simp only [hblt, if_true, Option.some.injEq] at hu
          subst hu
          simp only [List.getElem?_modify_eq, List.getElem?_eq_getElem hlt, Option.map_eq_map,
            Option.map_some', Option.getD_some, setInsert_mem]
          simp
        · simp [hblt] at hu
      · simp only [hb, if_false] at hu
        have hmem := hp u rg hu
        by_cases hr : ra = rg
        · subst hr
          rw [List.getElem?_eq_getElem hlt] at hmem
          simp only [List.getElem?_modify_eq, List.getElem?_eq_getElem hlt, Option.map_eq_map,
            Option.map_some', Option.getD_some, setInsert_mem]
          right
          simpa using hmem
        · simp only [List.getElem?_modify_ne _ _ hr]
          exact hmem
    · rename_i rb hrb
      split
      · exact hp
      · rename_i hne
        exact merge_inv _ ra rb hne hlt hp

theorem connect_linked (cc : Connectedness) (ax bx : Nat) (hax : ax < cc.region.length)
    (hbx : bx < cc.region.length) : (cc.connect ax bx).Linked ax bx := by
  obtain ⟨ra, hra⟩ := preconnect_some cc ax hax
  have hbx' : bx < (cc.preconnect ax).region.length := by rw [preconnect_region_length]; exact hbx
  have hax' : ax < (cc.preconnect ax).region.length := by rw [preconnect_region_length]; exact hax
  unfold Connectedness.connect
  have hD : (cc.preconnect ax).region.getD ax none = some ra := by
    simp [List.getD_eq_getElem?_getD, hra]
  rw [hD]
  simp only
  split
  · rename_i hnone
    refine ⟨ra, ?_, ?_⟩
    · simp only [List.getElem?_set]
      by_cases hb : bx = ax
      · simp [hb, hax']
      · simp [hb, hra]
    · simp [List.getElem?_set, hbx']
  · rename_i rb hrb
    have hrb' : (cc.preconnect ax).region[bx]? = some (some rb) := by
      simp only [List.getD_eq_getElem?_getD] at hrb
      rw [List.getElem?_eq_getElem hbx'] at hrb ⊢
      simp only [Option.getD_some] at hrb
      rw [hrb]
    split
    · rename_i heq
      exact ⟨ra, hra, by rw [hrb', heq]⟩
    · rename_i hne
      refine ⟨ra, ?_, ?_⟩
      · simp [Connectedness.merge, hra]
      · simp [Connectedness.merge, hrb']

theorem connect_linked_mono (cc : Connectedness) (ax bx a b : Nat) (h : cc.Linked a b) :
    (cc.connect ax bx).Linked a b := by
  obtain ⟨rg, ha, hb⟩ := h
  have ha' := preconnect_region_mono cc ax a rg ha
  have hb' := preconnect_region_mono cc ax b rg hb
  unfold Connectedness.connect
  split
  · exact ⟨rg, ha', hb'⟩
  · rename_i ra hra
    split
    · rename_i hnone
      have hne : ∀ u r, (cc.preconnect ax).region[u]? = some (some r) → bx ≠ u := by
        intro u r hu hbu
        subst hbu
        simp [List.getD_eq_getElem?_getD, hu] at hnone
      refine ⟨rg, ?_, ?_⟩
      · simp [List.getElem?_set, hne a rg ha', ha']
      · simp [List.getElem?_set, hne b rg hb', hb']
    · rename_i rb hrb
      split
      · exact ⟨rg, ha', hb'⟩
      · by_cases hr : rg = rb
        · exact ⟨ra, by simp [Connectedness.merge, ha', hr], by simp [Connectedness.merge, hb', hr]⟩
        · exact ⟨rg, by simp [Connectedness.merge, ha', hr], by simp [Connectedness.merge, hb', hr]⟩



theorem connectJoins_spec (m : Model α) (st : State α) (ax : Nat) (a1 : Addr α) :
    ∀ (bs : List Between) (cc cc' : Connectedness),
      connectJoins m st ax a1 bs cc = .ok cc' → cc.Inv → ax < cc.region.length →
      cc'.Inv ∧ cc'.region.length = cc.region.length ∧
      (∀ a b, cc.Linked a b → cc'.Linked a b) ∧
      (∀ b ∈ bs, ∀ key row bx, m.keyElement (m.data a1.model) a1.row b.joinKey = some key →
        m.lookupRowOfKey (m.data b.joinModel) key = some row →
        st.rowToLayoutMap (m.data b.joinModel, row) = some bx →
        Int.toNat bx < cc.region.length → cc'.Linked ax (Int.toNat bx)) := by
  intro bs
  induction bs with
  | nil =>
    intro cc cc' h hinv _
    simp only [connectJoins, Except.ok.injEq] at h
    subst h
    exact ⟨hinv, rfl, fun _ _ h => h, by simp⟩
  | cons b1 rest ih =>
    intro cc cc' h hinv hax
    rw [connectJoins] at h
    cases hkey : m.keyElement (m.data a1.model) a1.row b1.joinKey with
    | none =>
      rw [hkey] at h
      obtain ⟨h1, h2, h3, h4⟩ := ih cc cc' h hinv hax
      refine ⟨h1, h2, h3, ?_⟩
      intro b hb key row bx hk hr hm hlt
      rcases List.mem_cons.1 hb with hb | hb
      · subst hb; rw [hkey] at hk; cases hk
      · exact h4 b hb key row bx hk hr hm hlt
    | some key =>
      rw [hkey] at h
      simp only at h
      cases hrow : m.lookupRowOfKey (m.data b1.joinModel) key with
      | none => rw [hrow] at h; cases h
      | some row =>
        rw [hrow] at h
        simp only at h
        cases hmap : st.rowToLayoutMap (m.data b1.joinModel, row) with
        | none => rw [hmap] at h; cases h
        | some bx =>
          rw [hmap] at h
          simp only at h
          have hlen := connect_region_length cc ax (Int.toNat bx)
          obtain ⟨h1, h2, h3, h4⟩ := ih _ cc' h (connect_inv cc ax _ hinv) (by rw [hlen]; exact hax)
          refine ⟨h1, by rw [h2, hlen], fun a b hab => h3 a b (connect_linked_mono cc ax _ a b hab), ?_⟩
          intro b hb key' row' bx' hk hr hm hlt
          rcases List.mem_cons.1 hb with hb | hb
          · subst hb
            rw [hkey] at hk; cases hk
            rw [hrow] at hr; cases hr
            rw [hmap] at hm; cases hm
            exact h3 _ _ (connect_linked cc ax _ hax hlt)
          · exact h4 b hb key' row' bx' hk hr hm (by rw [hlen]; exact hlt)

theorem connectUnits_spec (m : Model α) (st : State α) :
    ∀ (count : Nat) (cc cc' : Connectedness),
      connectUnits m st count cc = .ok cc' → cc.Inv → cc.region.length = st.layout.length →
      count ≤ st.layout.length →
      cc'.Inv ∧ cc'.region.length = cc.region.length ∧
      (∀ a b, cc.Linked a b → cc'.Linked a b) ∧
      (∀ ax a1, ax < count → st.layout[ax]? = some a1 → a1.rampartScale ≠ 0 →
        ∀ b ∈ m.between a1.model, ∀ key row bx,
        m.keyElement (m.data a1.model) a1.row b.joinKey = some key →
        m.lookupRowOfKey (m.data b.joinModel) key = some row →
        st.rowToLayoutMap (m.data b.joinModel, row) = some bx →
        Int.toNat bx < st.layout.length → cc'.Linked ax (Int.toNat bx)) := by
  intro count
  induction count with
  | zero =>
    intro cc cc' h hinv _ _
    simp only [connectUnits, Except.ok.injEq] at h
    subst h
    exact ⟨hinv, rfl, fun _ _ h => h, fun ax _ hax => by omega⟩
  | succ n ih =>
    intro cc cc' h hinv hlen hcount
    rw [connectUnits] at h
    cases hget : st.getAddr n with
    | error err => rw [hget] at h; cases h
    | ok a0 =>
      rw [hget] at h
      simp only at h
      have ha0 : st.layout[n]? = some a0 := by
        unfold State.getAddr at hget
        cases hl : st.layout[n]? with
        | none => rw [hl] at hget; cases hget
        | some a => rw [hl] at hget; simp only [Except.ok.injEq] at hget; rw [hget]
      by_cases hskip : a0.rampartScale = 0 ∨ (m.between a0.model).length = 0
      · rw [if_pos hskip] at h
        obtain ⟨h1, h2, h3, h4⟩ := ih cc cc' h hinv hlen (by omega)
        refine ⟨h1, h2, h3, ?_⟩
        intro ax a1 hax hl hscale b hb key row bx hk hr hm hlt
        rcases Nat.lt_or_ge ax n with hlt' | hge
        · exact h4 ax a1 hlt' hl hscale b hb key row bx hk hr hm hlt
        · have : ax = n := by omega
          subst this
          rw [ha0] at hl
          cases hl
          rcases hskip with hs | hs
          · exact absurd hs hscale
          · have : m.between a0.model = [] := List.length_eq_zero.1 hs
            rw [this] at hb
            cases hb
      · rw [if_neg hskip] at h
        cases hj : connectJoins m st n a0 (m.between a0.model) cc with
        | error err => rw [hj] at h; cases h
        | ok cc1 =>
          rw [hj] at h
          simp only at h
          obtain ⟨j1, j2, j3, j4⟩ := connectJoins_spec m st n a0 _ cc cc1 hj hinv (by omega)
          obtain ⟨h1, h2, h3, h4⟩ := ih cc1 cc' h j1 (by rw [j2, hlen]) (by omega)
          refine ⟨h1, by rw [h2, j2], fun a b hab => h3 a b (j3 a b hab), ?_⟩
          intro ax a1 hax hl hscale b hb key row bx hk hr hm hlt
          rcases Nat.lt_or_ge ax n with hlt' | hge
          · exact h4 ax a1 hlt' hl hscale b hb key row bx hk hr hm hlt
          · have : ax = n := by omega
            subst this
            rw [ha0] at hl
            cases hl
            exact h3 _ _ (j4 b hb key row bx hk hr hm (by rw [hlen]; exact hlt))

theorem init_inv (size : Nat) : (Connectedness.init size).Inv := by
  intro u rg hu
  simp only [Connectedness.init, List.getElem?_replicate] at hu
  split at hu <;> simp at hu

/-- `computeConnected` puts every unit with a nonzero rampart scale into the
component of each unit it joins, and every unit with a component is a member
of the set of its component. -/
theorem computeConnected_spec (m : Model α) (st : State α) (cc : Connectedness)
    (h : computeConnected m st = .ok cc) :
    cc.Inv ∧ cc.region.length = st.layout.length ∧
    (∀ ax a1, st.layout[ax]? = some a1 → a1.rampartScale ≠ 0 →
      ∀ b ∈ m.between a1.model, ∀ key row bx,
      m.keyElement (m.data a1.model) a1.row b.joinKey = some key →
      m.lookupRowOfKey (m.data b.joinModel) key = some row →
      st.rowToLayoutMap (m.data b.joinModel, row) = some bx →
      Int.toNat bx < st.layout.length → cc.Linked ax (Int.toNat bx)) := by
  obtain ⟨h1, h2, -, h4⟩ := connectUnits_spec m st _ _ cc h (init_inv _)
    (by simp [Connectedness.init]) (Nat.le_refl _)
  refine ⟨h1, by rw [h2]; simp [Connectedness.init], ?_⟩
  intro ax a1 hl
  exact h4 ax a1 (getElem?_lt_length _ _ _ hl) hl

theorem appendClumpLoop_ext (app : Nat → List Nat → Except Error (List Nat))
    (happ : ∀ c clump clump', app c clump = .ok clump' → ∃ added, clump' = clump ++ added) :
    ∀ (cs clump clump' : List Nat), appendClumpLoop app cs clump = .ok clump' →
      ∃ added, clump' = clump ++ added := by
  intro cs
  induction cs with
  | nil =>
    intro clump clump' h
    simp only [appendClumpLoop, Except.ok.injEq] at h
    exact ⟨[], by simp [h]⟩
  | cons c rest ih =>
    intro clump clump' h
    rw [appendClumpLoop] at h
    cases h1 : app c clump with
    | error err => rw [h1] at h; cases h
    | ok clump1 =>
      rw [h1] at h
      simp only at h
      obtain ⟨a1, ha1⟩ := happ c clump clump1 h1
      obtain ⟨a2, ha2⟩ := ih clump1 clump' h
      exact ⟨a1 ++ a2, by rw [ha2, ha1, List.append_assoc]⟩

/-- `appendClump` appends to `clump`, the unit `ax` first. -/
theorem appendClump_ext (st : State α) :
    ∀ (fuel ax : Nat) (clump clump' : List Nat), appendClump st fuel ax clump = .ok clump' →
      ∃ added, clump' = clump ++ ax :: added := by
  intro fuel
  induction fuel with
  | zero => intro ax clump clump' h; simp [appendClump] at h
  | succ fuel ih =>
    intro ax clump clump' h
    rw [appendClump] at h
    cases h1 : st.getSetup ax with
    | error err => rw [h1] at h; cases h
    | ok a1 =>
      rw [h1] at h
      simp only at h
      obtain ⟨added, hadd⟩ := appendClumpLoop_ext (appendClump st fuel)
        (fun c cl cl' hc => by
          obtain ⟨ad, had⟩ := ih c cl cl' hc
          exact ⟨c :: ad, had⟩) a1.clump _ clump' h
      exact ⟨added, by rw [hadd, List.append_assoc]; rfl⟩

theorem firstLoose_mem (st : State α) :
    ∀ (l : List Nat) (u : Nat), firstLoose st l = .ok (some u) → u ∈ l := by
  intro l
  induction l with
  | nil => intro u h; simp [firstLoose] at h
  | cons x xs ih =>
    intro u h
    rw [firstLoose] at h
    cases h1 : st.getSetup x with
    | error err => rw [h1] at h; cases h
    | ok as2 =>
      rw [h1] at h
      simp only at h
      by_cases hc : as2.clumped = true
      · rw [if_pos hc] at h
        exact List.mem_cons_of_mem _ (ih u h)
      · rw [if_neg hc] at h
        simp only [Except.ok.injEq, Option.some.injEq] at h
        rw [← h]; exact List.mem_cons_self _ _

/-- The loop that orders a component loses no unit: every unit of
`unsortedClump` ends in `clump` or is left in `unsortedClump`. -/
theorem sortClump_spec (st : State α) (budget : Nat) :
    ∀ (n : Nat) (S clump clump' left : List Nat),
      sortClump st budget n S clump = .ok (clump', left) →
      (∀ u ∈ S, u ∈ clump' ∨ u ∈ left) ∧ (∀ u ∈ clump, u ∈ clump') ∧ (∀ u ∈ left, u ∈ S) := by
  intro n
  induction n with
  | zero =>
    intro S clump clump' left h
    simp only [sortClump, Except.ok.injEq, Prod.mk.injEq] at h
    obtain ⟨h1, h2⟩ := h
    subst h1; subst h2
    exact ⟨fun u hu => Or.inr hu, fun u hu => hu, fun u hu => hu⟩
  | succ n ih =>
    intro S clump clump' left h
    rw [sortClump] at h
    cases h1 : firstLoose st S with
    | error err => rw [h1] at h; cases h
    | ok r =>
      rw [h1] at h
      cases r with
      | none =>
        simp only [Except.ok.injEq, Prod.mk.injEq] at h
        obtain ⟨h2, h3⟩ := h
        subst h2; subst h3
        exact ⟨fun u hu => Or.inr hu, fun u hu => hu, fun u hu => hu⟩
      | some u0 =>
        simp only at h
        cases h2 : appendClump st budget u0 clump with
        | error err => rw [h2] at h; cases h
        | ok clump1 =>
          rw [h2] at h
          simp only at h
          obtain ⟨added, hadd⟩ := appendClump_ext st budget u0 clump clump1 h2
          obtain ⟨i1, i2, i3⟩ := ih _ clump1 clump' left h
          have hdrop : clump1.drop clump.length = u0 :: added := by
            rw [hadd]; simp
          refine ⟨?_, ?_, ?_⟩
          · intro u hu
            by_cases hin : u ∈ u0 :: added
            · left
              apply i2
              rw [hadd]
              exact List.mem_append_right _ hin
            · apply i1
              rw [List.mem_filter]
              refine ⟨hu, ?_⟩
              rw [hdrop]
              simpa using hin
          · intro u hu
            apply i2
            rw [hadd]
            exact List.mem_append_left _ hu
          · intro u hu
            exact (List.mem_filter.1 (i3 u hu)).1

theorem lexLt_irrefl : ∀ x : List Nat, lexLt x x = false := by
  intro x
  induction x with
  | nil => rfl
  | cons a as ih => simp [lexLt, ih]

theorem lexLt_total : ∀ x y : List Nat, lexLt x y = false → lexLt y x = false → x = y := by
  intro x
  induction x with
  | nil =>
    intro y h1 h2
    cases y with
    | nil => rfl
    | cons b bs => simp [lexLt] at h1
  | cons a as ih =>
    intro y h1 h2
    cases y with
    | nil => simp [lexLt] at h2
    | cons b bs =>
      simp only [lexLt] at h1 h2
      by_cases hab : a < b
      · simp [hab] at h1
      · by_cases hba : b < a
        · simp [hba] at h2
        · simp only [hab, hba, if_false] at h1 h2
          have : a = b := by omega
          rw [this, ih bs h1 h2]

theorem clumpSetInsert_mem (x y : List Nat) (l : List (List Nat)) :
    y ∈ clumpSetInsert x l ↔ y = x ∨ y ∈ l := by
  induction l with
  | nil => simp [clumpSetInsert]
  | cons z zs ih =>
    unfold clumpSetInsert
    cases h1 : lexLt x z with
    | true => simp
    | false =>
      cases h2 : lexLt z x with
      | true =>
        simp only [Bool.false_eq_true, if_false, if_true, List.mem_cons, ih]
        tauto
      | false =>
        have hxz : x = z := lexLt_total x z h1 h2
        simp only [Bool.false_eq_true, if_false, List.mem_cons]
        subst hxz
        tauto

/-- Entering a clump into a map from clumps to sets of clumps keeps every clump
that was in some set and puts the new clump into some set. -/
theorem mapUpsertM_clump (cmp : List Nat → List Nat → Except Error Bool) (c : List Nat)
    (l l' : List (List Nat × List (List Nat)))
    (h : mapUpsertM cmp c [] (clumpSetInsert c) l = .ok l') :
    (∃ e ∈ l', c ∈ e.2) ∧ (∀ c0, (∃ e ∈ l, c0 ∈ e.2) → ∃ e ∈ l', c0 ∈ e.2) ∧
    (∀ e ∈ l', ∀ c0 ∈ e.2, (∃ e0 ∈ l, e0.1 = e.1 ∧ c0 ∈ e0.2) ∨
      (c0 = c ∧ (e.1 = c ∨ (cmp e.1 c = .ok false ∧ cmp c e.1 = .ok false)))) := by
  obtain ⟨l1, l2, hcase⟩ := mapUpsertM_ok cmp c [] (clumpSetInsert c) l l' h
  rcases hcase with ⟨hl, hl'⟩ | ⟨k', v, hl, hl', hc1, hc2⟩
  · subst hl; subst hl'
    refine ⟨⟨(c, clumpSetInsert c []), by simp, by simp [clumpSetInsert]⟩, ?_, ?_⟩
    · rintro c0 ⟨e, he, hc0⟩
      refine ⟨e, ?_, hc0⟩
      rcases List.mem_append.1 he with he | he
      · exact List.mem_append_left _ he
      · exact List.mem_append_right _ (List.mem_cons_of_mem _ he)
    · intro e he c0 hc0
      rcases List.mem_append.1 he with he | he
      · exact Or.inl ⟨e, List.mem_append_left _ he, rfl, hc0⟩
      · rcases List.mem_cons.1 he with he | he
        · subst he
          simp only [clumpSetInsert, List.mem_singleton] at hc0
          exact Or.inr ⟨hc0, Or.inl rfl⟩
        · exact Or.inl ⟨e, List.mem_append_right _ he, rfl, hc0⟩
  · subst hl; subst hl'
    refine ⟨⟨(k', clumpSetInsert c v), by simp, by simp [clumpSetInsert_mem]⟩, ?_, ?_⟩
    · rintro c0 ⟨e, he, hc0⟩
      rcases List.mem_append.1 he with he | he
      · exact ⟨e, List.mem_append_left _ he, hc0⟩
      · rcases List.mem_cons.1 he with he | he
        · subst he
          exact ⟨(k', clumpSetInsert c v), by simp, by simp [clumpSetInsert_mem, hc0]⟩
        · exact ⟨e, List.mem_append_right _ (List.mem_cons_of_mem _ he), hc0⟩
    · intro e he c0 hc0
      rcases List.mem_append.1 he with he | he
      · exact Or.inl ⟨e, List.mem_append_left _ he, rfl, hc0⟩
      · rcases List.mem_cons.1 he with he | he
        · subst he
          simp only [clumpSetInsert_mem] at hc0
          rcases hc0 with hc0 | hc0
          · exact Or.inr ⟨hc0, Or.inr ⟨hc1, hc2⟩⟩
          · exact Or.inl ⟨(k', v), by simp, rfl, hc0⟩
        · exact Or.inl ⟨e, List.mem_append_right _ (List.mem_cons_of_mem _ he), rfl, hc0⟩

theorem linked_mem (cc : Connectedness) (hinv : cc.Inv) (u v rg : Nat)
    (hu : cc.region[u]? = some (some rg)) (h : cc.Linked u v) :
    v ∈ (cc.connected[rg]?).getD [] := by
  obtain ⟨rg', h1, h2⟩ := h
  rw [hu] at h1
  cases h1
  exact hinv v rg h2

theorem clumpInv_step (m : Model α) (st : State α) (budget : Nat) (cc : Connectedness)
    (hinv : cc.Inv) (hlen : cc.region.length = st.layout.length) :
    ∀ (count ax : Nat) (acc acc' : ClumpLoop),
      collectClumps m st budget cc.region count ax acc = .ok acc' →
      ax + count ≤ st.layout.length →
      ClumpInv m st cc ax acc → ClumpInv m st cc (ax + count) acc' := by
  intro count
  induction count with
  | zero =>
    intro ax acc acc' h _ hacc
    simp only [collectClumps, Except.ok.injEq] at h
    subst h
    exact hacc
  | succ count ih =>
    intro ax acc acc' h hbound hacc
    rw [collectClumps] at h
    rw [show ax + (count + 1) = ax + 1 + count by omega]
    have hax : ax < cc.region.length := by omega
    cases hreg : cc.region.getD ax none with
    | none =>
      rw [hreg] at h
      simp only at h
      have hreg' : cc.region[ax]? = some none := by
        simp only [List.getD_eq_getElem?_getD] at hreg
        rw [List.getElem?_eq_getElem hax] at hreg ⊢
        simp only [Option.getD_some] at hreg
        rw [hreg]
      cases hup : mapUpsertM (compatibleCovCompare m st) [ax] [] (clumpSetInsert [ax]) acc.cgm with
      | error err => rw [hup] at h; cases h
      | ok cgm =>
        rw [hup] at h
        simp only at h
        obtain ⟨u1, u2, u3⟩ := mapUpsertM_clump _ _ _ _ hup
        refine ih (ax + 1) _ acc' h (by omega) ⟨?_, ?_, ?_⟩
        · intro u hu
          rcases Nat.lt_or_ge u ax with hlt | hge
          · obtain ⟨e, he, c, hc, hm⟩ := hacc.covered u hlt
            obtain ⟨e', he', hc'⟩ := u2 c ⟨e, he, hc⟩
            exact ⟨e', he', c, hc', hm⟩
          · have : u = ax := by omega
            subst this
            obtain ⟨e, he, hc⟩ := u1
            refine ⟨e, he, [u], hc, by simp, ?_⟩
            rintro v ⟨rg, h1, -⟩
            rw [hreg'] at h1
            cases h1
        · intro rg
          rcases hacc.regions rg with h1 | ⟨e, he, c, hc, hm⟩
          · exact Or.inl h1
          · obtain ⟨e', he', hc'⟩ := u2 c ⟨e, he, hc⟩
            exact Or.inr ⟨e', he', c, hc', hm⟩
        · intro e he c hc
          rcases u3 e he c hc with ⟨e0, he0, hk, hc0⟩ | ⟨hc0, hk⟩
          · rw [← hk]; exact hacc.cov_eq e0 he0 c hc0
          · subst hc0
            rcases hk with hk | hk
            · exact Or.inl hk
            · exact Or.inr hk
    | some rg =>
      rw [hreg] at h
      simp only at h
      have hreg' : cc.region[ax]? = some (some rg) := by
        simp only [List.getD_eq_getElem?_getD] at hreg
        rw [List.getElem?_eq_getElem hax] at hreg ⊢
        simp only [Option.getD_some] at hreg
        rw [hreg]
      have hmem_ax : ax ∈ (cc.connected[rg]?).getD [] := hinv ax rg hreg'
      have hcover : ∀ cgm, RegionDone cc cgm rg → Covered cc cgm ax := by
        rintro cgm ⟨e, he, c, hc, hm⟩
        exact ⟨e, he, c, hc, hm ax hmem_ax, fun v hv => hm v (linked_mem cc hinv ax v rg hreg' hv)⟩
      by_cases hS : (acc.connected.getD rg []).length = 0
      · rw [if_pos hS] at h
        refine ih (ax + 1) acc acc' h (by omega) ⟨?_, hacc.regions, hacc.cov_eq⟩
        intro u hu
        rcases Nat.lt_or_ge u ax with hlt | hge
        · exact hacc.covered u hlt
        · have : u = ax := by omega
          subst this
          rcases hacc.regions rg with h1 | h1
          · exfalso
            have hnil : acc.connected.getD rg [] = [] := List.length_eq_zero.1 hS
            simp only [List.getD_eq_getElem?_getD, h1] at hnil
            rw [hnil] at hmem_ax
            cases hmem_ax
          · exact hcover _ h1
      · rw [if_neg hS] at h
        cases hsort : sortClump st budget (acc.connected.getD rg []).length
            (acc.connected.getD rg []) [] with
        | error err => rw [hsort] at h; cases h
        | ok res =>
          obtain ⟨clump0, left⟩ := res
          rw [hsort] at h
          simp only at h
          obtain ⟨s1, -, -⟩ := sortClump_spec st budget _ _ _ _ _ hsort
          cases hup : mapUpsertM (compatibleCovCompare m st) (clump0 ++ left) []
              (clumpSetInsert (clump0 ++ left)) acc.cgm with
          | error err => rw [hup] at h; cases h
          | ok cgm =>
            rw [hup] at h
            simp only at h
            obtain ⟨u1, u2, u3⟩ := mapUpsertM_clump _ _ _ _ hup
            have hmono : ∀ r, RegionDone cc acc.cgm r → RegionDone cc cgm r := by
              rintro r ⟨e, he, c, hc, hm⟩
              obtain ⟨e', he', hc'⟩ := u2 c ⟨e, he, hc⟩
              exact ⟨e', he', c, hc', hm⟩
            have hdone : RegionDone cc cgm rg := by
              rcases hacc.regions rg with h1 | h1
              · obtain ⟨e, he, hc⟩ := u1
                refine ⟨e, he, _, hc, ?_⟩
                intro v hv
                have hv' : v ∈ acc.connected.getD rg [] := by
                  simpa [List.getD_eq_getElem?_getD, h1] using hv
                rcases s1 v hv' with h2 | h2
                · exact List.mem_append_left _ h2
                · exact List.mem_append_right _ h2
              · exact hmono rg h1
            refine ih (ax + 1) _ acc' h (by omega) ⟨?_, ?_, ?_⟩
            · intro u hu
              rcases Nat.lt_or_ge u ax with hlt | hge
              · obtain ⟨e, he, c, hc, hm⟩ := hacc.covered u hlt
                obtain ⟨e', he', hc'⟩ := u2 c ⟨e, he, hc⟩
                exact ⟨e', he', c, hc', hm⟩
              · have : u = ax := by omega
                subst this
                exact hcover _ hdone
            · intro r
              by_cases hr : r = rg
              · subst hr; exact Or.inr hdone
              · rcases hacc.regions r with h1 | h1
                · left
                  simp only
                  rw [List.getElem?_set_ne (Ne.symm hr)]
                  exact h1
                · exact Or.inr (hmono r h1)
            · intro e he c hc
              rcases u3 e he c hc with ⟨e0, he0, hk, hc0⟩ | ⟨hc0, hk⟩
              · rw [← hk]; exact hacc.cov_eq e0 he0 c hc0
              · subst hc0
                rcases hk with hk | hk
                · exact Or.inl hk
                · exact Or.inr hk

/-- After the first loop of `planModelEval` every unit lies in a clump of the
map, together with every unit of its component, and the clumps of one entry
are not told apart by `CompatibleCovCompare`. -/
theorem collectClumps_spec (m : Model α) (st : State α) (budget : Nat) (cc : Connectedness)
    (hinv : cc.Inv) (hlen : cc.region.length = st.layout.length) (acc : ClumpLoop)
    (h : collectClumps m st budget cc.region st.layout.length 0
      { connected := cc.connected, cgm := [] } = .ok acc) :
    (∀ u, u < st.layout.length → Covered cc acc.cgm u) ∧
    (∀ e ∈ acc.cgm, ∀ c ∈ e.2, CovEq m st e.1 c) := by
  have := clumpInv_step m st budget cc hinv hlen _ 0 _ acc h (by omega)
    ⟨fun u hu => by omega, fun rg => Or.inl rfl, fun e he => by simp at he⟩
  exact ⟨fun u hu => this.covered u (by omega), this.cov_eq⟩

theorem PlanFrame.refl_plan (st : State α) : PlanFrame st st := ⟨rfl, rfl, rfl, rfl⟩

theorem PlanFrame.trans_plan {a b c : State α} (h1 : PlanFrame a b) (h2 : PlanFrame b c) :
    PlanFrame a c :=
  ⟨h2.core.trans h1.core, h2.setup.trans h1.setup, h2.map.trans h1.map, h2.err.trans h1.err⟩

theorem PlanFrame.length_plan {st st' : State α} (h : PlanFrame st st') :
    st'.layout.length = st.layout.length := by
  have := congrArg List.length h.core
  simpa using this

theorem PlanFrame.core_at {st st' : State α} (h : PlanFrame st st') (u : Nat) (a : Addr α)
    (ha : st.layout[u]? = some a) : ∃ a', st'.layout[u]? = some a' ∧ a'.core = a.core := by
  have h1 : (st'.layout.map Addr.core)[u]? = (st.layout.map Addr.core)[u]? := by rw [h.core]
  simp only [List.getElem?_map, ha, Option.map_some'] at h1
  cases ha' : st'.layout[u]? with
  | none => rw [ha'] at h1; cases h1
  | some a' =>
    rw [ha'] at h1
    simp only [Option.map_some', Option.some.injEq] at h1
    exact ⟨a', rfl, h1⟩

theorem PlanFrame.core_back {st st' : State α} (h : PlanFrame st st') (u : Nat) (a' : Addr α)
    (ha : st'.layout[u]? = some a') : ∃ a, st.layout[u]? = some a ∧ a'.core = a.core := by
  have h1 : (st'.layout.map Addr.core)[u]? = (st.layout.map Addr.core)[u]? := by rw [h.core]
  simp only [List.getElem?_map, ha, Option.map_some'] at h1
  cases ha' : st.layout[u]? with
  | none => rw [ha'] at h1; cases h1
  | some a =>
    rw [ha'] at h1
    simp only [Option.map_some', Option.some.injEq] at h1
    exact ⟨a, rfl, h1⟩

theorem getAddr_ok (st : State α) (u : Nat) (a : Addr α) :
    st.getAddr u = .ok a ↔ st.layout[u]? = some a := by
  unfold State.getAddr
  cases h : st.layout[u]? with
  | none => simp
  | some b => simp

theorem getSetup_ok (st : State α) (u : Nat) (a : AddrSetup) :
    st.getSetup u = .ok a ↔ st.layoutSetup[u]? = some a := by
  unfold State.getSetup
  cases h : st.layoutSetup[u]? with
  | none => simp
  | some b => simp

theorem modifyAddr_get (st : State α) (ax u : Nat) (f : Addr α → Addr α) :
    (st.modifyAddr ax f).layout[u]? = (fun a => if ax = u then f a else a) <$> st.layout[u]? := by
  simp only [State.modifyAddr, List.getElem?_modify]

theorem modifyAddr_frame (st : State α) (ax : Nat) (f : Addr α → Addr α)
    (hf : ∀ a, (f a).core = a.core) : PlanFrame st (st.modifyAddr ax f) := by
  refine ⟨?_, rfl, rfl, rfl⟩
  apply List.ext_getElem?
  intro n
  simp only [List.getElem?_map, modifyAddr_get]
  cases st.layout[n]? with
  | none => rfl
  | some a =>
    simp only [Option.map_eq_map, Option.map_some', Option.some.injEq]
    split
    · exact hf a
    · rfl

/-- What a returning call of `place` does: the unit had no group, it gets group
`gi`, and it is appended to `gMap`. -/
theorem place_ok (m : Model α) (gi : Nat) (ps ps' : PlaceState α) (ax : Nat)
    (h : place m gi ps ax = .ok ps') :
    ∃ a0, ps.st.layout[ax]? = some a0 ∧ a0.ig = none ∧
      ps'.st = ps.st.modifyAddr ax (fun a => { a with ig := some gi }) ∧
      ps'.ig.gMap = ps.ig.gMap ++ [ax] ∧ ps'.ig.clumpSize = ps.ig.clumpSize ∧
      ps'.ig.sufficientSets = ps.ig.sufficientSets ∧
      ps'.ig.placements.length = ps.ig.placements.length + 1 := by
  unfold place at h
  cases h0 : ps.st.getAddr ax with
  | error err => rw [h0] at h; cases h
  | ok a0 =>
    rw [h0] at h
    simp only at h
    have ha0 := (getAddr_ok _ _ _).1 h0
    cases hig : a0.ig with
    | some g => rw [hig] at h; simp at h
    | none =>
      rw [hig] at h
      simp only [Option.isSome_none, Bool.false_eq_true, if_false] at h
      refine ⟨a0, ha0, hig, ?_⟩
      split at h
      · split at h
        · cases h
        · simp only [Except.ok.injEq] at h
          subst h
          simp
      · simp only [Except.ok.injEq] at h
        subst h
        simp

theorem place_assign (m : Model α) (G : List (List Nat)) (ps ps' : PlaceState α) (ax : Nat)
    (hinv : AssignInv (G ++ [ps.ig.gMap]) ps.st) (h : place m G.length ps ax = .ok ps') :
    AssignInv (G ++ [ps'.ig.gMap]) ps'.st ∧ PlanFrame ps.st ps'.st := by
  obtain ⟨a0, ha0, hig, hst, hg, -, -, -⟩ := place_ok m G.length ps ps' ax h
  have hframe : PlanFrame ps.st ps'.st := by
    rw [hst]; exact modifyAddr_frame _ _ _ (fun a => rfl)
  have hax_notin : ∀ (g : Nat), ax ∉ ((G ++ [ps.ig.gMap])[g]?).getD [] := by
    intro g hmem
    have := (hinv.ig_iff ax a0 g ha0).2 hmem
    rw [hig] at this; cases this
  have hgetG : ∀ (cur : List Nat) (g : Nat), ((G ++ [cur])[g]?).getD [] =
      if g < G.length then (G[g]?).getD [] else if g = G.length then cur else [] := by
    intro cur g
    by_cases h1 : g < G.length
    · simp [h1, List.getElem?_append_left]
    · by_cases h2 : g = G.length
      · subst h2; simp
      · have : G.length + 1 ≤ g := by omega
        rw [List.getElem?_eq_none (by simp; omega)]
        simp [h1, h2]
  refine ⟨⟨?_, ?_, ?_⟩, hframe⟩
  · intro u a g hu
    rw [hst, modifyAddr_get] at hu
    by_cases hux : ax = u
    · subst hux
      rw [ha0] at hu
      simp only [Option.map_eq_map, Option.map_some', if_true, Option.some.injEq] at hu
      subst hu
      simp only [Option.some.injEq]
      constructor
      · intro hgg
        subst hgg
        rw [hgetG, hg]
        simp
      · intro hmem
        rw [hgetG, hg] at hmem
        by_cases h1 : g < G.length
        · simp only [h1, if_true] at hmem
          exact absurd (by rw [hgetG, if_pos h1]; exact hmem) (hax_notin g)
        · by_cases h2 : g = G.length
          · exact h2.symm
          · simp [h1, h2] at hmem
    · cases hl : ps.st.layout[u]? with
      | none => rw [hl] at hu; cases hu
      | some a1 =>
        rw [hl] at hu
        simp only [Option.map_eq_map, Option.map_some', hux, if_false, Option.some.injEq] at hu
        subst hu
        rw [hinv.ig_iff u a1 g hl, hgetG, hgetG, hg]
        by_cases h1 : g < G.length
        · simp [h1]
        · by_cases h2 : g = G.length
          · simp [h1, h2, Ne.symm hux]
          · simp [h1, h2]
  · intro gm hgm u hu
    rw [hframe.length_plan]
    rcases List.mem_append.1 hgm with hgm | hgm
    · exact hinv.valid gm (List.mem_append_left _ hgm) u hu
    · simp only [List.mem_singleton] at hgm
      subst hgm
      rw [hg] at hu
      rcases List.mem_append.1 hu with hu | hu
      · exact hinv.valid _ (List.mem_append_right _ (List.mem_singleton.2 rfl)) u hu
      · simp only [List.mem_singleton] at hu
        subst hu
        exact getElem?_lt_length _ _ _ ha0
  · intro gm hgm
    rcases List.mem_append.1 hgm with hgm | hgm
    · exact hinv.nodup gm (List.mem_append_left _ hgm)
    · simp only [List.mem_singleton] at hgm
      subst hgm
      rw [hg]
      refine List.Nodup.append (hinv.nodup _ (List.mem_append_right _ (List.mem_singleton.2 rfl)))
        (List.nodup_singleton _) ?_
      intro x hx1 hx2
      simp only [List.mem_singleton] at hx2
      subst hx2
      have := hax_notin G.length
      rw [hgetG] at this
      simp at this
      exact this hx1

theorem PlanFrame.unitObs_eq {st st' : State α} (h : PlanFrame st st') (u : Nat) :
    unitObs st' u = unitObs st u := by
  unfold unitObs
  cases h1 : st.layout[u]? with
  | none =>
    have : st'.layout[u]? = none := by
      rw [List.getElem?_eq_none_iff] at h1 ⊢
      rw [h.length_plan]; exact h1
    rw [this]
  | some a =>
    obtain ⟨a', ha', hc⟩ := h.core_at u a h1
    rw [ha']
    simp only [Addr.core, Prod.mk.injEq] at hc
    exact hc.2.2.1

theorem PlanFrame.unitVars_eq (m : Model α) {st st' : State α} (h : PlanFrame st st') (u : Nat) :
    unitVars m st' u = unitVars m st u := by
  unfold unitVars
  cases h1 : st.layout[u]? with
  | none =>
    have : st'.layout[u]? = none := by
      rw [List.getElem?_eq_none_iff] at h1 ⊢
      rw [h.length_plan]; exact h1
    rw [this]
  | some a =>
    obtain ⟨a', ha', hc⟩ := h.core_at u a h1
    rw [ha']
    simp only [Addr.core, Prod.mk.injEq] at hc
    simp only [hc.1]

/-- The placement that `place` appends. -/
theorem place_placement (m : Model α) (gi : Nat) (ps ps' : PlaceState α) (ax : Nat)
    (h : place m gi ps ax = .ok ps') (hlen : ps.ig.placements.length = ps.ig.gMap.length) :
    (ps.ig.gMap = [] ∧ ps'.ig.placements = ps.ig.placements ++ [⟨0, 0⟩]) ∨
    (∃ prev lastUnit, ps.ig.placements[ps.ig.gMap.length - 1]? = some prev ∧
      ps.ig.gMap[ps.ig.gMap.length - 1]? = some lastUnit ∧ 0 < ps.ig.gMap.length ∧
      ps'.ig.placements = ps.ig.placements ++
        [⟨prev.modelStart + unitVars m ps'.st lastUnit, prev.obsStart + unitObs ps'.st lastUnit⟩]) := by
  obtain ⟨a0, ha0, hig, hst, -⟩ := place_ok m gi ps ps' ax h
  unfold place at h
  rw [(getAddr_ok _ _ _).2 ha0] at h
  simp only [hig, Option.isSome_none, Bool.false_eq_true, if_false] at h
  cases hp : ps.ig.placements.getLast? with
  | none =>
    rw [hp] at h
    simp only [Except.ok.injEq] at h
    left
    rw [List.getLast?_eq_none_iff] at hp
    rw [hp] at hlen
    refine ⟨List.length_eq_zero.1 hlen.symm, ?_⟩
    subst h
    simp [hp]
  | some prev =>
    rw [hp] at h
    cases hg : ps.ig.gMap.getLast? with
    | none =>
      rw [List.getLast?_eq_none_iff] at hg
      rw [hg] at hlen
      have := List.length_eq_zero.1 hlen
      rw [this] at hp; cases hp
    | some lastUnit =>
      rw [hg] at h
      simp only at h
      right
      have hpos : 0 < ps.ig.gMap.length := by
        rcases Nat.eq_zero_or_pos ps.ig.gMap.length with h0 | h0
        · rw [List.length_eq_zero.1 h0] at hg; cases hg
        · exact h0
      rw [List.getLast?_eq_getElem?] at hp hg
      rw [hlen] at hp
      refine ⟨prev, lastUnit, hp, hg, hpos, ?_⟩
      cases h1 : (ps.st.modifyAddr ax fun a => { a with ig := some gi }).getAddr lastUnit with
      | error err => rw [h1] at h; cases h
      | ok a1 =>
        rw [h1] at h
        simp only [Except.ok.injEq] at h
        have h1' := (getAddr_ok _ _ _).1 h1
        rw [← hst] at h1'
        subst h
        simp only [unitVars, unitObs, h1']

theorem place_inv (m : Model α) (G : List (List Nat)) (st0 : State α) (ps ps' : PlaceState α)
    (ax : Nat) (hinv : PSInv m G st0 ps) (h : place m G.length ps ax = .ok ps') :
    PSInv m G st0 ps' := by
  obtain ⟨hassign, hframe⟩ := place_assign m G ps ps' ax hinv.assign h
  obtain ⟨a0, ha0, hig, hst, hg, -, -, hpl⟩ := place_ok m G.length ps ps' ax h
  have hfr : PlanFrame st0 ps'.st := hinv.frame.trans_plan hframe
  refine ⟨hassign, hfr, by rw [hpl, hg, hinv.plen]; simp, ?_⟩
  intro q pl hq
  have hold : ∀ (q : Nat) (pl : Placement), ps.ig.placements[q]? = some pl →
      pl.obsStart = (((ps.ig.gMap ++ [ax]).take q).map (unitObs st0)).sum ∧
      pl.modelStart = (((ps.ig.gMap ++ [ax]).take q).map (unitVars m st0)).sum := by
    intro q pl hq
    have hlt : q < ps.ig.gMap.length := by
      rw [← hinv.plen]; exact getElem?_lt_length _ _ _ hq
    rw [List.take_append_of_le_length (Nat.le_of_lt hlt)]
    exact hinv.offsets q pl hq
  rw [hg]
  rcases place_placement m G.length ps ps' ax h hinv.plen with ⟨hnil, hp⟩ | ⟨prev, lastUnit, hprev, hlast, hpos, hp⟩
  · rw [hp] at hq
    have hpl0 : ps.ig.placements = [] := by
      apply List.length_eq_zero.1; rw [hinv.plen, hnil]; rfl
    rw [hpl0] at hq
    rw [hnil]
    cases q with
    | zero =>
      simp only [List.nil_append, List.getElem?_cons_zero, Option.some.injEq] at hq
      subst hq
      simp
    | succ q => simp at hq
  · rw [hp] at hq
    by_cases hlt : q < ps.ig.placements.length
    · rw [List.getElem?_append_left hlt] at hq
      exact hold q pl hq
    · have hqe : q = ps.ig.placements.length := by
        have := getElem?_lt_length _ _ _ hq
        simp at this
        omega
      subst hqe
      simp only [List.getElem?_concat_length, Option.some.injEq] at hq
      subst hq
      obtain ⟨h1, h2⟩ := hinv.offsets _ _ hprev
      rw [hinv.plen, List.take_append_of_le_length (Nat.le_refl _), List.take_length]
      have hsplit : ps.ig.gMap = ps.ig.gMap.take (ps.ig.gMap.length - 1) ++ [lastUnit] := by
        have := List.take_append_drop (ps.ig.gMap.length - 1) ps.ig.gMap
        have hd : ps.ig.gMap.drop (ps.ig.gMap.length - 1) = [lastUnit] := by
          rw [List.drop_eq_getElem?_toList_append, hlast]
          simp
          omega
        rw [hd] at this
        exact this.symm
      simp only
      rw [hfr.unitObs_eq, PlanFrame.unitVars_eq m hfr, h1, h2]
      constructor
      · conv_rhs => rw [hsplit]
        simp
      · conv_rhs => rw [hsplit]
        simp

/-- The fields of the group that `place` leaves alone. -/
theorem place_ig (m : Model α) (gi : Nat) (ps ps' : PlaceState α) (ax : Nat)
    (h : place m gi ps ax = .ok ps') :
    ps'.ig = { ps.ig with gMap := ps.ig.gMap ++ [ax], placements := ps'.ig.placements } ∧
    ps'.st.group = ps.st.group := by
  unfold place at h
  cases h0 : ps.st.getAddr ax with
  | error err => rw [h0] at h; cases h
  | ok a0 =>
    rw [h0] at h
    simp only at h
    split at h
    · cases h
    · split at h
      · split at h
        · cases h
        · simp only [Except.ok.injEq] at h
          subst h
          exact ⟨rfl, rfl⟩
      · simp only [Except.ok.injEq] at h
        subst h
        exact ⟨rfl, rfl⟩

theorem placeClump_spec (m : Model α) (G : List (List Nat)) (st0 : State α) :
    ∀ (clump : List Nat) (ps ps' : PlaceState α) (het het' : Bool),
      PSInv m G st0 ps → placeClump m G.length clump (ps, het) = .ok (ps', het') →
      PSInv m G st0 ps' ∧
      ps'.ig = { ps.ig with gMap := ps.ig.gMap ++ clump, placements := ps'.ig.placements } ∧
      ps'.st.group = ps.st.group := by
  intro clump
  induction clump with
  | nil =>
    intro ps ps' het het' hinv h
    simp only [placeClump, Except.ok.injEq, Prod.mk.injEq] at h
    obtain ⟨h1, -⟩ := h
    subst h1
    exact ⟨hinv, by simp, rfl⟩
  | cons u rest ih =>
    intro ps ps' het het' hinv h
    rw [placeClump] at h
    cases hs : ps.st.getSetup u with
    | error err => rw [hs] at h; cases h
    | ok su =>
      rw [hs] at h
      simp only at h
      cases hp : place m G.length ps u with
      | error err => rw [hp] at h; cases h
      | ok ps1 =>
        rw [hp] at h
        simp only at h
        obtain ⟨i1, i2, i3⟩ := ih ps1 ps' _ het' (place_inv m G st0 ps ps1 u hinv hp) h
        obtain ⟨j1, j2⟩ := place_ig m G.length ps ps1 u hp
        refine ⟨i1, ?_, i3.trans j2⟩
        rw [i2, j1]
        simp

theorem placeSet_spec (m : Model α) (G : List (List Nat)) (st0 : State α) :
    ∀ (clumps : List (List Nat)) (ps ps' : PlaceState α) (het het' : Bool),
      PSInv m G st0 ps → placeSet m G.length clumps (ps, het) = .ok (ps', het') →
      PSInv m G st0 ps' ∧
      ps'.ig = { ps.ig with gMap := ps.ig.gMap ++ clumps.flatten,
                            placements := ps'.ig.placements } ∧
      ps'.st.group = ps.st.group := by
  intro clumps
  induction clumps with
  | nil =>
    intro ps ps' het het' hinv h
    simp only [placeSet, Except.ok.injEq, Prod.mk.injEq] at h
    obtain ⟨h1, -⟩ := h
    subst h1
    exact ⟨hinv, by simp, rfl⟩
  | cons c rest ih =>
    intro ps ps' het het' hinv h
    rw [placeSet] at h
    cases hp : placeClump m G.length c (ps, het) with
    | error err => rw [hp] at h; cases h
    | ok r =>
      obtain ⟨ps1, het1⟩ := r
      rw [hp] at h
      simp only at h
      obtain ⟨j0, j1, j2⟩ := placeClump_spec m G st0 c ps ps1 het het1 hinv hp
      obtain ⟨i1, i2, i3⟩ := ih ps1 ps' het1 het' j0 h
      refine ⟨i1, ?_, i3.trans j2⟩
      rw [i2, j1]
      simp

theorem placedInv_placeSet (m : Model α) (G : List (List Nat)) (st0 : State α)
    (grp : List (IndependentGroup α)) (clumps cl set : List (List Nat)) (ps ps' : PlaceState α) (het het' : Bool)
    (hinv : PlacedInv m G st0 grp clumps cl ps) (hsub : ∀ c ∈ set, c ∈ clumps)
    (h : placeSet m G.length set (ps, het) = .ok (ps', het')) :
    PlacedInv m G st0 grp clumps (cl ++ set) ps' ∧
    ps'.ig.sufficientSets = ps.ig.sufficientSets ∧
    ps'.ig.placements.length = (cl ++ set).flatten.length := by
  obtain ⟨i1, i2, i3⟩ := placeSet_spec m G st0 set ps ps' het het' hinv.inv h
  have hg : ps'.ig.gMap = (cl ++ set).flatten := by
    rw [i2]; simp [hinv.gmap]
  have hss : ps'.ig.sufficientSets = ps.ig.sufficientSets := by rw [i2]
  have hcs : ps'.ig.clumpSize = ps.ig.clumpSize := by rw [i2]
  refine ⟨⟨i1, hg, ?_, i3.trans hinv.group, by rw [hcs]; exact hinv.size,
    by rw [i2]; exact hinv.no_data, by rw [i2]; exact hinv.no_filter,
    by rw [i2]; exact hinv.no_map, ?_⟩, hss, by rw [i1.plen, hg]⟩
  · intro c hc
    rcases List.mem_append.1 hc with hc | hc
    · exact hinv.sub c hc
    · exact hsub c hc
  · intro ss hmem
    rw [hss] at hmem
    obtain ⟨pre, mid, post, h1, h2, h3, h4⟩ := hinv.sets ss hmem
    refine ⟨pre, mid, post ++ set, ?_, by rw [hcs]; exact h2, by rw [hcs]; exact h3, h4⟩
    rw [h1]; simp

theorem placeLoose_spec (m : Model α) (G : List (List Nat)) (st0 : State α)
    (grp : List (IndependentGroup α)) (clumps : List (List Nat)) :
    ∀ (cmm : List (List Nat × List (List Nat))) (cl : List (List Nat)) (ps ps' : PlaceState α),
      (∀ e ∈ cmm, ∀ c ∈ e.2, c ∈ clumps) →
      PlacedInv m G st0 grp clumps cl ps → placeLoose m G.length cmm ps = .ok ps' →
      ∃ cl', PlacedInv m G st0 grp clumps cl' ps' ∧ (∀ c ∈ cl, c ∈ cl') ∧
        (∀ e ∈ cmm, e.2.length ≤ 1 → ∀ c ∈ e.2, c ∈ cl') ∧
        ps'.ig.sufficientSets = ps.ig.sufficientSets := by
  intro cmm
  induction cmm with
  | nil =>
    intro cl ps ps' _ hinv h
    simp only [placeLoose, Except.ok.injEq] at h
    subst h
    exact ⟨cl, hinv, fun c hc => hc, fun e he => by simp at he, rfl⟩
  | cons e rest ih =>
    intro cl ps ps' hsub hinv h
    obtain ⟨k, set⟩ := e
    rw [placeLoose] at h
    by_cases hlen : 1 < set.length
    · rw [if_pos hlen] at h
      obtain ⟨cl', a1, a2, a3, a4⟩ := ih cl ps ps'
        (fun e he => hsub e (List.mem_cons_of_mem _ he)) hinv h
      refine ⟨cl', a1, a2, ?_, a4⟩
      intro e he hle c hc
      rcases List.mem_cons.1 he with he | he
      · subst he
        simp only at hle
        omega
      · exact a3 e he hle c hc
    · rw [if_neg hlen] at h
      cases hp : placeSet m G.length set (ps, false) with
      | error err => rw [hp] at h; cases h
      | ok r =>
        obtain ⟨ps1, het1⟩ := r
        rw [hp] at h
        simp only at h
        obtain ⟨b1, b2, -⟩ := placedInv_placeSet m G st0 grp clumps cl set ps ps1 false het1 hinv
          (fun c hc => hsub (k, set) (List.mem_cons_self _ _) c hc) hp
        obtain ⟨cl', a1, a2, a3, a4⟩ := ih (cl ++ set) ps1 ps'
          (fun e he => hsub e (List.mem_cons_of_mem _ he)) b1 h
        refine ⟨cl', a1, fun c hc => a2 c (List.mem_append_left _ hc), ?_, a4.trans b2⟩
        intro e he hle c hc
        rcases List.mem_cons.1 he with he | he
        · subst he
          exact a2 c (List.mem_append_right _ hc)
        · exact a3 e he hle c hc

theorem placeSufficient_spec (m : Model α) (G : List (List Nat)) (st0 : State α)
    (grp : List (IndependentGroup α)) (clumps : List (List Nat)) :
    ∀ (cmm : List (List Nat × List (List Nat))) (cl : List (List Nat)) (ps ps' : PlaceState α),
      (∀ e ∈ cmm, ∀ c ∈ e.2, c ∈ clumps) → (∀ e ∈ cmm, e.2 ≠ []) →
      PlacedInv m G st0 grp clumps cl ps → placeSufficient m G.length cmm ps = .ok ps' →
      ∃ cl', PlacedInv m G st0 grp clumps cl' ps' ∧ (∀ c ∈ cl, c ∈ cl') ∧
        (∀ e ∈ cmm, e.2.length ≠ 1 → ∀ c ∈ e.2, c ∈ cl') := by
  intro cmm
  induction cmm with
  | nil =>
    intro cl ps ps' _ _ hinv h
    simp only [placeSufficient, Except.ok.injEq] at h
    subst h
    exact ⟨cl, hinv, fun c hc => hc, fun e he => by simp at he⟩
  | cons e rest ih =>
    intro cl ps ps' hsub hne hinv h
    obtain ⟨k, set⟩ := e
    rw [placeSufficient] at h
    by_cases hlen : set.length = 1
    · rw [if_pos hlen] at h
      obtain ⟨cl', a1, a2, a3⟩ := ih cl ps ps'
        (fun e he => hsub e (List.mem_cons_of_mem _ he))
        (fun e he => hne e (List.mem_cons_of_mem _ he)) hinv h
      refine ⟨cl', a1, a2, ?_⟩
      intro e he hne c hc
      rcases List.mem_cons.1 he with he | he
      · subst he
        exact absurd hlen hne
      · exact a3 e he hne c hc
    · rw [if_neg hlen] at h
      simp only at h
      cases hp : placeSet m G.length set (ps, false) with
      | error err => rw [hp] at h; cases h
      | ok r =>
        obtain ⟨ps1, het1⟩ := r
        rw [hp] at h
        simp only at h
        obtain ⟨b1, b2, b3⟩ := placedInv_placeSet m G st0 grp clumps cl set ps ps1 false het1 hinv
          (fun c hc => hsub (k, set) (List.mem_cons_self _ _) c hc) hp
        have hfin : ∀ ps2 : PlaceState α, PlacedInv m G st0 grp clumps (cl ++ set) ps2 →
            placeSufficient m G.length rest ps2 = .ok ps' →
            ∃ cl', PlacedInv m G st0 grp clumps cl' ps' ∧ (∀ c ∈ cl, c ∈ cl') ∧
              (∀ e ∈ (k, set) :: rest, e.2.length ≠ 1 → ∀ c ∈ e.2, c ∈ cl') := by
          intro ps2 hps2 h2
          obtain ⟨cl', a1, a2, a3⟩ := ih (cl ++ set) ps2 ps'
            (fun e he => hsub e (List.mem_cons_of_mem _ he))
            (fun e he => hne e (List.mem_cons_of_mem _ he)) hps2 h2
          refine ⟨cl', a1, fun c hc => a2 c (List.mem_append_left _ hc), ?_⟩
          intro e he hne c hc
          rcases List.mem_cons.1 he with he | he
          · subst he
            exact a2 c (List.mem_append_right _ hc)
          · exact a3 e he hne c hc
        cases het1 with
        | true =>
          simp only [if_true] at h
          exact hfin ps1 b1 h
        | false =>
          simp only [Bool.false_eq_true, if_false] at h
          refine hfin _ ?_ h
          refine ⟨⟨b1.inv.assign, b1.inv.frame, b1.inv.plen, b1.inv.offsets⟩, b1.gmap, b1.sub,
            b1.group, b1.size, b1.no_data, b1.no_filter, b1.no_map, ?_⟩
          intro ss hmem
          simp only [List.mem_append, List.mem_singleton] at hmem
          rcases hmem with hmem | hmem
          · exact b1.sets ss hmem
          · subst hmem
            refine ⟨cl, set, [], by simp, ?_, ?_, rfl, rfl, hne (k, set) (List.mem_cons_self _ _)⟩
            · simp only
              rw [hinv.inv.plen, hinv.gmap]
            · simp only
              rw [b3, hinv.inv.plen, hinv.gmap]
              simp

theorem clumpSetInsert_ne_nil (x : List Nat) : ∀ (l : List (List Nat)), clumpSetInsert x l ≠ [] := by
  intro l
  cases l with
  | nil => simp [clumpSetInsert]
  | cons y ys =>
    rw [clumpSetInsert]
    split
    · simp
    · split <;> simp

theorem mapUpsertM_nonempty (cmp : List Nat → List Nat → Except Error Bool) (x : List Nat)
    (l l' : List (List Nat × List (List Nat)))
    (h : mapUpsertM cmp x [] (clumpSetInsert x) l = .ok l') (hne : ∀ e ∈ l, e.2 ≠ []) :
    ∀ e ∈ l', e.2 ≠ [] := by
  obtain ⟨l1, l2, hcase⟩ := mapUpsertM_ok cmp x [] (clumpSetInsert x) l l' h
  rcases hcase with ⟨hl, hl'⟩ | ⟨k', v, hl, hl', -, -⟩
  · subst hl; subst hl'
    intro e he
    simp only [List.mem_append, List.mem_cons] at he
    rcases he with he | rfl | he
    · exact hne e (List.mem_append_left _ he)
    · exact clumpSetInsert_ne_nil x []
    · exact hne e (List.mem_append_right _ he)
  · subst hl; subst hl'
    intro e he
    simp only [List.mem_append, List.mem_cons] at he
    rcases he with he | rfl | he
    · exact hne e (List.mem_append_left _ he)
    · exact clumpSetInsert_ne_nil x v
    · exact hne e (List.mem_append_right _ (List.mem_cons_of_mem _ he))

theorem collectMeans_nonempty (m : Model α) (st : State α) (budget : Nat) :
    ∀ (clumps : List (List Nat)) (cmm cmm' : List (List Nat × List (List Nat))),
      collectMeans m st budget clumps cmm = .ok cmm' → (∀ e ∈ cmm, e.2 ≠ []) →
      ∀ e ∈ cmm', e.2 ≠ [] := by
  intro clumps
  induction clumps with
  | nil =>
    intro cmm cmm' h hne
    simp only [collectMeans, Except.ok.injEq] at h
    subst h
    exact hne
  | cons x rest ih =>
    intro cmm cmm' h hne
    rw [collectMeans] at h
    cases hup : mapUpsertM (compatibleMeanCompare m st budget) x [] (clumpSetInsert x) cmm with
    | error err => rw [hup] at h; cases h
    | ok cmm1 =>
      rw [hup] at h
      simp only at h
      exact ih cmm1 cmm' h (mapUpsertM_nonempty _ x cmm cmm1 hup hne)

theorem collectMeans_spec (m : Model α) (st : State α) (budget : Nat) :
    ∀ (clumps : List (List Nat)) (cmm cmm' : List (List Nat × List (List Nat))),
      collectMeans m st budget clumps cmm = .ok cmm' →
      (∀ c ∈ clumps, ∃ e ∈ cmm', c ∈ e.2) ∧
      (∀ c0, (∃ e ∈ cmm, c0 ∈ e.2) → ∃ e ∈ cmm', c0 ∈ e.2) ∧
      (∀ e ∈ cmm', ∀ c ∈ e.2, c ∈ clumps ∨ ∃ e0 ∈ cmm, c ∈ e0.2) := by
  intro clumps
  induction clumps with
  | nil =>
    intro cmm cmm' h
    simp only [collectMeans, Except.ok.injEq] at h
    subst h
    exact ⟨fun c hc => by simp at hc, fun c0 h0 => h0, fun e he c hc => Or.inr ⟨e, he, hc⟩⟩
  | cons c rest ih =>
    intro cmm cmm' h
    rw [collectMeans] at h
    cases hup : mapUpsertM (compatibleMeanCompare m st budget) c [] (clumpSetInsert c) cmm with
    | error err => rw [hup] at h; cases h
    | ok cmm1 =>
      rw [hup] at h
      simp only at h
      obtain ⟨u1, u2, u3⟩ := mapUpsertM_clump _ _ _ _ hup
      obtain ⟨a1, a2, a3⟩ := ih cmm1 cmm' h
      refine ⟨?_, fun c0 h0 => a2 c0 (u2 c0 h0), ?_⟩
      · intro c' hc'
        rcases List.mem_cons.1 hc' with hc' | hc'
        · subst hc'; exact a2 _ u1
        · exact a1 c' hc'
      · intro e he c' hc'
        rcases a3 e he c' hc' with h1 | ⟨e0, he0, hc0⟩
        · exact Or.inl (List.mem_cons_of_mem _ h1)
        · rcases u3 e0 he0 c' hc0 with ⟨e1, he1, -, hc1⟩ | ⟨hc1, -⟩
          · exact Or.inr ⟨e1, he1, hc1⟩
          · subst hc1; exact Or.inl (List.mem_cons_self _ _)

theorem unitData_core (m : Model α) (a a' : Addr α) (h : a'.core = a.core) :
    unitData m a' = unitData m a := by
  simp only [Addr.core, Prod.mk.injEq] at h
  unfold unitData
  rw [h.1, h.2.1]

theorem PlanFrame.unitKey_eq (m : Model α) {st st' : State α} (h : PlanFrame st st')
    (u : Nat) : unitKey m st' u = unitKey m st u := by
  unfold unitKey
  cases h1 : st.layout[u]? with
  | none =>
    have : st'.layout[u]? = none := by
      rw [List.getElem?_eq_none_iff] at h1 ⊢
      rw [h.length_plan]; exact h1
    rw [this]
  | some a =>
    obtain ⟨a', ha', hc⟩ := h.core_at u a h1
    rw [ha']
    simp only [Addr.core, Prod.mk.injEq] at hc
    simp only [Option.map_some', Model.keyOf, hc.1, hc.2.1]

theorem sum_take_succ {β : Type} (f : β → Nat) (l : List β) (n : Nat) (x : β)
    (h : l[n]? = some x) :
    ((l.take (n + 1)).map f).sum = ((l.take n).map f).sum + f x := by
  induction l generalizing n with
  | nil => simp at h
  | cons y ys ih =>
    cases n with
    | zero =>
      simp only [List.getElem?_cons_zero, Option.some.injEq] at h
      subst h
      simp
    | succ n =>
      simp only [List.getElem?_cons_succ] at h
      simp only [List.take_succ_cons, List.map_cons, List.sum_cons]
      rw [ih n h]
      omega

/-- A change of the field `igIndex` of one unit keeps the assignment. -/
theorem assignInv_igIndex (groups : List (List Nat)) (st : State α) (u ax : Nat)
    (h : AssignInv groups st) :
    AssignInv groups (st.modifyAddr u (fun a => { a with igIndex := ax })) := by
  refine ⟨?_, ?_, h.nodup⟩
  · intro v a g hv
    rw [modifyAddr_get] at hv
    cases hl : st.layout[v]? with
    | none => rw [hl] at hv; cases hv
    | some a1 =>
      rw [hl] at hv
      simp only [Option.map_eq_map, Option.map_some', Option.some.injEq] at hv
      rw [← h.ig_iff v a1 g hl, ← hv]
      split <;> rfl
  · intro gm hgm v hv
    have := h.valid gm hgm v hv
    simpa [State.modifyAddr] using this

/-- What the loop of `prep` writes. -/
theorem prepLoop_spec (m : Model α) (groups : List (List Nat)) (st0 : State α) :
    ∀ (zs : List (Nat × Placement)) (ax : Nat) (ps ps' : PlaceState α),
      PlanFrame st0 ps.st → AssignInv groups ps.st → prepLoop m ax zs ps = .ok ps' →
      PlanFrame st0 ps'.st ∧ AssignInv groups ps'.st ∧ ps'.st.group = ps.st.group ∧
      ps'.ig = { ps.ig with rowToPlacementMap := ps'.ig.rowToPlacementMap,
                            dataVec := ps'.ig.dataVec, latentFilter := ps'.ig.latentFilter } ∧
      ps'.ig.dataVec = ps.ig.dataVec ++ (zs.map (fun z => unitDataOf m st0 z.1)).flatten ∧
      (∀ z ∈ zs, ∀ a, st0.layout[z.1]? = some a → (m.dataColumns a.model).length ≠ 0 →
        a.numObsCache = (unitData m a).length) ∧
      (∀ (i : Nat) (z : Nat × Placement), zs[i]? = some z → ∃ k, unitKey m st0 z.1 = some k ∧
        ∃ (j : Nat) (z' : Nat × Placement), ps'.ig.rowToPlacementMap k = some (ax + j) ∧
          zs[j]? = some z' ∧ unitKey m st0 z'.1 = some k) ∧
      (∀ k, (∀ z ∈ zs, unitKey m st0 z.1 ≠ some k) →
        ps'.ig.rowToPlacementMap k = ps.ig.rowToPlacementMap k) := by
  intro zs
  induction zs with
  | nil =>
    intro ax ps ps' hfr hassign h
    simp only [prepLoop, Except.ok.injEq] at h
    subst h
    refine ⟨hfr, hassign, rfl, rfl, by simp, fun z hz => by simp at hz, ?_, fun k _ => rfl⟩
    intro i z hz
    simp at hz
  | cons z rest ih =>
    intro ax ps ps' hfr hassign h
    obtain ⟨u, pl⟩ := z
    rw [prepLoop] at h
    cases h1 : ps.st.getAddr u with
    | error err => rw [h1] at h; cases h
    | ok a1 =>
      rw [h1] at h
      simp only at h
      have ha1 := (getAddr_ok _ _ _).1 h1
      obtain ⟨a0, ha0, hcore⟩ := hfr.core_back u a1 ha1
      have hud : unitDataOf m st0 u = unitData m a1 := by
        unfold unitDataOf; rw [ha0]; exact (unitData_core m a0 a1 hcore).symm
      have hcore' := hcore
      simp only [Addr.core, Prod.mk.injEq] at hcore'
      have hkey : unitKey m st0 u = some (m.data a1.model, a1.row) := by
        unfold unitKey; rw [ha0]
        simp only [Option.map_some', Model.keyOf, hcore'.1, hcore'.2.1]
      split at h
      · cases h
      · rename_i hchk
        have hfr1 : PlanFrame st0 (ps.st.modifyAddr u (fun a => { a with igIndex := ax })) :=
          hfr.trans_plan (modifyAddr_frame _ _ _ (fun a => rfl))
        obtain ⟨b1, b2, b3, b4, b5, b6, b7, b8⟩ := ih (ax + 1) _ ps' hfr1
          (assignInv_igIndex groups ps.st u ax hassign) h
        refine ⟨b1, b2, b3, ?_, ?_, ?_, ?_, ?_⟩
        · rw [b4]
        · rw [b5]
          simp only [List.map_cons, List.flatten_cons, hud, List.append_assoc]
        · intro z hz a ha hdc
          rcases List.mem_cons.1 hz with hz | hz
          · subst hz
            simp only at ha
            rw [ha0] at ha
            cases ha
            have hm : a1.model = a0.model := hcore'.1
            have hn : a1.numObsCache = a0.numObsCache := hcore'.2.2.1
            rw [← hm] at hdc
            rw [← hn, ← unitData_core m a0 a1 hcore]
            by_contra hne
            exact hchk ⟨hdc, hne⟩
          · exact b6 z hz a ha hdc
        · intro i z hz
          by_cases hlater : ∃ z' ∈ rest, unitKey m st0 z'.1 = unitKey m st0 z.1
          · obtain ⟨z', hz', hk'⟩ := hlater
            obtain ⟨i', hi'⟩ := List.getElem?_of_mem hz'
            obtain ⟨k, hk, j, z2, hj1, hj2, hj3⟩ := b7 i' z' hi'
            refine ⟨k, by rw [← hk']; exact hk, j + 1, z2, ?_, ?_, hj3⟩
            · rw [hj1]; congr 1; omega
            · simpa using hj2
          · cases i with
            | zero =>
              simp only [List.getElem?_cons_zero, Option.some.injEq] at hz
              subst hz
              refine ⟨_, hkey, 0, (u, pl), ?_, by simp, hkey⟩
              rw [b8]
              · simp
              · intro z' hz' hk
                exact hlater ⟨z', hz', by rw [hk, hkey]⟩
            | succ i =>
              simp only [List.getElem?_cons_succ] at hz
              exact absurd ⟨z, List.getElem?_mem hz, rfl⟩ hlater
        · intro k hk
          rw [b8 k (fun z hz => hk z (List.mem_cons_of_mem _ hz))]
          have : k ≠ (m.data a1.model, a1.row) := by
            intro heq
            exact hk (u, pl) (List.mem_cons_self _ _) (by rw [hkey, heq])
          simp [this]

/-- What a returning call of `prep` leaves: the placing is kept, the group has
at least one whole clump, `clumpObs` and `clumpVars` are the sums over the
first clump, `dataVec` is the observed data of the units in placement order,
and `rowToPlacementMap` finds every placed unit. -/
theorem prep_spec (m : Model α) (G : List (List Nat)) (st0 : State α) (ps ps' : PlaceState α)
    (hinv : PSInv m G st0 ps) (h : prep m ps = .ok ps') :
    PSInv m G st0 ps' ∧ ps'.st.group = ps.st.group ∧
    ps'.ig.gMap = ps.ig.gMap ∧ ps'.ig.placements = ps.ig.placements ∧
    ps'.ig.sufficientSets = ps.ig.sufficientSets ∧ ps'.ig.clumpSize = ps.ig.clumpSize ∧
    0 < ps.ig.clumpSize ∧ ps.ig.clumpSize ≤ ps.ig.gMap.length ∧
    ps'.ig.clumpObs = ((ps.ig.gMap.take ps.ig.clumpSize).map (unitObs st0)).sum ∧
    ps'.ig.clumpVars = ((ps.ig.gMap.take ps.ig.clumpSize).map (unitVars m st0)).sum ∧
    ps'.ig.dataVec = ps.ig.dataVec ++ (ps.ig.gMap.map (unitDataOf m st0)).flatten ∧
    (∀ u ∈ ps.ig.gMap, ∀ a, st0.layout[u]? = some a → (m.dataColumns a.model).length ≠ 0 →
      a.numObsCache = (unitData m a).length) ∧
    (∀ (q u : Nat), ps.ig.gMap[q]? = some u → ∃ k, unitKey m st0 u = some k ∧
      ∃ (q' u' : Nat), ps'.ig.rowToPlacementMap k = some q' ∧ ps.ig.gMap[q']? = some u' ∧
        unitKey m st0 u' = some k) ∧
    (∀ k, (∀ u ∈ ps.ig.gMap, unitKey m st0 u ≠ some k) →
      ps'.ig.rowToPlacementMap k = ps.ig.rowToPlacementMap k) := by
  unfold prep at h
  by_cases hcs : ps.ig.clumpSize = 0
  · rw [if_pos hcs] at h; cases h
  · rw [if_neg hcs] at h
    cases hp : ps.ig.placements[ps.ig.clumpSize - 1]? with
    | none => rw [hp] at h; simp at h
    | some «end» =>
      rw [hp] at h
      cases hg : ps.ig.gMap[ps.ig.clumpSize - 1]? with
      | none => rw [hg] at h; simp at h
      | some lastUnit =>
        rw [hg] at h
        simp only at h
        cases h1 : ps.st.getAddr lastUnit with
        | error err => rw [h1] at h; cases h
        | ok a1 =>
          rw [h1] at h
          simp only at h
          have ha1 := (getAddr_ok _ _ _).1 h1
          have hzipfst : ∀ (i u : Nat), ps.ig.gMap[i]? = some u →
              ∃ pl, (ps.ig.gMap.zip ps.ig.placements)[i]? = some (u, pl) := by
            intro i u hi
            have hlt := getElem?_lt_length _ _ _ hi
            have hlt2 : i < ps.ig.placements.length := by rw [hinv.plen]; exact hlt
            refine ⟨ps.ig.placements[i], ?_⟩
            rw [List.getElem?_eq_getElem (by simp; omega)]
            rw [List.getElem?_eq_getElem hlt] at hi
            simp only [Option.some.injEq] at hi
            simp [hi]
          have hzipmem : ∀ z ∈ ps.ig.gMap.zip ps.ig.placements, z.1 ∈ ps.ig.gMap := by
            intro z hz
            obtain ⟨u, pl⟩ := z
            exact (List.of_mem_zip hz).1
          have hmapfst : (ps.ig.gMap.zip ps.ig.placements).map (fun z => unitDataOf m st0 z.1) =
              ps.ig.gMap.map (unitDataOf m st0) := by
            have := List.map_fst_zip ps.ig.gMap ps.ig.placements (by rw [hinv.plen])
            conv_rhs => rw [← this]
            rw [List.map_map]
            rfl
          cases h2 : prepLoop m 0 (ps.ig.gMap.zip ps.ig.placements)
              { st := ps.st,
                ig := { ps.ig with
                  clumpVars := «end».modelStart + m.numVars a1.model,
                  clumpObs := «end».obsStart + a1.numObsCache } } with
          | error err => rw [h2] at h; cases h
          | ok ps1 =>
            rw [h2] at h
            simp only at h
            have hps : ps' = ps1 := by
              split at h
              · split at h
                · cases h
                · simp only [Except.ok.injEq] at h; exact h.symm
              · simp only [Except.ok.injEq] at h; exact h.symm
            subst hps
            obtain ⟨b1, b2, b3, b4, b5, b6, b7, b8⟩ := prepLoop_spec m (G ++ [ps.ig.gMap]) st0
              _ 0 { st := ps.st,
                    ig := { ps.ig with
                      clumpVars := «end».modelStart + m.numVars a1.model,
                      clumpObs := «end».obsStart + a1.numObsCache } } ps'
              hinv.frame hinv.assign h2
            have e1 : ps'.ig.gMap = ps.ig.gMap := by rw [b4]
            have e2 : ps'.ig.placements = ps.ig.placements := by rw [b4]
            have hlt : ps.ig.clumpSize - 1 < ps.ig.gMap.length := getElem?_lt_length _ _ _ hg
            obtain ⟨o1, o2⟩ := hinv.offsets _ _ hp
            obtain ⟨a0, ha0, hcore⟩ := hinv.frame.core_back lastUnit a1 ha1
            simp only [Addr.core, Prod.mk.injEq] at hcore
            have hs1 := sum_take_succ (unitObs st0) ps.ig.gMap _ lastUnit hg
            have hs2 := sum_take_succ (unitVars m st0) ps.ig.gMap _ lastUnit hg
            have hsucc : ps.ig.clumpSize - 1 + 1 = ps.ig.clumpSize := by omega
            rw [hsucc] at hs1 hs2
            refine ⟨⟨by rw [e1]; exact b2, b1, by rw [e1, e2]; exact hinv.plen,
              by rw [e1, e2]; exact hinv.offsets⟩, b3, e1, e2, by rw [b4], by rw [b4],
              Nat.pos_of_ne_zero hcs, by omega, ?_, ?_, ?_, ?_, ?_, ?_⟩
            · rw [b4, hs1, o1]
              simp only [unitObs, ha0, hcore.2.2.1]
            · rw [b4, hs2, o2]
              simp only [unitVars, ha0, hcore.1]
            · rw [b5, hmapfst]
            · intro u hu a ha hdc
              obtain ⟨i, hi⟩ := List.getElem?_of_mem hu
              obtain ⟨pl, hz⟩ := hzipfst i u hi
              exact b6 (u, pl) (List.getElem?_mem hz) a ha hdc
            · intro q u hq
              obtain ⟨pl, hz⟩ := hzipfst q u hq
              obtain ⟨k, hk, j, z', hj1, hj2, hj3⟩ := b7 q (u, pl) hz
              refine ⟨k, hk, j, z'.1, by simpa using hj1, ?_, hj3⟩
              obtain ⟨u2, pl2⟩ := z'
              have hmem := List.getElem?_mem hj2
              have hjlt := getElem?_lt_length _ _ _ hj2
              have hjlt2 : j < ps.ig.gMap.length := by
                simp only [List.length_zip] at hjlt
                omega
              have hjlt3 : j < ps.ig.placements.length := by rw [hinv.plen]; exact hjlt2
              rw [List.getElem?_eq_getElem hjlt] at hj2
              simp only [List.getElem_zip, Option.some.injEq, Prod.mk.injEq] at hj2
              rw [List.getElem?_eq_getElem hjlt2, hj2.1]
            · intro k hk
              rw [b8 k (fun z hz => hk z.1 (hzipmem z hz))]

theorem assignInv_of_layout (groups : List (List Nat)) (st st' : State α)
    (hl : st'.layout = st.layout) (h : AssignInv groups st) : AssignInv groups st' :=
  ⟨fun u a g hu => h.ig_iff u a g (by rw [← hl]; exact hu),
   fun gm hgm u hu => by rw [hl]; exact h.valid gm hgm u hu, h.nodup⟩

theorem assignInv_snoc_nil (groups : List (List Nat)) (st : State α)
    (h : AssignInv groups st) : AssignInv (groups ++ [[]]) st := by
  have hget : ∀ (g : Nat), ((groups ++ [[]])[g]?).getD [] = (groups[g]?).getD [] := by
    intro g
    by_cases h1 : g < groups.length
    · simp [h1, List.getElem?_append_left]
    · by_cases h2 : g = groups.length
      · subst h2; simp
      · rw [List.getElem?_eq_none (by simp; omega), List.getElem?_eq_none (by omega)]
  refine ⟨?_, ?_, ?_⟩
  · intro u a g hu
    rw [hget]; exact h.ig_iff u a g hu
  · intro gm hgm u hu
    rcases List.mem_append.1 hgm with hgm | hgm
    · exact h.valid gm hgm u hu
    · simp only [List.mem_singleton] at hgm
      subst hgm
      cases hu
  · intro gm hgm
    rcases List.mem_append.1 hgm with hgm | hgm
    · exact h.nodup gm hgm
    · simp only [List.mem_singleton] at hgm
      subst hgm
      exact List.nodup_nil

/-- What a returning call of the body of the second loop of `planModelEval`
does for the entry with the clumps `clumps`. -/
theorem planGroup_spec (m : Model α) (budget : Nat) (G : List (List Nat)) (st0 st st' : State α)
    (clumps : List (List Nat)) (hassign : AssignInv (G ++ [[]]) st) (hframe : PlanFrame st0 st)
    (hG : G.length = st.group.length) (h : planGroup m budget st clumps = .ok st') :
    ∃ ig cl, st'.group = st.group ++ [ig] ∧ AssignInv (G ++ [ig.gMap] ++ [[]]) st' ∧
      PlanFrame st0 st' ∧ GroupSpec m st0 clumps cl ig := by
  unfold planGroup at h
  simp only at h
  cases hcm : collectMeans m st budget clumps [] with
  | error err => rw [hcm] at h; cases h
  | ok cmm =>
    rw [hcm] at h
    simp only at h
    obtain ⟨c1, -, c3⟩ := collectMeans_spec m st budget clumps [] cmm hcm
    have hsub : ∀ e ∈ cmm, ∀ c ∈ e.2, c ∈ clumps := by
      intro e he c hc
      rcases c3 e he c hc with h1 | ⟨e0, he0, -⟩
      · exact h1
      · simp at he0
    rw [← hG] at h
    have hinit : PlacedInv m G st0 st.group clumps []
        { st := st, ig := IndependentGroup.new ((clumps.headD []).length) } := by
      refine ⟨⟨hassign, hframe, rfl, ?_⟩, rfl, fun c hc => by simp at hc, rfl, rfl, rfl, rfl,
        rfl, fun ss hss => by simp [IndependentGroup.new] at hss⟩
      intro q pl hq
      simp [IndependentGroup.new] at hq
    cases hpl : placeLoose m G.length cmm
        { st := st, ig := IndependentGroup.new ((clumps.headD []).length) } with
    | error err => rw [hpl] at h; cases h
    | ok ps1 =>
      rw [hpl] at h
      simp only at h
      obtain ⟨cl1, d1, d2, d3, -⟩ := placeLoose_spec m G st0 st.group clumps cmm [] _ ps1
        hsub hinit hpl
      cases hsf : placeSufficient m G.length cmm ps1 with
      | error err => rw [hsf] at h; cases h
      | ok ps2 =>
        rw [hsf] at h
        simp only at h
        obtain ⟨cl2, e1, e2, e3⟩ := placeSufficient_spec m G st0 st.group clumps cmm cl1 ps1 ps2
          hsub (collectMeans_nonempty m st budget clumps [] cmm hcm (fun e he => by simp at he))
          d1 hsf
        have hall : ∀ c ∈ clumps, c ∈ cl2 := by
          intro c hc
          obtain ⟨e, he, hce⟩ := c1 c hc
          by_cases hlen : e.2.length = 1
          · exact e2 c (d3 e he (by omega) c hce)
          · exact e3 e he hlen c hce
        have hps3 : PlacedInv m G st0 st.group clumps cl2
            (if m.useSufficientSets then ps2
             else { ps2 with ig := { ps2.ig with sufficientSets := [] } }) := by
          split
          · exact e1
          · exact ⟨⟨e1.inv.assign, e1.inv.frame, e1.inv.plen, e1.inv.offsets⟩, e1.gmap, e1.sub,
              e1.group, e1.size, e1.no_data, e1.no_filter, e1.no_map,
              fun ss hss => by simp at hss⟩
        cases hpr : prep m (if m.useSufficientSets then ps2
             else { ps2 with ig := { ps2.ig with sufficientSets := [] } }) with
        | error err => rw [hpr] at h; cases h
        | ok ps4 =>
          rw [hpr] at h
          simp only [Except.ok.injEq] at h
          obtain ⟨f1, f2, f3, f4, f5, f6, f7, f8, f9, f10, f11, f12, f13, f14⟩ :=
            prep_spec m G st0 _ ps4 hps3.inv hpr
          refine ⟨ps4.ig, cl2, ?_, ?_, ?_, ?_⟩
          · rw [← h]
            simp only
            rw [f2, hps3.group]
          · apply assignInv_snoc_nil
            apply assignInv_of_layout _ ps4.st st' (by rw [← h]) f1.assign
          · rw [← h]
            exact ⟨f1.frame.core, f1.frame.setup, f1.frame.map, f1.frame.err⟩
          · refine ⟨by rw [f3]; exact hps3.gmap, hps3.sub, hall, by rw [f6]; exact hps3.size,
              by rw [f6]; exact f7, by rw [f6, f3]; exact f8, f1.plen, f1.offsets,
              by rw [f9, f3, f6], by rw [f10, f3, f6], ?_, by rw [f3]; exact f12,
              by rw [f3]; exact f13, ?_, ?_⟩
            · rw [f11, f3, hps3.no_data]; rfl
            · intro k hk
              rw [f3] at hk
              rw [f14 k hk, hps3.no_map]
            · intro ss hss
              rw [f5] at hss
              rw [f6]
              exact hps3.sets ss hss

theorem planInv_step (m : Model α) (budget : Nat) (st0 st st' : State α)
    (done : List (List (List Nat))) (clumps : List (List Nat))
    (hinv : PlanInv m st0 done st) (h : planGroup m budget st clumps = .ok st') :
    PlanInv m st0 (done ++ [clumps]) st' := by
  obtain ⟨ig, cl, h1, h2, h3, h4⟩ := planGroup_spec m budget (st.group.map (fun g => g.gMap))
    st0 st st' clumps hinv.assign hinv.frame (by simp) h
  refine ⟨by rw [h1]; simp [hinv.len], ?_, by rw [h1]; simpa using h2, h3⟩
  intro i clumps' ig' hi hg
  rw [h1] at hg
  by_cases hlt : i < done.length
  · rw [List.getElem?_append_left hlt] at hi
    rw [List.getElem?_append_left (by rw [hinv.len]; exact hlt)] at hg
    exact hinv.groups i clumps' ig' hi hg
  · have hie : i = done.length := by
      have := getElem?_lt_length _ _ _ hi
      simp at this
      omega
    subst hie
    rw [List.getElem?_concat_length] at hi
    rw [← hinv.len, List.getElem?_concat_length] at hg
    cases hi; cases hg
    exact ⟨cl, h4⟩

theorem planGroups_spec (m : Model α) (budget : Nat) (st0 : State α) :
    ∀ (cgm : List (List Nat × List (List Nat))) (done : List (List (List Nat)))
      (st st' : State α), PlanInv m st0 done st → planGroups m budget cgm st = .ok st' →
      PlanInv m st0 (done ++ cgm.map (fun e => e.2)) st' := by
  intro cgm
  induction cgm with
  | nil =>
    intro done st st' hinv h
    simp only [planGroups, Except.ok.injEq] at h
    subst h
    simpa using hinv
  | cons e rest ih =>
    intro done st st' hinv h
    obtain ⟨k, clumps⟩ := e
    rw [planGroups] at h
    cases hg : planGroup m budget st clumps with
    | error err => rw [hg] at h; cases h
    | ok st1 =>
      rw [hg] at h
      simp only at h
      have := ih (done ++ [clumps]) st1 st' (planInv_step m budget st0 st st1 done clumps hinv hg) h
      simpa using this

theorem planStart_assign (st : State α) (h : PlanStart st) : AssignInv ([] ++ [[]]) st := by
  refine ⟨?_, ?_, ?_⟩
  · intro u a g hu
    rw [h.no_ig a (List.getElem?_mem hu)]
    constructor
    · intro hc; cases hc
    · intro hc
      cases g with
      | zero => simp at hc
      | succ g => simp at hc
  · intro gm hgm u hu
    simp only [List.nil_append, List.mem_singleton] at hgm
    subst hgm
    cases hu
  · intro gm hgm
    simp only [List.nil_append, List.mem_singleton] at hgm
    subst hgm
    exact List.nodup_nil

theorem planStart_inv (m : Model α) (st : State α) (h : PlanStart st) : PlanInv m st [] st := by
  refine ⟨by rw [h.no_group]; rfl, fun i clumps ig hi => by simp at hi, ?_, PlanFrame.refl_plan st⟩
  rw [h.no_group]
  exact planStart_assign st h

theorem placeAll_spec (m : Model α) (G : List (List Nat)) (st0 : State α) :
    ∀ (units : List Nat) (ps ps' : PlaceState α),
      PSInv m G st0 ps → placeAll m G.length units ps = .ok ps' →
      PSInv m G st0 ps' ∧
      ps'.ig = { ps.ig with gMap := ps.ig.gMap ++ units, placements := ps'.ig.placements } ∧
      ps'.st.group = ps.st.group := by
  intro units
  induction units with
  | nil =>
    intro ps ps' hinv h
    simp only [placeAll, Except.ok.injEq] at h
    subst h
    exact ⟨hinv, by simp, rfl⟩
  | cons u rest ih =>
    intro ps ps' hinv h
    rw [placeAll] at h
    cases hp : place m G.length ps u with
    | error err => rw [hp] at h; cases h
    | ok ps1 =>
      rw [hp] at h
      simp only at h
      obtain ⟨i1, i2, i3⟩ := ih ps1 ps' (place_inv m G st0 ps ps1 u hinv hp) h
      obtain ⟨j1, j2⟩ := place_ig m G.length ps ps1 u hp
      refine ⟨i1, ?_, i3.trans j2⟩
      rw [i2, j1]
      simp

/-- The sets of clumps from which a returning `planModelEval` builds its
groups, one group per set in the order of `group`: with `forceSingleGroup` one
set with all units as its one clump, else the sets of the map `cgm`. -/
theorem planModelEval_spec (m : Model α) (budget : Nat) (st st' : State α)
    (hstart : PlanStart st) (h : planModelEval m budget st = .ok st') :
    ∃ sets : List (List (List Nat)), PlanInv m st sets st' ∧
      ((m.forceSingleGroup = true ∧ sets = [[List.range st.layout.length]]) ∨
       (m.forceSingleGroup = false ∧ ∃ cc acc, computeConnected m st = .ok cc ∧
          collectClumps m st budget cc.region st.layout.length 0
            { connected := cc.connected, cgm := [] } = .ok acc ∧
          sets = acc.cgm.map (fun e => e.2))) := by
  unfold planModelEval at h
  cases hf : m.forceSingleGroup with
  | true =>
    rw [hf] at h
    simp only [if_true] at h
    rw [hstart.no_group] at h
    cases hp : placeAll m ([] : List (IndependentGroup α)).length (List.range st.layout.length)
        { st := st, ig := IndependentGroup.new st.layout.length } with
    | error err => rw [hp] at h; cases h
    | ok ps =>
      rw [hp] at h
      simp only at h
      have hinit : PSInv m [] st { st := st, ig := IndependentGroup.new st.layout.length } := by
        refine ⟨planStart_assign st hstart, PlanFrame.refl_plan st, rfl, ?_⟩
        intro q pl hq
        simp [IndependentGroup.new] at hq
      obtain ⟨a1, a2, a3⟩ := placeAll_spec m [] st _ _ ps hinit hp
      cases hpr : prep m ps with
      | error err => rw [hpr] at h; cases h
      | ok ps4 =>
        rw [hpr] at h
        simp only [Except.ok.injEq] at h
        obtain ⟨f1, f2, f3, f4, f5, f6, f7, f8, f9, f10, f11, f12, f13, f14⟩ :=
          prep_spec m [] st ps ps4 a1 hpr
        have hgm : ps.ig.gMap = List.range st.layout.length := by
          rw [a2]; simp [IndependentGroup.new]
        have hcs : ps.ig.clumpSize = st.layout.length := by
          rw [a2]; simp [IndependentGroup.new]
        have hgrp : st'.group = [ps4.ig] := by
          rw [← h]
          simp only
          rw [f2, a3, hstart.no_group]
          rfl
        refine ⟨[[List.range st.layout.length]], ⟨by rw [hgrp]; rfl, ?_, ?_, ?_⟩,
          Or.inl ⟨rfl, rfl⟩⟩
        · intro i clumps ig hi hg
          rw [hgrp] at hg
          cases i with
          | succ i => simp at hi
          | zero =>
            simp only [List.getElem?_cons_zero, Option.some.injEq] at hi hg
            subst hi; subst hg
            refine ⟨[List.range st.layout.length], ?_⟩
            refine ⟨by rw [f3, hgm]; simp, fun c hc => hc, fun c hc => hc,
              by rw [f6, hcs]; simp, by rw [f6]; exact f7, by rw [f6, f3]; exact f8,
              f1.plen, f1.offsets, by rw [f9, f3, f6], by rw [f10, f3, f6], ?_,
              by rw [f3]; exact f12, by rw [f3]; exact f13, ?_, ?_⟩
            · rw [f11, f3, a2]; simp [IndependentGroup.new]
            · intro k hk
              rw [f3] at hk
              rw [f14 k hk, a2]
              simp [IndependentGroup.new]
            · intro ss hss
              rw [f5, a2] at hss
              simp [IndependentGroup.new] at hss
        · rw [hgrp]
          have := assignInv_snoc_nil _ _ (assignInv_of_layout _ ps4.st st' (by rw [← h]) f1.assign)
          simpa using this
        · rw [← h]
          exact ⟨f1.frame.core, f1.frame.setup, f1.frame.map, f1.frame.err⟩
  | false =>
    rw [hf] at h
    simp only [Bool.false_eq_true, if_false] at h
    cases hc : computeConnected m st with
    | error err => rw [hc] at h; cases h
    | ok cc =>
      rw [hc] at h
      simp only at h
      cases hcl : collectClumps m st budget cc.region st.layout.length 0
          { connected := cc.connected, cgm := [] } with
      | error err => rw [hcl] at h; cases h
      | ok acc =>
        rw [hcl] at h
        simp only at h
        have := planGroups_spec m budget st acc.cgm [] st st' (planStart_inv m st hstart) h
        exact ⟨_, by simpa using this, Or.inr ⟨rfl, cc, acc, rfl, hcl, rfl⟩⟩

theorem OertzenFrame.refl_oertzen (st : State α) : OertzenFrame st st := ⟨rfl, rfl, rfl, rfl, rfl⟩

theorem OertzenFrame.trans_oertzen {a b c : State α} (h1 : OertzenFrame a b) (h2 : OertzenFrame b c) :
    OertzenFrame a c :=
  ⟨h2.units.trans h1.units, h2.setup.trans h1.setup, h2.map.trans h1.map,
   h2.err.trans h1.err, h2.group.trans h1.group⟩

theorem map_modify_eq {β γ : Type} (P : β → γ) (f : β → β) (hf : ∀ a, P (f a) = P a)
    (l : List β) (n : Nat) : (l.modify f n).map P = l.map P := by
  apply List.ext_getElem?
  intro i
  simp only [List.getElem?_map, List.getElem?_modify]
  cases l[i]? with
  | none => rfl
  | some a =>
    simp only [Option.map_eq_map, Option.map_some', Option.some.injEq]
    split
    · exact hf a
    · rfl

theorem oertzenFrame_modifyAddr (st : State α) (u : Nat) (f : Addr α → Addr α)
    (hf : ∀ a, ((f a).rotKey, (f a).rampartScale) = (a.rotKey, a.rampartScale)) :
    OertzenFrame st (st.modifyAddr u f) :=
  ⟨map_modify_eq _ f hf _ _, rfl, rfl, rfl, rfl⟩

theorem oertzenFrame_modifySetup (st : State α) (u : Nat) (f : AddrSetup → AddrSetup)
    (hf : ∀ a, (f a).planKey = a.planKey) : OertzenFrame st (st.modifySetup u f) :=
  ⟨rfl, map_modify_eq _ f hf _ _, rfl, rfl, rfl⟩

theorem oertzenFrame_modifyBoth (st : State α) (u : Nat) (f : Addr α → Addr α)
    (g : AddrSetup → AddrSetup)
    (hf : ∀ a, ((f a).rotKey, (f a).rampartScale) = (a.rotKey, a.rampartScale))
    (hg : ∀ a, (g a).planKey = a.planKey) :
    OertzenFrame st ((st.modifySetup u g).modifyAddr u f) :=
  ⟨map_modify_eq _ f hf _ _, map_modify_eq _ g hg _ _, rfl, rfl, rfl⟩

theorem foldl_frame {β : Type} (R : State α → State α → Prop) (hrefl : ∀ s, R s s)
    (htrans : ∀ a b c, R a b → R b c → R a c) (step : State α → β → State α)
    (hstep : ∀ s u, R s (step s u)) : ∀ (l : List β) (st : State α), R st (l.foldl step st) := by
  intro l
  induction l with
  | nil => intro st; exact hrefl st
  | cons u rest ih =>
    intro st
    simp only [List.foldl_cons]
    exact htrans _ _ _ (hstep st u) (ih _)

theorem oertzenFrame_foldl {β : Type} (step : State α → β → State α)
    (hstep : ∀ s u, OertzenFrame s (step s u)) (l : List β) (st : State α) :
    OertzenFrame st (l.foldl step st) :=
  foldl_frame (fun s s' : State α => OertzenFrame s s') OertzenFrame.refl_oertzen
    (fun _ _ _ => OertzenFrame.trans_oertzen) step hstep l st

theorem oertzenFrame_then_foldl {β : Type} (step : State α → β → State α) (l : List β)
    (st s : State α) (h : OertzenFrame st s) (hstep : ∀ s u, OertzenFrame s (step s u)) :
    OertzenFrame st (l.foldl step s) :=
  h.trans_oertzen (oertzenFrame_foldl step hstep l s)

theorem oertzenMark_frame (sqrt : α → α) (canOptimize mismatch : Bool) (t1 : List Nat)
    (st : State α) : OertzenFrame st (oertzenMark sqrt canOptimize mismatch t1 st) := by
  unfold oertzenMark
  simp only
  have hfin : ∀ s : State α, OertzenFrame st s →
      OertzenFrame st { s with
        modelRotationPlanFilter := s.modelRotationPlanFilter ++ [mismatch || !canOptimize],
        rotationPlan := s.rotationPlan ++ [t1] } :=
    fun s hs => ⟨hs.units, hs.setup, hs.map, hs.err, hs.group⟩
  apply hfin
  split
  · apply oertzenFrame_foldl
    intro s u
    exact oertzenFrame_modifySetup s u _ (fun a => rfl)
  · split
    · apply oertzenFrame_then_foldl
      · exact oertzenFrame_modifyAddr st _ _ (fun a => rfl)
      · intro s u
        exact oertzenFrame_modifyBoth s u _ _ (fun a => rfl) (fun a => rfl)
    · exact OertzenFrame.refl_oertzen st

theorem oertzenLoop_frame (rotate : List Nat → State α → Except Error (State α))
    (hrot : ∀ t2 s s', rotate t2 s = .ok s' → OertzenFrame s s') (t1 : List Nat) :
    ∀ (count cx : Nat) (st st' : State α),
      oertzenLoop rotate t1 count cx st = .ok st' → OertzenFrame st st' := by
  intro count
  induction count with
  | zero =>
    intro cx st st' h
    simp only [oertzenLoop, Except.ok.injEq] at h
    subst h
    exact OertzenFrame.refl_oertzen st
  | succ count ih =>
    intro cx st st' h
    rw [oertzenLoop] at h
    cases h1 : clumpColumn st cx t1 with
    | error err => rw [h1] at h; cases h
    | ok t2 =>
      rw [h1] at h
      simp only at h
      cases h2 : rotate t2 st with
      | error err => rw [h2] at h; cases h
      | ok st1 =>
        rw [h2] at h
        simp only at h
        exact (hrot t2 st st1 h2).trans_oertzen (ih _ _ _ h)

theorem oertzenRotate_frame (m : Model α) (sqrt : α → α) (budget : Nat) (canOptimize : Bool) :
    ∀ (fuel : Nat) (t1 : List Nat) (st st' : State α),
      oertzenRotate m sqrt budget canOptimize fuel t1 st = .ok st' → OertzenFrame st st' := by
  intro fuel
  induction fuel with
  | zero => intro t1 st st' h; simp [oertzenRotate] at h
  | succ fuel ih =>
    intro t1 st st' h
    rw [oertzenRotate] at h
    cases h1 : st.getSetup (t1.getD 0 0) with
    | error err => rw [h1] at h; cases h
    | ok specimen =>
      rw [h1] at h
      simp only at h
      cases h2 : meanMismatch m st budget (t1.getD 0 0) (t1.drop 1) with
      | error err => rw [h2] at h; cases h
      | ok mismatch =>
        rw [h2] at h
        simp only at h
        exact (oertzenMark_frame sqrt canOptimize mismatch t1 st).trans_oertzen
          (oertzenLoop_frame _ (fun t2 s s' => ih t2 s s') t1 _ _ _ _ h)

theorem RotMono.refl_rot (st : State α) : RotMono st st :=
  ⟨rfl, rfl, rfl, rfl, fun _ s h => ⟨s, h, rfl, rfl, fun h => h, fun _ h => h, fun h => h⟩, rfl⟩

theorem RotMono.trans_rot {a b c : State α} (h1 : RotMono a b) (h2 : RotMono b c) : RotMono a c := by
  refine ⟨h2.keys.trans h1.keys, h2.map.trans h1.map, h2.err.trans h1.err,
    h2.group.trans h1.group, ?_, h2.setup_len.trans h1.setup_len⟩
  intro u s hs
  obtain ⟨s1, e1, p1, f1, c1, m1, j1⟩ := h1.setup u s hs
  obtain ⟨s2, e2, p2, f2, c2, m2, j2⟩ := h2.setup u s1 e1
  exact ⟨s2, e2, p2.trans p1, f2.trans f1, fun h => c2 (c1 h), fun x h => m2 x (m1 x h),
    fun h => j2 (j1 h)⟩

theorem ScaleKept.refl_scale (T : List Nat) (st : State α) : ScaleKept T st st :=
  fun _ a _ h => ⟨a, h, rfl⟩

theorem ScaleKept.trans_scale {T : List Nat} {a b c : State α} (h1 : ScaleKept T a b)
    (h2 : ScaleKept T b c) : ScaleKept T a c := by
  intro u x hu hx
  obtain ⟨x1, e1, r1⟩ := h1 u x hu hx
  obtain ⟨x2, e2, r2⟩ := h2 u x1 hu e1
  exact ⟨x2, e2, r2.trans r1⟩

theorem ScaleKept.mono {T T' : List Nat} {a b : State α} (h : ScaleKept T a b)
    (hsub : ∀ u ∈ T, u ∈ T') : ScaleKept T' a b :=
  fun u x hu hx => h u x (fun hmem => hu (hsub u hmem)) hx

theorem modifySetup_get (st : State α) (ax u : Nat) (f : AddrSetup → AddrSetup) :
    (st.modifySetup ax f).layoutSetup[u]? =
      (fun a => if ax = u then f a else a) <$> st.layoutSetup[u]? := by
  simp only [State.modifySetup, List.getElem?_modify]

theorem rotMono_modifySetup (st : State α) (ax : Nat) (f : AddrSetup → AddrSetup)
    (hf : ∀ s, (f s).parent1 = s.parent1 ∧ (f s).fk1 = s.fk1 ∧
      (s.clumped = true → (f s).clumped = true) ∧ (∀ x ∈ s.clump, x ∈ (f s).clump) ∧
      (s.numJoins = 0 → (f s).numJoins = 0)) :
    RotMono st (st.modifySetup ax f) := by
  refine ⟨rfl, rfl, rfl, rfl, ?_, by simp [State.modifySetup]⟩
  intro u s hs
  rw [modifySetup_get, hs]
  simp only [Option.map_eq_map, Option.map_some']
  by_cases hax : ax = u
  · simp only [hax, if_true]
    exact ⟨f s, rfl, hf s⟩
  · simp only [hax, if_false]
    exact ⟨s, rfl, rfl, rfl, fun h => h, fun x h => h, fun h => h⟩

theorem rotMono_modifyAddr (st : State α) (ax : Nat) (f : Addr α → Addr α)
    (hf : ∀ a, (f a).rotKey = a.rotKey) : RotMono st (st.modifyAddr ax f) :=
  ⟨map_modify_eq _ f hf _ _, rfl, rfl, rfl,
   fun _ s h => ⟨s, h, rfl, rfl, fun h => h, fun _ h => h, fun h => h⟩, rfl⟩

theorem scaleKept_modifySetup (T : List Nat) (st : State α) (ax : Nat)
    (f : AddrSetup → AddrSetup) : ScaleKept T st (st.modifySetup ax f) :=
  fun _ a _ h => ⟨a, h, rfl⟩

theorem scaleKept_modifyAddr (T : List Nat) (st : State α) (ax : Nat) (f : Addr α → Addr α)
    (hax : ax ∈ T) : ScaleKept T st (st.modifyAddr ax f) := by
  intro u a hu ha
  rw [modifyAddr_get, ha]
  have : ax ≠ u := fun h => hu (h ▸ hax)
  simp [this]

theorem OertzenFrame.rotMono {st st' : State α} (h : OertzenFrame st st') : RotMono st st' := by
  have hkeys : st'.layout.map Addr.rotKey = st.layout.map Addr.rotKey := by
    have := congrArg (List.map Prod.fst) h.units
    simpa [List.map_map, Function.comp] using this
  refine ⟨hkeys, h.map, h.err, h.group, ?_, by simpa using congrArg List.length h.setup⟩
  intro u s hs
  have h1 : (st'.layoutSetup.map AddrSetup.planKey)[u]? =
      (st.layoutSetup.map AddrSetup.planKey)[u]? := by rw [h.setup]
  simp only [List.getElem?_map, hs, Option.map_some'] at h1
  cases hs' : st'.layoutSetup[u]? with
  | none => rw [hs'] at h1; cases h1
  | some s' =>
    rw [hs'] at h1
    simp only [Option.map_some', Option.some.injEq, AddrSetup.planKey, Prod.mk.injEq] at h1
    obtain ⟨-, k2, k3, k4, k5, k6, -⟩ := h1
    exact ⟨s', rfl, k3, k4, fun hc => by rw [k5]; exact hc, fun x hx => by rw [k6]; exact hx,
      fun hj => by rw [k2]; exact hj⟩

theorem OertzenFrame.scaleKept {st st' : State α} (h : OertzenFrame st st') (T : List Nat) :
    ScaleKept T st st' := by
  intro u a _ ha
  have h1 : (st'.layout.map (fun a => (a.rotKey, a.rampartScale)))[u]? =
      (st.layout.map (fun a => (a.rotKey, a.rampartScale)))[u]? := by rw [h.units]
  simp only [List.getElem?_map, ha, Option.map_some'] at h1
  cases ha' : st'.layout[u]? with
  | none => rw [ha'] at h1; cases h1
  | some a' =>
    rw [ha'] at h1
    simp only [Option.map_some', Option.some.injEq, Prod.mk.injEq] at h1
    exact ⟨a', rfl, h1.2⟩

/-- The plan fields of `addrSetup` at one index are kept by `oertzenRotate`. -/
theorem OertzenFrame.setup_at {st st' : State α} (h : OertzenFrame st st') (u : Nat)
    (s : AddrSetup) (hs : st.layoutSetup[u]? = some s) :
    ∃ s', st'.layoutSetup[u]? = some s' ∧ s'.planKey = s.planKey := by
  have h1 : (st'.layoutSetup.map AddrSetup.planKey)[u]? =
      (st.layoutSetup.map AddrSetup.planKey)[u]? := by rw [h.setup]
  simp only [List.getElem?_map, hs, Option.map_some'] at h1
  cases hs' : st'.layoutSetup[u]? with
  | none => rw [hs'] at h1; cases h1
  | some s' =>
    rw [hs'] at h1
    simp only [Option.map_some', Option.some.injEq] at h1
    exact ⟨s', rfl, h1⟩

theorem rotMono_clumpWith (st : State α) (upper lower : Nat) :
    RotMono st (st.clumpWith upper lower) := by
  unfold State.clumpWith
  refine (rotMono_modifySetup st upper _ ?_).trans_rot (rotMono_modifySetup _ lower _ ?_)
  · intro s
    exact ⟨rfl, rfl, fun h => h, fun x hx => List.mem_append_left _ hx, fun h => h⟩
  · intro s
    exact ⟨rfl, rfl, fun _ => rfl, fun x hx => hx, fun h => h⟩

theorem rotMono_foldl {β : Type} (step : State α → β → State α)
    (hstep : ∀ s u, RotMono s (step s u)) (l : List β) (st : State α) :
    RotMono st (l.foldl step st) :=
  foldl_frame (fun s s' : State α => RotMono s s') RotMono.refl_rot
    (fun _ _ _ => RotMono.trans_rot) step hstep l st

theorem scaleKept_foldl (T : List Nat) (step : State α → Nat → State α)
    (hstep : ∀ s u, u ∈ T → ScaleKept T s (step s u)) :
    ∀ (l : List Nat) (st : State α), (∀ u ∈ l, u ∈ T) → ScaleKept T st (l.foldl step st) := by
  intro l
  induction l with
  | nil => intro st _; exact ScaleKept.refl_scale T st
  | cons u rest ih =>
    intro st hsub
    simp only [List.foldl_cons]
    exact (hstep st u (hsub u (List.mem_cons_self _ _))).trans_scale
      (ih _ (fun v hv => hsub v (List.mem_cons_of_mem _ hv)))

theorem groupParent_ok (st : State α) (t1 : List Nat) (p : Nat)
    (h : groupParent st t1 = .ok p) :
    ∃ s, st.layoutSetup[t1.getD 0 0]? = some s ∧ s.parent1 = some p ∧
      p < st.layoutSetup.length := by
  unfold groupParent at h
  cases h1 : st.getSetup (t1.getD 0 0) with
  | error err => rw [h1] at h; cases h
  | ok s =>
    rw [h1] at h
    simp only at h
    cases hp : s.parent1 with
    | none => rw [hp] at h; cases h
    | some parent1 =>
      rw [hp] at h
      simp only at h
      split at h
      · simp only [Except.ok.injEq] at h
        subst h
        exact ⟨s, (getSetup_ok _ _ _).1 h1, hp, by assumption⟩
      · cases h

theorem rotMono_then_modifyAddr (st s : State α) (ax : Nat) (f : Addr α → Addr α)
    (h : RotMono st s) (hf : ∀ a, (f a).rotKey = a.rotKey) : RotMono st (s.modifyAddr ax f) :=
  h.trans_rot (rotMono_modifyAddr s ax f hf)

theorem rotMono_then_modifySetup (st s : State α) (ax : Nat) (f : AddrSetup → AddrSetup)
    (h : RotMono st s)
    (hf : ∀ s, (f s).parent1 = s.parent1 ∧ (f s).fk1 = s.fk1 ∧
      (s.clumped = true → (f s).clumped = true) ∧ (∀ x ∈ s.clump, x ∈ (f s).clump) ∧
      (s.numJoins = 0 → (f s).numJoins = 0)) :
    RotMono st (s.modifySetup ax f) :=
  h.trans_rot (rotMono_modifySetup s ax f hf)

theorem rotMono_then_clumpWith (st s : State α) (upper lower : Nat) (h : RotMono st s) :
    RotMono st (s.clumpWith upper lower) :=
  h.trans_rot (rotMono_clumpWith s upper lower)

theorem rotMono_then_foldl {β : Type} (step : State α → β → State α) (l : List β)
    (st s : State α) (h : RotMono st s) (hstep : ∀ s u, RotMono s (step s u)) :
    RotMono st (l.foldl step s) :=
  h.trans_rot (rotMono_foldl step hstep l s)

theorem scaleKept_then_modifyAddr (T : List Nat) (st s : State α) (ax : Nat)
    (f : Addr α → Addr α) (h : ScaleKept T st s) (hax : ax ∈ T) :
    ScaleKept T st (s.modifyAddr ax f) :=
  h.trans_scale (scaleKept_modifyAddr T s ax f hax)

theorem scaleKept_then_modifySetup (T : List Nat) (st s : State α) (ax : Nat)
    (f : AddrSetup → AddrSetup) (h : ScaleKept T st s) : ScaleKept T st (s.modifySetup ax f) :=
  h.trans_scale (scaleKept_modifySetup T s ax f)

theorem scaleKept_then_clumpWith (T : List Nat) (st s : State α) (upper lower : Nat)
    (h : ScaleKept T st s) : ScaleKept T st (s.clumpWith upper lower) := by
  unfold State.clumpWith
  exact scaleKept_then_modifySetup T st _ _ _ (scaleKept_then_modifySetup T st s _ _ h)

theorem scaleKept_then_foldl (T : List Nat) (step : State α → Nat → State α) (l : List Nat)
    (st s : State α) (h : ScaleKept T st s)
    (hstep : ∀ s u, u ∈ T → ScaleKept T s (step s u)) (hsub : ∀ u ∈ l, u ∈ T) :
    ScaleKept T st (l.foldl step s) :=
  h.trans_scale (scaleKept_foldl T step hstep l s hsub)

/-- Every returning call of the body of the second loop of `rampartRotate`
keeps what `RotMono` lists, and the `rampartScale` of the units outside the
group. -/
theorem rampartGroup_mono (m : Model α) (sqrt : α → α) (budget : Nat) (st st' : State α)
    (t1 : List Nat) (hne : t1 ≠ []) (h : rampartGroup m sqrt budget st t1 = .ok st') :
    RotMono st st' ∧ ScaleKept t1 st st' := by
  have hfirst : t1.getD 0 0 ∈ t1 := by
    cases t1 with
    | nil => exact absurd rfl hne
    | cons x xs => simp
  unfold rampartGroup at h
  split at h
  · cases h1 : oertzenRotate m sqrt budget (decide (1 ≤ m.optimizeMean)) budget t1 st with
    | error err => rw [h1] at h; cases h
    | ok st1 =>
      rw [h1] at h
      simp only at h
      have hfr := oertzenRotate_frame m sqrt budget _ _ _ _ _ h1
      cases h2 : groupParent (st1.modifyAddr (t1.getD 0 0)
          (fun a => { a with rampartScale := sqrt (t1.length : α) })) t1 with
      | error err => rw [h2] at h; cases h
      | ok parent1 =>
        rw [h2] at h
        simp only [Except.ok.injEq] at h
        subst h
        constructor
        · apply rotMono_then_foldl
          · apply rotMono_then_clumpWith
            apply rotMono_then_modifySetup
            · apply rotMono_then_modifyAddr
              · exact hfr.rotMono
              · intro a; rfl
            · intro s
              exact ⟨rfl, rfl, fun h => h, fun x hx => hx, fun h => h⟩
          · intro s u
            apply rotMono_then_modifySetup
            · exact rotMono_modifyAddr _ _ _ (fun a => rfl)
            · intro s
              exact ⟨rfl, rfl, fun h => h, fun x hx => hx, fun _ => rfl⟩
        · apply scaleKept_then_foldl
          · apply scaleKept_then_clumpWith
            apply scaleKept_then_modifySetup
            apply scaleKept_then_modifyAddr
            · exact hfr.scaleKept t1
            · exact hfirst
          · intro s u hu
            apply scaleKept_then_modifySetup
            exact scaleKept_modifyAddr t1 _ _ _ hu
          · intro u hu
            exact List.mem_of_mem_drop hu
  · cases h2 : groupParent st t1 with
    | error err => rw [h2] at h; cases h
    | ok parent1 =>
      rw [h2] at h
      simp only [Except.ok.injEq] at h
      subst h
      constructor
      · apply rotMono_then_foldl
        · apply rotMono_modifySetup
          intro s
          exact ⟨rfl, rfl, fun h => h, fun x hx => hx, fun h => h⟩
        · intro s u
          exact rotMono_clumpWith _ _ _
      · apply scaleKept_then_foldl
        · exact scaleKept_modifySetup t1 _ _ _
        · intro s u _
          exact scaleKept_then_clumpWith t1 s s _ _ (ScaleKept.refl_scale t1 s)
        · intro u hu
          exact hu

theorem foldl_modifyBoth_layout (f : Addr α → Addr α) (g : AddrSetup → AddrSetup)
    (hf : ∀ a, f (f a) = f a) :
    ∀ (l : List Nat) (st : State α) (i : Nat),
      (l.foldl (fun s u => (s.modifyAddr u f).modifySetup u g) st).layout[i]? =
        (st.layout[i]?).map (fun a => if i ∈ l then f a else a) := by
  intro l
  induction l with
  | nil => intro st i; simp
  | cons u rest ih =>
    intro st i
    simp only [List.foldl_cons]
    rw [ih]
    have : ((st.modifyAddr u f).modifySetup u g).layout[i]? =
        (st.layout[i]?).map (fun a => if u = i then f a else a) := by
      simp only [State.modifySetup, State.modifyAddr, List.getElem?_modify]
      rfl
    rw [this]
    cases st.layout[i]? with
    | none => rfl
    | some a =>
      simp only [Option.map_some', Option.some.injEq, List.mem_cons]
      by_cases h1 : i ∈ rest
      · by_cases h2 : u = i
        · simp [h1, h2, hf]
        · simp [h1, h2]
      · by_cases h2 : u = i
        · simp [h1, h2]
        · have : ¬ i = u := fun h => h2 h.symm
          simp [h1, h2, this]

theorem foldl_modifyBoth_setup (f : Addr α → Addr α) (g : AddrSetup → AddrSetup)
    (hg : ∀ a, g (g a) = g a) :
    ∀ (l : List Nat) (st : State α) (i : Nat),
      (l.foldl (fun s u => (s.modifyAddr u f).modifySetup u g) st).layoutSetup[i]? =
        (st.layoutSetup[i]?).map (fun a => if i ∈ l then g a else a) := by
  intro l
  induction l with
  | nil => intro st i; simp
  | cons u rest ih =>
    intro st i
    simp only [List.foldl_cons]
    rw [ih]
    have : ((st.modifyAddr u f).modifySetup u g).layoutSetup[i]? =
        (st.layoutSetup[i]?).map (fun a => if u = i then g a else a) := by
      simp only [State.modifySetup, State.modifyAddr, List.getElem?_modify]
      rfl
    rw [this]
    cases st.layoutSetup[i]? with
    | none => rfl
    | some a =>
      simp only [Option.map_some', Option.some.injEq, List.mem_cons]
      by_cases h1 : i ∈ rest
      · by_cases h2 : u = i
        · simp [h1, h2, hg]
        · simp [h1, h2]
      · by_cases h2 : u = i
        · simp [h1, h2]
        · have : ¬ i = u := fun h => h2 h.symm
          simp [h1, h2, this]

/-- What the body of the second loop of `rampartRotate` does to a group of at
least two units: the first unit gets the scale `sqrt n` and is clumped into
the parent, whose `numKids` drops by `n`; the other units get the scale `0`
and lose their join. -/
theorem rampartGroup_effect (m : Model α) (sqrt : α → α) (budget : Nat) (st st' : State α)
    (first : Nat) (rest : List Nat) (hlen : 2 ≤ (first :: rest).length) (hnot : first ∉ rest)
    (hfirst : first < st.layout.length)
    (h : rampartGroup m sqrt budget st (first :: rest) = .ok st') :
    ∃ p s0 sp, st.layoutSetup[first]? = some s0 ∧ s0.parent1 = some p ∧
      st.layoutSetup[p]? = some sp ∧
      (∃ a', st'.layout[first]? = some a' ∧
        a'.rampartScale = sqrt (((first :: rest).length : Nat) : α)) ∧
      (∃ s', st'.layoutSetup[first]? = some s' ∧ s'.clumped = true) ∧
      (∃ sp', st'.layoutSetup[p]? = some sp' ∧ first ∈ sp'.clump ∧
        sp'.numKids = sp.numKids - ((first :: rest).length : Nat)) ∧
      (∀ u ∈ rest, (∀ a, st.layout[u]? = some a →
          ∃ a', st'.layout[u]? = some a' ∧ a'.rampartScale = 0) ∧
        (∀ s, st.layoutSetup[u]? = some s →
          ∃ s', st'.layoutSetup[u]? = some s' ∧ s'.numJoins = 0)) := by
  unfold rampartGroup at h
  rw [if_pos hlen] at h
  cases h1 : oertzenRotate m sqrt budget (decide (1 ≤ m.optimizeMean)) budget (first :: rest)
      st with
  | error err => rw [h1] at h; cases h
  | ok st1 =>
    rw [h1] at h
    simp only at h
    have hfr := oertzenRotate_frame m sqrt budget _ _ _ _ _ h1
    cases h2 : groupParent (st1.modifyAddr ((first :: rest).getD 0 0)
        (fun a => { a with rampartScale := sqrt ((first :: rest).length : α) }))
        (first :: rest) with
    | error err => rw [h2] at h; cases h
    | ok p =>
      rw [h2] at h
      simp only [Except.ok.injEq] at h
      obtain ⟨s1, hs1, hp1, hplt⟩ := groupParent_ok _ _ _ h2
      have hget : (first :: rest).getD 0 0 = first := rfl
      rw [hget] at hs1 h
      have hs1' : st1.layoutSetup[first]? = some s1 := hs1
      have hplt' : p < st1.layoutSetup.length := hplt
      have hlen1 : st1.layoutSetup.length = st.layoutSetup.length := by
        simpa using congrArg List.length hfr.setup
      -- the records of `first` and `p` before the call
      have hback : ∀ (u : Nat) (x : AddrSetup), st1.layoutSetup[u]? = some x →
          ∃ x0, st.layoutSetup[u]? = some x0 ∧ x.planKey = x0.planKey := by
        intro u x hx
        have hlt : u < st.layoutSetup.length := by
          rw [← hlen1]; exact getElem?_lt_length _ _ _ hx
        obtain ⟨x', hx', hk⟩ := hfr.setup_at u _ (List.getElem?_eq_getElem hlt)
        rw [hx] at hx'
        cases hx'
        exact ⟨_, List.getElem?_eq_getElem hlt, hk⟩
      obtain ⟨s0, hs0, hk0⟩ := hback first s1 hs1'
      obtain ⟨sp1, hsp1⟩ : ∃ sp1, st1.layoutSetup[p]? = some sp1 :=
        ⟨_, List.getElem?_eq_getElem hplt'⟩
      obtain ⟨sp, hsp, hkp⟩ := hback p sp1 hsp1
      simp only [AddrSetup.planKey, Prod.mk.injEq] at hk0 hkp
      have hl1 : ∀ (u : Nat) (a : Addr α), st.layout[u]? = some a →
          ∃ a1, st1.layout[u]? = some a1 := by
        intro u a ha
        obtain ⟨a1, ha1, -⟩ := hfr.scaleKept [] u a (by simp) ha
        exact ⟨a1, ha1⟩
      have hst' : st' = rest.foldl (fun s u =>
          (s.modifyAddr u (fun a : Addr α => { a with rampartScale := 0 })).modifySetup u
            (fun a : AddrSetup => { a with numJoins := 0 }))
          (((st1.modifyAddr first (fun a =>
              { a with rampartScale := sqrt ((first :: rest).length : α) })).modifySetup p
            (fun a => { a with numKids := a.numKids - ((first :: rest).length : Int) })).clumpWith
            p first) := h.symm
      have hlay : ∀ i : Nat, st'.layout[i]? = ((st1.layout[i]?).map (fun a =>
          if first = i then { a with rampartScale := sqrt ((first :: rest).length : α) }
          else a)).map (fun a => if i ∈ rest then { a with rampartScale := 0 } else a) := by
        intro i
        rw [hst', foldl_modifyBoth_layout (fun a : Addr α => { a with rampartScale := 0 })
          (fun a : AddrSetup => { a with numJoins := 0 }) (fun a => rfl)]
        simp only [State.clumpWith, State.modifySetup, State.modifyAddr, List.getElem?_modify]
        rfl
      have hset : ∀ i : Nat, st'.layoutSetup[i]? = ((((st1.layoutSetup[i]?).map (fun a =>
          if p = i then { a with numKids := a.numKids - ((first :: rest).length : Int) }
          else a)).map (fun a =>
          if p = i then { a with clump := a.clump ++ [first] } else a)).map (fun a =>
          if first = i then { a with clumped := true } else a)).map (fun a =>
          if i ∈ rest then { a with numJoins := 0 } else a) := by
        intro i
        rw [hst', foldl_modifyBoth_setup (fun a : Addr α => { a with rampartScale := 0 })
          (fun a : AddrSetup => { a with numJoins := 0 }) (fun a => rfl)]
        simp only [State.clumpWith, State.modifySetup, State.modifyAddr, List.getElem?_modify]
        rfl
      refine ⟨p, s0, sp, hs0, by rw [← hk0.2.2.1]; exact hp1, hsp, ?_, ?_, ?_, ?_⟩
      · obtain ⟨a1, ha1⟩ := hl1 first _ (List.getElem?_eq_getElem hfirst)
        rw [hlay, ha1]
        simp [hnot]
      · rw [hset, hs1']
        by_cases hpf : p = first
        · simp [hpf, hnot]
        · simp [hpf, hnot]
      · rw [hset, hsp1]
        by_cases hpf : first = p
        · by_cases hpr : p ∈ rest
          · simp [hpf, hpr, hkp.1]
          · simp [hpf, hpr, hkp.1]
        · by_cases hpr : p ∈ rest
          · simp [hpf, hpr, hkp.1]
          · simp [hpf, hpr, hkp.1]
      · intro u hu
        constructor
        · intro a ha
          obtain ⟨a1, ha1⟩ := hl1 u a ha
          rw [hlay, ha1]
          simp [hu]
        · intro x hx
          have hlt : u < st1.layoutSetup.length := by
            rw [hlen1]; exact getElem?_lt_length _ _ _ hx
          rw [hset, List.getElem?_eq_getElem hlt]
          simp [hu]

theorem todoInv_insert (st : State α) (ax : Nat) (cmp : Nat → Nat → Except Error Bool)
    (todo todo' : List (Nat × List Nat)) (hinv : TodoInv st ax todo) (s : AddrSetup)
    (hs : st.layoutSetup[ax]? = some s) (helig : s.numKids = 0 ∧ s.numJoins = 1 ∧ s.clumped = false)
    (h : mapUpsertM cmp ax [] (fun t1 => t1 ++ [ax]) todo = .ok todo') :
    TodoInv st (ax + 1) todo' := by
  have hfresh : ax ∉ (todo.map (fun e => e.2)).flatten := by
    intro hmem
    simp only [List.mem_flatten, List.mem_map] at hmem
    obtain ⟨l, ⟨e, he, rfl⟩, hu⟩ := hmem
    exact absurd (hinv.lt e he ax hu) (Nat.lt_irrefl _)
  obtain ⟨l1, l2, hcase⟩ := mapUpsertM_ok cmp ax [] (fun t1 => t1 ++ [ax]) todo todo' h
  rcases hcase with ⟨hl, hl'⟩ | ⟨k', v, hl, hl', -, -⟩
  · subst hl; subst hl'
    have hmem : ∀ e ∈ l1 ++ (ax, [] ++ [ax]) :: l2, e = (ax, [ax]) ∨ e ∈ l1 ++ l2 := by
      intro e he
      simp only [List.mem_append, List.mem_cons, List.nil_append] at he ⊢
      tauto
    refine ⟨?_, ?_, ?_, ?_, ?_⟩
    · intro e he u hu
      rcases hmem e he with rfl | he
      · simp only [List.mem_singleton] at hu; omega
      · exact Nat.lt_succ_of_lt (hinv.lt e he u hu)
    · intro e he
      rcases hmem e he with rfl | he
      · simp
      · exact hinv.sorted e he
    · have hperm : ((l1 ++ (ax, [] ++ [ax]) :: l2).map (fun e => e.2)).flatten.Perm
          (ax :: ((l1 ++ l2).map (fun e => e.2)).flatten) := by
        simp only [List.map_append, List.map_cons, List.flatten_append, List.flatten_cons,
          List.nil_append, List.singleton_append]
        exact List.perm_middle
      rw [hperm.nodup_iff]
      exact List.nodup_cons.2 ⟨hfresh, hinv.nodup⟩
    · intro e he u hu
      rcases hmem e he with rfl | he
      · simp only [List.mem_singleton] at hu
        subst hu
        exact ⟨s, hs, helig⟩
      · exact hinv.eligible e he u hu
    · intro e he
      rcases hmem e he with rfl | he
      · simp
      · exact hinv.nonempty e he
  · subst hl; subst hl'
    have hmem : ∀ e ∈ l1 ++ (k', v ++ [ax]) :: l2,
        e = (k', v ++ [ax]) ∨ e ∈ l1 ++ (k', v) :: l2 := by
      intro e he
      simp only [List.mem_append, List.mem_cons] at he ⊢
      tauto
    have hv : (k', v) ∈ l1 ++ (k', v) :: l2 := by simp
    refine ⟨?_, ?_, ?_, ?_, ?_⟩
    · intro e he u hu
      rcases hmem e he with rfl | he
      · simp only [List.mem_append, List.mem_singleton] at hu
        rcases hu with hu | hu
        · exact Nat.lt_succ_of_lt (hinv.lt _ hv u hu)
        · omega
      · exact Nat.lt_succ_of_lt (hinv.lt e he u hu)
    · intro e he
      rcases hmem e he with rfl | he
      · simp only
        rw [List.pairwise_append]
        refine ⟨hinv.sorted _ hv, by simp, ?_⟩
        intro x hx y hy
        simp only [List.mem_singleton] at hy
        subst hy
        exact hinv.lt _ hv x hx
      · exact hinv.sorted e he
    · have hperm : ((l1 ++ (k', v ++ [ax]) :: l2).map (fun e => e.2)).flatten.Perm
          (ax :: ((l1 ++ (k', v) :: l2).map (fun e => e.2)).flatten) := by
        simp only [List.map_append, List.map_cons, List.flatten_append, List.flatten_cons]
        have e1 : (l1.map (fun e => e.2)).flatten ++ (v ++ [ax] ++ (l2.map (fun e => e.2)).flatten) =
            ((l1.map (fun e => e.2)).flatten ++ v) ++ ax :: (l2.map (fun e => e.2)).flatten := by
          simp
        have e2 : (l1.map (fun e => e.2)).flatten ++ (v ++ (l2.map (fun e => e.2)).flatten) =
            ((l1.map (fun e => e.2)).flatten ++ v) ++ (l2.map (fun e => e.2)).flatten := by
          simp
        rw [e1, e2]
        exact List.perm_middle
      rw [hperm.nodup_iff]
      exact List.nodup_cons.2 ⟨hfresh, hinv.nodup⟩
    · intro e he u hu
      rcases hmem e he with rfl | he
      · simp only [List.mem_append, List.mem_singleton] at hu
        rcases hu with hu | hu
        · exact hinv.eligible _ hv u hu
        · subst hu
          exact ⟨s, hs, helig⟩
      · exact hinv.eligible e he u hu
    · intro e he
      rcases hmem e he with rfl | he
      · simp
      · exact hinv.nonempty e he

theorem rampartCollect_inv (m : Model α) (st : State α) (budget : Nat) :
    ∀ (count ax : Nat) (todo todo' : List (Nat × List Nat)),
      rampartCollect m st budget count ax todo = .ok todo' → TodoInv st ax todo →
      TodoInv st (ax + count) todo' := by
  intro count
  induction count with
  | zero =>
    intro ax todo todo' h hinv
    simp only [rampartCollect, Except.ok.injEq] at h
    subst h
    exact hinv
  | succ count ih =>
    intro ax todo todo' h hinv
    rw [rampartCollect] at h
    rw [show ax + (count + 1) = ax + 1 + count by omega]
    cases h1 : st.getSetup ax with
    | error err => rw [h1] at h; cases h
    | ok as1 =>
      rw [h1] at h
      simp only at h
      have hs := (getSetup_ok _ _ _).1 h1
      split at h
      · refine ih (ax + 1) todo todo' h ⟨fun e he u hu => Nat.lt_succ_of_lt (hinv.lt e he u hu),
          hinv.sorted, hinv.nodup, hinv.eligible, hinv.nonempty⟩
      · rename_i hcond
        cases h2 : mapUpsertM (rampartTodoCompare m st budget) ax [] (fun t1 => t1 ++ [ax])
            todo with
        | error err => rw [h2] at h; cases h
        | ok todo1 =>
          rw [h2] at h
          simp only at h
          refine ih (ax + 1) todo1 todo' h (todoInv_insert st ax _ todo todo1 hinv as1 hs ?_ h2)
          simp only [not_or, ne_eq, not_not] at hcond
          refine ⟨hcond.1, hcond.2.1, ?_⟩
          cases hc : as1.clumped with
          | true => exact absurd hc hcond.2.2
          | false => rfl

theorem todoInv_nil (st : State α) : TodoInv st 0 [] :=
  ⟨fun e he => by simp at he, fun e he => by simp at he, by simp,
   fun e he => by simp at he, fun e he => by simp at he⟩

theorem rampartGroups_mono (m : Model α) (sqrt : α → α) (budget : Nat) :
    ∀ (todo : List (Nat × List Nat)) (st : State α) (u : Nat) (st' : State α) (u' : Nat),
      (∀ e ∈ todo, e.2 ≠ []) → rampartGroups m sqrt budget todo (st, u) = .ok (st', u') →
      RotMono st st' ∧ ScaleKept (todo.map (fun e => e.2)).flatten st st' := by
  intro todo
  induction todo with
  | nil =>
    intro st u st' u' _ h
    simp only [rampartGroups, Except.ok.injEq, Prod.mk.injEq] at h
    rw [← h.1]
    exact ⟨RotMono.refl_rot st, ScaleKept.refl_scale _ st⟩
  | cons e rest ih =>
    intro st u st' u' hne h
    obtain ⟨k, t1⟩ := e
    rw [rampartGroups] at h
    cases h1 : rampartGroup m sqrt budget st t1 with
    | error err => rw [h1] at h; cases h
    | ok st1 =>
      rw [h1] at h
      simp only at h
      obtain ⟨a1, a2⟩ := rampartGroup_mono m sqrt budget st st1 t1
        (hne (k, t1) (List.mem_cons_self _ _)) h1
      obtain ⟨b1, b2⟩ := ih st1 _ st' u' (fun e he => hne e (List.mem_cons_of_mem _ he)) h
      refine ⟨a1.trans_rot b1, ?_⟩
      simp only [List.map_cons, List.flatten_cons]
      exact (a2.mono (fun x hx => List.mem_append_left _ hx)).trans_scale
        (b2.mono (fun x hx => List.mem_append_right _ hx))

theorem rampartGroups_append (m : Model α) (sqrt : α → α) (budget : Nat) :
    ∀ (pre post : List (Nat × List Nat)) (st : State α) (u : Nat) (st' : State α) (u' : Nat),
      rampartGroups m sqrt budget (pre ++ post) (st, u) = .ok (st', u') →
      ∃ stB uB, rampartGroups m sqrt budget pre (st, u) = .ok (stB, uB) ∧
        rampartGroups m sqrt budget post (stB, uB) = .ok (st', u') := by
  intro pre
  induction pre with
  | nil =>
    intro post st u st' u' h
    exact ⟨st, u, rfl, by simpa using h⟩
  | cons e rest ih =>
    intro post st u st' u' h
    obtain ⟨k, t1⟩ := e
    simp only [List.cons_append] at h
    rw [rampartGroups] at h ⊢
    cases h1 : rampartGroup m sqrt budget st t1 with
    | error err => rw [h1] at h; cases h
    | ok st1 =>
      rw [h1] at h
      simp only at h ⊢
      exact ih post st1 _ st' u' h

theorem orderedInsertM_mem (cmp : Nat → Nat → Except Error Bool) (x : Nat) :
    ∀ (l l' : List Nat), orderedInsertM cmp x l = .ok l' → ∀ y, y ∈ l' ↔ y = x ∨ y ∈ l := by
  intro l
  induction l with
  | nil =>
    intro l' h y
    simp only [orderedInsertM, Except.ok.injEq] at h
    subst h
    simp
  | cons z zs ih =>
    intro l' h y
    rw [orderedInsertM] at h
    cases h1 : cmp x z with
    | error err => rw [h1] at h; cases h
    | ok b =>
      rw [h1] at h
      cases b with
      | true =>
        simp only [Except.ok.injEq] at h
        subst h
        simp
      | false =>
        simp only at h
        cases h2 : orderedInsertM cmp x zs with
        | error err => rw [h2] at h; cases h
        | ok zs' =>
          rw [h2] at h
          simp only [Except.ok.injEq] at h
          subst h
          simp only [List.mem_cons, ih zs' h2 y]
          tauto

theorem sortM_mem (cmp : Nat → Nat → Except Error Bool) :
    ∀ (l l' : List Nat), sortM cmp l = .ok l' → ∀ y, y ∈ l' ↔ y ∈ l := by
  intro l
  induction l with
  | nil =>
    intro l' h y
    simp only [sortM, Except.ok.injEq] at h
    subst h
    simp
  | cons x xs ih =>
    intro l' h y
    rw [sortM] at h
    cases h1 : sortM cmp xs with
    | error err => rw [h1] at h; cases h
    | ok sorted =>
      rw [h1] at h
      simp only at h
      rw [orderedInsertM_mem cmp x sorted l' h y, ih sorted h1 y]
      simp

theorem rampartSort_mono (m : Model α) (budget : Nat) :
    ∀ (count ax : Nat) (st st' : State α), rampartSort m budget count ax st = .ok st' →
      RotMono st st' ∧ ScaleKept [] st st' := by
  intro count
  induction count with
  | zero =>
    intro ax st st' h
    simp only [rampartSort, Except.ok.injEq] at h
    subst h
    exact ⟨RotMono.refl_rot st, ScaleKept.refl_scale _ st⟩
  | succ count ih =>
    intro ax st st' h
    rw [rampartSort] at h
    cases h1 : st.getSetup ax with
    | error err => rw [h1] at h; cases h
    | ok a1 =>
      rw [h1] at h
      simp only at h
      have hs := (getSetup_ok _ _ _).1 h1
      split at h
      · exact ih _ _ _ h
      · cases h2 : sortM (rampartClumpCompare m st budget) a1.clump with
        | error err => rw [h2] at h; cases h
        | ok sorted =>
          rw [h2] at h
          simp only at h
          obtain ⟨b1, b2⟩ := ih _ _ _ h
          refine ⟨RotMono.trans_rot ?_ b1, (scaleKept_modifySetup [] st ax _).trans_scale b2⟩
          refine ⟨rfl, rfl, rfl, rfl, ?_, by simp [State.modifySetup]⟩
          intro u s hu
          rw [modifySetup_get, hu]
          simp only [Option.map_eq_map, Option.map_some']
          by_cases hax : ax = u
          · subst hax
            rw [hs] at hu
            cases hu
            simp only [if_true]
            exact ⟨_, rfl, rfl, rfl, fun h => h,
              fun x hx => (sortM_mem _ _ _ h2 x).2 hx, fun h => h⟩
          · simp only [hax, if_false]
            exact ⟨s, rfl, rfl, rfl, fun h => h, fun x h => h, fun h => h⟩

theorem rampartRotate_mono (m : Model α) (sqrt : α → α) (budget : Nat) (st st' : State α)
    (unlinked : Nat) (h : rampartRotate m sqrt budget st = .ok (st', unlinked)) :
    RotMono st st' := by
  unfold rampartRotate at h
  cases h1 : rampartCollect m st budget (rampartLoopTo m st) 0 [] with
  | error err => rw [h1] at h; cases h
  | ok todo =>
    rw [h1] at h
    simp only at h
    have hinv := rampartCollect_inv m st budget _ 0 [] todo h1 (todoInv_nil st)
    cases h2 : rampartGroups m sqrt budget todo (st, 0) with
    | error err => rw [h2] at h; cases h
    | ok res =>
      obtain ⟨st1, u1⟩ := res
      rw [h2] at h
      simp only at h
      cases h3 : rampartSort m budget st1.layout.length 0 st1 with
      | error err => rw [h3] at h; cases h
      | ok st2 =>
        rw [h3] at h
        simp only [Except.ok.injEq, Prod.mk.injEq] at h
        rw [← h.1]
        exact (rampartGroups_mono m sqrt budget todo st 0 st1 u1 hinv.nonempty h2).1.trans_rot
          (rampartSort_mono m budget _ _ _ _ h3).1

theorem rampartLoop_mono (m : Model α) (sqrt : α → α) (budget : Nat) :
    ∀ (fuel : Nat) (maxIter : Option Int) (st st' : State α),
      rampartLoop m sqrt budget fuel maxIter st = .ok st' → RotMono st st' := by
  intro fuel
  induction fuel with
  | zero => intro maxIter st st' h; simp [rampartLoop] at h
  | succ fuel ih =>
    intro maxIter st st' h
    rw [rampartLoop] at h
    cases h1 : rampartRotate m sqrt budget st with
    | error err => rw [h1] at h; cases h
    | ok res =>
      obtain ⟨st1, more⟩ := res
      rw [h1] at h
      simp only at h
      have hm := rampartRotate_mono m sqrt budget st st1 more h1
      have husage : RotMono st { st1 with rampartUsage := st1.rampartUsage ++ [more] } :=
        ⟨hm.keys, hm.map, hm.err, hm.group, hm.setup, hm.setup_len⟩
      split at h
      · simp only [Except.ok.injEq] at h
        rw [← h]; exact hm
      · cases maxIter with
        | none =>
          simp only at h
          exact husage.trans_rot (ih _ _ _ h)
        | some k =>
          simp only at h
          split at h
          · simp only [Except.ok.injEq] at h
            rw [← h]; exact husage
          · exact husage.trans_rot (ih _ _ _ h)

theorem rampart_mono (m : Model α) (sqrt : α → α) (budget fuel : Nat) (st st' : State α)
    (h : rampart m sqrt budget fuel st = .ok st') : RotMono st st' := by
  unfold rampart at h
  split at h
  · exact rampartLoop_mono m sqrt budget fuel _ st st' h
  · simp only [Except.ok.injEq] at h
    rw [← h]; exact RotMono.refl_rot st

theorem RotMono.length_rot {st st' : State α} (h : RotMono st st') :
    st'.layout.length = st.layout.length := by
  simpa using congrArg List.length h.keys

theorem RotMono.key_at {st st' : State α} (h : RotMono st st') (u : Nat) (a : Addr α)
    (ha : st.layout[u]? = some a) : ∃ a', st'.layout[u]? = some a' ∧ a'.rotKey = a.rotKey := by
  have h1 : (st'.layout.map Addr.rotKey)[u]? = (st.layout.map Addr.rotKey)[u]? := by rw [h.keys]
  simp only [List.getElem?_map, ha, Option.map_some'] at h1
  cases ha' : st'.layout[u]? with
  | none => rw [ha'] at h1; cases h1
  | some a' =>
    rw [ha'] at h1
    simp only [Option.map_some', Option.some.injEq] at h1
    exact ⟨a', rfl, h1⟩

theorem RotMono.key_back {st st' : State α} (h : RotMono st st') (u : Nat) (a' : Addr α)
    (ha : st'.layout[u]? = some a') : ∃ a, st.layout[u]? = some a ∧ a'.rotKey = a.rotKey := by
  have h1 : (st'.layout.map Addr.rotKey)[u]? = (st.layout.map Addr.rotKey)[u]? := by rw [h.keys]
  simp only [List.getElem?_map, ha, Option.map_some'] at h1
  cases ha' : st.layout[u]? with
  | none => rw [ha'] at h1; cases h1
  | some a =>
    rw [ha'] at h1
    simp only [Option.map_some', Option.some.injEq] at h1
    exact ⟨a, rfl, h1⟩

theorem rotKey_keyOf (m : Model α) (a a' : Addr α) (h : a'.rotKey = a.rotKey) :
    m.keyOf a' = m.keyOf a ∧ a'.model = a.model ∧ a'.row = a.row ∧ a'.ig = a.ig ∧
    a'.numObsCache = a.numObsCache := by
  simp only [Addr.rotKey, Prod.mk.injEq] at h
  exact ⟨by simp [Model.keyOf, h.1, h.2.1], h.1, h.2.1, h.2.2.2.1, h.2.2.1⟩

/-- The relation between `layout` and `rowToLayoutMap` established by
flattening is kept by the Rampart rotation. -/
theorem flatInv_rotMono (m : Model α) (st st' : State α) (hinv : FlatInv m st)
    (h : RotMono st st') : FlatInv m st' := by
  have hkeys : st'.layout.map m.keyOf = st.layout.map m.keyOf := by
    apply List.ext_getElem?
    intro i
    simp only [List.getElem?_map]
    cases hi : st.layout[i]? with
    | none =>
      have : st'.layout[i]? = none := by
        rw [List.getElem?_eq_none_iff] at hi ⊢
        rw [h.length_rot]; exact hi
      rw [this]
    | some a =>
      obtain ⟨a', ha', hk⟩ := h.key_at i a hi
      rw [ha']
      simp only [Option.map_some', Option.some.injEq]
      exact (rotKey_keyOf m a a' hk).1
  refine ⟨?_, ?_, ?_, by rw [hkeys]; exact hinv.nodup, by rw [h.setup_len, h.length_rot]; exact hinv.setup_len, ?_⟩
  · intro k v hk hv
    rw [h.map] at hk
    obtain ⟨a, ha, hka⟩ := hinv.map_unit k v hk hv
    obtain ⟨a', ha', hk'⟩ := h.key_at _ a ha
    exact ⟨a', ha', by rw [(rotKey_keyOf m a a' hk').1]; exact hka⟩
  · intro i a' ha' hpk
    obtain ⟨a, ha, hk⟩ := h.key_back i a' ha'
    obtain ⟨k1, k2, -⟩ := rotKey_keyOf m a a' hk
    rw [h.map, k1]
    exact hinv.unit_map i a ha (by rw [← k2]; exact hpk)
  · intro k v hk
    rw [h.map] at hk
    exact hinv.map_pk k v hk
  · intro herr i a' ha' y hy
    rw [h.err] at herr
    obtain ⟨a, ha, hk⟩ := h.key_back i a' ha'
    obtain ⟨-, k2, k3, -⟩ := rotKey_keyOf m a a' hk
    rw [k2, k3] at hy
    obtain ⟨j, b, hj, hb, hby⟩ := hinv.joined herr i a ha y hy
    obtain ⟨b', hb', hkb⟩ := h.key_at j b hb
    obtain ⟨-, k2', k3', -⟩ := rotKey_keyOf m b b' hkb
    exact ⟨j, b', hj, hb', by rw [k2', k3']; exact hby⟩

theorem planInit_ready (m : Model α) (nodes : Finset (Nat × Nat)) (hwf : m.WellFormed nodes)
    (sqrt : α → α) (budget : Nat) (st' : State α) (h : planInit m sqrt budget = .ok st')
    (herr : st'.errorRaised = false) :
    ∃ st1, PlanReady m st1 ∧ planModelEval m budget st1 = .ok st' := by
  unfold planInit at h
  cases h1 : flatten m budget with
  | error err => rw [h1] at h; cases h
  | ok res =>
    obtain ⟨st0, ms⟩ := res
    rw [h1] at h
    simp only at h
    cases he : st0.errorRaised with
    | true =>
      rw [he] at h
      simp only [if_true, Except.ok.injEq] at h
      rw [← h, he] at herr
      cases herr
    | false =>
      rw [he] at h
      simp only [Bool.false_eq_true, if_false] at h
      cases h2 : rampart m sqrt budget budget st0 with
      | error err => rw [h2] at h; cases h
      | ok st1 =>
        rw [h2] at h
        simp only at h
        have hrows := flatten_inv m nodes hwf budget st0 ms h1 he
        have hfresh := freshUnits_flatten m budget st0 ms h1
        have hmono := rampart_mono m sqrt budget budget st0 st1 h2
        refine ⟨st1, ⟨flatInv_rotMono m st0 st1 hrows.inv hmono, ?_, ⟨?_, ?_⟩, ?_, ?_⟩, h⟩
        · intro k v hk
          rw [hmono.map] at hk
          by_contra hneg
          exact CleanState.no_marker m st0 hrows.clean k ⟨v, hk, by omega⟩
        · rw [hmono.group]; exact hfresh.no_group
        · intro a' ha'
          obtain ⟨i, hi⟩ := List.getElem?_of_mem ha'
          obtain ⟨a, ha, hk⟩ := hmono.key_back i a' hi
          obtain ⟨-, -, -, k4, -⟩ := rotKey_keyOf m a a' hk
          rw [k4, hfresh.units a (List.getElem?_mem ha)]
          rfl
        · intro a' ha'
          obtain ⟨i, hi⟩ := List.getElem?_of_mem ha'
          obtain ⟨a, ha, hk⟩ := hmono.key_back i a' hi
          obtain ⟨-, k2, k3, -, k5⟩ := rotKey_keyOf m a a' hk
          rw [k5, k2, k3, hfresh.units a (List.getElem?_mem ha)]
          rfl
        · rw [hmono.err]; exact he

/-- The list of group `g` in the assignment invariant of a plan. -/
theorem planInv_group_get (m : Model α) (st0 st : State α) (sets : List (List (List Nat)))
    (hinv : PlanInv m st0 sets st) (g : Nat) (ig : IndependentGroup α)
    (hg : st.group[g]? = some ig) :
    (((st.group.map (fun g => g.gMap) ++ [[]])[g]?).getD []) = ig.gMap := by
  have hlt := getElem?_lt_length _ _ _ hg
  rw [List.getElem?_append_left (by simpa using hlt)]
  simp [hg]

/-- In a plan, a unit is in the list of a group exactly when its field `ig`
names that group. -/
theorem planInv_ig_iff (m : Model α) (st0 st : State α) (sets : List (List (List Nat)))
    (hinv : PlanInv m st0 sets st) (g : Nat) (ig : IndependentGroup α)
    (hg : st.group[g]? = some ig) (u : Nat) (a : Addr α) (ha : st.layout[u]? = some a) :
    a.ig = some g ↔ u ∈ ig.gMap := by
  rw [hinv.assign.ig_iff u a g ha, planInv_group_get m st0 st sets hinv g ig hg]

theorem planInv_spec_of (m : Model α) (st0 st : State α) (sets : List (List (List Nat)))
    (hinv : PlanInv m st0 sets st) (g : Nat) (ig : IndependentGroup α)
    (hg : st.group[g]? = some ig) :
    ∃ clumps cl, sets[g]? = some clumps ∧ GroupSpec m st0 clumps cl ig := by
  have hlt := getElem?_lt_length _ _ _ hg
  rw [hinv.len] at hlt
  obtain ⟨cl, hcl⟩ := hinv.groups g _ ig (List.getElem?_eq_getElem hlt) hg
  exact ⟨_, cl, List.getElem?_eq_getElem hlt, hcl⟩

theorem planInv_group_of_set (m : Model α) (st0 st : State α) (sets : List (List (List Nat)))
    (hinv : PlanInv m st0 sets st) (clumps : List (List Nat)) (hc : clumps ∈ sets) :
    ∃ (g : Nat) (ig : IndependentGroup α) (cl : List (List Nat)),
      st.group[g]? = some ig ∧ GroupSpec m st0 clumps cl ig := by
  obtain ⟨g, hg⟩ := List.getElem?_of_mem hc
  have hlt := getElem?_lt_length _ _ _ hg
  rw [← hinv.len] at hlt
  obtain ⟨cl, hcl⟩ := hinv.groups g clumps _ hg (List.getElem?_eq_getElem hlt)
  exact ⟨g, _, cl, List.getElem?_eq_getElem hlt, hcl⟩

/-- Two units that `computeConnected` links, or any two units under
`forceSingleGroup`, are placed in one group by a returning `planModelEval`. -/
theorem planModelEval_same_group (m : Model α) (budget : Nat) (st st' : State α)
    (hstart : PlanStart st) (h : planModelEval m budget st = .ok st') (u v : Nat)
    (hu : u < st.layout.length) (hv : v < st.layout.length)
    (hlink : ∀ cc, computeConnected m st = .ok cc → cc.Linked u v) :
    ∃ sets, PlanInv m st sets st' ∧ ∃ (g : Nat) (ig : IndependentGroup α),
      st'.group[g]? = some ig ∧ u ∈ ig.gMap ∧ v ∈ ig.gMap := by
  obtain ⟨sets, hinv, hmode⟩ := planModelEval_spec m budget st st' hstart h
  refine ⟨sets, hinv, ?_⟩
  rcases hmode with ⟨-, hsets⟩ | ⟨-, cc, acc, hcc, hacc, hsets⟩
  · obtain ⟨g, ig, cl, hg, hspec⟩ := planInv_group_of_set m st st' sets hinv
      [List.range st.layout.length] (by rw [hsets]; simp)
    have hmem : ∀ w, w < st.layout.length → w ∈ ig.gMap := by
      intro w hw
      rw [hspec.gmap]
      exact List.mem_flatten.2 ⟨_, hspec.all _ (by simp), List.mem_range.2 hw⟩
    exact ⟨g, ig, hg, hmem u hu, hmem v hv⟩
  · obtain ⟨c1, c2, -⟩ := computeConnected_spec m st cc hcc
    obtain ⟨d1, -⟩ := collectClumps_spec m st budget cc c1 c2 acc hacc
    obtain ⟨e, he, c, hc, huc, hall⟩ := d1 u hu
    obtain ⟨g, ig, cl, hg, hspec⟩ := planInv_group_of_set m st st' sets hinv e.2
      (by rw [hsets]; exact List.mem_map_of_mem _ he)
    have hmem : ∀ w ∈ c, w ∈ ig.gMap := by
      intro w hw
      rw [hspec.gmap]
      exact List.mem_flatten.2 ⟨c, hspec.all c hc, hw⟩
    exact ⟨g, ig, hg, hmem u huc, hmem v (hall v (hlink cc hcc))⟩

theorem joinPlacements_ok (m : Model α) (ig : IndependentGroup α) (a1 : Addr α)
    (P : Nat → Prop) :
    ∀ (bs : List Between),
      (∀ b ∈ bs, ∀ key, m.keyElement (m.data a1.model) a1.row b.joinKey = some key →
        ∃ frow q, m.lookupRowOfKey (m.data b.joinModel) key = some frow ∧
          ig.rowToPlacementMap (m.data b.joinModel, frow) = some q ∧ P q) →
      ∃ qs, joinPlacements m ig a1 bs = .ok qs ∧ ∀ q ∈ qs, P q := by
  intro bs
  induction bs with
  | nil => intro _; exact ⟨[], rfl, fun q hq => by simp at hq⟩
  | cons b rest ih =>
    intro hall
    obtain ⟨qs, hqs, hP⟩ := ih (fun b' hb' => hall b' (List.mem_cons_of_mem _ hb'))
    rw [joinPlacements]
    cases hk : m.keyElement (m.data a1.model) a1.row b.joinKey with
    | none => exact ⟨qs, hqs, hP⟩
    | some key =>
      obtain ⟨frow, q, h1, h2, h3⟩ := hall b (List.mem_cons_self _ _) key hk
      simp only [h1, h2, hqs]
      refine ⟨q :: qs, rfl, ?_⟩
      intro q' hq'
      rcases List.mem_cons.1 hq' with rfl | hq'
      · exact h3
      · exact hP q' hq'

/-- After a returning `planModelEval`, the row joined by a placed unit with
nonzero `rampartScale` is found in `rowToPlacementMap` of the unit's own
group, at a placement of that group. -/
theorem planModelEval_join_lookup (m : Model α) (nodes : Finset (Nat × Nat))
    (hwf : m.WellFormed nodes) (budget : Nat) (st st' : State α) (hready : PlanReady m st)
    (h : planModelEval m budget st = .ok st') (g : Nat) (ig : IndependentGroup α)
    (hg : st'.group[g]? = some ig) (px u : Nat) (a : Addr α) (hpx : ig.gMap[px]? = some u)
    (ha : st'.layout[u]? = some a) (hscale : a.rampartScale ≠ 0) (b : Between)
    (hb : b ∈ m.between a.model) (key : Int)
    (hkey : m.keyElement (m.data a.model) a.row b.joinKey = some key) :
    ∃ (frow q v : Nat) (b' : Addr α),
      m.lookupRowOfKey (m.data b.joinModel) key = some frow ∧
      ig.rowToPlacementMap (m.data b.joinModel, frow) = some q ∧ ig.gMap[q]? = some v ∧
      st'.layout[v]? = some b' ∧ m.keyOf b' = (m.data b.joinModel, frow) ∧
      a.ig = some g ∧ b'.ig = some g := by
  obtain ⟨frow, hfrow⟩ := hwf.keys_resolve a.model a.row b key hb hkey
  -- the unit before planning
  obtain ⟨sets0, hinv0, -⟩ := planModelEval_spec m budget st st' hready.start h
  obtain ⟨a0, ha0, hcore⟩ := hinv0.frame.core_back u a ha
  have hcore' := hcore
  simp only [Addr.core, Prod.mk.injEq] at hcore'
  obtain ⟨hm, hr, -, hs, -⟩ := hcore'
  have hjoin : m.Joins (a0.model, a0.row) (b.joinModel, frow) :=
    ⟨b, by rw [← hm]; exact hb, key, by rw [← hm, ← hr]; exact hkey, rfl, hfrow⟩
  obtain ⟨j, b0, hjlt, hb0, hb0k⟩ := hready.inv.joined hready.no_error u a0 ha0 _ hjoin
  simp only [Prod.mk.injEq] at hb0k
  have hkb0 : m.keyOf b0 = (m.data b.joinModel, frow) := by
    simp [Model.keyOf, hb0k.1, hb0k.2]
  have hpk : m.hasPrimaryKey (m.data b0.model) = true := by
    rw [hb0k.1]; exact hwf.key_declared _ _ _ hfrow
  have hmap : st.rowToLayoutMap (m.data b.joinModel, frow) = some (j : Int) := by
    rw [← hkb0]; exact hready.inv.unit_map j b0 hb0 hpk
  have hu : u < st.layout.length := getElem?_lt_length _ _ _ ha0
  have hj : j < st.layout.length := getElem?_lt_length _ _ _ hb0
  -- both units are in one group
  obtain ⟨sets, hinv, g', ig', hg', hu', hj'⟩ := planModelEval_same_group m budget st st'
    hready.start h u j hu hj (by
      intro cc hcc
      obtain ⟨-, -, c3⟩ := computeConnected_spec m st cc hcc
      have := c3 u a0 ha0 (by rw [← hs]; exact hscale) b (by rw [← hm]; exact hb) key frow j
        (by rw [← hm, ← hr]; exact hkey) hfrow hmap (by simpa using hj)
      simpa using this)
  have hag : a.ig = some g :=
    (planInv_ig_iff m st st' sets hinv g ig hg u a ha).2 (List.getElem?_mem hpx)
  have hag' : a.ig = some g' := (planInv_ig_iff m st st' sets hinv g' ig' hg' u a ha).2 hu'
  have hgg : g' = g := by
    rw [hag] at hag'
    exact (Option.some.inj hag').symm
  subst hgg
  rw [hg] at hg'
  cases hg'
  -- the lookup
  obtain ⟨clumps, cl, -, hspec⟩ := planInv_spec_of m st st' sets hinv g' ig hg
  obtain ⟨q0, hq0⟩ := List.getElem?_of_mem hj'
  obtain ⟨k, hk, q, v, hq, hv, hvk⟩ := hspec.lookup q0 j hq0
  have hkj : k = (m.data b.joinModel, frow) := by
    unfold unitKey at hk
    rw [hb0] at hk
    simp only [Option.map_some', Option.some.injEq] at hk
    rw [← hk]; exact hkb0
  subst hkj
  have hvj : v = j := by
    unfold unitKey at hvk
    cases hv0 : st.layout[v]? with
    | none => rw [hv0] at hvk; cases hvk
    | some bv =>
      rw [hv0] at hvk
      simp only [Option.map_some', Option.some.injEq] at hvk
      exact nodup_index_unique m.keyOf st.layout hready.inv.nodup v j bv b0 hv0 hb0
        (by rw [hvk, hkb0])
  subst hvj
  obtain ⟨b', hb', hcb⟩ := hinv.frame.core_at v b0 hb0
  simp only [Addr.core, Prod.mk.injEq] at hcb
  refine ⟨frow, q, v, b', hfrow, hq, hv, hb', ?_, hag,
    (planInv_ig_iff m st st' sets hinv g' ig hg v b' hb').2 hj'⟩
  simp only [Model.keyOf, hcb.1, hcb.2.1]
  exact hkb0

theorem flatten_length_const {β : Type} (s : Nat) :
    ∀ (L : List (List β)), (∀ x ∈ L, x.length = s) → L.flatten.length = L.length * s := by
  intro L
  induction L with
  | nil => intro _; simp
  | cons x xs ih =>
    intro h
    simp only [List.flatten_cons, List.length_append, List.length_cons]
    rw [ih (fun y hy => h y (List.mem_cons_of_mem _ hy)), h x (List.mem_cons_self _ _)]
    ring

theorem SameShape.symm {m : Model α} {st : State α} {k d : List Nat}
    (h : SameShape m st k d) : SameShape m st d k :=
  ⟨h.1.symm, fun i u v hu hv => ⟨((h.2 i v u hv hu).1).symm, ((h.2 i v u hv hu).2).symm⟩⟩

/-- Every unit is placed by a returning `planModelEval`. -/
theorem planModelEval_covers (m : Model α) (budget : Nat) (st st' : State α)
    (hstart : PlanStart st) (h : planModelEval m budget st = .ok st') (u : Nat)
    (hu : u < st.layout.length) :
    ∃ (g : Nat) (ig : IndependentGroup α), st'.group[g]? = some ig ∧ u ∈ ig.gMap := by
  obtain ⟨sets, hinv, hmode⟩ := planModelEval_spec m budget st st' hstart h
  rcases hmode with ⟨-, hsets⟩ | ⟨-, cc, acc, hcc, hacc, hsets⟩
  · obtain ⟨g, ig, cl, hg, hspec⟩ := planInv_group_of_set m st st' sets hinv
      [List.range st.layout.length] (by rw [hsets]; simp)
    refine ⟨g, ig, hg, ?_⟩
    rw [hspec.gmap]
    exact List.mem_flatten.2 ⟨_, hspec.all _ (by simp), List.mem_range.2 hu⟩
  · obtain ⟨c1, c2, -⟩ := computeConnected_spec m st cc hcc
    obtain ⟨d1, -⟩ := collectClumps_spec m st budget cc c1 c2 acc hacc
    obtain ⟨e, he, x, hx, hux, -⟩ := d1 u hu
    obtain ⟨g, ig, cl, hg, hspec⟩ := planInv_group_of_set m st st' sets hinv e.2
      (by rw [hsets]; exact List.mem_map_of_mem _ he)
    refine ⟨g, ig, hg, ?_⟩
    rw [hspec.gmap]
    exact List.mem_flatten.2 ⟨x, hspec.all x hx, hux⟩

/-- The lists `gMap` of the groups of a plan partition the units. -/
theorem planModelEval_partition (m : Model α) (budget : Nat) (st st' : State α)
    (hstart : PlanStart st) (h : planModelEval m budget st = .ok st') :
    (∀ u, u < st'.layout.length → ((st'.group.map (fun g => g.gMap)).flatten).count u = 1) ∧
    (∀ u ∈ (st'.group.map (fun g => g.gMap)).flatten, u < st'.layout.length) ∧
    (∀ (u : Nat) (a : Addr α) (g : Nat) (ig : IndependentGroup α),
      st'.layout[u]? = some a → st'.group[g]? = some ig → (a.ig = some g ↔ u ∈ ig.gMap)) := by
  obtain ⟨sets, hinv, -⟩ := planModelEval_spec m budget st st' hstart h
  have hiff : ∀ (u : Nat) (a : Addr α) (g : Nat) (ig : IndependentGroup α),
      st'.layout[u]? = some a → st'.group[g]? = some ig → (a.ig = some g ↔ u ∈ ig.gMap) :=
    fun u a g ig ha hg => planInv_ig_iff m st st' sets hinv g ig hg u a ha
  have hvalid : ∀ u ∈ (st'.group.map (fun g => g.gMap)).flatten, u < st'.layout.length := by
    intro u hu
    obtain ⟨l, hl, hul⟩ := List.mem_flatten.1 hu
    exact hinv.assign.valid l (List.mem_append_left _ hl) u hul
  have hnodup : ((st'.group.map (fun g => g.gMap)).flatten).Nodup := by
    rw [List.nodup_flatten]
    refine ⟨fun l hl => hinv.assign.nodup l (List.mem_append_left _ hl), ?_⟩
    rw [List.pairwise_iff_getElem]
    intro i j hi hj hij
    simp only [List.getElem_map]
    intro u hu1 hu2
    simp only [List.length_map] at hi hj
    have hult : u < st'.layout.length :=
      hvalid u (List.mem_flatten.2 ⟨_, List.mem_map_of_mem _ (List.getElem_mem hi), hu1⟩)
    have ha := List.getElem?_eq_getElem hult
    have e1 := (hiff u _ i _ ha (List.getElem?_eq_getElem hi)).2 hu1
    have e2 := (hiff u _ j _ ha (List.getElem?_eq_getElem hj)).2 hu2
    rw [e1] at e2
    have := Option.some.inj e2
    omega
  refine ⟨?_, hvalid, hiff⟩
  intro u hu
  rw [hinv.frame.length_plan] at hu
  obtain ⟨g, ig, hg, hmem⟩ := planModelEval_covers m budget st st' hstart h u hu
  exact List.count_eq_one_of_mem hnodup
    (List.mem_flatten.2 ⟨_, List.mem_map_of_mem _ (List.getElem?_mem hg), hmem⟩)

theorem meanLoopUnits_lt (st : State α) : ∀ (fuel ax : Nat),
    ∀ u ∈ meanLoopUnits st fuel ax, ax ≤ u ∧ u < st.layout.length
  | 0, _, u, h => by simp [meanLoopUnits] at h
  | fuel + 1, ax, u, h => by
    simp only [meanLoopUnits] at h
    cases hax : st.layout[ax]? with
    | none => rw [hax] at h; simp at h
    | some a =>
      rw [hax] at h
      simp only [List.mem_cons] at h
      rcases h with h | h
      · subst h
        exact ⟨le_refl _, (List.getElem?_eq_some_iff.1 hax).1⟩
      · have := meanLoopUnits_lt st fuel _ u h
        exact ⟨by omega, this.2⟩

/-- The loop visits no unit twice, since `nextMean` is at least 1. -/
theorem meanLoopUnits_nodup (st : State α) (hnext : ∀ a ∈ st.layout, 1 ≤ a.nextMean) :
    ∀ (fuel ax : Nat), (meanLoopUnits st fuel ax).Nodup
  | 0, _ => by simp [meanLoopUnits]
  | fuel + 1, ax => by
    simp only [meanLoopUnits]
    cases hax : st.layout[ax]? with
    | none => simp
    | some a =>
      simp only [List.nodup_cons]
      refine ⟨fun h => ?_, meanLoopUnits_nodup st hnext fuel _⟩
      have h1 := (meanLoopUnits_lt st fuel _ ax h).1
      have h2 := hnext a (List.getElem?_mem hax)
      omega

theorem scaleUnit_foldl (st : State α) : ∀ (l : List Nat) (acc : Accessor α), l.Nodup →
    ∀ u o, (l.foldl (scaleUnit st) acc) u o =
      if u ∈ l ∧ o < unitObs st u then acc u o * unitFactor st u else acc u o := by
  intro l
  induction l with
  | nil => intro acc _ u o; simp
  | cons ax rest ih =>
    intro acc hl u o
    have hl' := List.nodup_cons.1 hl
    rw [List.foldl_cons, ih _ hl'.2]
    by_cases hu : u = ax
    · subst hu
      simp only [hl'.1, false_and, if_false, List.mem_cons, true_or, true_and, scaleUnit]
    · simp only [List.mem_cons, hu, false_or, scaleUnit, false_and, if_false]

theorem oertzenMark_optimized_layout (sqrt : α → α) (t1 : List Nat) (st : State α) (i : Nat) :
    (oertzenMark sqrt true false t1 st).layout[i]? =
      (st.layout[i]?).map (fun a =>
        { a with quickRotationFactor :=
            if i ∈ t1.drop 1 then 0
            else if t1.getD 0 0 = i then a.quickRotationFactor * sqrt (t1.length : α)
            else a.quickRotationFactor }) := by
  have hfold : ∀ (l : List Nat) (s : State α),
      (l.foldl (fun s u =>
        (s.modifySetup u (fun a => { a with skipMean := some 1 })).modifyAddr u
          (fun a => { a with quickRotationFactor := 0 })) s).layout[i]? =
        (s.layout[i]?).map (fun a =>
          { a with quickRotationFactor := if i ∈ l then 0 else a.quickRotationFactor }) := by
    intro l
    induction l with
    | nil => intro s; simp
    | cons u rest ih =>
      intro s
      rw [List.foldl_cons, ih]
      simp only [State.modifySetup, State.modifyAddr, List.getElem?_modify]
      cases s.layout[i]? with
      | none => rfl
      | some a =>
        simp only [Option.map_some', Option.some.injEq, List.mem_cons]
        by_cases h1 : i ∈ rest
        · by_cases h2 : u = i <;> simp [h1, h2]
        · by_cases h2 : u = i
          · simp [h1, h2]
          · have : ¬ i = u := fun h => h2 h.symm
            simp [h1, h2, this]
  simp only [oertzenMark, Bool.false_eq_true, if_false, if_true]
  rw [hfold]
  simp only [State.modifyAddr, List.getElem?_modify]
  cases st.layout[i]? with
  | none => rfl
  | some a =>
    show some _ = some _
    by_cases h1 : i ∈ t1.drop 1
    · by_cases h2 : t1.getD 0 0 = i
      · simp only [if_pos h1, if_pos h2]
      · simp only [if_pos h1, if_neg h2]
    · by_cases h2 : t1.getD 0 0 = i
      · simp only [if_neg h1, if_pos h2]
      · simp only [if_neg h1, if_neg h2]

theorem RoundFrame.refl_round (st : State α) : RoundFrame st st :=
  ⟨rfl, fun _ s h => ⟨s, h, Or.inl rfl, fun h => h⟩, rfl⟩

theorem RoundFrame.trans_round {a b c : State α} (h1 : RoundFrame a b) (h2 : RoundFrame b c) :
    RoundFrame a c := by
  refine ⟨h2.usage.trans h1.usage, ?_, h2.setup_len.trans h1.setup_len⟩
  intro u s hs
  obtain ⟨s1, e1, j1, c1⟩ := h1.setup u s hs
  obtain ⟨s2, e2, j2, c2⟩ := h2.setup u s1 e1
  refine ⟨s2, e2, ?_, fun h => c2 (c1 h)⟩
  rcases j2 with j2 | j2
  · rcases j1 with j1 | j1
    · exact Or.inl (j2.trans j1)
    · exact Or.inr (j2.trans j1)
  · exact Or.inr j2

theorem roundFrame_modifySetup (st : State α) (ax : Nat) (f : AddrSetup → AddrSetup)
    (hf : ∀ s, ((f s).numJoins = s.numJoins ∨ (f s).numJoins = 0) ∧
      (s.clumped = true → (f s).clumped = true)) :
    RoundFrame st (st.modifySetup ax f) := by
  refine ⟨rfl, ?_, by simp [State.modifySetup]⟩
  intro u s hs
  rw [modifySetup_get, hs]
  simp only [Option.map_eq_map, Option.map_some']
  by_cases hax : ax = u
  · simp only [hax, if_true]
    exact ⟨f s, rfl, hf s⟩
  · simp only [hax, if_false]
    exact ⟨s, rfl, Or.inl rfl, fun h => h⟩

theorem roundFrame_modifyAddr (st : State α) (ax : Nat) (f : Addr α → Addr α) :
    RoundFrame st (st.modifyAddr ax f) :=
  ⟨rfl, fun _ s h => ⟨s, h, Or.inl rfl, fun h => h⟩, rfl⟩

theorem roundFrame_clumpWith (st : State α) (upper lower : Nat) :
    RoundFrame st (st.clumpWith upper lower) := by
  unfold State.clumpWith
  refine (roundFrame_modifySetup st upper _ ?_).trans_round
    (roundFrame_modifySetup _ lower _ ?_)
  · intro s
    exact ⟨Or.inl rfl, fun h => h⟩
  · intro s
    exact ⟨Or.inl rfl, fun _ => rfl⟩

theorem roundFrame_foldl {β : Type} (step : State α → β → State α)
    (hstep : ∀ s u, RoundFrame s (step s u)) (l : List β) (st : State α) :
    RoundFrame st (l.foldl step st) :=
  foldl_frame (fun s s' : State α => RoundFrame s s') RoundFrame.refl_round
    (fun _ _ _ => RoundFrame.trans_round) step hstep l st

theorem oertzenMark_usage (sqrt : α → α) (canOptimize mismatch : Bool) (t1 : List Nat)
    (st : State α) : (oertzenMark sqrt canOptimize mismatch t1 st).rampartUsage = st.rampartUsage := by
  have hfold : ∀ (step : State α → Nat → State α),
      (∀ s u, (step s u).rampartUsage = s.rampartUsage) →
      ∀ (l : List Nat) (s : State α), (l.foldl step s).rampartUsage = s.rampartUsage := by
    intro step hstep l s
    exact foldl_frame (fun s s' : State α => s'.rampartUsage = s.rampartUsage) (fun _ => rfl)
      (fun _ _ _ h1 h2 => h2.trans h1) step hstep l s
  unfold oertzenMark
  simp only
  split
  · apply hfold
    intro s u
    rfl
  · split
    · refine Eq.trans (hfold _ ?_ _ _) rfl
      intro s u
      rfl
    · rfl

theorem oertzenLoop_usage (rotate : List Nat → State α → Except Error (State α))
    (hrot : ∀ t2 s s', rotate t2 s = .ok s' → s'.rampartUsage = s.rampartUsage) (t1 : List Nat) :
    ∀ (count cx : Nat) (st st' : State α),
      oertzenLoop rotate t1 count cx st = .ok st' → st'.rampartUsage = st.rampartUsage := by
  intro count
  induction count with
  | zero =>
    intro cx st st' h
    simp only [oertzenLoop, Except.ok.injEq] at h
    subst h
    rfl
  | succ count ih =>
    intro cx st st' h
    rw [oertzenLoop] at h
    cases h1 : clumpColumn st cx t1 with
    | error err => rw [h1] at h; cases h
    | ok t2 =>
      rw [h1] at h
      simp only at h
      cases h2 : rotate t2 st with
      | error err => rw [h2] at h; cases h
      | ok st1 =>
        rw [h2] at h
        simp only at h
        exact (ih _ _ _ h).trans (hrot t2 st st1 h2)

theorem oertzenRotate_usage (m : Model α) (sqrt : α → α) (budget : Nat) (canOptimize : Bool) :
    ∀ (fuel : Nat) (t1 : List Nat) (st st' : State α),
      oertzenRotate m sqrt budget canOptimize fuel t1 st = .ok st' →
      st'.rampartUsage = st.rampartUsage := by
  intro fuel
  induction fuel with
  | zero => intro t1 st st' h; simp [oertzenRotate] at h
  | succ fuel ih =>
    intro t1 st st' h
    rw [oertzenRotate] at h
    cases h1 : st.getSetup (t1.getD 0 0) with
    | error err => rw [h1] at h; cases h
    | ok specimen =>
      rw [h1] at h
      simp only at h
      cases h2 : meanMismatch m st budget (t1.getD 0 0) (t1.drop 1) with
      | error err => rw [h2] at h; cases h
      | ok mismatch =>
        rw [h2] at h
        simp only at h
        exact (oertzenLoop_usage _ (fun t2 s s' => ih t2 s s') t1 _ _ _ _ h).trans
          (oertzenMark_usage sqrt canOptimize mismatch t1 st)

theorem oertzenRotate_round (m : Model α) (sqrt : α → α) (budget : Nat) (canOptimize : Bool)
    (fuel : Nat) (t1 : List Nat) (st st' : State α)
    (h : oertzenRotate m sqrt budget canOptimize fuel t1 st = .ok st') : RoundFrame st st' := by
  have hfr := oertzenRotate_frame m sqrt budget canOptimize fuel t1 st st' h
  refine ⟨oertzenRotate_usage m sqrt budget canOptimize fuel t1 st st' h, ?_,
    by simpa using congrArg List.length hfr.setup⟩
  intro u s hs
  obtain ⟨s', hs', hk⟩ := hfr.setup_at u s hs
  simp only [AddrSetup.planKey, Prod.mk.injEq] at hk
  exact ⟨s', hs', Or.inl hk.2.1, fun hc => by rw [hk.2.2.2.2.1]; exact hc⟩

theorem rampartGroup_round (m : Model α) (sqrt : α → α) (budget : Nat) (st st' : State α)
    (t1 : List Nat) (h : rampartGroup m sqrt budget st t1 = .ok st') : RoundFrame st st' := by
  unfold rampartGroup at h
  split at h
  · cases h1 : oertzenRotate m sqrt budget (decide (1 ≤ m.optimizeMean)) budget t1 st with
    | error err => rw [h1] at h; cases h
    | ok st1 =>
      rw [h1] at h
      simp only at h
      have hfr := oertzenRotate_round m sqrt budget _ _ _ _ _ h1
      cases h2 : groupParent (st1.modifyAddr (t1.getD 0 0)
          (fun a => { a with rampartScale := sqrt (t1.length : α) })) t1 with
      | error err => rw [h2] at h; cases h
      | ok parent1 =>
        rw [h2] at h
        simp only [Except.ok.injEq] at h
        subst h
        refine RoundFrame.trans_round ?_ (roundFrame_foldl _ ?_ _ _)
        · refine RoundFrame.trans_round ?_ (roundFrame_clumpWith _ _ _)
          refine RoundFrame.trans_round ?_ (roundFrame_modifySetup _ _ _ ?_)
          · exact hfr.trans_round (roundFrame_modifyAddr _ _ _)
          · intro s
            exact ⟨Or.inl rfl, fun h => h⟩
        · intro s u
          exact (roundFrame_modifyAddr s u _).trans_round
            (roundFrame_modifySetup _ u _ (fun s => ⟨Or.inr rfl, fun h => h⟩))
  · cases h2 : groupParent st t1 with
    | error err => rw [h2] at h; cases h
    | ok parent1 =>
      rw [h2] at h
      simp only [Except.ok.injEq] at h
      subst h
      refine RoundFrame.trans_round (roundFrame_modifySetup _ _ _ ?_) (roundFrame_foldl _ ?_ _ _)
      · intro s
        exact ⟨Or.inl rfl, fun h => h⟩
      · intro s u
        exact roundFrame_clumpWith _ _ _

theorem rampartGroups_round (m : Model α) (sqrt : α → α) (budget : Nat) :
    ∀ (todo : List (Nat × List Nat)) (st : State α) (u : Nat) (st' : State α) (u' : Nat),
      rampartGroups m sqrt budget todo (st, u) = .ok (st', u') →
      RoundFrame st st' ∧ u' = u + (todo.map (fun e => e.2.length - 1)).sum := by
  intro todo
  induction todo with
  | nil =>
    intro st u st' u' h
    simp only [rampartGroups, Except.ok.injEq, Prod.mk.injEq] at h
    rw [← h.1, ← h.2]
    exact ⟨RoundFrame.refl_round st, by simp⟩
  | cons e rest ih =>
    intro st u st' u' h
    obtain ⟨k, t1⟩ := e
    rw [rampartGroups] at h
    cases h1 : rampartGroup m sqrt budget st t1 with
    | error err => rw [h1] at h; cases h
    | ok st1 =>
      rw [h1] at h
      simp only at h
      obtain ⟨b1, b2⟩ := ih st1 _ st' u' h
      refine ⟨(rampartGroup_round m sqrt budget st st1 t1 h1).trans_round b1, ?_⟩
      rw [b2]
      simp only [List.map_cons, List.sum_cons]
      omega

theorem rampartSort_round (m : Model α) (budget : Nat) :
    ∀ (count ax : Nat) (st st' : State α), rampartSort m budget count ax st = .ok st' →
      RoundFrame st st' := by
  intro count
  induction count with
  | zero =>
    intro ax st st' h
    simp only [rampartSort, Except.ok.injEq] at h
    subst h
    exact RoundFrame.refl_round st
  | succ count ih =>
    intro ax st st' h
    rw [rampartSort] at h
    cases h1 : st.getSetup ax with
    | error err => rw [h1] at h; cases h
    | ok a1 =>
      rw [h1] at h
      simp only at h
      split at h
      · exact ih _ _ _ h
      · cases h2 : sortM (rampartClumpCompare m st budget) a1.clump with
        | error err => rw [h2] at h; cases h
        | ok sorted =>
          rw [h2] at h
          simp only at h
          refine RoundFrame.trans_round (roundFrame_modifySetup st ax _ ?_) (ih _ _ _ h)
          intro s
          exact ⟨Or.inl rfl, fun h => h⟩

theorem rampartRotate_round (m : Model α) (sqrt : α → α) (budget : Nat) (st st' : State α)
    (unlinked : Nat) (h : rampartRotate m sqrt budget st = .ok (st', unlinked)) :
    RoundFrame st st' := by
  unfold rampartRotate at h
  cases h1 : rampartCollect m st budget (rampartLoopTo m st) 0 [] with
  | error err => rw [h1] at h; cases h
  | ok todo =>
    rw [h1] at h
    simp only at h
    cases h2 : rampartGroups m sqrt budget todo (st, 0) with
    | error err => rw [h2] at h; cases h
    | ok res =>
      obtain ⟨st1, u1⟩ := res
      rw [h2] at h
      simp only at h
      cases h3 : rampartSort m budget st1.layout.length 0 st1 with
      | error err => rw [h3] at h; cases h
      | ok st2 =>
        rw [h3] at h
        simp only [Except.ok.injEq, Prod.mk.injEq] at h
        rw [← h.1]
        exact (rampartGroups_round m sqrt budget todo st 0 st1 u1 h2).1.trans_round
          (rampartSort_round m budget _ _ _ _ h3)

/-- Insertion into the map `todo` keeps the members of the groups and adds
the unit. -/
theorem mapUpsertM_members (cmp : Nat → Nat → Except Error Bool) (ax : Nat)
    (todo todo' : List (Nat × List Nat))
    (h : mapUpsertM cmp ax [] (fun t1 => t1 ++ [ax]) todo = .ok todo') (u : Nat) :
    u ∈ (todo'.map (fun e => e.2)).flatten ↔ u = ax ∨ u ∈ (todo.map (fun e => e.2)).flatten := by
  obtain ⟨l1, l2, hcase⟩ := mapUpsertM_ok cmp ax [] (fun t1 => t1 ++ [ax]) todo todo' h
  rcases hcase with ⟨hl, hl'⟩ | ⟨k', v, hl, hl', -, -⟩
  · subst hl; subst hl'
    simp only [List.map_append, List.map_cons, List.flatten_append, List.flatten_cons,
      List.nil_append, List.mem_append, List.mem_singleton]
    tauto
  · subst hl; subst hl'
    simp only [List.map_append, List.map_cons, List.flatten_append, List.flatten_cons,
      List.mem_append, List.mem_singleton]
    tauto

/-- The first loop of `rampartRotate` enters every unit of its range without
kids, with one join and not clumped into a group of the map. -/
theorem rampartCollect_covers (m : Model α) (st : State α) (budget : Nat) :
    ∀ (count ax : Nat) (todo todo' : List (Nat × List Nat)),
      rampartCollect m st budget count ax todo = .ok todo' →
      (∀ u, u ∈ (todo.map (fun e => e.2)).flatten → u ∈ (todo'.map (fun e => e.2)).flatten) ∧
      ∀ (u : Nat) (s : AddrSetup), ax ≤ u → u < ax + count → st.layoutSetup[u]? = some s →
        s.numKids = 0 → s.numJoins = 1 → s.clumped = false →
        u ∈ (todo'.map (fun e => e.2)).flatten := by
  intro count
  induction count with
  | zero =>
    intro ax todo todo' h
    simp only [rampartCollect, Except.ok.injEq] at h
    subst h
    exact ⟨fun u hu => hu, fun u s h1 h2 => by omega⟩
  | succ count ih =>
    intro ax todo todo' h
    rw [rampartCollect] at h
    cases h1 : st.getSetup ax with
    | error err => rw [h1] at h; cases h
    | ok as1 =>
      rw [h1] at h
      simp only at h
      have hs := (getSetup_ok _ _ _).1 h1
      split at h
      · rename_i hcond
        obtain ⟨i1, i2⟩ := ih (ax + 1) todo todo' h
        refine ⟨i1, ?_⟩
        intro u s hle hlt hu hk hj hc
        rcases Nat.eq_or_lt_of_le hle with heq | hlt'
        · subst heq
          rw [hs] at hu
          cases hu
          rcases hcond with hcond | hcond | hcond
          · exact absurd hk hcond
          · exact absurd hj hcond
          · rw [hc] at hcond; cases hcond
        · exact i2 u s hlt' (by omega) hu hk hj hc
      · cases h2 : mapUpsertM (rampartTodoCompare m st budget) ax [] (fun t1 => t1 ++ [ax])
            todo with
        | error err => rw [h2] at h; cases h
        | ok todo1 =>
          rw [h2] at h
          simp only at h
          obtain ⟨i1, i2⟩ := ih (ax + 1) todo1 todo' h
          have hmem := mapUpsertM_members _ ax todo todo1 h2
          refine ⟨fun u hu => i1 u ((hmem u).2 (Or.inr hu)), ?_⟩
          intro u s hle hlt hu hk hj hc
          rcases Nat.eq_or_lt_of_le hle with heq | hlt'
          · subst heq
            exact i1 _ ((hmem _).2 (Or.inl rfl))
          · exact i2 u s hlt' (by omega) hu hk hj hc

/-- The body of the second loop of `rampartRotate` leaves every unit of its
group clumped, or, in a group of at least two units, without a join. -/
theorem rampartGroup_deactivates (m : Model α) (sqrt : α → α) (budget : Nat) (st st' : State α)
    (t1 : List Nat) (hsorted : t1.Pairwise (fun x y => x < y))
    (hvalid : ∀ u ∈ t1, u < st.layout.length ∧ u < st.layoutSetup.length)
    (h : rampartGroup m sqrt budget st t1 = .ok st') :
    ∀ u ∈ t1, ∃ s', st'.layoutSetup[u]? = some s' ∧
      (s'.clumped = true ∨ (2 ≤ t1.length ∧ s'.numJoins = 0)) := by
  by_cases hlen : 2 ≤ t1.length
  · cases t1 with
    | nil => simp at hlen
    | cons first rest =>
      have hnot : first ∉ rest := by
        intro hmem
        have := (List.pairwise_cons.1 hsorted).1 first hmem
        omega
      obtain ⟨p, s0, sp, -, -, -, -, hcl, -, hrest⟩ :=
        rampartGroup_effect m sqrt budget st st' first rest hlen hnot
          (hvalid first (List.mem_cons_self _ _)).1 h
      intro u hu
      rcases List.mem_cons.1 hu with rfl | hu
      · obtain ⟨s', hs', hc⟩ := hcl
        exact ⟨s', hs', Or.inl hc⟩
      · have hlt := (hvalid u (List.mem_cons_of_mem _ hu)).2
        obtain ⟨s', hs', hj⟩ := (hrest u hu).2 _ (List.getElem?_eq_getElem hlt)
        exact ⟨s', hs', Or.inr ⟨hlen, hj⟩⟩
  · unfold rampartGroup at h
    rw [if_neg hlen] at h
    cases h2 : groupParent st t1 with
    | error err => rw [h2] at h; cases h
    | ok parent1 =>
      rw [h2] at h
      simp only [Except.ok.injEq] at h
      subst h
      have hfold : ∀ (l : List Nat) (s : State α) (u : Nat), u < s.layoutSetup.length →
          (u ∈ l ∨ ∃ x, s.layoutSetup[u]? = some x ∧ x.clumped = true) →
          ∃ s', (l.foldl (fun s u => s.clumpWith parent1 u) s).layoutSetup[u]? = some s' ∧
            s'.clumped = true := by
        intro l
        induction l with
        | nil =>
          intro s u _ hu
          rcases hu with hu | hu
          · simp at hu
          · exact hu
        | cons v rest ih =>
          intro s u hlt hu
          rw [List.foldl_cons]
          have hlen' : (s.clumpWith parent1 v).layoutSetup.length = s.layoutSetup.length :=
            (roundFrame_clumpWith s parent1 v).setup_len
          apply ih _ u (by rw [hlen']; exact hlt)
          by_cases huv : u = v
          · right
            subst huv
            simp only [State.clumpWith, modifySetup_get, List.getElem?_eq_getElem hlt]
            exact ⟨_, rfl, rfl⟩
          · rcases hu with hu | ⟨x, hx, hc⟩
            · left
              rcases List.mem_cons.1 hu with h1 | h1
              · exact absurd h1 huv
              · exact h1
            · right
              obtain ⟨x', hx', -, hc'⟩ := (roundFrame_clumpWith s parent1 v).setup u x hx
              exact ⟨x', hx', hc' hc⟩
      intro u hu
      have hl0 : (st.modifySetup parent1
          (fun a => { a with numKids := a.numKids - (t1.length : Int) })).layoutSetup.length =
          st.layoutSetup.length := by
        apply RoundFrame.setup_len
        apply roundFrame_modifySetup
        intro s
        exact ⟨Or.inl rfl, fun h => h⟩
      obtain ⟨s', hs', hc⟩ := hfold t1 (st.modifySetup parent1
          (fun a => { a with numKids := a.numKids - (t1.length : Int) })) u
        (by rw [hl0]; exact (hvalid u hu).2) (Or.inl hu)
      exact ⟨s', hs', Or.inl hc⟩

theorem rampartGroups_deactivates (m : Model α) (sqrt : α → α) (budget : Nat) :
    ∀ (todo : List (Nat × List Nat)) (st : State α) (u : Nat) (st' : State α) (u' : Nat),
      (∀ e ∈ todo, e.2.Pairwise (fun x y => x < y)) → (∀ e ∈ todo, e.2 ≠ []) →
      (∀ e ∈ todo, ∀ x ∈ e.2, x < st.layout.length ∧ x < st.layoutSetup.length) →
      rampartGroups m sqrt budget todo (st, u) = .ok (st', u') →
      ∀ e ∈ todo, ∀ x ∈ e.2, ∃ s', st'.layoutSetup[x]? = some s' ∧
        (s'.clumped = true ∨ (2 ≤ e.2.length ∧ s'.numJoins = 0)) := by
  intro todo
  induction todo with
  | nil => intro st u st' u' _ _ _ _ e he; simp at he
  | cons e0 rest ih =>
    intro st u st' u' hsorted hne hvalid h
    obtain ⟨k, t1⟩ := e0
    rw [rampartGroups] at h
    cases h1 : rampartGroup m sqrt budget st t1 with
    | error err => rw [h1] at h; cases h
    | ok st1 =>
      rw [h1] at h
      simp only at h
      have hmono := (rampartGroup_mono m sqrt budget st st1 t1
        (hne (k, t1) (List.mem_cons_self _ _)) h1).1
      have hrest := (rampartGroups_mono m sqrt budget rest st1 _ st' u'
        (fun e he => hne e (List.mem_cons_of_mem _ he)) h).1
      have hvalid1 : ∀ e ∈ rest, ∀ x ∈ e.2, x < st1.layout.length ∧ x < st1.layoutSetup.length := by
        intro e he x hx
        rw [hmono.length_rot, hmono.setup_len]
        exact hvalid e (List.mem_cons_of_mem _ he) x hx
      intro e he x hx
      rcases List.mem_cons.1 he with rfl | he
      · obtain ⟨s1, hs1, hd⟩ := rampartGroup_deactivates m sqrt budget st st1 t1
          (hsorted (k, t1) (List.mem_cons_self _ _))
          (hvalid (k, t1) (List.mem_cons_self _ _)) h1 x hx
        obtain ⟨s', hs', -, -, hc, -, hj⟩ := hrest.setup x s1 hs1
        refine ⟨s', hs', ?_⟩
        rcases hd with hd | ⟨hl, hd⟩
        · exact Or.inl (hc hd)
        · exact Or.inr ⟨hl, hj hd⟩
      · exact ih st1 _ st' u' (fun e he => hsorted e (List.mem_cons_of_mem _ he))
          (fun e he => hne e (List.mem_cons_of_mem _ he)) hvalid1 h e he x hx

theorem rampartLoopTo_le (m : Model α) (st : State α) : rampartLoopTo m st ≤ st.layout.length := by
  unfold rampartLoopTo
  cases m.rampartUnitLimit with
  | none => exact Nat.le_refl _
  | some limit =>
    simp only
    omega

/-- A returning call of `rampartRotate`: the returned count is the sum over the
groups of the map of their size minus one, every unit of a group was without
kids, with one join and not clumped and is clumped or (in a group of at least
two) without a join afterwards, and every unit within the unit limit that was
without kids, with one join and not clumped is in a group. -/
theorem rampartRotate_deactivates (m : Model α) (sqrt : α → α) (budget : Nat)
    (st st' : State α) (unlinked : Nat)
    (h : rampartRotate m sqrt budget st = .ok (st', unlinked)) :
    ∃ todo, rampartCollect m st budget (rampartLoopTo m st) 0 [] = .ok todo ∧
      unlinked = (todo.map (fun e => e.2.length - 1)).sum ∧
      (∀ e ∈ todo, e.2 ≠ []) ∧
      (∀ e ∈ todo, ∀ x ∈ e.2,
        (∃ s, st.layoutSetup[x]? = some s ∧ s.numKids = 0 ∧ s.numJoins = 1 ∧
          s.clumped = false) ∧
        ∃ s', st'.layoutSetup[x]? = some s' ∧
          (s'.clumped = true ∨ (2 ≤ e.2.length ∧ s'.numJoins = 0))) ∧
      ∀ (u : Nat) (s : AddrSetup), u < rampartLoopTo m st → st.layoutSetup[u]? = some s →
        s.numKids = 0 → s.numJoins = 1 → s.clumped = false →
        u ∈ (todo.map (fun e => e.2)).flatten := by
  unfold rampartRotate at h
  cases h1 : rampartCollect m st budget (rampartLoopTo m st) 0 [] with
  | error err => rw [h1] at h; cases h
  | ok todo =>
    rw [h1] at h
    simp only at h
    have hinv := rampartCollect_inv m st budget _ 0 [] todo h1 (todoInv_nil st)
    have hcov := (rampartCollect_covers m st budget _ 0 [] todo h1).2
    cases h2 : rampartGroups m sqrt budget todo (st, 0) with
    | error err => rw [h2] at h; cases h
    | ok res =>
      obtain ⟨st1, u1⟩ := res
      rw [h2] at h
      simp only at h
      cases h3 : rampartSort m budget st1.layout.length 0 st1 with
      | error err => rw [h3] at h; cases h
      | ok st2 =>
        rw [h3] at h
        simp only [Except.ok.injEq, Prod.mk.injEq] at h
        obtain ⟨hst, hun⟩ := h
        subst hst
        have hcount := (rampartGroups_round m sqrt budget todo st 0 st1 u1 h2).2
        have hvalid : ∀ e ∈ todo, ∀ x ∈ e.2, x < st.layout.length ∧ x < st.layoutSetup.length := by
          intro e he x hx
          obtain ⟨s, hs, -⟩ := hinv.eligible e he x hx
          have h1 := hinv.lt e he x hx
          have h2 := rampartLoopTo_le m st
          exact ⟨by omega, getElem?_lt_length _ _ _ hs⟩
        have hde := rampartGroups_deactivates m sqrt budget todo st 0 st1 u1 hinv.sorted
          hinv.nonempty hvalid h2
        have hsort := (rampartSort_mono m budget _ _ _ _ h3).1
        refine ⟨todo, rfl, by rw [← hun, hcount]; simp, hinv.nonempty, ?_, ?_⟩
        · intro e he x hx
          refine ⟨hinv.eligible e he x hx, ?_⟩
          obtain ⟨s1, hs1, hd⟩ := hde e he x hx
          obtain ⟨s', hs', -, -, hc, -, hj⟩ := hsort.setup x s1 hs1
          refine ⟨s', hs', ?_⟩
          rcases hd with hd | ⟨hl, hd⟩
          · exact Or.inl (hc hd)
          · exact Or.inr ⟨hl, hj hd⟩
        · intro u s hlt hs hk hj hc
          exact hcov u s (Nat.zero_le _) (by omega) hs hk hj hc

/-- Counting with a predicate that is implied position by position by the
one of a second list of the same length, and fails at one position where the
other holds, gives a smaller number. -/
theorem countP_lt_of_imp {β : Type} (p : β → Bool) :
    ∀ (l l' : List β), l'.length = l.length →
      (∀ (i : Nat) (x x' : β), l[i]? = some x → l'[i]? = some x' → p x' = true → p x = true) →
      (l'.countP p ≤ l.countP p) ∧
      ((∃ (i : Nat) (x x' : β), l[i]? = some x ∧ l'[i]? = some x' ∧ p x = true ∧ p x' = false) →
        l'.countP p < l.countP p) := by
  intro l
  induction l with
  | nil =>
    intro l' hlen _
    have : l' = [] := List.length_eq_zero.1 hlen
    subst this
    exact ⟨le_refl _, fun ⟨i, x, x', hx, _⟩ => by simp at hx⟩
  | cons a l ih =>
    intro l' hlen himp
    cases l' with
    | nil => simp at hlen
    | cons a' l' =>
      have hlen' : l'.length = l.length := by simpa using hlen
      obtain ⟨ile, ilt⟩ := ih l' hlen' (fun i x x' hx hx' => himp (i + 1) x x' (by simpa using hx)
        (by simpa using hx'))
      have h0 := himp 0 a a' (by simp) (by simp)
      simp only [List.countP_cons]
      have hcase : (if p a' = true then 1 else 0) ≤ (if p a = true then 1 else 0) := by
        cases hpa' : p a' with
        | false => simp
        | true => simp [h0 hpa']
      constructor
      · omega
      · rintro ⟨i, x, x', hx, hx', hp, hp'⟩
        cases i with
        | zero =>
          simp only [List.getElem?_cons_zero, Option.some.injEq] at hx hx'
          subst hx; subst hx'
          simp only [hp, hp', if_true, Bool.false_eq_true, if_false]
          omega
        | succ i =>
          have := ilt ⟨i, x, x', by simpa using hx, by simpa using hx', hp, hp'⟩
          omega

/-- A round of `rampartRotate` does not raise the number of units that are not
clumped and have `numJoins = 1`. -/
theorem activeUnits_le {st st' : State α} (h : RoundFrame st st') :
    activeUnits st' ≤ activeUnits st ∧
      ((∃ (u : Nat) (s s' : AddrSetup), st.layoutSetup[u]? = some s ∧
          st'.layoutSetup[u]? = some s' ∧ s.clumped = false ∧ s.numJoins = 1 ∧
          (s'.clumped = true ∨ s'.numJoins = 0)) → activeUnits st' < activeUnits st) := by
  have himp : ∀ (i : Nat) (x x' : AddrSetup), st.layoutSetup[i]? = some x →
      st'.layoutSetup[i]? = some x' →
      (!x'.clumped && decide (x'.numJoins = 1)) = true →
      (!x.clumped && decide (x.numJoins = 1)) = true := by
    intro i x x' hx hx' hp
    obtain ⟨y, hy, hj, hc⟩ := h.setup i x hx
    rw [hx'] at hy
    cases hy
    simp only [Bool.and_eq_true, Bool.not_eq_true', decide_eq_true_eq] at hp ⊢
    constructor
    · cases hxc : x.clumped with
      | false => rfl
      | true => rw [hc hxc] at hp; exact absurd hp.1 (by simp)
    · rcases hj with hj | hj
      · rw [← hj]; exact hp.2
      · rw [hj] at hp; exact absurd hp.2 (by decide)
  obtain ⟨hle, hlt⟩ := countP_lt_of_imp (fun s : AddrSetup => !s.clumped && decide (s.numJoins = 1))
    st.layoutSetup st'.layoutSetup h.setup_len himp
  refine ⟨hle, ?_⟩
  rintro ⟨u, s, s', hs, hs', hc, hj, hd⟩
  apply hlt
  refine ⟨u, s, s', hs, hs', by simp [hc, hj], ?_⟩
  rcases hd with hd | hd
  · simp [hd]
  · simp [hd]

/-- Every round that returns a nonzero count strictly reduces the number of
units that are not clumped and still have `numJoins = 1`. -/
theorem rampartRotate_decreases (m : Model α) (sqrt : α → α) (budget : Nat)
    (st st' : State α) (more : Nat)
    (h : rampartRotate m sqrt budget st = .ok (st', more)) :
    activeUnits st' ≤ activeUnits st ∧ (more ≠ 0 → activeUnits st' < activeUnits st) := by
  have hfr := rampartRotate_round m sqrt budget st st' more h
  refine ⟨(activeUnits_le hfr).1, ?_⟩
  intro hmore
  obtain ⟨todo, -, hcount, hne, hde, -⟩ := rampartRotate_deactivates m sqrt budget st st' more h
  cases todo with
  | nil => simp at hcount; exact absurd hcount hmore
  | cons e rest =>
    have hne0 := hne e (List.mem_cons_self _ _)
    cases ht : e.2 with
    | nil => exact absurd ht hne0
    | cons x xs =>
      obtain ⟨⟨s, hs, -, hj, hc⟩, s', hs', hd⟩ := hde e (List.mem_cons_self _ _) x
        (by rw [ht]; exact List.mem_cons_self _ _)
      apply (activeUnits_le hfr).2
      refine ⟨x, s, s', hs, hs', hc, hj, ?_⟩
      rcases hd with hd | ⟨-, hd⟩
      · exact Or.inl hd
      · exact Or.inr hd

theorem rampartRounds_succ (m : Model α) (sqrt : α → α) (budget : Nat) :
    ∀ (fuel : Nat) (maxIter : Option Int) (st : State α) (x : Nat × Except Error (State α)),
      rampartRounds m sqrt budget fuel maxIter st = some x →
      rampartRounds m sqrt budget (fuel + 1) maxIter st = some x := by
  intro fuel
  induction fuel with
  | zero => intro maxIter st x h; simp [rampartRounds] at h
  | succ fuel ih =>
    intro maxIter st x h
    rw [rampartRounds] at h ⊢
    cases h1 : rampartRotate m sqrt budget st with
    | error err => rw [h1] at h; exact h
    | ok res =>
      obtain ⟨st1, more⟩ := res
      rw [h1] at h
      simp only at h ⊢
      split
      · rename_i hm
        rw [if_pos hm] at h
        exact h
      · rename_i hm
        rw [if_neg hm] at h
        cases maxIter with
        | none =>
          simp only at h ⊢
          cases h2 : rampartRounds m sqrt budget fuel none
              { st1 with rampartUsage := st1.rampartUsage ++ [more] } with
          | none => rw [h2] at h; cases h
          | some y =>
            rw [h2] at h
            rw [ih _ _ _ h2]
            exact h
        | some k =>
          simp only at h ⊢
          split
          · rename_i hk
            rw [if_pos hk] at h
            exact h
          · rename_i hk
            rw [if_neg hk] at h
            cases h2 : rampartRounds m sqrt budget fuel (some (k - 1))
                { st1 with rampartUsage := st1.rampartUsage ++ [more] } with
            | none => rw [h2] at h; cases h
            | some y =>
              rw [h2] at h
              rw [ih _ _ _ h2]
              exact h

theorem rampartRounds_mono (m : Model α) (sqrt : α → α) (budget : Nat) (fuel : Nat)
    (maxIter : Option Int) (st : State α) (x : Nat × Except Error (State α))
    (h : rampartRounds m sqrt budget fuel maxIter st = some x) :
    ∀ fuel', fuel ≤ fuel' → rampartRounds m sqrt budget fuel' maxIter st = some x := by
  intro fuel' hle
  induction hle with
  | refl => exact h
  | step _ ih => exact rampartRounds_succ m sqrt budget _ _ _ _ ih

/-- The loop with the calls counted returns what `rampartLoop` returns. -/
theorem rampartRounds_loop (m : Model α) (sqrt : α → α) (budget : Nat) :
    ∀ (fuel : Nat) (maxIter : Option Int) (st : State α) (n : Nat) (r : Except Error (State α)),
      rampartRounds m sqrt budget fuel maxIter st = some (n, r) →
      rampartLoop m sqrt budget fuel maxIter st = r := by
  intro fuel
  induction fuel with
  | zero => intro maxIter st n r h; simp [rampartRounds] at h
  | succ fuel ih =>
    intro maxIter st n r h
    rw [rampartRounds] at h
    rw [rampartLoop]
    cases h1 : rampartRotate m sqrt budget st with
    | error err =>
      rw [h1] at h
      simp only [Option.some.injEq, Prod.mk.injEq] at h
      exact h.2
    | ok res =>
      obtain ⟨st1, more⟩ := res
      rw [h1] at h
      simp only at h ⊢
      split
      · rename_i hm
        rw [if_pos hm] at h
        simp only [Option.some.injEq, Prod.mk.injEq] at h
        exact h.2
      · rename_i hm
        rw [if_neg hm] at h
        cases maxIter with
        | none =>
          simp only at h ⊢
          cases h2 : rampartRounds m sqrt budget fuel none
              { st1 with rampartUsage := st1.rampartUsage ++ [more] } with
          | none => rw [h2] at h; cases h
          | some y =>
            rw [h2] at h
            simp only [Option.map_some', Option.some.injEq, Prod.mk.injEq] at h
            rw [ih _ _ y.1 y.2 h2]
            exact h.2
        | some k =>
          simp only at h ⊢
          split
          · rename_i hk
            rw [if_pos hk] at h
            simp only [Option.some.injEq, Prod.mk.injEq] at h
            exact h.2
          · rename_i hk
            rw [if_neg hk] at h
            cases h2 : rampartRounds m sqrt budget fuel (some (k - 1))
                { st1 with rampartUsage := st1.rampartUsage ++ [more] } with
            | none => rw [h2] at h; cases h
            | some y =>
              rw [h2] at h
              simp only [Option.map_some', Option.some.injEq, Prod.mk.injEq] at h
              rw [ih _ _ y.1 y.2 h2]
              exact h.2

/-- With the cycle limit `k ≥ 1` the loop makes at most `k` calls of
`rampartRotate` and adds at most `k` entries to `rampartUsage`. -/
theorem rampartRounds_limit (m : Model α) (sqrt : α → α) (budget : Nat) :
    ∀ (k : Nat), 1 ≤ k → ∀ (st : State α),
      ∃ n r, rampartRounds m sqrt budget k (some (k : Int)) st = some (n, r) ∧ n ≤ k ∧
        ∀ st', r = .ok st' → st'.rampartUsage.length ≤ st.rampartUsage.length + k := by
  intro k
  induction k with
  | zero => intro h; omega
  | succ k ih =>
    intro _ st
    rw [rampartRounds]
    cases h1 : rampartRotate m sqrt budget st with
    | error err =>
      exact ⟨1, .error err, rfl, by omega, fun st' h => by cases h⟩
    | ok res =>
      obtain ⟨st1, more⟩ := res
      have hus := (rampartRotate_round m sqrt budget st st1 more h1).usage
      simp only
      split
      · refine ⟨1, .ok st1, rfl, by omega, ?_⟩
        intro st' h
        simp only [Except.ok.injEq] at h
        rw [← h, hus]
        omega
      · split
        · refine ⟨1, _, rfl, by omega, ?_⟩
          intro st' h
          simp only [Except.ok.injEq] at h
          rw [← h]
          simp only [List.length_append, hus, List.length_singleton]
          omega
        · rename_i hk
          have hk1 : 1 ≤ k := by
            rcases Nat.eq_zero_or_pos k with h0 | h0
            · subst h0
              simp at hk
            · exact h0
          have hcast : ((k + 1 : Nat) : Int) - 1 = (k : Int) := by
            push_cast
            ring
          rw [hcast]
          obtain ⟨n, r, hr, hn, hu⟩ := ih hk1
            { st1 with rampartUsage := st1.rampartUsage ++ [more] }
          rw [hr]
          refine ⟨n + 1, r, rfl, by omega, ?_⟩
          intro st' h
          have := hu st' h
          simp only [List.length_append, hus, List.length_singleton] at this
          omega

/-- Without a cycle limit the loop returns after at most `N + 1` calls of
`rampartRotate` when at most `N` units are not clumped and have `numJoins =
1`. -/
theorem rampartRounds_nolimit (m : Model α) (sqrt : α → α) (budget : Nat) :
    ∀ (N : Nat) (st : State α), activeUnits st ≤ N →
      ∃ n r, rampartRounds m sqrt budget (N + 1) none st = some (n, r) ∧ n ≤ N + 1 := by
  intro N
  induction N with
  | zero =>
    intro st hN
    rw [rampartRounds]
    cases h1 : rampartRotate m sqrt budget st with
    | error err => exact ⟨1, .error err, rfl, by omega⟩
    | ok res =>
      obtain ⟨st1, more⟩ := res
      simp only
      have hdec := (rampartRotate_decreases m sqrt budget st st1 more h1).2
      have hm : more = 0 := by
        by_contra hne
        have := hdec hne
        omega
      rw [if_pos hm]
      exact ⟨1, .ok st1, rfl, by omega⟩
  | succ N ih =>
    intro st hN
    rw [rampartRounds]
    cases h1 : rampartRotate m sqrt budget st with
    | error err => exact ⟨1, .error err, rfl, by omega⟩
    | ok res =>
      obtain ⟨st1, more⟩ := res
      simp only
      have hdec := (rampartRotate_decreases m sqrt budget st st1 more h1).2
      split
      · exact ⟨1, .ok st1, rfl, by omega⟩
      · rename_i hm
        have hlt := hdec hm
        have hact : activeUnits ({ st1 with rampartUsage := st1.rampartUsage ++ [more] } : State α)
            = activeUnits st1 := rfl
        obtain ⟨n, r, hr, hn⟩ := ih { st1 with rampartUsage := st1.rampartUsage ++ [more] }
          (by rw [hact]; omega)
        rw [hr]
        exact ⟨n + 1, r, rfl, by omega⟩

/-- A returning run of the loop either ends with a call of `rampartRotate` that
returns 0, or was stopped by the cycle limit `L ≥ 1` after `L` entries were
added to `rampartUsage`. -/
theorem rampartLoop_last (m : Model α) (sqrt : α → α) (budget : Nat) :
    ∀ (fuel : Nat) (maxIter : Option Int) (st st' : State α),
      rampartLoop m sqrt budget fuel maxIter st = .ok st' →
      (∃ stL, rampartRotate m sqrt budget stL = .ok (st', 0)) ∨
      (∃ L : Int, maxIter = some L ∧ 1 ≤ L ∧
        (st'.rampartUsage.length : Int) = st.rampartUsage.length + L) := by
  intro fuel
  induction fuel with
  | zero => intro maxIter st st' h; simp [rampartLoop] at h
  | succ fuel ih =>
    intro maxIter st st' h
    rw [rampartLoop] at h
    cases h1 : rampartRotate m sqrt budget st with
    | error err => rw [h1] at h; cases h
    | ok res =>
      obtain ⟨st1, more⟩ := res
      rw [h1] at h
      simp only at h
      have hus := (rampartRotate_round m sqrt budget st st1 more h1).usage
      split at h
      · rename_i hm
        simp only [Except.ok.injEq] at h
        subst h
        subst hm
        exact Or.inl ⟨st, h1⟩
      · cases maxIter with
        | none =>
          simp only at h
          rcases ih _ _ _ h with hl | ⟨L, hL, -⟩
          · exact Or.inl hl
          · cases hL
        | some k =>
          simp only at h
          split at h
          · rename_i hk
            simp only [Except.ok.injEq] at h
            subst h
            right
            refine ⟨k, rfl, by omega, ?_⟩
            simp only [List.length_append, hus, List.length_singleton]
            push_cast
            omega
          · rcases ih _ _ _ h with hl | ⟨L, hL, hL1, hlen⟩
            · exact Or.inl hl
            · right
              simp only [Option.some.injEq] at hL
              refine ⟨k, rfl, by omega, ?_⟩
              rw [hlen]
              simp only [List.length_append, hus, List.length_singleton]
              push_cast
              omega

theorem mem_eligibleUnits (m : Model α) (st : State α) (u : Nat) :
    u ∈ eligibleUnits m st ↔ u < rampartLoopTo m st ∧
      ∃ s, st.layoutSetup[u]? = some s ∧ s.numKids = 0 ∧ s.numJoins = 1 ∧ s.clumped = false := by
  unfold eligibleUnits
  simp only [List.mem_filter, List.mem_range]
  constructor
  · rintro ⟨h1, h2⟩
    refine ⟨h1, ?_⟩
    cases hs : st.layoutSetup[u]? with
    | none => rw [hs] at h2; cases h2
    | some s =>
      rw [hs] at h2
      simp only [decide_eq_true_eq] at h2
      exact ⟨s, rfl, h2⟩
  · rintro ⟨h1, s, hs, h2⟩
    refine ⟨h1, ?_⟩
    rw [hs]
    simp only [decide_eq_true_eq]
    exact h2

theorem pathsColumn_spec (sign : α) (modelStart : Nat) (eA : Nat → Nat → α) (cx : Nat) :
    ∀ (count rx : Nat) (fullA : SparseMatrix α),
      pathsColumn sign modelStart eA cx count rx fullA =
        if rx ≤ cx ∧ cx < rx + count ∧ eA cx cx ≠ 0 then
          .error (Error.nonzeroDiagonal (1 + modelStart + cx))
        else .ok (columnWritten sign modelStart eA cx rx (rx + count) fullA) := by
  intro count
  induction count with
  | zero =>
    intro rx fullA
    have hno : ¬ (rx ≤ cx ∧ cx < rx + 0 ∧ eA cx cx ≠ 0) := by
      rintro ⟨h1, h2, -⟩
      omega
    rw [if_neg hno, pathsColumn]
    congr 1
    funext i j
    have : ¬ (i = modelStart + cx ∧ modelStart + rx ≤ j ∧ j < modelStart + (rx + 0) ∧
        eA (j - modelStart) cx ≠ 0) := by
      rintro ⟨-, h1, h2, -⟩
      omega
    simp only [columnWritten, if_neg this]
  | succ count ih =>
    intro rx fullA
    rw [pathsColumn]
    by_cases hval : eA rx cx ≠ 0
    · rw [if_pos hval]
      by_cases hdiag : rx = cx
      · rw [if_pos hdiag]
        subst hdiag
        rw [if_pos ⟨le_refl _, by omega, hval⟩]
      · rw [if_neg hdiag, ih]
        have hiff : (rx + 1 ≤ cx ∧ cx < rx + 1 + count ∧ eA cx cx ≠ 0) ↔
            (rx ≤ cx ∧ cx < rx + (count + 1) ∧ eA cx cx ≠ 0) := by
          constructor
          · rintro ⟨h1, h2, h3⟩
            exact ⟨by omega, by omega, h3⟩
          · rintro ⟨h1, h2, h3⟩
            exact ⟨by omega, by omega, h3⟩
        by_cases hc : rx ≤ cx ∧ cx < rx + (count + 1) ∧ eA cx cx ≠ 0
        · rw [if_pos hc, if_pos (hiff.2 hc)]
        · rw [if_neg hc, if_neg (fun h => hc (hiff.1 h))]
          congr 1
          funext i j
          simp only [columnWritten, SparseMatrix.set]
          by_cases hj : j = modelStart + rx
          · subst hj
            by_cases hi : i = modelStart + cx
            · subst hi
              have h1 : ¬ (modelStart + cx = modelStart + cx ∧
                  modelStart + (rx + 1) ≤ modelStart + rx ∧
                  modelStart + rx < modelStart + (rx + 1 + count) ∧
                  eA (modelStart + rx - modelStart) cx ≠ 0) := by
                rintro ⟨-, h, -⟩
                omega
              have h2 : modelStart + cx = modelStart + cx ∧
                  modelStart + rx ≤ modelStart + rx ∧
                  modelStart + rx < modelStart + (rx + (count + 1)) ∧
                  eA (modelStart + rx - modelStart) cx ≠ 0 := by
                refine ⟨rfl, le_refl _, by omega, ?_⟩
                rw [Nat.add_sub_cancel_left]
                exact hval
              rw [if_neg h1, if_pos h2, if_pos ⟨rfl, rfl⟩, Nat.add_sub_cancel_left]
            · have h1 : ¬ (i = modelStart + cx ∧ modelStart + (rx + 1) ≤ modelStart + rx ∧
                  modelStart + rx < modelStart + (rx + 1 + count) ∧
                  eA (modelStart + rx - modelStart) cx ≠ 0) := fun h => hi h.1
              have h2 : ¬ (i = modelStart + cx ∧ modelStart + rx ≤ modelStart + rx ∧
                  modelStart + rx < modelStart + (rx + (count + 1)) ∧
                  eA (modelStart + rx - modelStart) cx ≠ 0) := fun h => hi h.1
              rw [if_neg h1, if_neg h2, if_neg (fun h => hi h.1)]
          · have hiff2 : (i = modelStart + cx ∧ modelStart + (rx + 1) ≤ j ∧
                j < modelStart + (rx + 1 + count) ∧ eA (j - modelStart) cx ≠ 0) ↔
                (i = modelStart + cx ∧ modelStart + rx ≤ j ∧
                j < modelStart + (rx + (count + 1)) ∧ eA (j - modelStart) cx ≠ 0) := by
              constructor
              · rintro ⟨h1, h2, h3, h4⟩
                exact ⟨h1, by omega, by omega, h4⟩
              · rintro ⟨h1, h2, h3, h4⟩
                exact ⟨h1, by omega, by omega, h4⟩
            by_cases hc2 : i = modelStart + cx ∧ modelStart + rx ≤ j ∧
                j < modelStart + (rx + (count + 1)) ∧ eA (j - modelStart) cx ≠ 0
            · rw [if_pos (hiff2.2 hc2), if_pos hc2]
            · rw [if_neg (fun h => hc2 (hiff2.1 h)), if_neg hc2, if_neg (fun h => hj h.2)]
    · rw [if_neg hval, ih]
      have hval0 : eA rx cx = 0 := not_not.1 hval
      have hiff : (rx + 1 ≤ cx ∧ cx < rx + 1 + count ∧ eA cx cx ≠ 0) ↔
          (rx ≤ cx ∧ cx < rx + (count + 1) ∧ eA cx cx ≠ 0) := by
        constructor
        · rintro ⟨h1, h2, h3⟩
          exact ⟨by omega, by omega, h3⟩
        · rintro ⟨h1, h2, h3⟩
          refine ⟨?_, by omega, h3⟩
          rcases Nat.eq_or_lt_of_le h1 with h | h
          · subst h
            exact absurd hval0 h3
          · exact h
      by_cases hc : rx ≤ cx ∧ cx < rx + (count + 1) ∧ eA cx cx ≠ 0
      · rw [if_pos hc, if_pos (hiff.2 hc)]
      · rw [if_neg hc, if_neg (fun h => hc (hiff.1 h))]
        congr 1
        funext i j
        simp only [columnWritten]
        have hiff2 : (i = modelStart + cx ∧ modelStart + (rx + 1) ≤ j ∧
            j < modelStart + (rx + 1 + count) ∧ eA (j - modelStart) cx ≠ 0) ↔
            (i = modelStart + cx ∧ modelStart + rx ≤ j ∧
            j < modelStart + (rx + (count + 1)) ∧ eA (j - modelStart) cx ≠ 0) := by
          constructor
          · rintro ⟨h1, h2, h3, h4⟩
            exact ⟨h1, by omega, by omega, h4⟩
          · rintro ⟨h1, h2, h3, h4⟩
            refine ⟨h1, ?_, by omega, h4⟩
            rcases Nat.eq_or_lt_of_le h2 with h | h
            · rw [← h, Nat.add_sub_cancel_left] at h4
              exact absurd hval0 h4
            · omega
        by_cases hc2 : i = modelStart + cx ∧ modelStart + rx ≤ j ∧
            j < modelStart + (rx + (count + 1)) ∧ eA (j - modelStart) cx ≠ 0
        · rw [if_pos (hiff2.2 hc2), if_pos hc2]
        · rw [if_neg (fun h => hc2 (hiff2.1 h)), if_neg hc2]

theorem pathsWritten_step (sign : α) (modelStart : Nat) (eA : Nat → Nat → α) (rows cx hi : Nat)
    (fullA : SparseMatrix α) :
    pathsWritten sign modelStart eA rows (cx + 1) hi
        (columnWritten sign modelStart eA cx 0 (0 + rows) fullA) =
      pathsWritten sign modelStart eA rows cx (max hi (cx + 1)) fullA := by
  funext i j
  simp only [pathsWritten, columnWritten]
  by_cases hi1 : i = modelStart + cx
  · subst hi1
    have h1 : ¬ (modelStart + (cx + 1) ≤ modelStart + cx ∧ modelStart + cx < modelStart + hi ∧
        modelStart ≤ j ∧ j < modelStart + rows ∧
        eA (j - modelStart) (modelStart + cx - modelStart) ≠ 0) := by
      rintro ⟨h, -⟩
      omega
    rw [if_neg h1, Nat.add_sub_cancel_left]
    by_cases hc : modelStart ≤ j ∧ j < modelStart + rows ∧ eA (j - modelStart) cx ≠ 0
    · rw [if_pos ⟨rfl, by omega, by omega, hc.2.2⟩,
        if_pos ⟨le_refl _, by omega, hc.1, hc.2.1, hc.2.2⟩]
    · rw [if_neg (fun h => hc ⟨by omega, by omega, h.2.2.2⟩),
        if_neg (fun h => hc ⟨h.2.2.1, h.2.2.2.1, h.2.2.2.2⟩)]
  · have hiff : (modelStart + (cx + 1) ≤ i ∧ i < modelStart + hi ∧ modelStart ≤ j ∧
        j < modelStart + rows ∧ eA (j - modelStart) (i - modelStart) ≠ 0) ↔
        (modelStart + cx ≤ i ∧ i < modelStart + max hi (cx + 1) ∧ modelStart ≤ j ∧
        j < modelStart + rows ∧ eA (j - modelStart) (i - modelStart) ≠ 0) := by
      constructor
      · rintro ⟨h1, h2, h3, h4, h5⟩
        exact ⟨by omega, by omega, h3, h4, h5⟩
      · rintro ⟨h1, h2, h3, h4, h5⟩
        exact ⟨by omega, by omega, h3, h4, h5⟩
    by_cases hc : modelStart + cx ≤ i ∧ i < modelStart + max hi (cx + 1) ∧ modelStart ≤ j ∧
        j < modelStart + rows ∧ eA (j - modelStart) (i - modelStart) ≠ 0
    · rw [if_pos (hiff.2 hc), if_pos hc]
    · rw [if_neg (fun h => hc (hiff.1 h)), if_neg hc, if_neg (fun h => hi1 h.1)]

/-- Without a nonzero diagonal entry in its columns the first loop of
`refreshUnitA` returns, with the entries it wrote. -/
theorem pathsLoop_ok (sign : α) (modelStart : Nat) (eA : Nat → Nat → α) (rows : Nat) :
    ∀ (count cx : Nat) (fullA : SparseMatrix α),
      (∀ c, cx ≤ c → c < cx + count → c < rows → eA c c = 0) →
      pathsLoop sign modelStart eA rows count cx fullA =
        .ok (pathsWritten sign modelStart eA rows cx (cx + count) fullA) := by
  intro count
  induction count with
  | zero =>
    intro cx fullA _
    rw [pathsLoop]
    congr 1
    funext i j
    have : ¬ (modelStart + cx ≤ i ∧ i < modelStart + (cx + 0) ∧ modelStart ≤ j ∧
        j < modelStart + rows ∧ eA (j - modelStart) (i - modelStart) ≠ 0) := by
      rintro ⟨h1, h2, -⟩
      omega
    simp only [pathsWritten, if_neg this]
  | succ count ih =>
    intro cx fullA hdiag
    rw [pathsLoop, pathsColumn_spec]
    have hno : ¬ (0 ≤ cx ∧ cx < 0 + rows ∧ eA cx cx ≠ 0) := by
      rintro ⟨-, h2, h3⟩
      exact h3 (hdiag cx (le_refl _) (by omega) (by omega))
    rw [if_neg hno]
    simp only
    rw [ih (cx + 1) _ (fun c h1 h2 h3 => hdiag c (by omega) (by omega) h3), pathsWritten_step]
    have hmax : max (cx + 1 + count) (cx + 1) = cx + (count + 1) := by omega
    rw [hmax]

/-- With a nonzero diagonal entry in its columns the first loop of
`refreshUnitA` throws at the first of them. -/
theorem pathsLoop_error (sign : α) (modelStart : Nat) (eA : Nat → Nat → α) (rows : Nat) :
    ∀ (count cx : Nat) (fullA : SparseMatrix α),
      (∃ c, cx ≤ c ∧ c < cx + count ∧ c < rows ∧ eA c c ≠ 0) →
      ∃ c, cx ≤ c ∧ c < cx + count ∧ c < rows ∧ eA c c ≠ 0 ∧
        (∀ c', cx ≤ c' → c' < c → eA c' c' = 0) ∧
        pathsLoop sign modelStart eA rows count cx fullA =
          .error (Error.nonzeroDiagonal (1 + modelStart + c)) := by
  intro count
  induction count with
  | zero =>
    rintro cx fullA ⟨c, h1, h2, -⟩
    omega
  | succ count ih =>
    rintro cx fullA ⟨c, h1, h2, h3, h4⟩
    rw [pathsLoop, pathsColumn_spec]
    by_cases hd : eA cx cx ≠ 0
    · have hlt : cx < rows := by omega
      rw [if_pos ⟨Nat.zero_le _, by omega, hd⟩]
      exact ⟨cx, le_refl _, by omega, hlt, hd, fun c' h5 h6 => by omega, rfl⟩
    · have hne : c ≠ cx := fun h => hd (h ▸ h4)
      rw [if_neg (fun h => hd h.2.2)]
      simp only
      obtain ⟨c0, g1, g2, g3, g4, g5, g6⟩ := ih (cx + 1)
        (columnWritten sign modelStart eA cx 0 (0 + rows) fullA) ⟨c, by omega, by omega, h3, h4⟩
      refine ⟨c0, by omega, by omega, g3, g4, ?_, g6⟩
      intro c' h5 h6
      rcases Nat.eq_or_lt_of_le h5 with h | h
      · rw [← h]
        exact not_not.1 hd
      · exact g5 c' h h6

theorem betweenLoop_error (m : Model α) (mats : PathMatrices α) (sign : α)
    (ig : IndependentGroup α) (a1 : Addr α) (pl : Placement) :
    ∀ (bs : List Between) (jx : Nat) (fullA : SparseMatrix α) (pos : Nat),
      betweenLoop m mats sign ig a1 pl jx bs fullA ≠ .error (Error.nonzeroDiagonal pos) := by
  intro bs
  induction bs with
  | nil => intro jx fullA pos h; simp [betweenLoop] at h
  | cons betA rest ih =>
    intro jx fullA pos h
    rw [betweenLoop] at h
    cases h1 : m.keyElement (m.data a1.model) a1.row betA.joinKey with
    | none => rw [h1] at h; exact ih _ _ _ h
    | some key =>
      rw [h1] at h
      simp only at h
      cases h2 : m.lookupRowOfKey (m.data betA.joinModel) key with
      | none => rw [h2] at h; cases h
      | some frow =>
        rw [h2] at h
        simp only at h
        cases h3 : ig.rowToPlacementMap (m.data betA.joinModel, frow) with
        | none => rw [h3] at h; cases h
        | some q =>
          rw [h3] at h
          simp only at h
          cases h4 : ig.placements[q]? with
          | none => rw [h4] at h; cases h
          | some p2 =>
            rw [h4] at h
            exact ih _ _ _ h

end PlanTheory

end RelationalRAMExpectation

namespace RelationalRAMExpectation

section Claims

variable {α : Type} [Field α]

/-- C3 (cycle detection): in a well-formed join graph, a call of
`flattenOneRow` made by `state::init` on a row that reaches through joins a row
`c` joining itself through a chain of foreign keys does not recurse forever and
returns no unit index: with a recursion budget above the number of rows it
throws the 'cycle detected' error, naming a row `t` reached from the row of the
call; when every expectation with data columns has its means, `t` itself joins
itself through a chain of foreign keys. -/
theorem flattenOneRow_cycle_detected (m : Model α) (nodes : Finset (Nat × Nat))
    (hwf : m.WellFormed nodes) (st : State α) (hclean : CleanState m st) (ms e r : Nat)
    (c : Nat × Nat) (hreach : Relation.ReflTransGen m.Joins (e, r) c)
    (hcyc : Relation.TransGen m.Joins c c) (fuel : Nat) (hfuel : nodes.card + 2 ≤ fuel) :
    ∃ t : Nat × Nat,
      flattenOneRow m fuel e r (st, ms) = .error (Error.cycleDetected (m.data t.1) t.2) ∧
      Relation.ReflTransGen m.Joins (e, r) t ∧
      ((∀ e', m.missingMeans e' = false) → Relation.TransGen m.Joins t t) := by
  cases hres : flattenOneRow m fuel e r (st, ms) with
  | ok res =>
    obtain ⟨i, st', ms'⟩ := res
    have hx := (flattenOneRow_grounded m hwf.data_inj _ _ _ _ _ _ _ _ (fun _ => False)
      (fun _ hk => hk.elim) (fun t ht _ => hclean.grounded m hwf.data_inj st t ht) hres).2
    exact absurd hcyc (grounded_not_cycle m c (grounded_of_reach m _ _ hreach hx))
  | error err =>
    have hbudget : (m.hasPrimaryKey (m.data e) = true ∧ (m.data e, r) ∈ nodes ∧
        st.unvisited nodes + 1 ≤ fuel) ∨ st.unvisited nodes + 2 ≤ fuel := by
      right
      have := unvisited_le_card st nodes
      omega
    obtain ⟨t, ht, hr, hname⟩ := flattenOneRow_error m nodes hwf _ _ _ _ _ _ hbudget hres
    refine ⟨t, by rw [ht], hr, fun hM => ?_⟩
    rcases hname hM with hin | hc
    · exact absurd hin (hclean.no_marker m st _)
    · exact hc

/-- C3 (witness): the row that holds its own key. -/
theorem flattenOneRow_cycle_detected_witness :
    ∃ t : Nat × Nat,
      flattenOneRow selfJoinModel 3 0 0 (State.empty, 0) =
        .error (Error.cycleDetected (selfJoinModel.data t.1) t.2) ∧
      Relation.ReflTransGen selfJoinModel.Joins (0, 0) t ∧
      ((∀ e', selfJoinModel.missingMeans e' = false) →
        Relation.TransGen selfJoinModel.Joins t t) :=
  flattenOneRow_cycle_detected selfJoinModel {(0, 0)} selfJoinModel_wellFormed State.empty
    CleanState.empty 0 0 0 (0, 0) Relation.ReflTransGen.refl
    (Relation.TransGen.single selfJoinModel_joins) 3 (by decide)

/-- C4 (exactly-once flattening): when flattening of a well-formed join graph
succeeds, no two units of the layout have the same (data set, row) pair, every
row of the home data set and every row reached from one through a chain of
foreign keys has exactly one unit, and a further call of `flattenOneRow` for
the row of a unit of a keyed data set returns the index of that unit and
leaves `layout`, `layoutSetup` and `maxSize` as they are. -/
theorem flatten_exactly_once (m : Model α) (nodes : Finset (Nat × Nat))
    (hwf : m.WellFormed nodes) (fuel : Nat) (st : State α) (ms : Nat)
    (h : flatten m fuel = .ok (st, ms)) (herr : st.errorRaised = false) :
    (st.layout.map m.keyOf).Nodup ∧
    (∀ r, r < m.rows (m.data m.homeEx) →
      ∃! i : Nat, ∃ a, st.layout[i]? = some a ∧ m.keyOf a = (m.data m.homeEx, r)) ∧
    (∀ r y, r < m.rows (m.data m.homeEx) → Relation.TransGen m.Joins (m.homeEx, r) y →
      ∃! i : Nat, ∃ a, st.layout[i]? = some a ∧ m.keyOf a = m.key y) ∧
    (∀ (i : Nat) (a : Addr α), st.layout[i]? = some a →
      m.hasPrimaryKey (m.data a.model) = true → ∀ fuel' ms',
      ∃ st', flattenOneRow m (fuel' + 1) a.model a.row (st, ms') = .ok (i, st', ms') ∧
        st'.layout = st.layout ∧ st'.layoutSetup = st.layoutSetup) := by
  have hrows := flatten_inv m nodes hwf fuel st ms h herr
  have huniq : ∀ k : Nat × Nat,
      (∃ (i : Nat) (a : Addr α), st.layout[i]? = some a ∧ m.keyOf a = k) →
      ∃! i : Nat, ∃ a, st.layout[i]? = some a ∧ m.keyOf a = k := by
    rintro k ⟨i, a, ha, hak⟩
    refine ⟨i, ⟨a, ha, hak⟩, ?_⟩
    rintro j ⟨b, hb, hbk⟩
    exact nodup_index_unique m.keyOf st.layout hrows.inv.nodup j i b a hb ha (by rw [hbk, hak])
  refine ⟨hrows.inv.nodup, ?_, ?_, ?_⟩
  · intro r hr
    obtain ⟨i, a, ha, hak⟩ := hrows.units r hr
    refine huniq _ ⟨i, a, ha, ?_⟩
    have h1 : a.model = m.homeEx := congrArg Prod.fst hak
    have h2 : a.row = r := congrArg Prod.snd hak
    simp [Model.keyOf, h1, h2]
  · intro r y hr hy
    obtain ⟨i, a, ha, hak⟩ := flatInv_reached m st hrows.inv herr (m.homeEx, r) y
      hy.to_reflTransGen (hrows.units r hr)
    refine huniq _ ⟨i, a, ha, ?_⟩
    have h1 : a.model = y.1 := congrArg Prod.fst hak
    have h2 : a.row = y.2 := congrArg Prod.snd hak
    simp [Model.keyOf, Model.key, h1, h2]
  · intro i a ha hpk fuel' ms'
    have hmap := hrows.inv.unit_map i a ha hpk
    have hmemo : memoOf m st a.model a.row = some (i : Int) := by
      simp only [memoOf, hpk, if_true]
      exact hmap
    refine ⟨{ st with allEx := st.allEx.insert a.model }, ?_, rfl, rfl⟩
    rw [flattenOneRow_succ_some m fuel' a.model a.row st ms' _ hmemo]
    simp

/-- C4 (witness): the two child rows joined crosswise to two family rows. -/
theorem flatten_exactly_once_witness :
    ∃ (st : State ℚ) (ms : Nat), flatten crossModel 3 = .ok (st, ms) ∧
    st.errorRaised = false ∧
    (st.layout.map crossModel.keyOf).Nodup ∧
    (∀ r, r < crossModel.rows (crossModel.data crossModel.homeEx) →
      ∃! i : Nat, ∃ a, st.layout[i]? = some a ∧
        crossModel.keyOf a = (crossModel.data crossModel.homeEx, r)) ∧
    (∀ r y, r < crossModel.rows (crossModel.data crossModel.homeEx) →
      Relation.TransGen crossModel.Joins (crossModel.homeEx, r) y →
      ∃! i : Nat, ∃ a, st.layout[i]? = some a ∧ crossModel.keyOf a = crossModel.key y) ∧
    (∀ (i : Nat) (a : Addr ℚ), st.layout[i]? = some a →
      crossModel.hasPrimaryKey (crossModel.data a.model) = true → ∀ fuel' ms',
      ∃ st', flattenOneRow crossModel (fuel' + 1) a.model a.row (st, ms') = .ok (i, st', ms') ∧
        st'.layout = st.layout ∧ st'.layoutSetup = st.layoutSetup) := by
  cases hrun : flatten crossModel 3 with
  | error err =>
    have hok : (match flatten crossModel 3 with
      | .ok _ => true
      | .error _ => false) = true := by decide
    rw [hrun] at hok
    cases hok
  | ok res =>
    obtain ⟨st, ms⟩ := res
    have herr : st.errorRaised = false := by
      have : (match flatten crossModel 3 with
        | .ok (st, _) => st.errorRaised
        | .error _ => true) = false := by decide
      rw [hrun] at this
      exact this
    exact ⟨st, ms, rfl, herr,
      flatten_exactly_once crossModel _ crossModel_wellFormed 3 st ms hrun herr⟩

/-- C5 (counterexample): for the two child rows joined crosswise to two family
rows, flattening gives unit 0 to family row 1, unit 1 to child row 0, unit 2 to
family row 0 and unit 3 to child row 1: within the family data set the unit
indices decrease in row order. -/
theorem flatten_joined_rows_not_in_row_order :
    flattenedRows crossModel 3 = some [(1, 1), (0, 0), (1, 0), (0, 1)] := by
  decide

/-- C5 (amended, home data set): when flattening of a well-formed join graph
in which no row of the home data set is joined by a row succeeds, every row of
the home data set has a unit and among the units of the home data set the unit
indices are strictly increasing in row order. -/
theorem flatten_home_rows_in_row_order (m : Model α) (nodes : Finset (Nat × Nat))
    (hwf : m.WellFormed nodes) (hhome : m.HomeNotJoined) (fuel : Nat) (st : State α)
    (ms : Nat) (h : flatten m fuel = .ok (st, ms)) (herr : st.errorRaised = false) :
    (∀ r, r < m.rows (m.data m.homeEx) →
      ∃ (i : Nat) (a : Addr α), st.layout[i]? = some a ∧ a.model = m.homeEx ∧ a.row = r) ∧
    (∀ (i j : Nat) (a b : Addr α), st.layout[i]? = some a → st.layout[j]? = some b →
      a.model = m.homeEx → b.model = m.homeEx → a.row < b.row → i < j) := by
  have hrows := flatten_inv m nodes hwf fuel st ms h herr
  refine ⟨?_, hrows.home_order hhome⟩
  intro r hr
  obtain ⟨i, a, ha, hak⟩ := hrows.units r hr
  exact ⟨i, a, ha, congrArg Prod.fst hak, congrArg Prod.snd hak⟩

/-- C5 (witness): the two child rows joined crosswise to two family rows. -/
theorem flatten_home_rows_in_row_order_witness :
    ∃ (st : State ℚ) (ms : Nat), flatten crossModel 3 = .ok (st, ms) ∧
    st.errorRaised = false ∧
    (∀ r, r < crossModel.rows (crossModel.data crossModel.homeEx) →
      ∃ (i : Nat) (a : Addr ℚ), st.layout[i]? = some a ∧ a.model = crossModel.homeEx ∧
        a.row = r) ∧
    (∀ (i j : Nat) (a b : Addr ℚ), st.layout[i]? = some a → st.layout[j]? = some b →
      a.model = crossModel.homeEx → b.model = crossModel.homeEx → a.row < b.row → i < j) := by
  cases hrun : flatten crossModel 3 with
  | error err =>
    have hok : (match flatten crossModel 3 with
      | .ok _ => true
      | .error _ => false) = true := by decide
    rw [hrun] at hok
    cases hok
  | ok res =>
    obtain ⟨st, ms⟩ := res
    have herr : st.errorRaised = false := by
      have : (match flatten crossModel 3 with
        | .ok (st, _) => st.errorRaised
        | .error _ => true) = false := by decide
      rw [hrun] at this
      exact this
    exact ⟨st, ms, rfl, herr,
      flatten_home_rows_in_row_order crossModel _ crossModel_wellFormed
        crossModel_homeNotJoined 3 st ms hrun herr⟩

/-- C8 (counterexample): in the family and child scenario without Rampart
rotation `planModelEval` creates one independent group, not two. -/
theorem family_scenario_one_group :
    (groupShapes (planInit (familyModel false) (fun x => x) 10)).map List.length = some 1 := by
  decide

/-- C8 (amended): in the family and child scenario without Rampart rotation
`computeConnected` finds two components, one per family (units 4 to 7 and units
0 to 3), and `planModelEval` places the two as the two clumps of a single
independent group with `clumpSize` 4 and the 8 units in the order of their
indices. -/
theorem family_scenario_two_clumps_one_group :
    planComponents (familyModel false) (fun x => x) 10 = some [[4, 5, 6, 7], [0, 1, 2, 3]] ∧
    groupShapes (planInit (familyModel false) (fun x => x) 10) =
      some [(4, [0, 1, 2, 3, 4, 5, 6, 7])] := by
  decide

end Claims

/-- C1 (evaluation at the two-unit plan): for the plan with the single entry
`[0, 1]`, one observation per unit and data `(0, 1)`, `applyRotationPlan`
followed by `unapplyRotationPlan` leaves `1` in unit 0 and `0` in unit 1: the
two values come back exchanged instead of restored. -/
theorem unapply_apply_two_units_exchanged :
    unapplyRotationPlan Real.sqrt (fun _ => 1) [[0, 1]]
        (applyRotationPlan Real.sqrt (fun _ => 1) [[0, 1]] twoUnitData) 0 0 = 1
    ∧ unapplyRotationPlan Real.sqrt (fun _ => 1) [[0, 1]]
        (applyRotationPlan Real.sqrt (fun _ => 1) [[0, 1]] twoUnitData) 1 0 = 0
    ∧ twoUnitData 0 0 = 0 ∧ twoUnitData 1 0 = 1 := by
  have h2 : Real.sqrt 2 ≠ 0 := by positivity
  have hs : Real.sqrt 2 * Real.sqrt 2 = 2 := Real.mul_self_sqrt (by norm_num)
  have hhalf : Real.sqrt (1 / 2) = 1 / Real.sqrt 2 := by
    rw [Real.sqrt_div (by norm_num), Real.sqrt_one]
  have h11 : (1 : ℝ) + 1 = 2 := by norm_num
  refine ⟨?_, ?_, ?_, ?_⟩
  · simp [unapplyRotationPlan, applyRotationPlan, unapplyEntry, applyEntry, unapplyObs,
      applyObs, unapplyStep, applyStep, Accessor.set, twoUnitData, List.range, List.range.loop,
      List.range', h11]
    field_simp
  · simp [unapplyRotationPlan, applyRotationPlan, unapplyEntry, applyEntry, unapplyObs,
      applyObs, unapplyStep, applyStep, Accessor.set, twoUnitData, List.range, List.range.loop,
      List.range', h11]
  · simp [twoUnitData]
  · simp [twoUnitData]

section PlanClaims

set_option linter.unusedSectionVars false

variable {α : Type} [LinearOrderedField α]

theorem familyModel_wellFormed (r : Bool) : (familyModel r).WellFormed {(1, 0), (1, 1)} := by
  refine ⟨fun e e' h => h, ?_, ?_, ?_⟩
  · intro d k r h
    simp only [familyModel] at h ⊢
    by_cases hd : d = 1
    · simp [hd]
    · simp [hd] at h
  · intro d k r h
    simp only [familyModel] at h
    by_cases hd : d = 1
    · subst hd
      by_cases hk0 : k = 0
      · simp [hk0] at h; simp [← h]
      · by_cases hk1 : k = 1
        · simp [hk1] at h; simp [← h]
        · simp [hk0, hk1] at h
    · simp [hd] at h
  · intro e r b key hb hkey
    simp only [familyModel] at hb hkey ⊢
    by_cases he : e = 0
    · subst he
      simp only [if_true, List.mem_singleton] at hb
      subst hb
      by_cases hr : r < 3
      · simp [hr] at hkey; simp [← hkey]
      · simp [hr] at hkey; simp [← hkey]
    · simp [he] at hb

/-- C6: when `state::init` has planned a well-formed model without raising an
error, every placed unit carries the number of its group in `ig`; the between
loop of `refreshUnitA` finds every joined row in `rowToPlacementMap` of that
group, so it returns, and each placement it couples to the unit holds a unit
of the same group; for a unit with nonzero `rampartScale` and a join key that
is present, the unit found is the unit of the joined row.  So no entry of a
between matrix links units of different groups. -/
theorem plan_joins_within_group (m : Model α) (nodes : Finset (Nat × Nat))
    (hwf : m.WellFormed nodes) (sqrt : α → α) (budget : Nat) (st' : State α)
    (h : planInit m sqrt budget = .ok st') (herr : st'.errorRaised = false)
    (g : Nat) (ig : IndependentGroup α) (hg : st'.group[g]? = some ig) (px u : Nat)
    (hpx : ig.gMap[px]? = some u) :
    ∃ a, st'.layout[u]? = some a ∧ a.ig = some g ∧
      (∃ qs, refreshUnitAJoins m st' ig px = .ok qs ∧
        ∀ q ∈ qs, ∃ (v : Nat) (b' : Addr α),
          ig.gMap[q]? = some v ∧ st'.layout[v]? = some b' ∧ b'.ig = some g) ∧
      (a.rampartScale ≠ 0 → ∀ b ∈ m.between a.model, ∀ key,
        m.keyElement (m.data a.model) a.row b.joinKey = some key →
        ∃ (frow q v : Nat) (b' : Addr α),
          m.lookupRowOfKey (m.data b.joinModel) key = some frow ∧
          ig.rowToPlacementMap (m.data b.joinModel, frow) = some q ∧
          ig.gMap[q]? = some v ∧ st'.layout[v]? = some b' ∧
          m.keyOf b' = (m.data b.joinModel, frow) ∧ b'.ig = some g) := by
  obtain ⟨st1, hready, hplan⟩ := planInit_ready m nodes hwf sqrt budget st' h herr
  obtain ⟨sets, hinv, -⟩ := planModelEval_spec m budget st1 st' hready.start hplan
  have hmem : u ∈ ig.gMap := List.getElem?_mem hpx
  have hult : u < st'.layout.length := by
    apply hinv.assign.valid ig.gMap _ u hmem
    exact List.mem_append_left _ (List.mem_map_of_mem _ (List.getElem?_mem hg))
  have ha : st'.layout[u]? = some st'.layout[u] := List.getElem?_eq_getElem hult
  have hag := (planInv_ig_iff m st1 st' sets hinv g ig hg u _ ha).2 hmem
  have hlook := planModelEval_join_lookup m nodes hwf budget st1 st' hready hplan g ig hg px u
    _ hpx ha
  refine ⟨_, ha, hag, ?_, ?_⟩
  · unfold refreshUnitAJoins
    rw [hpx]
    simp only [(getAddr_ok _ _ _).2 ha]
    by_cases hs : st'.layout[u].rampartScale = 0
    · rw [if_pos hs]
      exact ⟨[], rfl, fun q hq => by simp at hq⟩
    · rw [if_neg hs]
      apply joinPlacements_ok
      intro b hb key hkey
      obtain ⟨frow, q, v, b', h1, h2, h3, h4, -, -, h7⟩ := hlook hs b hb key hkey
      exact ⟨frow, q, h1, h2, v, b', h3, h4, h7⟩
  · intro hs b hb key hkey
    obtain ⟨frow, q, v, b', h1, h2, h3, h4, h5, -, h7⟩ := hlook hs b hb key hkey
    exact ⟨frow, q, v, b', h1, h2, h3, h4, h5, h7⟩

/-- Witness of C6 in the family and child scenario with Rampart rotation: unit 1,
the rotated child of family 0, is placement 1 of group 1. -/
theorem plan_joins_within_group_witness :
    ∃ (st' : State ℚ) (ig : IndependentGroup ℚ),
      planInit (familyModel true) (fun x => x) 10 = .ok st' ∧ st'.errorRaised = false ∧
      st'.group[1]? = some ig ∧ ig.gMap[1]? = some 1 ∧
      ∃ a, st'.layout[1]? = some a ∧ a.ig = some 1 ∧
        (∃ qs, refreshUnitAJoins (familyModel true) st' ig 1 = .ok qs ∧
          ∀ q ∈ qs, ∃ (v : Nat) (b' : Addr ℚ),
            ig.gMap[q]? = some v ∧ st'.layout[v]? = some b' ∧ b'.ig = some 1) ∧
        (a.rampartScale ≠ 0 → ∀ b ∈ (familyModel true).between a.model, ∀ key,
          (familyModel true).keyElement ((familyModel true).data a.model) a.row b.joinKey =
            some key →
          ∃ (frow q v : Nat) (b' : Addr ℚ),
            (familyModel true).lookupRowOfKey ((familyModel true).data b.joinModel) key =
              some frow ∧
            ig.rowToPlacementMap ((familyModel true).data b.joinModel, frow) = some q ∧
            ig.gMap[q]? = some v ∧ st'.layout[v]? = some b' ∧
            (familyModel true).keyOf b' = ((familyModel true).data b.joinModel, frow) ∧
            b'.ig = some 1) := by
  cases hrun : planInit (familyModel true) (fun x => x) 10 with
  | error err =>
    have hok : (match planInit (familyModel true) (fun x => x) 10 with
      | .ok _ => true
      | .error _ => false) = true := by decide
    rw [hrun] at hok
    cases hok
  | ok st' =>
    have herr : st'.errorRaised = false := by
      have : (match planInit (familyModel true) (fun x => x) 10 with
        | .ok st => st.errorRaised
        | .error _ => true) = false := by decide
      rw [hrun] at this
      exact this
    have hgm : (st'.group[1]?).map (fun g => g.gMap[1]?) = some (some 1) := by
      have : (match planInit (familyModel true) (fun x => x) 10 with
        | .ok st => (st.group[1]?).map (fun g => g.gMap[1]?)
        | .error _ => none) = some (some 1) := by decide
      rw [hrun] at this
      exact this
    cases hg : st'.group[1]? with
    | none => rw [hg] at hgm; cases hgm
    | some ig =>
      rw [hg] at hgm
      simp only [Option.map_some', Option.some.injEq] at hgm
      exact ⟨st', ig, rfl, herr, hg, hgm,
        plan_joins_within_group (familyModel true) _ (familyModel_wellFormed true)
          (fun x => x) 10 st' hrun herr 1 ig hg 1 1 hgm⟩

/-- C9: in a returning call of `rampartRotate`, for every group `t1` of
`n >= 2` units of the map `todo` (units without kids, with one join, not
clumped, collected in increasing order of their indices, so that the first
member has the lowest index): the body of the second loop turns the state
`stB` reached after the groups before `t1` into `stA`, in which `numKids` of
the parent `p` (the `parent1` of the first member) has dropped by `n`; and in
the state returned by `rampartRotate` the first member has
`rampartScale = sqrt n`, is clumped and is a member of the clump of `p`, and
every other member has `rampartScale = 0` and `numJoins = 0`. -/
theorem rampartRotate_scales (m : Model α) (sqrt : α → α) (budget : Nat)
    (st st' : State α) (unlinked : Nat)
    (h : rampartRotate m sqrt budget st = .ok (st', unlinked)) :
    ∃ todo, rampartCollect m st budget (rampartLoopTo m st) 0 [] = .ok todo ∧
      ∀ pre k t1 post, todo = pre ++ (k, t1) :: post → 2 ≤ t1.length →
        ∃ first rest p stB uB stA spB spA,
          t1 = first :: rest ∧ (∀ u ∈ rest, first < u) ∧
          (∀ u ∈ t1, ∃ s, st.layoutSetup[u]? = some s ∧ s.numKids = 0 ∧ s.numJoins = 1 ∧
            s.clumped = false) ∧
          (∃ s0, st.layoutSetup[first]? = some s0 ∧ s0.parent1 = some p) ∧
          rampartGroups m sqrt budget pre (st, 0) = .ok (stB, uB) ∧
          rampartGroup m sqrt budget stB t1 = .ok stA ∧
          stB.layoutSetup[p]? = some spB ∧ stA.layoutSetup[p]? = some spA ∧
          spA.numKids = spB.numKids - (t1.length : Int) ∧
          (∃ a', st'.layout[first]? = some a' ∧ a'.rampartScale = sqrt (t1.length : α)) ∧
          (∃ s', st'.layoutSetup[first]? = some s' ∧ s'.clumped = true) ∧
          (∃ sp', st'.layoutSetup[p]? = some sp' ∧ first ∈ sp'.clump) ∧
          ∀ u ∈ rest, (∃ a', st'.layout[u]? = some a' ∧ a'.rampartScale = 0) ∧
            (∃ s', st'.layoutSetup[u]? = some s' ∧ s'.numJoins = 0) := by
  unfold rampartRotate at h
  cases h1 : rampartCollect m st budget (rampartLoopTo m st) 0 [] with
  | error err => rw [h1] at h; cases h
  | ok todo =>
    rw [h1] at h
    simp only at h
    refine ⟨todo, rfl, ?_⟩
    have hinv := rampartCollect_inv m st budget _ 0 [] todo h1 (todoInv_nil st)
    have hloop : rampartLoopTo m st ≤ st.layout.length := by
      unfold rampartLoopTo
      cases m.rampartUnitLimit with
      | none => exact Nat.le_refl _
      | some limit =>
        simp only
        omega
    cases h2 : rampartGroups m sqrt budget todo (st, 0) with
    | error err => rw [h2] at h; cases h
    | ok res =>
      obtain ⟨st1, u1⟩ := res
      rw [h2] at h
      simp only at h
      cases h3 : rampartSort m budget st1.layout.length 0 st1 with
      | error err => rw [h3] at h; cases h
      | ok st2 =>
        rw [h3] at h
        simp only [Except.ok.injEq, Prod.mk.injEq] at h
        obtain ⟨hst, -⟩ := h
        subst hst
        intro pre k t1 post htodo hlen
        subst htodo
        have hmem : (k, t1) ∈ pre ++ (k, t1) :: post := by simp
        -- the shape of the group
        obtain ⟨first, rest, ht1⟩ : ∃ first rest, t1 = first :: rest := by
          cases t1 with
          | nil => simp at hlen
          | cons x xs => exact ⟨x, xs, rfl⟩
        subst ht1
        have hsorted := hinv.sorted _ hmem
        simp only [List.pairwise_cons] at hsorted
        have hnot : first ∉ rest := fun hc => Nat.lt_irrefl _ (hsorted.1 first hc)
        -- the run up to the group, the group, the run after it
        obtain ⟨stB, uB, hpre, hrest⟩ := rampartGroups_append m sqrt budget pre _ st 0 st1 u1 h2
        rw [rampartGroups] at hrest
        cases hg : rampartGroup m sqrt budget stB (first :: rest) with
        | error err => rw [hg] at hrest; cases hrest
        | ok stA =>
          rw [hg] at hrest
          simp only at hrest
          have hne_pre : ∀ e ∈ pre, e.2 ≠ [] :=
            fun e he => hinv.nonempty e (List.mem_append_left _ he)
          have hne_post : ∀ e ∈ post, e.2 ≠ [] :=
            fun e he => hinv.nonempty e (List.mem_append_right _ (List.mem_cons_of_mem _ he))
          obtain ⟨mB, -⟩ := rampartGroups_mono m sqrt budget pre st 0 stB uB hne_pre hpre
          obtain ⟨mP, kP⟩ := rampartGroups_mono m sqrt budget post stA _ st1 u1 hne_post hrest
          obtain ⟨mS, kS⟩ := rampartSort_mono m budget _ _ _ _ h3
          have hfirst_lt : first < st.layout.length :=
            Nat.lt_of_lt_of_le (hinv.lt _ hmem first (List.mem_cons_self _ _)) (by simpa using hloop)
          have hfirstB : first < stB.layout.length := by rw [mB.length_rot]; exact hfirst_lt
          obtain ⟨p, s0B, spB, e1, e2, e3, ⟨a1, e4, e5⟩, ⟨s1, e6, e7⟩, ⟨sp1, e8, e9, e10⟩, e11⟩ :=
            rampartGroup_effect m sqrt budget stB stA first rest hlen hnot hfirstB hg
          -- members of the group are in no later group
          have hdisj : ∀ u ∈ first :: rest, u ∉ (post.map (fun e => e.2)).flatten := by
            intro u hu hc
            have hnd := hinv.nodup
            simp only [List.map_append, List.map_cons, List.flatten_append, List.flatten_cons]
              at hnd
            have hnd2 := (List.nodup_append.1 hnd).2.1
            exact (List.nodup_append.1 hnd2).2.2 hu hc
          have hkeep : ∀ (u : Nat) (a : Addr α), u ∈ first :: rest → stA.layout[u]? = some a →
              ∃ a', st2.layout[u]? = some a' ∧ a'.rampartScale = a.rampartScale := by
            intro u a hu ha
            obtain ⟨a2, ha2, hr2⟩ := kP u a (hdisj u hu) ha
            obtain ⟨a3, ha3, hr3⟩ := kS u a2 (by simp) ha2
            exact ⟨a3, ha3, hr3.trans hr2⟩
          have hmono : RotMono stA st2 := mP.trans_rot mS
          obtain ⟨s0, hs0, hel⟩ := hinv.eligible _ hmem first (List.mem_cons_self _ _)
          obtain ⟨s0', hs0', hp0, -⟩ := mB.setup first s0 hs0
          rw [e1] at hs0'
          cases hs0'
          refine ⟨first, rest, p, stB, uB, stA, spB, sp1, rfl, hsorted.1,
            hinv.eligible _ hmem, ⟨s0, hs0, by rw [← hp0]; exact e2⟩, hpre, hg, e3, e8, e10,
            ?_, ?_, ?_, ?_⟩
          · obtain ⟨a', ha', hr⟩ := hkeep first a1 (List.mem_cons_self _ _) e4
            exact ⟨a', ha', by rw [hr, e5]⟩
          · obtain ⟨s', hs', -, -, hc, -⟩ := hmono.setup first s1 e6
            exact ⟨s', hs', hc e7⟩
          · obtain ⟨s', hs', -, -, -, hcl, -⟩ := hmono.setup p sp1 e8
            exact ⟨s', hs', hcl first e9⟩
          · intro u hu
            have hu_lt : u < st.layout.length :=
              Nat.lt_of_lt_of_le (hinv.lt _ hmem u (List.mem_cons_of_mem _ hu)) (by simpa using hloop)
            obtain ⟨su, hsu, -⟩ := hinv.eligible _ hmem u (List.mem_cons_of_mem _ hu)
            obtain ⟨suB, hsuB, -⟩ := mB.setup u su hsu
            have huB : u < stB.layout.length := by rw [mB.length_rot]; exact hu_lt
            obtain ⟨f1, f2⟩ := e11 u hu
            obtain ⟨aA, haA, hrA⟩ := f1 _ (List.getElem?_eq_getElem huB)
            obtain ⟨sA, hsA, hjA⟩ := f2 suB hsuB
            obtain ⟨a', ha', hr⟩ := hkeep u aA (List.mem_cons_of_mem _ hu) haA
            obtain ⟨s', hs', -, -, -, -, hj⟩ := hmono.setup u sA hsA
            exact ⟨⟨a', ha', by rw [hr, hrA]⟩, ⟨s', hs', hj hjA⟩⟩

/-- Witness of C9 in the family and child scenario, with the identity in the
place of the square root (so that `3` stands for `sqrt 3`): the groups are the
children `1, 2, 3` of family 0 and `5, 6, 7` of family 1. -/
theorem rampartRotate_scales_witness :
    ∃ (st' : State ℚ) (unlinked : Nat),
      rampartRotate (familyModel true) (fun x => x) 10 familyFlat = .ok (st', unlinked) ∧
      st'.layout.map (fun a => a.rampartScale) = [1, 3, 0, 0, 1, 3, 0, 0] ∧
      ∃ todo, rampartCollect (familyModel true) familyFlat 10
          (rampartLoopTo (familyModel true) familyFlat) 0 [] = .ok todo ∧
        todo.map (fun e => e.2) = [[1, 2, 3], [5, 6, 7]] ∧
        ∀ pre k t1 post, todo = pre ++ (k, t1) :: post → 2 ≤ t1.length →
          ∃ first rest p stB uB stA spB spA,
            t1 = first :: rest ∧ (∀ u ∈ rest, first < u) ∧
            (∀ u ∈ t1, ∃ s, familyFlat.layoutSetup[u]? = some s ∧ s.numKids = 0 ∧
              s.numJoins = 1 ∧ s.clumped = false) ∧
            (∃ s0, familyFlat.layoutSetup[first]? = some s0 ∧ s0.parent1 = some p) ∧
            rampartGroups (familyModel true) (fun x => x) 10 pre (familyFlat, 0) =
              .ok (stB, uB) ∧
            rampartGroup (familyModel true) (fun x => x) 10 stB t1 = .ok stA ∧
            stB.layoutSetup[p]? = some spB ∧ stA.layoutSetup[p]? = some spA ∧
            spA.numKids = spB.numKids - (t1.length : Int) ∧
            (∃ a', st'.layout[first]? = some a' ∧
              a'.rampartScale = (fun x : ℚ => x) (t1.length : ℚ)) ∧
            (∃ s', st'.layoutSetup[first]? = some s' ∧ s'.clumped = true) ∧
            (∃ sp', st'.layoutSetup[p]? = some sp' ∧ first ∈ sp'.clump) ∧
            ∀ u ∈ rest, (∃ a', st'.layout[u]? = some a' ∧ a'.rampartScale = 0) ∧
              (∃ s', st'.layoutSetup[u]? = some s' ∧ s'.numJoins = 0) := by
  cases hrun : rampartRotate (familyModel true) (fun x => x) 10 familyFlat with
  | error err =>
    have hok : (match rampartRotate (familyModel true) (fun x => x) 10 familyFlat with
      | .ok _ => true
      | .error _ => false) = true := by decide
    rw [hrun] at hok
    cases hok
  | ok res =>
    obtain ⟨st', unlinked⟩ := res
    have hscales : st'.layout.map (fun a => a.rampartScale) = [1, 3, 0, 0, 1, 3, 0, 0] := by
      have : (match rampartRotate (familyModel true) (fun x => x) 10 familyFlat with
        | .ok (st, _) => st.layout.map (fun a => a.rampartScale)
        | .error _ => []) = [1, 3, 0, 0, 1, 3, 0, 0] := by decide
      rw [hrun] at this
      exact this
    obtain ⟨todo, htodo, hall⟩ :=
      rampartRotate_scales (familyModel true) (fun x => x) 10 familyFlat st' unlinked hrun
    have hgroups : todo.map (fun e => e.2) = [[1, 2, 3], [5, 6, 7]] := by
      have : (match rampartCollect (familyModel true) familyFlat 10
          (rampartLoopTo (familyModel true) familyFlat) 0 [] with
        | .ok t => t.map (fun e => e.2)
        | .error _ => []) = [[1, 2, 3], [5, 6, 7]] := by decide
      rw [htodo] at this
      exact this
    exact ⟨st', unlinked, rfl, hscales, todo, htodo, hgroups, hall⟩

/-- C13 (signal concentration): for a plan of one entry of `n ≥ 2` distinct
units and an observation index `ox` of the specimen, `applyRotationPlan`, in
exact real arithmetic, leaves the sum of the `n` original values divided by
`sqrt n` in the first unit, and in unit `i ≥ 1` the sum of the original values
of the units `i .. n-1` divided by `sqrt (k (k+1))` minus `sqrt (k/(k+1))`
times the original value of unit `i-1`, where `k = n - i`. -/
theorem applyRotationPlan_concentrates_signal (numObs : Nat → Nat) (units : List Nat)
    (acc : Accessor ℝ) (ox : Nat) (hnd : units.Nodup) (hn : 2 ≤ units.length)
    (hox : ox < numObs (units.getD 0 0)) :
    applyRotationPlan Real.sqrt numObs [units] acc (units.getD 0 0) ox =
        (units.map (fun u => acc u ox)).sum / Real.sqrt (units.length : ℝ) ∧
      ∀ i, 1 ≤ i → i < units.length →
        applyRotationPlan Real.sqrt numObs [units] acc (units.getD i 0) ox =
          ((units.drop i).map (fun u => acc u ox)).sum /
              Real.sqrt (((units.length - i : Nat) : ℝ) * (((units.length - i : Nat) : ℝ) + 1)) -
            Real.sqrt (((units.length - i : Nat) : ℝ) / (((units.length - i : Nat) : ℝ) + 1)) *
              acc (units.getD (i - 1) 0) ox := by
  have hn1 : 1 ≤ units.length := by omega
  obtain ⟨_, h0, hj⟩ := applyObs_spec Real.sqrt units ox acc hnd hn1
  refine ⟨?_, ?_⟩
  · rw [applyRotationPlan_single Real.sqrt numObs units acc hnd hn1 _ ox hox, h0]
  · intro i hi hil
    rw [applyRotationPlan_single Real.sqrt numObs units acc hnd hn1 _ ox hox, hj i hi hil]
    congr 1
    rw [one_div, Real.sqrt_inv, div_eq_mul_inv]

theorem applyRotationPlan_concentrates_signal_witness :
    applyRotationPlan Real.sqrt (fun _ => 1) [[0, 1, 2]] rampData (List.getD [0, 1, 2] 0 0) 0 =
        (List.map (fun u => rampData u 0) [0, 1, 2]).sum /
          Real.sqrt ((List.length [0, 1, 2] : Nat) : ℝ) ∧
      ∀ i, 1 ≤ i → i < List.length [0, 1, 2] →
        applyRotationPlan Real.sqrt (fun _ => 1) [[0, 1, 2]] rampData
            (List.getD [0, 1, 2] i 0) 0 =
          (List.map (fun u => rampData u 0) (List.drop i [0, 1, 2])).sum /
              Real.sqrt (((List.length [0, 1, 2] - i : Nat) : ℝ) *
                (((List.length [0, 1, 2] - i : Nat) : ℝ) + 1)) -
            Real.sqrt (((List.length [0, 1, 2] - i : Nat) : ℝ) /
                (((List.length [0, 1, 2] - i : Nat) : ℝ) + 1)) *
              rampData (List.getD [0, 1, 2] (i - 1) 0) 0 :=
  applyRotationPlan_concentrates_signal (fun _ => 1) [0, 1, 2] rampData 0
    (by decide) (by decide) (by decide)

/-- C12 (orthogonality): for a plan of one entry of `n ≥ 2` distinct units
and every observation index `ox` of the specimen, `applyRotationPlan`, in exact
real arithmetic, leaves in the `n` units values whose sum of squares is the sum
of squares of the `n` original values. -/
theorem applyRotationPlan_preserves_sum_of_squares (numObs : Nat → Nat) (units : List Nat)
    (acc : Accessor ℝ) (ox : Nat) (hnd : units.Nodup) (hn : 2 ≤ units.length)
    (hox : ox < numObs (units.getD 0 0)) :
    (units.map (fun u => (applyRotationPlan Real.sqrt numObs [units] acc u ox) ^ 2)).sum =
      (units.map (fun u => (acc u ox) ^ 2)).sum := by
  have hn1 : 1 ≤ units.length := by omega
  have h1 : units.map (fun u => (applyRotationPlan Real.sqrt numObs [units] acc u ox) ^ 2) =
      (helmert Real.sqrt (units.map (fun u => acc u ox))).map (fun x => x ^ 2) := by
    rw [← applyObs_map_eq_helmert Real.sqrt units ox acc hnd hn1, List.map_map]
    apply List.map_congr_left
    intro u _
    simp only [Function.comp]
    rw [applyRotationPlan_single Real.sqrt numObs units acc hnd hn1 u ox hox]
  rw [h1, helmert_sq_sum, List.map_map]
  rfl

theorem applyRotationPlan_preserves_sum_of_squares_witness :
    (List.map (fun u =>
        (applyRotationPlan Real.sqrt (fun _ => 1) [[0, 1, 2]] rampData u 0) ^ 2) [0, 1, 2]).sum =
      (List.map (fun u => (rampData u 0) ^ 2) [0, 1, 2]).sum :=
  applyRotationPlan_preserves_sum_of_squares (fun _ => 1) [0, 1, 2] rampData 0
    (by decide) (by decide) (by decide)

theorem map_const_of_forall (units : List Nat) (f : Nat → ℝ) (mu : ℝ)
    (h : ∀ u ∈ units, f u = mu) : units.map f = List.replicate units.length mu := by
  induction units with
  | nil => rfl
  | cons a l ih =>
    rw [List.map_cons, h a (List.mem_cons_self _ _), ih (fun u hu => h u (List.mem_cons_of_mem _ hu))]
    rfl

/-- The rotation of `n` equal values `mu`: `sqrt n * mu` in the first unit and
`0` in every other unit of the entry. -/
theorem applyObs_identical (units : List Nat) (acc : Accessor ℝ) (ox : Nat) (mu : ℝ)
    (hnd : units.Nodup) (hn : 1 ≤ units.length) (hsame : ∀ u ∈ units, acc u ox = mu) :
    applyObs Real.sqrt units acc ox (units.getD 0 0) ox = Real.sqrt (units.length : ℝ) * mu ∧
      ∀ i, 1 ≤ i → i < units.length → applyObs Real.sqrt units acc ox (units.getD i 0) ox = 0 := by
  have hmap := map_const_of_forall units (fun u => acc u ox) mu hsame
  have hh := applyObs_map_eq_helmert Real.sqrt units ox acc hnd hn
  rw [hmap] at hh
  obtain ⟨_, h0, _⟩ := applyObs_spec Real.sqrt units ox acc hnd hn
  refine ⟨?_, ?_⟩
  · rw [h0, hmap, List.sum_replicate, nsmul_eq_mul, mul_div_right_comm, Real.div_sqrt]
  · intro i hi hil
    have hget : (units.map (fun u => applyObs Real.sqrt units acc ox u ox))[i]? =
        some (applyObs Real.sqrt units acc ox (units.getD i 0) ox) := by
      rw [List.getElem?_map, List.getElem?_eq_getElem hil, List.getD_eq_getElem _ _ hil]
      rfl
    rw [hh] at hget
    cases hu : units with
    | nil => rw [hu] at hn; simp at hn
    | cons a l =>
      rw [hu] at hget
      obtain ⟨j, rfl⟩ : ∃ j, i = j + 1 := ⟨i - 1, by omega⟩
      have hrep : List.replicate (a :: l).length mu = mu :: List.replicate l.length mu := rfl
      have hhel : helmert Real.sqrt (List.replicate (a :: l).length mu) =
          ((List.replicate (a :: l).length mu).sum /
              Real.sqrt (((List.replicate (a :: l).length mu).length : Nat) : ℝ)) ::
            helmertTail Real.sqrt (List.replicate (a :: l).length mu) := by
        rw [hrep]
        rfl
      rw [hhel, List.getElem?_cons_succ] at hget
      have hmem := List.getElem?_mem hget
      exact helmertTail_replicate mu _ _ hmem

theorem unitObs_oertzenMark (sqrt : ℝ → ℝ) (t1 : List Nat) (st : State ℝ) (u : Nat) :
    unitObs (oertzenMark sqrt true false t1 st) u = unitObs st u := by
  simp only [unitObs, oertzenMark_optimized_layout]
  cases st.layout[u]? with
  | none => rfl
  | some a => rfl

theorem meanLoopUnits_oertzenMark (sqrt : ℝ → ℝ) (t1 : List Nat) (st : State ℝ) :
    ∀ fuel ax, meanLoopUnits (oertzenMark sqrt true false t1 st) fuel ax =
      meanLoopUnits st fuel ax
  | 0, _ => rfl
  | fuel + 1, ax => by
    simp only [meanLoopUnits, oertzenMark_optimized_layout]
    cases st.layout[ax]? with
    | none => rfl
    | some a =>
      simp only [Option.map_some']
      rw [meanLoopUnits_oertzenMark sqrt t1 st fuel]

theorem layout_length_oertzenMark (sqrt : ℝ → ℝ) (t1 : List Nat) (st : State ℝ) :
    (oertzenMark sqrt true false t1 st).layout.length = st.layout.length := by
  have h := (oertzenMark_frame sqrt true false t1 st).units
  have := congrArg List.length h
  simpa using this

theorem optimizeModelRotation_layout (m : Model ℝ) (st : State ℝ) :
    (optimizeModelRotation m st).layout = st.layout := by
  unfold optimizeModelRotation
  simp only
  split <;> rfl

theorem optimizeModelRotation_dropped (m : Model ℝ) (st : State ℝ) (units : List Nat)
    (hplan : st.rotationPlan = [units]) (hfilter : st.modelRotationPlanFilter = [false]) :
    (optimizeModelRotation m st).rotationPlan = [] := by
  unfold optimizeModelRotation
  simp only [hplan, hfilter]
  split <;> simp

theorem oertzenMark_plan (sqrt : ℝ → ℝ) (canOptimize mismatch : Bool) (t1 : List Nat)
    (st : State ℝ) :
    (oertzenMark sqrt canOptimize mismatch t1 st).rotationPlan = st.rotationPlan ++ [t1] ∧
      (oertzenMark sqrt canOptimize mismatch t1 st).modelRotationPlanFilter =
        st.modelRotationPlanFilter ++ [mismatch || !canOptimize] := by
  have hfold : ∀ (step : State ℝ → Nat → State ℝ),
      (∀ s u, (step s u).rotationPlan = s.rotationPlan ∧
        (step s u).modelRotationPlanFilter = s.modelRotationPlanFilter) →
      ∀ (l : List Nat) (s : State ℝ), (l.foldl step s).rotationPlan = s.rotationPlan ∧
        (l.foldl step s).modelRotationPlanFilter = s.modelRotationPlanFilter := by
    intro step hstep l
    induction l with
    | nil => intro s; exact ⟨rfl, rfl⟩
    | cons u rest ih =>
      intro s
      rw [List.foldl_cons]
      exact ⟨(ih _).1.trans (hstep s u).1, (ih _).2.trans (hstep s u).2⟩
  unfold oertzenMark
  simp only
  split
  · have := hfold (fun s u => s.modifySetup u (fun a => { a with heterogenousMean := true }))
      (fun s u => ⟨rfl, rfl⟩) t1 st
    exact ⟨by rw [this.1], by rw [this.2]⟩
  · split
    · have := hfold (fun s u =>
        (s.modifySetup u (fun a => { a with skipMean := some 1 })).modifyAddr u
          (fun a => { a with quickRotationFactor := 0 }))
        (fun s u => ⟨rfl, rfl⟩) (t1.drop 1)
        (st.modifyAddr (t1.getD 0 0) (fun a =>
          { a with quickRotationFactor := a.quickRotationFactor * sqrt (t1.length : ℝ) }))
      exact ⟨by rw [this.1]; rfl, by rw [this.2]; rfl⟩
    · exact ⟨rfl, rfl⟩

theorem meanLoopUnits_congr (st st' : State ℝ) (h : st'.layout = st.layout) :
    ∀ fuel ax, meanLoopUnits st' fuel ax = meanLoopUnits st fuel ax
  | 0, _ => rfl
  | fuel + 1, ax => by
    simp only [meanLoopUnits, h]
    cases st.layout[ax]? with
    | none => rfl
    | some a =>
      simp only
      rw [meanLoopUnits_congr st st' h fuel]

/-- C14 (collapse of identical units): when the `n ≥ 2` distinct units of a
rotation plan entry hold the same value `mu` at an observation index of the
specimen, `applyRotationPlan`, in exact real arithmetic, leaves `sqrt n * mu` in
the first unit and `0` in every other unit.  Hence the optimized mean path gives
the same expected values in the units of the entry: after the branch of
`oertzenRotate` that optimizes the entry (no mean mismatch, `optimizeMean ≥ 1`)
on a state without rotations in which the first unit has factor 1, and
`optimizeModelRotation`, the end of `computeMean` finds no rotation to apply
and multiplies the expected value `mu` of the first unit by `sqrt n`; the
expected value of another unit of the entry is multiplied by `0` when the loop
visits it, and is the `0` that `fullMean` was set to when the loop skips it. -/
theorem applyRotationPlan_collapses_identical_units (m : Model ℝ) (st0 : State ℝ)
    (units : List Nat) (ox : Nat) (mu : ℝ) (e eOpt : Accessor ℝ)
    (hnd : units.Nodup) (hn : 2 ≤ units.length) (hopt : 1 ≤ m.optimizeMean)
    (hplan : st0.rotationPlan = []) (hfilter : st0.modelRotationPlanFilter = [])
    (hfac : unitFactor st0 (units.getD 0 0) = 1)
    (hnext : ∀ a ∈ st0.layout, 1 ≤ a.nextMean)
    (hox : ox < unitObs st0 (units.getD 0 0))
    (hsame : ∀ u ∈ units, e u ox = mu)
    (hfirst : eOpt (units.getD 0 0) ox = mu)
    (hvis : units.getD 0 0 ∈ meanLoopUnits st0 st0.layout.length 0)
    (hrest : ∀ u ∈ units.drop 1,
      (u ∈ meanLoopUnits st0 st0.layout.length 0 ∧ ox < unitObs st0 u) ∨ eOpt u ox = 0) :
    applyRotationPlan Real.sqrt (unitObs st0) [units] e (units.getD 0 0) ox =
        Real.sqrt (units.length : ℝ) * mu ∧
      (∀ i, 1 ≤ i → i < units.length →
        applyRotationPlan Real.sqrt (unitObs st0) [units] e (units.getD i 0) ox = 0) ∧
      ∀ u ∈ units,
        rotateExpected m Real.sqrt
            (optimizeModelRotation m (oertzenMark Real.sqrt true false units st0)) eOpt u ox =
          applyRotationPlan Real.sqrt (unitObs st0) [units] e u ox := by
  have hn1 : 1 ≤ units.length := by omega
  obtain ⟨hA0, hAj⟩ := applyObs_identical units e ox mu hnd hn1 hsame
  have hR : ∀ u, applyRotationPlan Real.sqrt (unitObs st0) [units] e u ox =
      applyObs Real.sqrt units e ox u ox :=
    fun u => applyRotationPlan_single Real.sqrt (unitObs st0) units e hnd hn1 u ox hox
  refine ⟨by rw [hR, hA0], fun i hi hil => by rw [hR, hAj i hi hil], ?_⟩
  -- the optimized path
  generalize hM : oertzenMark Real.sqrt true false units st0 = stM
  have hMplan := oertzenMark_plan Real.sqrt true false units st0
  rw [hM, hplan, hfilter] at hMplan
  have hOplan : (optimizeModelRotation m stM).rotationPlan = [] :=
    optimizeModelRotation_dropped m stM units (by simpa using hMplan.1) (by simpa using hMplan.2)
  have hOlayout : (optimizeModelRotation m stM).layout = stM.layout :=
    optimizeModelRotation_layout m stM
  have hMlay : ∀ i : Nat, stM.layout[i]? = (st0.layout[i]?).map (fun a : Addr ℝ =>
        { a with quickRotationFactor :=
            if i ∈ units.drop 1 then 0
            else if units.getD 0 0 = i then a.quickRotationFactor * Real.sqrt (units.length : ℝ)
            else a.quickRotationFactor }) := by
    intro i
    rw [← hM]
    exact oertzenMark_optimized_layout Real.sqrt units st0 i
  have hlen : (optimizeModelRotation m stM).layout.length = st0.layout.length := by
    rw [hOlayout, ← hM]
    exact layout_length_oertzenMark Real.sqrt units st0
  have hobs : ∀ u, unitObs (optimizeModelRotation m stM) u = unitObs st0 u := by
    intro u
    simp only [unitObs, hOlayout, hMlay]
    cases st0.layout[u]? with
    | none => rfl
    | some a => rfl
  have hvisited : meanLoopUnits (optimizeModelRotation m stM) st0.layout.length 0 =
      meanLoopUnits st0 st0.layout.length 0 := by
    rw [meanLoopUnits_congr stM _ hOlayout, ← hM]
    exact meanLoopUnits_oertzenMark Real.sqrt units st0 _ _
  have hndv : (meanLoopUnits st0 st0.layout.length 0).Nodup :=
    meanLoopUnits_nodup st0 hnext _ _
  have hscaled : ∀ u, rotateExpected m Real.sqrt (optimizeModelRotation m stM) eOpt u ox =
      if u ∈ meanLoopUnits st0 st0.layout.length 0 ∧ ox < unitObs st0 u then
        eOpt u ox * unitFactor (optimizeModelRotation m stM) u
      else eOpt u ox := by
    intro u
    simp only [rotateExpected, hOplan, applyRotationPlan, List.foldl_nil, if_pos hopt, hlen,
      hvisited]
    rw [scaleUnit_foldl _ _ _ hndv, hobs]
  have hu0 : units.getD 0 0 ∉ units.drop 1 := by
    intro hmem
    cases hu : units with
    | nil => rw [hu] at hn; simp at hn
    | cons a l =>
      rw [hu] at hmem hnd
      simp at hmem
      exact (List.nodup_cons.1 hnd).1 hmem
  intro u hu
  rw [hscaled, hR]
  obtain ⟨i, hil, rfl⟩ : ∃ i, i < units.length ∧ u = units.getD i 0 := by
    obtain ⟨i, hi, hget⟩ := List.getElem_of_mem hu
    exact ⟨i, hi, by rw [List.getD_eq_getElem _ _ hi, hget]⟩
  rcases Nat.eq_zero_or_pos i with rfl | hpos
  · rw [if_pos ⟨hvis, hox⟩, hA0, hfirst]
    have hf : unitFactor (optimizeModelRotation m stM) (units.getD 0 0) =
        Real.sqrt (units.length : ℝ) := by
      simp only [unitFactor, hOlayout, hMlay] at hfac ⊢
      cases h0 : st0.layout[units.getD 0 0]? with
      | none =>
        simp only [unitObs, h0] at hox
        omega
      | some a =>
        rw [h0] at hfac
        simp only [Option.map_some', if_neg hu0, if_true] at hfac ⊢
        rw [hfac, one_mul]
    rw [hf, mul_comm]
  · rw [hAj i hpos hil]
    have hmem : units.getD i 0 ∈ units.drop 1 := by
      have h1 : (units.drop 1)[i - 1]? = some (units.getD i 0) := by
        rw [List.getElem?_drop, show 1 + (i - 1) = i by omega, List.getElem?_eq_getElem hil,
          List.getD_eq_getElem _ _ hil]
      exact List.getElem?_mem h1
    rcases hrest _ hmem with ⟨hv, ho⟩ | hz
    · rw [if_pos ⟨hv, ho⟩]
      have hf : unitFactor (optimizeModelRotation m stM) (units.getD i 0) = 0 := by
        simp only [unitFactor, hOlayout, hMlay]
        cases h0 : st0.layout[units.getD i 0]? with
        | none =>
          simp only [unitObs, h0] at ho
          omega
        | some a =>
          simp only [Option.map_some', if_pos hmem]
      rw [hf, mul_zero]
    · split
      · rw [hz, zero_mul]
      · exact hz

theorem applyRotationPlan_collapses_identical_units_witness :
    applyRotationPlan Real.sqrt (unitObs threeUnits) [[0, 1, 2]] constData
          (List.getD [0, 1, 2] 0 0) 0 =
        Real.sqrt ((List.length [0, 1, 2] : Nat) : ℝ) * 5 ∧
      (∀ i, 1 ≤ i → i < List.length [0, 1, 2] →
        applyRotationPlan Real.sqrt (unitObs threeUnits) [[0, 1, 2]] constData
          (List.getD [0, 1, 2] i 0) 0 = 0) ∧
      ∀ u ∈ [0, 1, 2],
        rotateExpected meanModel Real.sqrt
            (optimizeModelRotation meanModel
              (oertzenMark Real.sqrt true false [0, 1, 2] threeUnits)) constData u 0 =
          applyRotationPlan Real.sqrt (unitObs threeUnits) [[0, 1, 2]] constData u 0 :=
  have hloop : meanLoopUnits threeUnits threeUnits.layout.length 0 = [0, 1, 2] := rfl
  applyRotationPlan_collapses_identical_units meanModel threeUnits [0, 1, 2] 0 5
    constData constData (by decide) (by decide) (by simp [meanModel]) rfl rfl rfl
    (by intro a ha; simp [threeUnits] at ha; rcases ha with h | h | h <;> simp [h])
    (by simp [unitObs, threeUnits]) (fun _ _ => rfl) rfl (by rw [hloop]; decide)
    (by
      intro u hu
      left
      rw [hloop]
      simp at hu
      rcases hu with h | h <;> subst h <;> simp [unitObs, threeUnits])

/-- C16 (counterexample): in the scenario of two grandparents, four parents
joined two per grandparent and one child per parent, without a cycle limit and
without a unit limit, the four children (units 2, 4, 7, 9) are eligible before
the loop; the loop of `state::init` stops after the first call of
`rampartRotate` (nothing is recorded in `rampartUsage`), and the four parents
(units 1, 3, 6, 8) are then eligible: each has `numKids = 0`, `numJoins = 1` and
`clumped = false`. -/
theorem rampart_stops_with_eligible_parents :
    grandModel.rampartCycleLimit = none ∧ grandModel.rampartUnitLimit = none ∧
      eligibleUnits grandModel grandFlat = [2, 4, 7, 9] ∧
      (rampart grandModel (fun x => x) 10 10 grandFlat).toOption.map
          (fun st => (eligibleUnits grandModel st, st.rampartUsage)) =
        some ([1, 3, 6, 8], []) := by
  refine ⟨rfl, rfl, ?_, ?_⟩ <;> decide

/-- C16 (amended): whenever the loop of `state::init` that calls
`rampartRotate` returns without having been stopped by the cycle limit (no
limit, or fewer than `L` entries added to `rampartUsage`), its last call of
`rampartRotate`, on a state `stL`, returned 0: every group of the map `todo` of
that call has exactly one unit, and every unit that was eligible when that call
started (within the unit limit, `numKids = 0`, `numJoins = 1`, `clumped =
false`) is clumped in the state the loop returns. -/
theorem rampartLoop_stops_after_idle_round (m : Model α) (sqrt : α → α) (budget fuel : Nat)
    (maxIter : Option Int) (st st' : State α)
    (h : rampartLoop m sqrt budget fuel maxIter st = .ok st')
    (hlimit : ∀ L : Int, maxIter = some L → 1 ≤ L →
      (st'.rampartUsage.length : Int) < st.rampartUsage.length + L) :
    ∃ stL todo, rampartRotate m sqrt budget stL = .ok (st', 0) ∧
      rampartCollect m stL budget (rampartLoopTo m stL) 0 [] = .ok todo ∧
      (∀ e ∈ todo, e.2.length = 1) ∧
      ∀ u ∈ eligibleUnits m stL, ∃ s', st'.layoutSetup[u]? = some s' ∧ s'.clumped = true := by
  rcases rampartLoop_last m sqrt budget fuel maxIter st st' h with ⟨stL, hL⟩ | ⟨L, hL, hL1, hlen⟩
  · obtain ⟨todo, htodo, hcount, hne, hde, hcov⟩ :=
      rampartRotate_deactivates m sqrt budget stL st' 0 hL
    have hone : ∀ e ∈ todo, e.2.length = 1 := by
      intro e he
      have hsum : (todo.map (fun e => e.2.length - 1)).sum = 0 := hcount.symm
      have hz := List.sum_eq_zero_iff.1 hsum (e.2.length - 1) (List.mem_map_of_mem _ he)
      have hpos : 0 < e.2.length := List.length_pos.2 (hne e he)
      omega
    refine ⟨stL, todo, hL, htodo, hone, ?_⟩
    intro u hu
    obtain ⟨hlt, s, hs, hk, hj, hc⟩ := (mem_eligibleUnits m stL u).1 hu
    have hmem := hcov u s hlt hs hk hj hc
    simp only [List.mem_flatten, List.mem_map] at hmem
    obtain ⟨l, ⟨e, he, rfl⟩, hul⟩ := hmem
    obtain ⟨-, s', hs', hd⟩ := hde e he u hul
    refine ⟨s', hs', ?_⟩
    rcases hd with hd | ⟨h2, -⟩
    · exact hd
    · have := hone e he
      omega
  · exact absurd hlen (ne_of_lt (hlimit L hL hL1))

theorem rampartLoop_stops_after_idle_round_witness :
    ∃ st' : State ℚ, rampartLoop grandModel (fun x => x) 10 10 none grandFlat = .ok st' ∧
      ∃ stL todo, rampartRotate grandModel (fun x => x) 10 stL = .ok (st', 0) ∧
        rampartCollect grandModel stL 10 (rampartLoopTo grandModel stL) 0 [] = .ok todo ∧
        (∀ e ∈ todo, e.2.length = 1) ∧
        ∀ u ∈ eligibleUnits grandModel stL,
          ∃ s', st'.layoutSetup[u]? = some s' ∧ s'.clumped = true := by
  cases hrun : rampartLoop grandModel (fun x => x) 10 10 none grandFlat with
  | error err =>
    have hok : (match rampartLoop grandModel (fun x => x) 10 10 none grandFlat with
      | .ok _ => true
      | .error _ => false) = true := by decide
    rw [hrun] at hok
    cases hok
  | ok st' =>
    exact ⟨st', rfl, rampartLoop_stops_after_idle_round grandModel (fun x => x) 10 10 none
      grandFlat st' hrun (fun L hL => by cases hL)⟩

/-- C17 (bounded rounds): with a cycle limit `L ≥ 1` the loop of `state::init`
returns after at most `L` calls of `rampartRotate`, with at most `L` entries
added to `rampartUsage`; without a limit it returns after at most `N + 1`
calls, where `N` is the number of units that are not clumped and have
`numJoins = 1`, because every call that returns a nonzero count makes this
number strictly smaller.  In both cases `rampartLoop` returns the same result
for every bound on the number of rounds that is at least as large. -/
theorem rampart_rounds_bounded (m : Model α) (sqrt : α → α) (budget : Nat) (st : State α) :
    (∀ L : Nat, 1 ≤ L →
      ∃ n r, rampartRounds m sqrt budget L (some (L : Int)) st = some (n, r) ∧ n ≤ L ∧
        (∀ fuel, L ≤ fuel → rampartLoop m sqrt budget fuel (some (L : Int)) st = r) ∧
        ∀ st', r = .ok st' → st'.rampartUsage.length ≤ st.rampartUsage.length + L) ∧
    (∃ n r, rampartRounds m sqrt budget (activeUnits st + 1) none st = some (n, r) ∧
        n ≤ activeUnits st + 1 ∧
        ∀ fuel, activeUnits st + 1 ≤ fuel → rampartLoop m sqrt budget fuel none st = r) ∧
    (∀ st1 more, rampartRotate m sqrt budget st = .ok (st1, more) → more ≠ 0 →
        activeUnits st1 < activeUnits st) := by
  refine ⟨?_, ?_, ?_⟩
  · intro L hL
    obtain ⟨n, r, hr, hn, hu⟩ := rampartRounds_limit m sqrt budget L hL st
    refine ⟨n, r, hr, hn, ?_, hu⟩
    intro fuel hle
    exact rampartRounds_loop m sqrt budget fuel _ st n r
      (rampartRounds_mono m sqrt budget L _ st _ hr fuel hle)
  · obtain ⟨n, r, hr, hn⟩ := rampartRounds_nolimit m sqrt budget (activeUnits st) st (le_refl _)
    refine ⟨n, r, hr, hn, ?_⟩
    intro fuel hle
    exact rampartRounds_loop m sqrt budget fuel _ st n r
      (rampartRounds_mono m sqrt budget _ _ st _ hr fuel hle)
  · intro st1 more h hm
    exact (rampartRotate_decreases m sqrt budget st st1 more h).2 hm

theorem rampart_rounds_bounded_witness :
    (∃ n r, rampartRounds (familyModel true) (fun x => x) 10 1 (some ((1 : Nat) : Int))
          familyFlat = some (n, r) ∧ n ≤ 1 ∧
        (∀ fuel, 1 ≤ fuel →
          rampartLoop (familyModel true) (fun x => x) 10 fuel (some ((1 : Nat) : Int))
            familyFlat = r) ∧
        ∀ st', r = .ok st' → st'.rampartUsage.length ≤ familyFlat.rampartUsage.length + 1) ∧
      ∃ st1 more, rampartRotate (familyModel true) (fun x => x) 10 familyFlat = .ok (st1, more) ∧
        more ≠ 0 ∧ activeUnits st1 < activeUnits familyFlat := by
  refine ⟨(rampart_rounds_bounded (familyModel true) (fun x => x) 10 familyFlat).1 1 (by decide),
    ?_⟩
  cases hrun : rampartRotate (familyModel true) (fun x => x) 10 familyFlat with
  | error err =>
    have hok : (match rampartRotate (familyModel true) (fun x => x) 10 familyFlat with
      | .ok _ => true
      | .error _ => false) = true := by decide
    rw [hrun] at hok
    cases hok
  | ok res =>
    obtain ⟨st1, more⟩ := res
    have hmore : more ≠ 0 := by
      have : (match rampartRotate (familyModel true) (fun x => x) 10 familyFlat with
        | .ok (_, more) => decide (more ≠ 0)
        | .error _ => false) = true := by decide
      rw [hrun] at this
      simpa using this
    exact ⟨st1, more, rfl, hmore,
      (rampart_rounds_bounded (familyModel true) (fun x => x) 10 familyFlat).2.2 st1 more hrun
        hmore⟩

/-- C15 (evaluation): home row 0 without a join becomes unit 0; the parent row
reached through the join of home row 1 has a data column and no mean matrix, so
the call on it reports the missing means and returns 0 with the layout
unchanged (1 unit); the call on home row 1 that reached it then raises
`numKids` of unit 0 from 0 to 1 and appends home row 1 as unit 1 with parent 0,
and this is the state in which `state::init` stops flattening. -/
theorem missing_means_parent_then_unit_appended :
    flattenSummary (flattenOneRow missingMeansModel 5 0 0 (State.empty, 0)) =
        some { index := 0, errorRaised := false, units := 1, numKids := [0], parent1 := [none] } ∧
      flattenSummary (flattenOneRow missingMeansModel 4 1 0
          ((beginRow missingMeansModel
              (flattenState (flattenOneRow missingMeansModel 5 0 0 (State.empty, 0))).1 0 1),
            (flattenState (flattenOneRow missingMeansModel 5 0 0 (State.empty, 0))).2)) =
        some { index := 0, errorRaised := true, units := 1, numKids := [0], parent1 := [none] } ∧
      flattenSummary (flattenOneRow missingMeansModel 5 0 1
          (flattenState (flattenOneRow missingMeansModel 5 0 0 (State.empty, 0)))) =
        some { index := 1, errorRaised := true, units := 2, numKids := [1, 0],
               parent1 := [none, some 0] } ∧
      flattenSummary ((flatten missingMeansModel 5).map (fun sm => (0, sm.1, sm.2))) =
        some { index := 0, errorRaised := true, units := 2, numKids := [1, 0],
               parent1 := [none, some 0] } := by
  refine ⟨?_, ?_, ?_, ?_⟩ <;> decide

/-- C20 (nonzero diagonal is fatal): for placement `px` of a group, with unit
`a1` and placement `pl`, `refreshUnitA` throws the error "nonzero diagonal
entry in A matrix" if and only if some diagonal entry `A(i, i)` of the path
matrix of the unit is not zero; when every diagonal entry is zero, the first
loop returns a matrix `fullA1` that holds `sign * A(r, c)` at
`(modelStart + c, modelStart + r)` for every nonzero entry `A(r, c)` and is
`fullA` everywhere else, and `refreshUnitA` goes on with the between loop on
`fullA1` (it returns `fullA1` when `rampartScale` is 0). -/
theorem refreshUnitA_nonzero_diagonal (m : Model α) (mats : PathMatrices α) (sign : α)
    (st : State α) (ig : IndependentGroup α) (px : Nat) (fullA : SparseMatrix α)
    (pl : Placement) (u : Nat) (a1 : Addr α) (hpl : ig.placements[px]? = some pl)
    (hg : ig.gMap[px]? = some u) (ha : st.layout[u]? = some a1) :
    ((∃ pos, refreshUnitA m mats sign st ig px fullA = .error (Error.nonzeroDiagonal pos)) ↔
        ∃ i, i < m.numVars a1.model ∧ mats.matA a1.model a1.row i i ≠ 0) ∧
      ((∀ i, i < m.numVars a1.model → mats.matA a1.model a1.row i i = 0) →
        ∃ fullA1,
          pathsLoop sign pl.modelStart (mats.matA a1.model a1.row) (m.numVars a1.model)
            (m.numVars a1.model) 0 fullA = .ok fullA1 ∧
          (∀ r c, r < m.numVars a1.model → c < m.numVars a1.model →
            mats.matA a1.model a1.row r c ≠ 0 →
            fullA1 (pl.modelStart + c) (pl.modelStart + r) =
              sign * mats.matA a1.model a1.row r c) ∧
          (∀ i j, (∀ r c, r < m.numVars a1.model → c < m.numVars a1.model →
              mats.matA a1.model a1.row r c ≠ 0 →
              ¬ (i = pl.modelStart + c ∧ j = pl.modelStart + r)) →
            fullA1 i j = fullA i j) ∧
          refreshUnitA m mats sign st ig px fullA =
            if a1.rampartScale = 0 then .ok fullA1
            else betweenLoop m mats sign ig a1 pl 0 (m.between a1.model) fullA1) := by
  have hunfold : refreshUnitA m mats sign st ig px fullA =
      match pathsLoop sign pl.modelStart (mats.matA a1.model a1.row) (m.numVars a1.model)
          (m.numVars a1.model) 0 fullA with
      | .error err => .error err
      | .ok fullA1 =>
        if a1.rampartScale = 0 then .ok fullA1
        else betweenLoop m mats sign ig a1 pl 0 (m.between a1.model) fullA1 := by
    unfold refreshUnitA
    rw [hpl, hg]
    simp only [(getAddr_ok _ _ _).2 ha]
  have hok : (∀ i, i < m.numVars a1.model → mats.matA a1.model a1.row i i = 0) →
      pathsLoop sign pl.modelStart (mats.matA a1.model a1.row) (m.numVars a1.model)
          (m.numVars a1.model) 0 fullA =
        .ok (pathsWritten sign pl.modelStart (mats.matA a1.model a1.row) (m.numVars a1.model)
          0 (0 + m.numVars a1.model) fullA) :=
    fun hz => pathsLoop_ok sign pl.modelStart _ _ _ 0 fullA (fun c _ _ h3 => hz c h3)
  constructor
  · constructor
    · rintro ⟨pos, hpos⟩
      by_contra hno
      have hz : ∀ i, i < m.numVars a1.model → mats.matA a1.model a1.row i i = 0 := by
        intro i hi
        by_contra hne
        exact hno ⟨i, hi, hne⟩
      rw [hunfold, hok hz] at hpos
      simp only at hpos
      split at hpos
      · cases hpos
      · exact betweenLoop_error m mats sign ig a1 pl _ _ _ pos hpos
    · rintro ⟨i, hi, hne⟩
      obtain ⟨c, -, -, -, -, -, herr⟩ := pathsLoop_error sign pl.modelStart
        (mats.matA a1.model a1.row) (m.numVars a1.model) (m.numVars a1.model) 0 fullA
        ⟨i, Nat.zero_le _, by omega, hi, hne⟩
      exact ⟨1 + pl.modelStart + c, by rw [hunfold, herr]⟩
  · intro hz
    refine ⟨_, hok hz, ?_, ?_, by rw [hunfold, hok hz]⟩
    · intro r c hr hc hne
      have hcond : pl.modelStart + 0 ≤ pl.modelStart + c ∧
          pl.modelStart + c < pl.modelStart + (0 + m.numVars a1.model) ∧
          pl.modelStart ≤ pl.modelStart + r ∧
          pl.modelStart + r < pl.modelStart + m.numVars a1.model ∧
          mats.matA a1.model a1.row (pl.modelStart + r - pl.modelStart)
            (pl.modelStart + c - pl.modelStart) ≠ 0 := by
        refine ⟨by omega, by omega, by omega, by omega, ?_⟩
        rw [Nat.add_sub_cancel_left, Nat.add_sub_cancel_left]
        exact hne
      unfold pathsWritten
      rw [if_pos hcond, Nat.add_sub_cancel_left, Nat.add_sub_cancel_left]
    · intro i j hnot
      have hcond : ¬ (pl.modelStart + 0 ≤ i ∧ i < pl.modelStart + (0 + m.numVars a1.model) ∧
          pl.modelStart ≤ j ∧ j < pl.modelStart + m.numVars a1.model ∧
          mats.matA a1.model a1.row (j - pl.modelStart) (i - pl.modelStart) ≠ 0) := by
        rintro ⟨h1, h2, h3, h4, h5⟩
        exact hnot (j - pl.modelStart) (i - pl.modelStart) (by omega) (by omega) h5
          ⟨by omega, by omega⟩
      unfold pathsWritten
      rw [if_neg hcond]

theorem refreshUnitA_nonzero_diagonal_witness :
    ((∃ pos, refreshUnitA pathModel pathMatrices (-1) pathState pathGroup 0 (fun _ _ => 0) =
          .error (Error.nonzeroDiagonal pos)) ↔
        ∃ i, i < pathModel.numVars 0 ∧ pathMatrices.matA 0 0 i i ≠ 0) ∧
      ((∀ i, i < pathModel.numVars 0 → pathMatrices.matA 0 0 i i = 0) →
        ∃ fullA1,
          pathsLoop (-1) 0 (pathMatrices.matA 0 0) (pathModel.numVars 0)
            (pathModel.numVars 0) 0 (fun _ _ => 0) = .ok fullA1 ∧
          (∀ r c, r < pathModel.numVars 0 → c < pathModel.numVars 0 →
            pathMatrices.matA 0 0 r c ≠ 0 →
            fullA1 (0 + c) (0 + r) = -1 * pathMatrices.matA 0 0 r c) ∧
          (∀ i j, (∀ r c, r < pathModel.numVars 0 → c < pathModel.numVars 0 →
              pathMatrices.matA 0 0 r c ≠ 0 → ¬ (i = 0 + c ∧ j = 0 + r)) →
            fullA1 i j = (fun _ _ => (0 : ℚ)) i j) ∧
          refreshUnitA pathModel pathMatrices (-1) pathState pathGroup 0 (fun _ _ => 0) =
            if (1 : ℚ) = 0 then .ok fullA1
            else betweenLoop pathModel pathMatrices (-1) pathGroup
              { model := 0, row := 0, numObsCache := 1, rampartScale := 1,
                quickRotationFactor := 1, ig := some 0, igIndex := 0, nextMean := 1 }
              { modelStart := 0, obsStart := 0 } 0 (pathModel.between 0) fullA1) :=
  refreshUnitA_nonzero_diagonal pathModel pathMatrices (-1) pathState pathGroup 0
    (fun _ _ => 0) { modelStart := 0, obsStart := 0 } 0
    { model := 0, row := 0, numObsCache := 1, rampartScale := 1,
      quickRotationFactor := 1, ig := some 0, igIndex := 0, nextMean := 1 } rfl rfl rfl

/-- C23 (plan caching): when a plan exists `flatten` changes nothing, so a
second call of `flatten` leaves what the first left; `invalidateCache` leaves
no plan, and the next `flatten` then holds the plan that `state::init` builds.
-/
theorem flatten_cached_plan (sqrt : α → α) (budget : Nat) (m : Model α)
    (rram : Option (Except Error (State α))) (plan : Except Error (State α)) :
    (omxRAMExpectation.flatten sqrt budget { model := m, rram := some plan } =
        { model := m, rram := some plan }) ∧
      (omxRAMExpectation.flatten sqrt budget
          (omxRAMExpectation.flatten sqrt budget { model := m, rram := rram }) =
        omxRAMExpectation.flatten sqrt budget { model := m, rram := rram }) ∧
      ((omxRAMExpectation.invalidateCache { model := m, rram := rram }).rram = none) ∧
      (omxRAMExpectation.flatten sqrt budget
          (omxRAMExpectation.invalidateCache { model := m, rram := rram }) =
        { model := m, rram := some (planInit m sqrt budget) }) := by
  refine ⟨rfl, ?_, ?_, ?_⟩
  · cases rram with
    | none => rfl
    | some p => rfl
  · cases rram with
    | none => rfl
    | some p => rfl
  · cases rram with
    | none => rfl
    | some p => rfl

/-- C30 (weight-matrix check): once the checks of the data type, the means and
the thresholds are passed, `omxInitWLSFitFunction` raises the error of the
incorrectly sized weight matrix exactly when the weight matrix is present, is
not square and has a number of columns other than `vectorSize`; a square
weight matrix is accepted whatever its dimension.  For an observed covariance
of 2 columns without means and thresholds `vectorSize` is 3, and the weight
matrix of 2 rows and 2 columns is accepted. -/
theorem wls_square_weights_not_checked :
    (∀ (means : Bool) (thr : Option (List Nat)) (numFactor ncol rows cols : Nat),
      omxInitWLSFitFunction
          { dataTypeOk := true, expectedMeans := means, observedMeans := means,
            expectedThresholds := thr.isSome, observedThresholds := thr,
            numFactor := numFactor, observedCovCols := ncol,
            weights := some (rows, cols) } = .incorrectlySizedWeights ↔
        (rows ≠ cols ∧
          cols ≠ wlsVectorSize
            { dataTypeOk := true, expectedMeans := means, observedMeans := means,
              expectedThresholds := thr.isSome, observedThresholds := thr,
              numFactor := numFactor, observedCovCols := ncol,
              weights := some (rows, cols) })) ∧
      wlsVectorSize squareWeights = 3 ∧
      omxInitWLSFitFunction squareWeights = .ready 3 := by
  refine ⟨?_, by decide, by decide⟩
  intro means thr numFactor ncol rows cols
  unfold omxInitWLSFitFunction
  simp only [Bool.not_true, Bool.false_eq_true, if_false, bne_self_eq_false]
  constructor
  · intro h
    split at h
    · rename_i hc
      exact hc
    · cases h
  · intro hc
    rw [if_pos hc]

/-- C27 (evaluation): in the scenario of two home rows whose first join key is
missing and whose second is present, flattening leaves both home rows (units 1
and 2) with `numKids = 0`, `numJoins = 1`, `parent1 = NA` and `fk1 = NA`; both
are eligible, the first loop of `rampartRotate` puts them into one group, and
the second loop then indexes `layoutSetup` with the `parent1` of unit 1, which
is no unit index. -/
theorem rampart_group_without_parent1 :
    twoJoinFlat.layoutSetup.map (fun s => (s.numKids, s.numJoins, s.parent1, s.fk1)) =
        [(2, 0, none, none), (0, 1, none, none), (0, 1, none, none)] ∧
      eligibleUnits twoJoinModel twoJoinFlat = [1, 2] ∧
      (rampartCollect twoJoinModel twoJoinFlat 10
          (rampartLoopTo twoJoinModel twoJoinFlat) 0 []).toOption = some [(1, [1, 2])] ∧
      (match rampartRotate twoJoinModel (fun x => x) 10 twoJoinFlat with
        | .ok _ => none
        | .error err => some err) =
        some (Error.indexOutOfRange twoJoinFlat.layoutSetup.length) := by
  refine ⟨?_, ?_, ?_, ?_⟩ <;> decide

/-- C26 (residual matrix refresh): the group of `pathGroup` is evaluated twice
from empty matrices, first with the residual entry `S(0, 0) = 2` and then with
`S(0, 0) = 0`: after the first call of `computeCov1` the cell `fullS(0, 0)` is
2, and after the second call it is still 2 and not the current value 0. -/
theorem computeCov1_keeps_stale_residual :
    (computeCov1 pathModel pathMatrices (-1) pathState pathGroup
        (fun _ _ => 0, fun _ _ => 0)).toOption.map (fun mat => mat.2 0 0) = some 2 ∧
      clearedMatrices.matS 0 0 0 0 = 0 ∧
      ((computeCov1 pathModel pathMatrices (-1) pathState pathGroup
          (fun _ _ => 0, fun _ _ => 0)).bind
        (computeCov1 pathModel clearedMatrices (-1) pathState pathGroup)).toOption.map
          (fun mat => mat.2 0 0) = some 2 := by
  refine ⟨?_, ?_, ?_⟩ <;> decide

theorem matVec_congr (mat : Nat → Nat → α) (cols : Nat) (v w : Nat → α)
    (h : ∀ c, c < cols → v c = w c) (r : Nat) : matVec mat cols v r = matVec mat cols w r := by
  unfold matVec
  congr 1
  apply List.map_congr_left
  intro c hc
  rw [h c (List.mem_range.1 hc)]

theorem setSegment_in (fm : Nat → Nat → α) (g s n : Nat) (w : Nat → α) (k : Nat) (hk : k < n) :
    setSegment fm g s n w g (s + k) = w k := by
  unfold setSegment
  rw [if_pos ⟨rfl, by omega, by omega⟩, Nat.add_sub_cancel_left]

theorem setSegment_out (fm : Nat → Nat → α) (g s n : Nat) (w : Nat → α) (g2 i : Nat)
    (h : ¬ (g2 = g ∧ s ≤ i ∧ i < s + n)) : setSegment fm g s n w g2 i = fm g2 i := by
  unfold setSegment
  rw [if_neg h]

/-- The between loop of `computeMean` adds to the segment of the unit the
products of the between matrices and the segments of the joined units, and
leaves every other cell, as long as no joined segment meets the segment of the
unit. -/
theorem meanJoins_spec (m : Model α) (mats : PathMatrices α) (st : State α) (ax : Nat)
    (a1 : Addr α) (g1 s : Nat) (fm0 : Nat → Nat → α) :
    ∀ (bs : List Between) (jx : Nat) (fm1 fmR : Nat → Nat → α),
      meanJoins m mats st ax a1 g1 s jx bs fm1 = .ok fmR →
      (∀ g i, ¬ (g = g1 ∧ s ≤ i ∧ i < s + m.numVars a1.model) → fm1 g i = fm0 g i) →
      (∀ b ∈ bs, ∀ key frow a2 g2 ig2 p2,
        m.keyElement (m.data a1.model) a1.row b.joinKey = some key →
        m.lookupRowOfKey (m.data b.joinModel) key = some frow →
        st.layout[((st.rowToLayoutMap (m.data b.joinModel, frow)).getD 0).toNat]? = some a2 →
        a2.ig = some g2 → st.group[g2]? = some ig2 → ig2.placements[a2.igIndex]? = some p2 →
        g2 ≠ g1 ∨ p2.modelStart + m.numVars b.joinModel ≤ s ∨
          s + m.numVars a1.model ≤ p2.modelStart) →
      (∀ k, k < m.numVars a1.model →
        fmR g1 (s + k) = fm1 g1 (s + k) + parentMeanSum m mats st a1 fm0 k jx bs) ∧
      (∀ g i, ¬ (g = g1 ∧ s ≤ i ∧ i < s + m.numVars a1.model) → fmR g i = fm0 g i) := by
  intro bs
  induction bs with
  | nil =>
    intro jx fm1 fmR h hout _
    rw [meanJoins] at h
    cases h
    exact ⟨fun k _ => by rw [parentMeanSum, add_zero], hout⟩
  | cons b rest ih =>
    intro jx fm1 fmR h hout hdisj
    have hdisj2 : ∀ b2 ∈ rest, ∀ key frow a2 g2 ig2 p2,
        m.keyElement (m.data a1.model) a1.row b2.joinKey = some key →
        m.lookupRowOfKey (m.data b2.joinModel) key = some frow →
        st.layout[((st.rowToLayoutMap (m.data b2.joinModel, frow)).getD 0).toNat]? = some a2 →
        a2.ig = some g2 → st.group[g2]? = some ig2 → ig2.placements[a2.igIndex]? = some p2 →
        g2 ≠ g1 ∨ p2.modelStart + m.numVars b2.joinModel ≤ s ∨
          s + m.numVars a1.model ≤ p2.modelStart :=
      fun b2 hb2 => hdisj b2 (List.mem_cons_of_mem _ hb2)
    rw [meanJoins] at h
    cases h1 : m.keyElement (m.data a1.model) a1.row b.joinKey with
    | none =>
      rw [h1] at h
      simp only at h
      obtain ⟨r1, r2⟩ := ih _ _ _ h hout hdisj2
      refine ⟨fun k hk => ?_, r2⟩
      rw [parentMeanSum, h1]
      simp only
      rw [r1 k hk, zero_add]
    | some key =>
      rw [h1] at h
      simp only at h
      cases h2 : m.lookupRowOfKey (m.data b.joinModel) key with
      | none => rw [h2] at h; cases h
      | some frow =>
        rw [h2] at h
        simp only at h
        split at h
        · cases h
        · split at h
          · cases h
          · cases h3 : st.layout[((st.rowToLayoutMap (m.data b.joinModel, frow)).getD 0).toNat]? with
            | none => rw [h3] at h; cases h
            | some a2 =>
              rw [h3] at h
              simp only at h
              cases h4 : a2.ig with
              | none => rw [h4] at h; cases h
              | some g2 =>
                rw [h4] at h
                simp only at h
                cases h5 : st.group[g2]? with
                | none => rw [h5] at h; cases h
                | some ig2 =>
                  rw [h5] at h
                  simp only at h
                  cases h6 : ig2.placements[a2.igIndex]? with
                  | none => rw [h6] at h; cases h
                  | some p2 =>
                    rw [h6] at h
                    simp only at h
                    have hd := hdisj b (List.mem_cons_self _ _) key frow a2 g2 ig2 p2 h1 h2 h3
                      h4 h5 h6
                    have hpar : ∀ c, c < m.numVars b.joinModel →
                        fm1 g2 (p2.modelStart + c) = fm0 g2 (p2.modelStart + c) := by
                      intro c hc
                      apply hout
                      rintro ⟨e1, e2, e3⟩
                      rcases hd with hd | hd | hd
                      · exact hd e1
                      · omega
                      · omega
                    obtain ⟨r1, r2⟩ := ih _ _ _ h (by
                      intro g i hgi
                      rw [setSegment_out _ _ _ _ _ _ _ hgi]
                      exact hout g i hgi) hdisj2
                    refine ⟨fun k hk => ?_, r2⟩
                    rw [parentMeanSum, h1]
                    simp only [h2, h3, h4, h5, h6]
                    rw [r1 k hk, setSegment_in _ _ _ _ _ _ hk, add_assoc,
                      matVec_congr _ _ _ _ hpar]

/-- The between loop of `computeMean` does not throw "Not in topological order"
for a unit whose joined rows have units of smaller index. -/
theorem meanJoins_order (m : Model α) (mats : PathMatrices α) (st : State α) (ax : Nat)
    (a1 : Addr α) (g1 s : Nat) :
    ∀ (bs : List Between) (jx : Nat) (fm : Nat → Nat → α),
      (∀ b ∈ bs, ∀ key, m.keyElement (m.data a1.model) a1.row b.joinKey = some key →
        ∃ (frow j : Nat), m.lookupRowOfKey (m.data b.joinModel) key = some frow ∧
          st.rowToLayoutMap (m.data b.joinModel, frow) = some (j : Int) ∧ j < ax) →
      meanJoins m mats st ax a1 g1 s jx bs fm ≠ .error Error.notInTopologicalOrder := by
  intro bs
  induction bs with
  | nil => intro jx fm _ h; rw [meanJoins] at h; cases h
  | cons b rest ih =>
    intro jx fm hall h
    have hall2 : ∀ b2 ∈ rest, ∀ key,
        m.keyElement (m.data a1.model) a1.row b2.joinKey = some key →
        ∃ (frow j : Nat), m.lookupRowOfKey (m.data b2.joinModel) key = some frow ∧
          st.rowToLayoutMap (m.data b2.joinModel, frow) = some (j : Int) ∧ j < ax :=
      fun b2 hb2 => hall b2 (List.mem_cons_of_mem _ hb2)
    rw [meanJoins] at h
    cases h1 : m.keyElement (m.data a1.model) a1.row b.joinKey with
    | none =>
      rw [h1] at h
      exact ih _ _ hall2 h
    | some key =>
      obtain ⟨frow, j, h2, hmap, hlt⟩ := hall b (List.mem_cons_self _ _) key h1
      rw [h1] at h
      simp only [h2, hmap, Option.getD_some] at h
      rw [if_neg (by omega)] at h
      split at h
      · cases h
      · cases h3 : st.layout[(j : Int).toNat]? with
        | none => rw [h3] at h; cases h
        | some a2 =>
          rw [h3] at h
          simp only at h
          cases h4 : a2.ig with
          | none => rw [h4] at h; cases h
          | some g2 =>
            rw [h4] at h
            simp only at h
            cases h5 : st.group[g2]? with
            | none => rw [h5] at h; cases h
            | some ig2 =>
              rw [h5] at h
              simp only at h
              cases h6 : ig2.placements[a2.igIndex]? with
              | none => rw [h6] at h; cases h
              | some p2 =>
                rw [h6] at h
                exact ih _ _ hall2 h

theorem meanVisit_order (m : Model α) (mats : PathMatrices α) (st : State α)
    (hpf : ParentsFirst m st) (ax : Nat) (a1 : Addr α) (ha : st.layout[ax]? = some a1)
    (fm : Nat → Nat → α) :
    meanVisit m mats st ax a1 fm ≠ .error Error.notInTopologicalOrder := by
  intro h
  unfold meanVisit at h
  cases h4 : a1.ig with
  | none => rw [h4] at h; cases h
  | some g1 =>
    rw [h4] at h
    simp only at h
    cases h5 : st.group[g1]? with
    | none => rw [h5] at h; cases h
    | some ig1 =>
      rw [h5] at h
      simp only at h
      cases h6 : ig1.placements[a1.igIndex]? with
      | none => rw [h6] at h; cases h
      | some pl1 =>
        rw [h6] at h
        simp only at h
        split at h
        · rename_i err herr
          cases h
          refine meanJoins_order m mats st ax a1 g1 pl1.modelStart _ 0 _ ?_ herr
          intro b hb key hkey
          obtain ⟨frow, j, p, e1, e2, e3, -⟩ := hpf ax a1 ha b hb key hkey
          exact ⟨frow, j, e1, e2, e3⟩
        · cases h

theorem computeMeanLoop_order (m : Model α) (mats : PathMatrices α) (st : State α)
    (hpf : ParentsFirst m st) :
    ∀ (fuel ax : Nat) (fm : Nat → Nat → α),
      computeMeanLoop m mats st fuel ax fm ≠ .error Error.notInTopologicalOrder := by
  intro fuel
  induction fuel with
  | zero => intro ax fm h; rw [computeMeanLoop] at h; cases h
  | succ fuel ih =>
    intro ax fm h
    rw [computeMeanLoop] at h
    cases ha : st.layout[ax]? with
    | none => rw [ha] at h; cases h
    | some a1 =>
      rw [ha] at h
      simp only at h
      cases hv : meanVisit m mats st ax a1 fm with
      | error err =>
        rw [hv] at h
        cases h
        exact meanVisit_order m mats st hpf ax a1 ha fm hv
      | ok fm1 =>
        rw [hv] at h
        exact ih _ _ h

theorem parentsFirst_flatInv (m : Model α) (nodes : Finset (Nat × Nat))
    (hwf : m.WellFormed nodes) (st : State α) (hinv : FlatInv m st)
    (herr : st.errorRaised = false) : ParentsFirst m st := by
  intro u a ha b hb key hkey
  obtain ⟨frow, hfrow⟩ := hwf.keys_resolve a.model a.row b key hb hkey
  have hjoin : m.Joins (a.model, a.row) (b.joinModel, frow) :=
    ⟨b, hb, key, hkey, rfl, hfrow⟩
  obtain ⟨j, p, hjlt, hp, hpk⟩ := hinv.joined herr u a ha _ hjoin
  simp only [Prod.mk.injEq] at hpk
  have hkp : m.keyOf p = (m.data b.joinModel, frow) := by
    simp [Model.keyOf, hpk.1, hpk.2]
  have hpkey : m.hasPrimaryKey (m.data p.model) = true := by
    rw [hpk.1]; exact hwf.key_declared _ _ _ hfrow
  have hmap := hinv.unit_map j p hp hpkey
  rw [hkp] at hmap
  exact ⟨frow, j, p, hfrow, hmap, hjlt, hp, hpk.1, hpk.2⟩

theorem parentsFirst_planFrame (m : Model α) (st st' : State α) (hfr : PlanFrame st st')
    (hpf : ParentsFirst m st) : ParentsFirst m st' := by
  intro u a' ha' b hb key hkey
  obtain ⟨a, ha, hcore⟩ := hfr.core_back u a' ha'
  simp only [Addr.core, Prod.mk.injEq] at hcore
  obtain ⟨hm, hr, -⟩ := hcore
  obtain ⟨frow, j, p, e1, e2, e3, e4, e5, e6⟩ := hpf u a ha b (by rw [← hm]; exact hb) key
    (by rw [← hm, ← hr]; exact hkey)
  obtain ⟨p', hp', hcore'⟩ := hfr.core_at j p e4
  simp only [Addr.core, Prod.mk.injEq] at hcore'
  exact ⟨frow, j, p', e1, by rw [hfr.map]; exact e2, e3, hp', by rw [hcore'.1]; exact e5,
    by rw [hcore'.2.1]; exact e6⟩

/-- C24 (parent-before-child order): in the layout of a flattening that
returns without a raised error, and in the layout of the plan that
`state::init` builds from it, every row joined by a unit through a present key
has a unit of strictly smaller index, which `rowToLayoutMap` gives; so the
loop of `computeMean` never throws "Not in topological order" on the plan,
from whatever unit, vector `fullMean` and matrices it is run. -/
theorem parents_before_children (m : Model α) (nodes : Finset (Nat × Nat))
    (hwf : m.WellFormed nodes) (sqrt : α → α) (budget : Nat) (st' : State α)
    (h : planInit m sqrt budget = .ok st') (herr : st'.errorRaised = false) :
    (∀ st0 ms, flatten m budget = .ok (st0, ms) → st0.errorRaised = false →
      ∀ (u : Nat) (a : Addr α), st0.layout[u]? = some a → ∀ b ∈ m.between a.model, ∀ key,
        m.keyElement (m.data a.model) a.row b.joinKey = some key →
        ∃ (frow j : Nat) (p : Addr α),
          m.lookupRowOfKey (m.data b.joinModel) key = some frow ∧
          st0.rowToLayoutMap (m.data b.joinModel, frow) = some (j : Int) ∧ j < u ∧
          st0.layout[j]? = some p ∧ p.model = b.joinModel ∧ p.row = frow) ∧
      (∀ (u : Nat) (a : Addr α), st'.layout[u]? = some a → ∀ b ∈ m.between a.model, ∀ key,
        m.keyElement (m.data a.model) a.row b.joinKey = some key →
        ∃ (frow j : Nat) (p : Addr α),
          m.lookupRowOfKey (m.data b.joinModel) key = some frow ∧
          st'.rowToLayoutMap (m.data b.joinModel, frow) = some (j : Int) ∧ j < u ∧
          st'.layout[j]? = some p ∧ p.model = b.joinModel ∧ p.row = frow) ∧
      ∀ (mats : PathMatrices α) (fuel ax : Nat) (fm : Nat → Nat → α),
        computeMeanLoop m mats st' fuel ax fm ≠ .error Error.notInTopologicalOrder := by
  obtain ⟨st1, hready, hplan⟩ := planInit_ready m nodes hwf sqrt budget st' h herr
  obtain ⟨sets, hinv, -⟩ := planModelEval_spec m budget st1 st' hready.start hplan
  have hpf : ParentsFirst m st' :=
    parentsFirst_planFrame m st1 st' hinv.frame
      (parentsFirst_flatInv m nodes hwf st1 hready.inv hready.no_error)
  refine ⟨?_, hpf, fun mats => computeMeanLoop_order m mats st' hpf⟩
  intro st0 ms hflat herr0
  exact parentsFirst_flatInv m nodes hwf st0 (flatten_inv m nodes hwf budget st0 ms hflat herr0).inv
    herr0

/-- C21 (mean recursion): when the pass of `computeMean` for a unit returns,
and no segment of a joined unit meets the segment of the unit, then the
segment of the unit in `fullMean` is `Z * (M + sum over the non-missing joins
j of B_j * fullMean(parent_j))`, with `M` zero for an expectation without
means and the segments of the parents as they were before the pass; every cell
outside the segment of the unit is as before. -/
theorem meanVisit_mean_recursion (m : Model α) (mats : PathMatrices α) (st : State α)
    (ax : Nat) (a1 : Addr α) (fm fm2 : Nat → Nat → α) (g1 : Nat) (ig1 : IndependentGroup α)
    (pl1 : Placement) (hig : a1.ig = some g1) (hgrp : st.group[g1]? = some ig1)
    (hpl : ig1.placements[a1.igIndex]? = some pl1)
    (h : meanVisit m mats st ax a1 fm = .ok fm2)
    (hdisj : ∀ b ∈ m.between a1.model, ∀ key frow a2 g2 ig2 p2,
      m.keyElement (m.data a1.model) a1.row b.joinKey = some key →
      m.lookupRowOfKey (m.data b.joinModel) key = some frow →
      st.layout[((st.rowToLayoutMap (m.data b.joinModel, frow)).getD 0).toNat]? = some a2 →
      a2.ig = some g2 → st.group[g2]? = some ig2 → ig2.placements[a2.igIndex]? = some p2 →
      g2 ≠ g1 ∨ p2.modelStart + m.numVars b.joinModel ≤ pl1.modelStart ∨
        pl1.modelStart + m.numVars a1.model ≤ p2.modelStart) :
    (∀ i, i < m.numVars a1.model →
      fm2 g1 (pl1.modelStart + i) =
        matVec (mats.matZ a1.model a1.row) (m.numVars a1.model)
          (fun k => (if m.hasM a1.model then mats.matM a1.model a1.row k else 0) +
            parentMeanSum m mats st a1 fm k 0 (m.between a1.model)) i) ∧
      (∀ g i, ¬ (g = g1 ∧ pl1.modelStart ≤ i ∧ i < pl1.modelStart + m.numVars a1.model) →
        fm2 g i = fm g i) := by
  unfold meanVisit at h
  rw [hig] at h
  simp only [hgrp, hpl] at h
  split at h
  · cases h
  · rename_i fmJ hJ
    cases h
    obtain ⟨r1, r2⟩ := meanJoins_spec m mats st ax a1 g1 pl1.modelStart fm _ 0 _ fmJ hJ
      (fun g i hgi => setSegment_out _ _ _ _ _ _ _ hgi) hdisj
    constructor
    · intro i hi
      rw [setSegment_in _ _ _ _ _ _ hi]
      apply matVec_congr
      intro k hk
      rw [r1 k hk, setSegment_in _ _ _ _ _ _ hk]
      split <;> rfl
    · intro g i hgi
      rw [setSegment_out _ _ _ _ _ _ _ hgi]
      exact r2 g i hgi

theorem meanVisit_mean_recursion_witness :
    ∃ fm2, meanVisit (familyModel false) joinMatrices joinState 1
        { model := 0, row := 0, numObsCache := 1, rampartScale := 2,
          quickRotationFactor := 1, ig := some 0, igIndex := 1, nextMean := 1 }
        (fun _ i => if i = 0 then 10 else 0) = .ok fm2 ∧
      fm2 0 (1 + 0) = 53 := by
  cases hrun : meanVisit (familyModel false) joinMatrices joinState 1
      { model := 0, row := 0, numObsCache := 1, rampartScale := 2,
        quickRotationFactor := 1, ig := some 0, igIndex := 1, nextMean := 1 }
      (fun _ i => if i = 0 then 10 else 0) with
  | error err =>
    have hok : (match meanVisit (familyModel false) joinMatrices joinState 1
        { model := 0, row := 0, numObsCache := 1, rampartScale := 2,
          quickRotationFactor := 1, ig := some 0, igIndex := 1, nextMean := 1 }
        (fun _ i => if i = 0 then 10 else 0) with
      | .ok _ => true
      | .error _ => false) = true := by decide
    rw [hrun] at hok
    cases hok
  | ok fm2 =>
    refine ⟨fm2, rfl, ?_⟩
    have hval : matVec (joinMatrices.matZ 0 0) ((familyModel false).numVars 0)
        (fun k => (if (familyModel false).hasM 0 then joinMatrices.matM 0 0 k else 0) +
          parentMeanSum (familyModel false) joinMatrices joinState
            { model := 0, row := 0, numObsCache := 1, rampartScale := 2,
              quickRotationFactor := 1, ig := some 0, igIndex := 1, nextMean := 1 }
            (fun _ i => if i = 0 then 10 else 0) k 0 ((familyModel false).between 0)) 0 =
        (53 : ℚ) := by
      simp [matVec, parentMeanSum, familyModel, joinMatrices, joinState, joinGroup,
        List.range_succ]
      norm_num
    rw [← hval]
    exact (meanVisit_mean_recursion (familyModel false) joinMatrices joinState 1
      { model := 0, row := 0, numObsCache := 1, rampartScale := 2,
        quickRotationFactor := 1, ig := some 0, igIndex := 1, nextMean := 1 }
      (fun _ i => if i = 0 then 10 else 0) fm2 0 joinGroup { modelStart := 1, obsStart := 1 }
      rfl rfl rfl hrun
      (by
        intro b hb key frow a2 g2 ig2 p2 h1 h2 h3 h4 h5 h6
        have hb2 : b = { joinKey := 0, joinModel := 1 } := by
          simpa [familyModel] using hb
        subst hb2
        have hk : key = 0 := by
          have : (some (0 : Int)) = some key := h1
          exact (Option.some.inj this).symm
        subst hk
        have hf : frow = 0 := by
          have : (some 0) = some frow := h2
          exact (Option.some.inj this).symm
        subst hf
        have ha2 := (Option.some.inj (show some _ = some a2 from h3)).symm
        subst ha2
        have hg2 : g2 = 0 := by
          have : (some 0) = some g2 := h4
          exact (Option.some.inj this).symm
        subst hg2
        have hig2 : ig2 = joinGroup := by
          have : some joinGroup = some ig2 := h5
          exact (Option.some.inj this).symm
        subst hig2
        have hp2 : p2 = { modelStart := 0, obsStart := 0 } := by
          have : some ({ modelStart := 0, obsStart := 0 } : Placement) = some p2 := h6
          exact (Option.some.inj this).symm
        subst hp2
        exact Or.inr (Or.inl (by decide)))).1 0 (by decide)

theorem parents_before_children_witness :
    ∃ st' : State ℚ, planInit (familyModel true) (fun x => x) 10 = .ok st' ∧
      st'.errorRaised = false ∧
      (∀ (u : Nat) (a : Addr ℚ), st'.layout[u]? = some a →
        ∀ b ∈ (familyModel true).between a.model, ∀ key,
        (familyModel true).keyElement ((familyModel true).data a.model) a.row b.joinKey =
          some key →
        ∃ (frow j : Nat) (p : Addr ℚ),
          (familyModel true).lookupRowOfKey ((familyModel true).data b.joinModel) key =
            some frow ∧
          st'.rowToLayoutMap ((familyModel true).data b.joinModel, frow) = some (j : Int) ∧
          j < u ∧ st'.layout[j]? = some p ∧ p.model = b.joinModel ∧ p.row = frow) ∧
      ∀ (mats : PathMatrices ℚ) (fuel ax : Nat) (fm : Nat → Nat → ℚ),
        computeMeanLoop (familyModel true) mats st' fuel ax fm ≠
          .error Error.notInTopologicalOrder := by
  cases hrun : planInit (familyModel true) (fun x => x) 10 with
  | error err =>
    have hok : (match planInit (familyModel true) (fun x => x) 10 with
      | .ok _ => true
      | .error _ => false) = true := by decide
    rw [hrun] at hok
    cases hok
  | ok st' =>
    have herr : st'.errorRaised = false := by
      have : (match planInit (familyModel true) (fun x => x) 10 with
        | .ok st => st.errorRaised
        | .error _ => true) = false := by decide
      rw [hrun] at this
      exact this
    exact ⟨st', rfl, herr, (parents_before_children (familyModel true) {(1, 0), (1, 1)}
      (familyModel_wellFormed true) (fun x => x) 10 st' hrun herr).2⟩

theorem sum_range_select (M s : Nat) (hs : s < M) (g : Nat → α) :
    ((List.range M).map (fun l => (if s = l then (1 : α) else 0) * g l)).sum = g s := by
  induction M with
  | zero => omega
  | succ n ih =>
    rw [List.range_succ, List.map_append, List.sum_append]
    simp only [List.map_cons, List.map_nil, List.sum_cons, List.sum_nil, add_zero]
    by_cases h : s = n
    · subst h
      rw [if_pos rfl, one_mul]
      have hz : ((List.range s).map (fun l => (if s = l then (1 : α) else 0) * g l)).sum = 0 := by
        apply List.sum_eq_zero
        intro x hx
        obtain ⟨l, hl, rfl⟩ := List.mem_map.1 hx
        have : l < s := List.mem_range.1 hl
        rw [if_neg (by omega), zero_mul]
      rw [hz, zero_add]
    · rw [if_neg h, zero_mul, add_zero]
      exact ih (by omega)

/-- A filter matrix whose row `i` selects the variable `sel i`. -/
theorem matMul_select (F G : Nat → Nat → α) (M : Nat) (sel : Nat → Nat) (i : Nat)
    (hF : ∀ j, j < M → F i j = if sel i = j then 1 else 0) (hs : sel i < M) (j : Nat) :
    matMul F G M i j = G (sel i) j := by
  unfold matMul
  rw [← sum_range_select M (sel i) hs (fun l => G l j)]
  congr 1
  apply List.map_congr_left
  intro l hl
  rw [hF l (List.mem_range.1 hl)]

theorem maxCoeff_select (F : Nat → Nat → α) (N M : Nat) (sel : Nat → Nat)
    (hF : ∀ i, i < N → ∀ j, j < M → F i j = if sel i = j then 1 else 0)
    (hinj : ∀ i, i < N → ∀ j, j < N → sel i = sel j → i = j) (hN : 0 < N) (cx : Nat)
    (hcx : cx < M) :
    (∀ i, i < N → sel i = cx → maxCoeff F N cx = (1, i)) ∧
      ((∀ i, i < N → sel i ≠ cx) → (maxCoeff F N cx).1 = 0) := by
  have key : ∀ k, k + 1 ≤ N →
      (∀ i, i < k + 1 → sel i = cx →
        (List.range' 1 k).foldl (fun best i => if best.1 < F i cx then (F i cx, i) else best)
          (F 0 cx, 0) = (1, i)) ∧
      ((∀ i, i < k + 1 → sel i ≠ cx) →
        ((List.range' 1 k).foldl (fun best i => if best.1 < F i cx then (F i cx, i) else best)
          (F 0 cx, 0)).1 = 0) := by
    intro k
    induction k with
    | zero =>
      intro _
      constructor
      · intro i hi hsel
        have : i = 0 := by omega
        subst this
        simp only [List.range'_zero, List.foldl_nil]
        rw [hF 0 hN cx hcx, if_pos hsel]
      · intro hno
        simp only [List.range'_zero, List.foldl_nil]
        rw [hF 0 hN cx hcx, if_neg (hno 0 (by omega))]
    | succ k ih =>
      intro hk
      obtain ⟨ih1, ih2⟩ := ih (by omega)
      rw [List.range'_1_concat, List.foldl_append]
      simp only [List.foldl_cons, List.foldl_nil]
      have hFk : F (1 + k) cx = if sel (1 + k) = cx then 1 else 0 := hF (1 + k) (by omega) cx hcx
      constructor
      · intro i hi hsel
        by_cases hik : i = 1 + k
        · subst hik
          have hno : ∀ i, i < k + 1 → sel i ≠ cx := by
            intro i' hi' he
            have := hinj i' (by omega) (1 + k) (by omega) (by rw [he, hsel])
            omega
          rw [ih2 hno, hFk, if_pos hsel, if_pos (by norm_num)]
        · rw [ih1 i (by omega) hsel, hFk]
          have : sel (1 + k) ≠ cx := by
            intro he
            have := hinj i (by omega) (1 + k) (by omega) (by rw [he, hsel])
            omega
          rw [if_neg this, if_neg (by norm_num)]
      · intro hno
        have h1 := ih2 (fun i hi => hno i (by omega))
        rw [h1, hFk, if_neg (hno (1 + k) (by omega)), if_neg (lt_irrefl _)]
        exact h1
  have hk := key (N - 1) (by omega)
  unfold maxCoeff
  rw [show N - 1 + 1 = N by omega] at hk
  exact hk

/-- What the loop of `studyF` leaves in `latentFilter`, in `dataCols` and in
the counter. -/
theorem studyFLoop_spec (F : Nat → Nat → α) (rows : Nat) (dataColumns : List Nat) :
    ∀ (cxs : List Nat) (lf : List Bool) (dc : List Nat) (dx : Nat), cxs.Nodup →
      (∀ c ∈ cxs, c < lf.length) →
      (studyFLoop F rows dataColumns cxs (lf, dc, dx)).1.length = lf.length ∧
      (∀ c ∈ cxs, (studyFLoop F rows dataColumns cxs (lf, dc, dx)).1[c]? =
        some (decide ((maxCoeff F rows c).1 ≠ 0))) ∧
      (∀ c, c ∉ cxs → (studyFLoop F rows dataColumns cxs (lf, dc, dx)).1[c]? = lf[c]?) ∧
      (studyFLoop F rows dataColumns cxs (lf, dc, dx)).2.1.length = dc.length ∧
      (∀ k, k < dx → (studyFLoop F rows dataColumns cxs (lf, dc, dx)).2.1[k]? = dc[k]?) ∧
      (∀ k, k < (cxs.filter (fun c => decide ((maxCoeff F rows c).1 ≠ 0))).length →
        dx + k < dc.length →
        (studyFLoop F rows dataColumns cxs (lf, dc, dx)).2.1[dx + k]? =
          ((cxs.filter (fun c => decide ((maxCoeff F rows c).1 ≠ 0)))[k]?).map
            (fun c => newDest dataColumns (maxCoeff F rows c).2)) := by
  intro cxs
  induction cxs with
  | nil =>
    intro lf dc dx _ _
    refine ⟨rfl, fun c hc => by simp at hc, fun c _ => rfl, rfl, fun k _ => rfl, ?_⟩
    intro k hk
    simp at hk
  | cons cx rest ih =>
    intro lf dc dx hnd hlt
    have hnd2 : rest.Nodup := (List.nodup_cons.1 hnd).2
    have hcx : cx ∉ rest := (List.nodup_cons.1 hnd).1
    by_cases hm : (maxCoeff F rows cx).1 ≠ 0
    · have hstep : studyFLoop F rows dataColumns (cx :: rest) (lf, dc, dx) =
          studyFLoop F rows dataColumns rest
            (lf.set cx true, dc.set dx (newDest dataColumns (maxCoeff F rows cx).2), dx + 1) := by
        rw [studyFLoop, if_pos hm]
      rw [hstep]
      obtain ⟨i1, i2, i3, i4, i5, i6⟩ := ih (lf.set cx true)
        (dc.set dx (newDest dataColumns (maxCoeff F rows cx).2)) (dx + 1) hnd2
        (by intro c hc; rw [List.length_set]; exact hlt c (List.mem_cons_of_mem _ hc))
      refine ⟨by rw [i1, List.length_set], ?_, ?_, by rw [i4, List.length_set], ?_, ?_⟩
      · intro c hc
        rcases List.mem_cons.1 hc with rfl | hc
        · rw [i3 c hcx]
          have : c < lf.length := hlt c (List.mem_cons_self _ _)
          simp [List.getElem?_set, this, hm]
        · exact i2 c hc
      · intro c hc
        have h1 : c ≠ cx := fun h => hc (h ▸ List.mem_cons_self _ _)
        have h2 : c ∉ rest := fun h => hc (List.mem_cons_of_mem _ h)
        rw [i3 c h2, List.getElem?_set_ne (Ne.symm h1)]
      · intro k hk
        rw [i5 k (by omega), List.getElem?_set_ne (by omega)]
      · intro k hk hkl
        have hfil : (cx :: rest).filter (fun c => decide ((maxCoeff F rows c).1 ≠ 0)) =
            cx :: rest.filter (fun c => decide ((maxCoeff F rows c).1 ≠ 0)) := by
          rw [List.filter_cons_of_pos (by simpa using hm)]
        rw [hfil] at hk ⊢
        cases k with
        | zero =>
          have hdl : dx < dc.length := by omega
          have h5 := i5 dx (by omega)
          simp only [Nat.add_zero]
          rw [h5]
          simp [List.getElem?_set, hdl]
        | succ k =>
          simp only [List.length_cons] at hk
          have := i6 k (by omega) (by rw [List.length_set]; omega)
          rw [show dx + 1 + k = dx + (k + 1) by omega] at this
          rw [this, List.getElem?_cons_succ]
    · have hstep : studyFLoop F rows dataColumns (cx :: rest) (lf, dc, dx) =
          studyFLoop F rows dataColumns rest (lf.set cx false, dc, dx) := by
        rw [studyFLoop, if_neg hm]
      rw [hstep]
      obtain ⟨i1, i2, i3, i4, i5, i6⟩ := ih (lf.set cx false) dc dx hnd2
        (by intro c hc; rw [List.length_set]; exact hlt c (List.mem_cons_of_mem _ hc))
      refine ⟨by rw [i1, List.length_set], ?_, ?_, i4, i5, ?_⟩
      · intro c hc
        rcases List.mem_cons.1 hc with rfl | hc
        · rw [i3 c hcx]
          have : c < lf.length := hlt c (List.mem_cons_self _ _)
          simp [List.getElem?_set, this, hm]
        · exact i2 c hc
      · intro c hc
        have h1 : c ≠ cx := fun h => hc (h ▸ List.mem_cons_self _ _)
        have h2 : c ∉ rest := fun h => hc (List.mem_cons_of_mem _ h)
        rw [i3 c h2, List.getElem?_set_ne (Ne.symm h1)]
      · intro k hk hkl
        have hfil : (cx :: rest).filter (fun c => decide ((maxCoeff F rows c).1 ≠ 0)) =
            rest.filter (fun c => decide ((maxCoeff F rows c).1 ≠ 0)) := by
          rw [List.filter_cons_of_neg (by simpa using hm)]
        rw [hfil] at hk ⊢
        exact i6 k hk hkl

/-- What the loop that fills `Y` leaves: the rows of `Z` of the flagged
variables in the order of the loop, from row `dx` on. -/
theorem fillY_spec (Z : Nat → Nat → α) (lf : List Bool) :
    ∀ (rxs : List Nat) (Y : Nat → Nat → α) (dx : Nat),
      (∀ k, k < (rxs.filter (fun rx => lf.getD rx false)).length → ∀ c,
        (fillY Z lf rxs (Y, dx)).1 (dx + k) c =
          Z ((rxs.filter (fun rx => lf.getD rx false)).getD k 0) c) ∧
      (∀ r, r < dx → ∀ c, (fillY Z lf rxs (Y, dx)).1 r c = Y r c) := by
  intro rxs
  induction rxs with
  | nil =>
    intro Y dx
    exact ⟨fun k hk => by simp at hk, fun r _ c => rfl⟩
  | cons rx rest ih =>
    intro Y dx
    by_cases hm : lf.getD rx false = true
    · have hstep : fillY Z lf (rx :: rest) (Y, dx) =
          fillY Z lf rest (fun r c => if r = dx then Z rx c else Y r c, dx + 1) := by
        rw [fillY, if_pos hm]
      have hfil : (rx :: rest).filter (fun rx => lf.getD rx false) =
          rx :: rest.filter (fun rx => lf.getD rx false) := by
        simp only [List.filter_cons, hm, if_true]
      rw [hstep, hfil]
      obtain ⟨i1, i2⟩ := ih (fun r c => if r = dx then Z rx c else Y r c) (dx + 1)
      constructor
      · intro k hk c
        cases k with
        | zero =>
          have h2 := i2 dx (by omega) c
          simp only [Nat.add_zero]
          rw [h2]
          simp
        | succ k =>
          simp only [List.length_cons] at hk
          have := i1 k (by omega) c
          rw [show dx + 1 + k = dx + (k + 1) by omega] at this
          rw [this]
          simp
      · intro r hr c
        rw [i2 r (by omega) c, if_neg (by omega)]
    · have hstep : fillY Z lf (rx :: rest) (Y, dx) = fillY Z lf rest (Y, dx) := by
        rw [fillY, if_neg hm]
      have hfil : (rx :: rest).filter (fun rx => lf.getD rx false) =
          rest.filter (fun rx => lf.getD rx false) := by
        simp only [List.filter_cons, hm, Bool.false_eq_true, if_false]
      rw [hstep, hfil]
      exact ih Y dx

theorem matMul_congr_entry (A B A2 B2 : Nat → Nat → α) (inner i j i2 j2 : Nat)
    (hA : ∀ l, l < inner → A i l = A2 i2 l) (hB : ∀ l, l < inner → B l j = B2 l j2) :
    matMul A B inner i j = matMul A2 B2 inner i2 j2 := by
  unfold matMul
  congr 1
  apply List.map_congr_left
  intro l hl
  rw [hA l (List.mem_range.1 hl), hB l (List.mem_range.1 hl)]

theorem matMul_select_right (G F : Nat → Nat → α) (M : Nat) (sel : Nat → Nat) (q : Nat)
    (hF : ∀ j, j < M → F q j = if sel q = j then 1 else 0) (hs : sel q < M) (i : Nat) :
    matMul G (matTranspose F) M i q = G i (sel q) := by
  unfold matMul matTranspose
  rw [← sum_range_select M (sel q) hs (fun l => G i l)]
  congr 1
  apply List.map_congr_left
  intro l hl
  rw [hF l (List.mem_range.1 hl), mul_comm]

/-- For a filter matrix whose row `i` selects the variable `sel i`, the entry
`(p, q)` of `F * Z * S * Z^T * F^T` is the entry of `Z * S * Z^T` at the
selected variables. -/
theorem ramCovariance_select (F Z S : Nat → Nat → α) (N M : Nat) (sel : Nat → Nat)
    (hF : ∀ i, i < N → ∀ j, j < M → F i j = if sel i = j then 1 else 0)
    (hsel : ∀ i, i < N → sel i < M) (p q : Nat) (hp : p < N) (hq : q < N) :
    ramCovariance F Z S M p q =
      matMul (matMul Z S M) (matTranspose Z) M (sel p) (sel q) := by
  unfold ramCovariance
  rw [matMul_select_right _ F M sel q (hF q hq) (hsel q hq)]
  apply matMul_congr_entry
  · intro l hl
    apply matMul_congr_entry
    · intro l2 hl2
      exact matMul_select F Z M sel p (hF p hp) (hsel p hp) l2
    · intro l2 _
      rfl
  · intro l _
    rfl

theorem ramMeans_select (F Z : Nat → Nat → α) (vecM : Nat → α) (N M : Nat) (sel : Nat → Nat)
    (hF : ∀ i, i < N → ∀ j, j < M → F i j = if sel i = j then 1 else 0)
    (hsel : ∀ i, i < N → sel i < M) (p : Nat) (hp : p < N) :
    ramMeans F Z vecM M p = matVec Z M vecM (sel p) := by
  unfold ramMeans matVec
  congr 1
  apply List.map_congr_left
  intro l _
  rw [matMul_select F Z M sel p (hF p hp) (hsel p hp) l]

/-- The manifest variables that `studyF` flags for a filter matrix whose rows
select distinct variables, and the rows `dest` that it finds for them. -/
theorem studyF_select (F : Nat → Nat → α) (N M : Nat) (sel : Nat → Nat)
    (hF : ∀ i, i < N → ∀ j, j < M → F i j = if sel i = j then 1 else 0)
    (hsel : ∀ i, i < N → sel i < M)
    (hinj : ∀ i, i < N → ∀ j, j < N → sel i = sel j → i = j) (hN : 0 < N) :
    (∀ c, c ∈ (List.range M).filter (fun c => decide ((maxCoeff F N c).1 ≠ 0)) ↔
      ∃ i, i < N ∧ sel i = c) ∧
    (∀ i, i < N → (maxCoeff F N (sel i)).2 = i) ∧
    ((List.range M).filter (fun c => decide ((maxCoeff F N c).1 ≠ 0))).length = N := by
  have hmem : ∀ c, c ∈ (List.range M).filter (fun c => decide ((maxCoeff F N c).1 ≠ 0)) ↔
      ∃ i, i < N ∧ sel i = c := by
    intro c
    rw [List.mem_filter, List.mem_range]
    constructor
    · rintro ⟨hc, hm⟩
      by_contra hno
      have hz := (maxCoeff_select F N M sel hF hinj hN c hc).2
        (fun i hi he => hno ⟨i, hi, he⟩)
      simp only [decide_eq_true_eq] at hm
      exact hm hz
    · rintro ⟨i, hi, rfl⟩
      refine ⟨hsel i hi, ?_⟩
      rw [(maxCoeff_select F N M sel hF hinj hN (sel i) (hsel i hi)).1 i hi rfl]
      simp
  refine ⟨hmem, ?_, ?_⟩
  · intro i hi
    rw [(maxCoeff_select F N M sel hF hinj hN (sel i) (hsel i hi)).1 i hi rfl]
  · have hnd1 : ((List.range M).filter (fun c => decide ((maxCoeff F N c).1 ≠ 0))).Nodup :=
      (List.nodup_range M).filter _
    have hnd2 : ((List.range N).map sel).Nodup := by
      apply List.Nodup.map_on _ (List.nodup_range N)
      intro x hx y hy hxy
      exact hinj x (List.mem_range.1 hx) y (List.mem_range.1 hy) hxy
    have hperm : ((List.range M).filter (fun c => decide ((maxCoeff F N c).1 ≠ 0))).Perm
        ((List.range N).map sel) := by
      rw [List.perm_ext_iff_of_nodup hnd1 hnd2]
      intro c
      rw [hmem c, List.mem_map]
      constructor
      · rintro ⟨i, hi, he⟩
        exact ⟨i, List.mem_range.2 hi, he⟩
      · rintro ⟨i, hi, he⟩
        exact ⟨i, List.mem_range.1 hi, he⟩
    rw [hperm.length_eq, List.length_map, List.length_range]

theorem matVec_congr_row (A A2 : Nat → Nat → α) (inner : Nat) (v : Nat → α) (i i2 : Nat)
    (hA : ∀ l, l < inner → A i l = A2 i2 l) : matVec A inner v i = matVec A2 inner v i2 := by
  unfold matVec
  congr 1
  apply List.map_congr_left
  intro l hl
  rw [hA l (List.mem_range.1 hl)]

/-- C22 (single-level RAM covariance): for a filter matrix `F` whose row `i`
selects the model variable `sel i`, distinct rows selecting distinct
variables, and with `latentFilter` as `studyF` computes it,
`CalculateRAMCovarianceAndMeans` returns, and its rows are the manifest
variables in increasing order of the variable: with `dest` the rows of `F`
that `studyF` finds for the manifest variables in that order (a rearrangement
of the rows of `F`, by which `studyF` also rearranges `dataCols`), the entry
`(a, b)` of `cov` is the entry `(dest a, dest b)` of `F * Z * S * Z^T * F^T`,
and the entry `a` of `means` is the entry `dest a` of `F * Z * M` plus the
entry `a` of `slope * exoPredMean` when there is a slope.  When the rows of
`F` are in increasing order of the selected variable, `dest a = a`, so `cov`
is `F * Z * S * Z^T * F^T` and `means` is `F * Z * M` (plus the slope
term). -/
theorem ram_covariance_manifest_order (F : Nat → Nat → α) (N M : Nat) (sel : Nat → Nat)
    (dataColumns : List Nat) (e : RAMMatrices α) (cov0 : Nat → Nat → α)
    (hF : ∀ i, i < N → ∀ j, j < M → F i j = if sel i = j then 1 else 0)
    (hsel : ∀ i, i < N → sel i < M)
    (hinj : ∀ i, i < N → ∀ j, j < N → sel i = sel j → i = j)
    (hrows : e.rows = N) (hvars : e.numVars = M)
    (hlf : e.latentFilter = (studyF F N M dataColumns).1) (hcov : e.cov = some cov0) :
    ∃ (e2 : RAMMatrices α) (dest : List Nat) (cov : Nat → Nat → α),
      CalculateRAMCovarianceAndMeans e = some e2 ∧ e2.cov = some cov ∧
      dest.length = N ∧ (∀ k, k < N → dest.getD k 0 < N) ∧ dest.Nodup ∧
      (∀ a b, a < b → b < N → sel (dest.getD a 0) < sel (dest.getD b 0)) ∧
      (studyF F N M dataColumns).2 = dest.map (newDest dataColumns) ∧
      (∀ a b, a < N → b < N →
        cov a b = ramCovariance F e.matZ e.matS M (dest.getD a 0) (dest.getD b 0)) ∧
      (∀ vecM means0, e.matM = some vecM → e.means = some means0 →
        ∃ mean, e2.means = some mean ∧ ∀ a, a < N →
          mean a = ramMeans F e.matZ vecM M (dest.getD a 0) +
            (match e.slope with
              | some sl => matVec sl e.numExoPred e.exoPredMean a
              | none => 0)) ∧
      ((∀ a b, a < b → b < N → sel a < sel b) → dest = List.range N) := by
  subst hrows hvars
  by_cases hN : e.rows = 0
  · refine ⟨e, [], cov0, ?_, hcov, ?_, ?_, List.nodup_nil, ?_, ?_, ?_, ?_, ?_⟩
    · unfold CalculateRAMCovarianceAndMeans
      rw [if_pos hN]
    · rw [hN]; rfl
    · intro k hk; omega
    · intro a b _ hb; omega
    · unfold studyF
      rw [if_pos hN]
      rfl
    · intro a b ha; omega
    · intro vecM means0 _ hm
      exact ⟨means0, hm, fun a ha => by omega⟩
    · intro _
      rw [hN]
      rfl
  · have hpos : 0 < e.rows := Nat.pos_of_ne_zero hN
    obtain ⟨hmem, hdestOf, hlen⟩ := studyF_select F e.rows e.numVars sel hF hsel hinj hpos
    obtain ⟨-, s2, -, s4, -, s6⟩ := studyFLoop_spec F e.rows dataColumns (List.range e.numVars)
      (List.replicate e.numVars false) (List.replicate e.rows 0) 0 (List.nodup_range _)
      (by intro c hc; simpa using hc)
    have hstudy : studyF F e.rows e.numVars dataColumns =
        ((studyFLoop F e.rows dataColumns (List.range e.numVars)
          (List.replicate e.numVars false, List.replicate e.rows 0, 0)).1,
         (studyFLoop F e.rows dataColumns (List.range e.numVars)
          (List.replicate e.numVars false, List.replicate e.rows 0, 0)).2.1) := by
      unfold studyF
      rw [if_neg hN]
    have hfilter : (List.range e.numVars).filter (fun rx => e.latentFilter.getD rx false) =
        (List.range e.numVars).filter (fun c => decide ((maxCoeff F e.rows c).1 ≠ 0)) := by
      apply List.filter_congr
      intro c hc
      rw [hlf, hstudy]
      simp only
      rw [List.getD_eq_getElem?_getD, s2 c hc]
      rfl
    obtain ⟨y1, -⟩ := fillY_spec e.matZ e.latentFilter (List.range e.numVars) e.matY 0
    rw [hfilter, hlen] at y1
    -- the rows found for the manifest variables
    have hK : ∀ k, k < e.rows → ∃ i, i < e.rows ∧
        sel i = ((List.range e.numVars).filter
          (fun c => decide ((maxCoeff F e.rows c).1 ≠ 0))).getD k 0 ∧
        (((List.range e.numVars).filter
          (fun c => decide ((maxCoeff F e.rows c).1 ≠ 0))).map
            (fun c => (maxCoeff F e.rows c).2)).getD k 0 = i := by
      intro k hk
      have hk2 : k < ((List.range e.numVars).filter
          (fun c => decide ((maxCoeff F e.rows c).1 ≠ 0))).length := by rw [hlen]; exact hk
      obtain ⟨i, hi, he⟩ := (hmem _).1 (List.getElem_mem hk2)
      refine ⟨i, hi, ?_, ?_⟩
      · rw [List.getD_eq_getElem _ _ hk2, he]
      · rw [List.getD_eq_getElem _ _ (by rw [List.length_map]; exact hk2), List.getElem_map,
          ← he, hdestOf i hi]
    have hsorted : ((List.range e.numVars).filter
        (fun c => decide ((maxCoeff F e.rows c).1 ≠ 0))).Pairwise (fun x y => x < y) :=
      (List.pairwise_lt_range _).sublist (List.filter_sublist _)
    have hY : ∀ k, k < e.rows → ∀ i, i < e.rows →
        sel i = ((List.range e.numVars).filter
          (fun c => decide ((maxCoeff F e.rows c).1 ≠ 0))).getD k 0 → ∀ c,
        (fillY e.matZ e.latentFilter (List.range e.numVars) (e.matY, 0)).1 k c =
          e.matZ (sel i) c := by
      intro k hk i _ he c
      have := y1 k hk c
      rw [Nat.zero_add] at this
      rw [this, he]
    unfold CalculateRAMCovarianceAndMeans
    rw [if_neg hN, if_neg (by rw [hcov]; simp), hcov]
    simp only
    refine ⟨_, ((List.range e.numVars).filter
        (fun c => decide ((maxCoeff F e.rows c).1 ≠ 0))).map (fun c => (maxCoeff F e.rows c).2),
      _, rfl, rfl, by rw [List.length_map, hlen], ?_, ?_, ?_, ?_, ?_, ?_, ?_⟩
    · intro k hk
      obtain ⟨i, hi, -, hd⟩ := hK k hk
      rw [hd]
      exact hi
    · apply List.Nodup.of_map sel
      have hmap : (((List.range e.numVars).filter
          (fun c => decide ((maxCoeff F e.rows c).1 ≠ 0))).map
            (fun c => (maxCoeff F e.rows c).2)).map sel =
          (List.range e.numVars).filter (fun c => decide ((maxCoeff F e.rows c).1 ≠ 0)) := by
        rw [List.map_map]
        conv_rhs => rw [← List.map_id ((List.range e.numVars).filter
          (fun c => decide ((maxCoeff F e.rows c).1 ≠ 0)))]
        apply List.map_congr_left
        intro c hc
        obtain ⟨i, hi, he⟩ := (hmem c).1 hc
        simp only [Function.comp, id]
        rw [← he, hdestOf i hi]
      rw [hmap]
      exact (List.nodup_range _).filter _
    · intro a b hab hb
      obtain ⟨i, hi, he, hd⟩ := hK a (by omega)
      obtain ⟨j, hj, he2, hd2⟩ := hK b hb
      rw [hd, hd2, he, he2]
      have hla : a < ((List.range e.numVars).filter
          (fun c => decide ((maxCoeff F e.rows c).1 ≠ 0))).length := by rw [hlen]; omega
      have hlb : b < ((List.range e.numVars).filter
          (fun c => decide ((maxCoeff F e.rows c).1 ≠ 0))).length := by rw [hlen]; omega
      rw [List.getD_eq_getElem _ _ hla, List.getD_eq_getElem _ _ hlb]
      exact List.pairwise_iff_getElem.1 hsorted a b hla hlb hab
    · rw [hstudy]
      simp only
      apply List.ext_getElem?
      intro k
      by_cases hk : k < e.rows
      · have := s6 k (by rw [hlen]; exact hk) (by simpa using hk)
        rw [Nat.zero_add] at this
        rw [this, List.getElem?_map, List.getElem?_map, Option.map_map]
        rfl
      · rw [List.getElem?_eq_none (by rw [s4]; simpa using hk),
          List.getElem?_eq_none (by rw [List.length_map, List.length_map, hlen]; omega)]
    · intro a b ha hb
      obtain ⟨i, hi, he, hd⟩ := hK a ha
      obtain ⟨j, hj, he2, hd2⟩ := hK b hb
      rw [hd, hd2, ramCovariance_select F e.matZ e.matS e.rows e.numVars sel hF hsel i j hi hj]
      unfold omxDGEMM
      simp only [Bool.false_eq_true, if_false, if_true, one_mul, zero_mul, add_zero]
      apply matMul_congr_entry
      · intro l _
        apply matMul_congr_entry
        · intro l2 _
          exact hY a ha i hi he l2
        · intro l2 _
          rfl
      · intro l _
        exact hY b hb j hj he2 l
    · intro vecM means0 hM hmeans
      rw [hM, hmeans]
      simp only
      cases hsl : e.slope with
      | none =>
        refine ⟨_, rfl, ?_⟩
        intro a ha
        obtain ⟨i, hi, he, hd⟩ := hK a ha
        rw [hd, ramMeans_select F e.matZ vecM e.rows e.numVars sel hF hsel i hi]
        unfold omxDGEMV
        simp only [Bool.false_eq_true, if_false, one_mul, zero_mul, add_zero]
        apply matVec_congr_row
        intro l _
        exact hY a ha i hi he l
      | some sl =>
        refine ⟨_, rfl, ?_⟩
        intro a ha
        obtain ⟨i, hi, he, hd⟩ := hK a ha
        rw [hd, ramMeans_select F e.matZ vecM e.rows e.numVars sel hF hsel i hi]
        unfold omxDGEMV
        simp only [Bool.false_eq_true, if_false, one_mul, zero_mul, add_zero]
        congr 1
        apply matVec_congr_row
        intro l _
        exact hY a ha i hi he l
    · intro hmono
      have hnd2 : ((List.range e.rows).map sel).Pairwise (fun x y => x < y) := by
        rw [List.pairwise_map]
        apply (List.pairwise_lt_range e.rows).imp_of_mem
        intro x y _ hy hxy
        exact hmono x y hxy (List.mem_range.1 hy)
      have hperm : ((List.range e.numVars).filter
          (fun c => decide ((maxCoeff F e.rows c).1 ≠ 0))).Perm ((List.range e.rows).map sel) := by
        rw [List.perm_ext_iff_of_nodup ((List.nodup_range _).filter _)
          (hnd2.imp (fun h => Nat.ne_of_lt h))]
        intro c
        rw [hmem c, List.mem_map]
        constructor
        · rintro ⟨i, hi, he⟩
          exact ⟨i, List.mem_range.2 hi, he⟩
        · rintro ⟨i, hi, he⟩
          exact ⟨i, List.mem_range.1 hi, he⟩
      have heq := List.eq_of_perm_of_sorted hperm hsorted hnd2
      rw [heq, List.map_map]
      conv_rhs => rw [← List.map_id (List.range e.rows)]
      apply List.map_congr_left
      intro i hi
      simp only [Function.comp, id]
      exact hdestOf i (List.mem_range.1 hi)

theorem ram_covariance_swapped_rows :
    studyF swapF 2 2 [7, 9] = ([true, true], [9, 7]) ∧
      ((CalculateRAMCovarianceAndMeans swapRAM).bind (fun e => e.cov)).map
        (fun cov => (cov 0 0, cov 1 1)) = some (1, 2) ∧
      (ramCovariance swapF swapRAM.matZ swapRAM.matS 2 0 0,
        ramCovariance swapF swapRAM.matZ swapRAM.matS 2 1 1) = (2, 1) := by
  have h1 : studyF swapF 2 2 [7, 9] = ([true, true], [9, 7]) := by decide
  refine ⟨h1, ?_, ?_⟩
  · simp [CalculateRAMCovarianceAndMeans, swapRAM, h1, fillY, omxDGEMM, matMul, matTranspose,
      List.range_succ]
  · simp [ramCovariance, swapRAM, swapF, matMul, matTranspose, List.range_succ]

theorem ram_covariance_manifest_order_witness :
    ∃ (e2 : RAMMatrices ℚ) (dest : List Nat) (cov : Nat → Nat → ℚ),
      CalculateRAMCovarianceAndMeans swapRAM = some e2 ∧ e2.cov = some cov ∧
      dest.length = 2 ∧ (∀ k, k < 2 → dest.getD k 0 < 2) ∧ dest.Nodup ∧
      (∀ a b, a < b → b < 2 → 1 - dest.getD a 0 < 1 - dest.getD b 0) ∧
      (studyF swapF 2 2 [7, 9]).2 = dest.map (newDest [7, 9]) ∧
      (∀ a b, a < 2 → b < 2 →
        cov a b = ramCovariance swapF swapRAM.matZ swapRAM.matS 2 (dest.getD a 0)
          (dest.getD b 0)) ∧
      (∀ vecM means0, swapRAM.matM = some vecM → swapRAM.means = some means0 →
        ∃ mean, e2.means = some mean ∧ ∀ a, a < 2 →
          mean a = ramMeans swapF swapRAM.matZ vecM 2 (dest.getD a 0) +
            (match swapRAM.slope with
              | some sl => matVec sl swapRAM.numExoPred swapRAM.exoPredMean a
              | none => 0)) ∧
      ((∀ a b, a < b → b < 2 → 1 - a < 1 - b) → dest = List.range 2) :=
  ram_covariance_manifest_order swapF 2 2 (fun i => 1 - i) [7, 9] swapRAM (fun _ _ => 0)
    (by
      intro i hi j hj
      interval_cases i <;> interval_cases j <;> simp [swapF])
    (by intro i hi; show 1 - i < 2; omega)
    (by intro i hi j hj h; have h2 : 1 - i = 1 - j := h; omega)
    rfl rfl rfl rfl

theorem ord3_lt_iff (p : Bool × Bool) : ord3 p = .lt ↔ p.2 = true ∧ p.1 = true := by
  unfold ord3
  cases p.2 <;> cases p.1 <;> simp

theorem LawfulOn.congr {X : Type} {R : X → X → Prop} {c c2 : X → X → Ordering}
    (h : LawfulOn R c) (hc : ∀ a b, R a b → c2 a b = c a b)
    (hsymm : ∀ a b, R a b → R b a) : LawfulOn R c2 :=
  ⟨fun a b hab => by rw [hc a b hab, hc b a (hsymm a b hab)]; exact h.sym a b hab,
   fun a b d hab hbd had h1 h2 => by
     rw [hc a b hab] at h1
     rw [hc b d hbd] at h2
     rw [hc a d had]
     exact h.trans a b d hab hbd had h1 h2,
   fun a b d hab hbd had h1 => by
     rw [hc a b hab] at h1
     rw [hc a d had, hc b d hbd]
     exact h.eqc a b d hab hbd had h1⟩

/-- When the decomposition fails or some pivot is not positive, `simulate`
raises the error, draws nothing and leaves `expectedVec` in `simDataVec`. -/
theorem simulate_error (sqrt : α → α) (compute : (Nat → Nat → α) → Decomposition α)
    (rnorm : Nat → α) (ig : IndependentGroup α) (expectedVec : List α)
    (fullCov : Nat → Nat → α) (dim : Nat) (s : SimState α) (hdata : ig.dataVec.length ≠ 0)
    (h : (compute fullCov).success = false ∨ ∃ x ∈ (compute fullCov).vectorD, x ≤ 0) :
    simulate sqrt compute rnorm ig expectedVec fullCov dim s =
      { simDataVec := expectedVec, errorRaised := true, draws := s.draws } := by
  unfold simulate
  rw [if_neg hdata, if_pos]
  rcases h with h | ⟨x, hx, hle⟩
  · exact Or.inl h
  · right
    intro hall
    have := List.all_eq_true.1 hall x hx
    simp only [decide_eq_true_eq] at this
    exact absurd this (not_lt.2 hle)

/-- A matrix `M^T * D * M` with `M` invertible and a positive diagonal `D` is
positive definite. -/
theorem posDef_of_factor (n : Nat) (M : Matrix (Fin n) (Fin n) ℝ) (D : Fin n → ℝ)
    (hM : M.det ≠ 0) (hD : ∀ i, 0 < D i) :
    (M.transpose * Matrix.diagonal D * M).PosDef := by
  refine ⟨?_, ?_⟩
  · unfold Matrix.IsHermitian
    rw [Matrix.conjTranspose_eq_transpose_of_trivial, Matrix.transpose_mul, Matrix.transpose_mul,
      Matrix.transpose_transpose, Matrix.diagonal_transpose, Matrix.mul_assoc]
  · intro x hx
    have hMx : M.mulVec x ≠ 0 := by
      intro h0
      exact hx (Matrix.eq_zero_of_mulVec_eq_zero hM h0)
    have hpos := (Matrix.PosDef.diagonal hD).2 (M.mulVec x) hMx
    have heq : Matrix.dotProduct (star x) ((M.transpose * Matrix.diagonal D * M).mulVec x) =
        Matrix.dotProduct (star (M.mulVec x)) ((Matrix.diagonal D).mulVec (M.mulVec x)) := by
      rw [← Matrix.mulVec_mulVec, ← Matrix.mulVec_mulVec, Matrix.dotProduct_mulVec,
        star_trivial, star_trivial, Matrix.vecMul_transpose]
    rw [heq]
    exact hpos

/-- C11 (indefinite covariance): `computeCov2` has no error path, it fills
`fullCov` whatever the residual matrix is.  For a group with data whose
`fullCov` is not positive definite, where a decomposition that reports success
is a factorisation `fullCov = (U P)^T D (U P)` with `U P` invertible, the
decomposition has failed or some pivot of `D` is not positive, and the
following `simulate` raises the error "covariance is non-positive definite",
calls `Rf_rnorm` not once and leaves `simDataVec` equal to `expectedVec`. -/
theorem simulate_indefinite_covariance (compute : (Nat → Nat → ℝ) → Decomposition ℝ)
    (rnorm : Nat → ℝ) (ig : IndependentGroup ℝ) (expectedVec : List ℝ)
    (iaf fullS : Nat → Nat → ℝ) (inner n : Nat) (s : SimState ℝ)
    (hdata : ig.dataVec.length ≠ 0)
    (hldlt : (compute (computeCov2 iaf inner fullS)).success = true →
      (compute (computeCov2 iaf inner fullS)).vectorD.length = n ∧
      (Matrix.of (fun i j : Fin n =>
          matMul (compute (computeCov2 iaf inner fullS)).matrixU
            (compute (computeCov2 iaf inner fullS)).transpositionsP n i j)).det ≠ 0 ∧
      Matrix.of (fun i j : Fin n => computeCov2 iaf inner fullS i j) =
        (Matrix.of (fun i j : Fin n =>
          matMul (compute (computeCov2 iaf inner fullS)).matrixU
            (compute (computeCov2 iaf inner fullS)).transpositionsP n i j)).transpose *
        Matrix.diagonal (fun i : Fin n =>
          (compute (computeCov2 iaf inner fullS)).vectorD.getD i 0) *
        Matrix.of (fun i j : Fin n =>
          matMul (compute (computeCov2 iaf inner fullS)).matrixU
            (compute (computeCov2 iaf inner fullS)).transpositionsP n i j))
    (hnpd : ¬ (Matrix.of (fun i j : Fin n => computeCov2 iaf inner fullS i j)).PosDef) :
    ((compute (computeCov2 iaf inner fullS)).success = false ∨
        ∃ x ∈ (compute (computeCov2 iaf inner fullS)).vectorD, x ≤ 0) ∧
      simulate Real.sqrt compute rnorm ig expectedVec (computeCov2 iaf inner fullS) n s =
        { simDataVec := expectedVec, errorRaised := true, draws := s.draws } := by
  have hcond : (compute (computeCov2 iaf inner fullS)).success = false ∨
      ∃ x ∈ (compute (computeCov2 iaf inner fullS)).vectorD, x ≤ 0 := by
    cases hs : (compute (computeCov2 iaf inner fullS)).success with
    | false => exact Or.inl rfl
    | true =>
      right
      by_contra hno
      obtain ⟨hlen, hdet, heq⟩ := hldlt hs
      apply hnpd
      rw [heq]
      apply posDef_of_factor n _ _ hdet
      intro i
      have hi : (i : Nat) < (compute (computeCov2 iaf inner fullS)).vectorD.length := by
        rw [hlen]; exact i.2
      rw [List.getD_eq_getElem _ _ hi]
      by_contra hle
      exact hno ⟨_, List.getElem_mem hi, not_lt.1 hle⟩
  exact ⟨hcond, simulate_error Real.sqrt compute rnorm ig expectedVec _ n s hdata hcond⟩

theorem simulate_indefinite_covariance_witness :
    ((pivotOnly (computeCov2 (fun _ _ => 1) 1 (fun _ _ => -1))).success = false ∨
        ∃ x ∈ (pivotOnly (computeCov2 (fun _ _ => 1) 1 (fun _ _ => -1))).vectorD, x ≤ 0) ∧
      simulate Real.sqrt pivotOnly (fun _ => 1) oneObsGroup [3]
          (computeCov2 (fun _ _ => 1) 1 (fun _ _ => -1)) 1
          { simDataVec := [], errorRaised := false, draws := 0 } =
        { simDataVec := [3], errorRaised := true, draws := 0 } := by
  have hcov : computeCov2 (fun _ _ => (1 : ℝ)) 1 (fun _ _ => -1) 0 0 = -1 := by
    simp [computeCov2, matMul, matTranspose, selfadjointLower]
  exact simulate_indefinite_covariance pivotOnly (fun _ => 1) oneObsGroup [3] (fun _ _ => 1)
    (fun _ _ => -1) 1 1 { simDataVec := [], errorRaised := false, draws := 0 }
    (by decide)
    (by
      intro _
      refine ⟨rfl, ?_, ?_⟩
      · simp [pivotOnly, matMul, Matrix.det_unique, List.range_succ]
      · ext i j
        have hi : i = 0 := Subsingleton.elim _ _
        have hj : j = 0 := Subsingleton.elim _ _
        subst hi hj
        simp [pivotOnly, matMul, Matrix.mul_apply, hcov, List.range_succ])
    (by
      intro h
      have := h.2 (fun _ => 1) (by
        intro h0
        have := congrFun h0 0
        simp at this)
      simp [Matrix.dotProduct, Matrix.mulVec, hcov] at this
      linarith)

theorem covEq_length (m : Model α) (st : State α) (k c : List Nat) (h : CovEq m st k c) :
    k.length = c.length := by
  rcases h with h | ⟨h1, h2⟩
  · rw [h]
  · by_contra hne
    unfold compatibleCovCompare at h1 h2
    rw [if_pos hne] at h1
    rw [if_pos (fun hc => hne hc.symm)] at h2
    simp only [Except.ok.injEq, decide_eq_false_iff_not, not_lt] at h1 h2
    omega

theorem setRun_bound (st0 : State α) (ig : IndependentGroup α) (ss : SufficientSet α)
    (h : SetRun st0 ig ss) :
    2 ≤ ss.length ∧ (ss.start + ss.length) * ig.clumpSize ≤ ig.gMap.length := by
  obtain ⟨mid, frm, h1, -, h3, h4, h5, -, h7, -⟩ := h
  refine ⟨by rw [h5]; exact h1, ?_⟩
  rw [h4, h5, Nat.add_mul, Nat.div_mul_cancel h3]
  exact h7

theorem setsInv_append (st0 : State α) (ig ig2 : IndependentGroup α) (extra : List Nat)
    (hinv : SetsInv st0 ig) (hs : ig2.sufficientSets = ig.sufficientSets)
    (hc : ig2.clumpSize = ig.clumpSize) (hg : ig2.gMap = ig.gMap ++ extra)
    (hx : ig.clumpSize ∣ extra.length) : SetsInv st0 ig2 := by
  refine ⟨?_, by rw [hs]; exact hinv.sorted, ?_⟩
  · intro ss hss
    rw [hs] at hss
    obtain ⟨mid, frm, h1, h2, h3, h4, h5, h6, h7, h8⟩ := hinv.runs ss hss
    refine ⟨mid, frm, h1, by rw [hc]; exact h2, by rw [hc]; exact h3, by rw [hc]; exact h4, h5,
      ?_, by rw [hc, hg, List.length_append]; omega, h8⟩
    rw [hc, hg, List.drop_append_of_le_length (by omega),
      List.take_append_of_le_length (by rw [List.length_drop]; omega)]
    exact h6
  · rw [hc, hg, List.length_append]
    exact Nat.dvd_add hinv.aligned hx

theorem placeClump_het (m : Model α) (G : List (List Nat)) (st0 : State α) :
    ∀ (clump : List Nat) (ps ps' : PlaceState α) (het het' : Bool),
      PSInv m G st0 ps → placeClump m G.length clump (ps, het) = .ok (ps', het') →
      het' = (het || clump.any (hetOf st0)) := by
  intro clump
  induction clump with
  | nil =>
    intro ps ps' het het' _ h
    simp only [placeClump, Except.ok.injEq, Prod.mk.injEq] at h
    rw [← h.2]
    simp
  | cons u rest ih =>
    intro ps ps' het het' hinv h
    rw [placeClump] at h
    cases hsu : ps.st.getSetup u with
    | error err => rw [hsu] at h; cases h
    | ok su =>
      rw [hsu] at h
      simp only at h
      cases hp : place m G.length ps u with
      | error err => rw [hp] at h; cases h
      | ok ps1 =>
        rw [hp] at h
        simp only at h
        have h1 := ih ps1 ps' _ het' (place_inv m G st0 ps ps1 u hinv hp) h
        have hu : hetOf st0 u = su.heterogenousMean := by
          unfold hetOf
          rw [← hinv.frame.setup, (getSetup_ok _ _ _).1 hsu]
        rw [h1, List.any_cons, hu, Bool.or_assoc]

theorem placeSet_het (m : Model α) (G : List (List Nat)) (st0 : State α) :
    ∀ (clumps : List (List Nat)) (ps ps' : PlaceState α) (het het' : Bool),
      PSInv m G st0 ps → placeSet m G.length clumps (ps, het) = .ok (ps', het') →
      het' = (het || clumps.flatten.any (hetOf st0)) := by
  intro clumps
  induction clumps with
  | nil =>
    intro ps ps' het het' _ h
    simp only [placeSet, Except.ok.injEq, Prod.mk.injEq] at h
    rw [← h.2]
    simp
  | cons c rest ih =>
    intro ps ps' het het' hinv h
    rw [placeSet] at h
    cases hc : placeClump m G.length c (ps, het) with
    | error err => rw [hc] at h; cases h
    | ok acc =>
      obtain ⟨ps1, het1⟩ := acc
      rw [hc] at h
      simp only at h
      obtain ⟨i1, -, -⟩ := placeClump_spec m G st0 c ps ps1 het het1 hinv hc
      rw [ih ps1 ps' het1 het' i1 h, placeClump_het m G st0 c ps ps1 het het1 hinv hc,
        List.flatten_cons, List.any_append, Bool.or_assoc]

/-- Placing a set of clumps of `clumpSize` units keeps the invariant of the
sufficient sets. -/
theorem placeSet_sets (m : Model α) (G : List (List Nat)) (st0 : State α)
    (clumps : List (List Nat)) (ps ps' : PlaceState α) (het het' : Bool)
    (hinv : PSInv m G st0 ps) (hlen : ∀ c ∈ clumps, c.length = ps.ig.clumpSize)
    (hsets : SetsInv st0 ps.ig) (h : placeSet m G.length clumps (ps, het) = .ok (ps', het')) :
    PSInv m G st0 ps' ∧ SetsInv st0 ps'.ig ∧ ps'.ig.clumpSize = ps.ig.clumpSize ∧
      ps'.ig.sufficientSets = ps.ig.sufficientSets ∧
      ps'.ig.gMap = ps.ig.gMap ++ clumps.flatten := by
  obtain ⟨i1, i2, -⟩ := placeSet_spec m G st0 clumps ps ps' het het' hinv h
  have hc : ps'.ig.clumpSize = ps.ig.clumpSize := by rw [i2]
  have hs : ps'.ig.sufficientSets = ps.ig.sufficientSets := by rw [i2]
  have hg : ps'.ig.gMap = ps.ig.gMap ++ clumps.flatten := by rw [i2]
  refine ⟨i1, setsInv_append st0 ps.ig ps'.ig clumps.flatten hsets hs hc hg ?_, hc, hs, hg⟩
  rw [flatten_length_const ps.ig.clumpSize clumps hlen]
  exact Dvd.intro_left _ rfl

theorem placeLoose_sets (m : Model α) (G : List (List Nat)) (st0 : State α) :
    ∀ (cmm : List (List Nat × List (List Nat))) (ps ps' : PlaceState α),
      PSInv m G st0 ps → (∀ e ∈ cmm, ∀ c ∈ e.2, c.length = ps.ig.clumpSize) →
      SetsInv st0 ps.ig → placeLoose m G.length cmm ps = .ok ps' →
      PSInv m G st0 ps' ∧ SetsInv st0 ps'.ig ∧ ps'.ig.clumpSize = ps.ig.clumpSize := by
  intro cmm
  induction cmm with
  | nil =>
    intro ps ps' hinv _ hsets h
    simp only [placeLoose, Except.ok.injEq] at h
    subst h
    exact ⟨hinv, hsets, rfl⟩
  | cons e rest ih =>
    intro ps ps' hinv hlen hsets h
    obtain ⟨key, clumps⟩ := e
    rw [placeLoose] at h
    have hrest : ∀ e ∈ rest, ∀ c ∈ e.2, c.length = ps.ig.clumpSize :=
      fun e he => hlen e (List.mem_cons_of_mem _ he)
    by_cases h1 : 1 < clumps.length
    · rw [if_pos h1] at h
      exact ih ps ps' hinv hrest hsets h
    · rw [if_neg h1] at h
      cases hp : placeSet m G.length clumps (ps, false) with
      | error err => rw [hp] at h; cases h
      | ok acc =>
        obtain ⟨ps1, het1⟩ := acc
        rw [hp] at h
        simp only at h
        obtain ⟨j1, j2, j3, -, -⟩ := placeSet_sets m G st0 clumps ps ps1 false het1 hinv
          (hlen (key, clumps) (List.mem_cons_self _ _)) hsets hp
        obtain ⟨k1, k2, k3⟩ := ih ps1 ps' j1 (by rw [j3]; exact hrest) j2 h
        exact ⟨k1, k2, by rw [k3, j3]⟩

theorem placeSufficient_sets (m : Model α) (G : List (List Nat)) (st0 : State α) :
    ∀ (cmm : List (List Nat × List (List Nat))) (ps ps' : PlaceState α),
      PSInv m G st0 ps → (∀ e ∈ cmm, ∀ c ∈ e.2, c.length = ps.ig.clumpSize) →
      (∀ e ∈ cmm, e.2 ≠ []) → 0 < ps.ig.clumpSize →
      SetsInv st0 ps.ig → placeSufficient m G.length cmm ps = .ok ps' →
      PSInv m G st0 ps' ∧ SetsInv st0 ps'.ig ∧ ps'.ig.clumpSize = ps.ig.clumpSize := by
  intro cmm
  induction cmm with
  | nil =>
    intro ps ps' hinv _ _ _ hsets h
    simp only [placeSufficient, Except.ok.injEq] at h
    subst h
    exact ⟨hinv, hsets, rfl⟩
  | cons e rest ih =>
    intro ps ps' hinv hlen hne hpos hsets h
    obtain ⟨key, clumps⟩ := e
    rw [placeSufficient] at h
    have hrest : ∀ e ∈ rest, ∀ c ∈ e.2, c.length = ps.ig.clumpSize :=
      fun e he => hlen e (List.mem_cons_of_mem _ he)
    have hne2 : ∀ e ∈ rest, e.2 ≠ [] := fun e he => hne e (List.mem_cons_of_mem _ he)
    by_cases h1 : clumps.length = 1
    · rw [if_pos h1] at h
      exact ih ps ps' hinv hrest hne2 hpos hsets h
    · rw [if_neg h1] at h
      simp only at h
      cases hp : placeSet m G.length clumps (ps, false) with
      | error err => rw [hp] at h; cases h
      | ok acc =>
        obtain ⟨ps1, het1⟩ := acc
        rw [hp] at h
        simp only at h
        have hcl := hlen (key, clumps) (List.mem_cons_self _ _)
        obtain ⟨j1, j2, j3, j4, j5⟩ := placeSet_sets m G st0 clumps ps ps1 false het1 hinv
          hcl hsets hp
        have hhet := placeSet_het m G st0 clumps ps ps1 false het1 hinv hp
        cases hh : het1 with
        | true =>
          rw [hh] at h
          simp only [if_true] at h
          obtain ⟨k1, k2, k3⟩ := ih ps1 ps' j1 (by rw [j3]; exact hrest) hne2
            (by rw [j3]; exact hpos) j2 h
          exact ⟨k1, k2, by rw [k3, j3]⟩
        | false =>
          rw [hh] at h
          simp only [Bool.false_eq_true, if_false] at h
          have hpl : ps.ig.placements.length = ps.ig.gMap.length := hinv.plen
          have hpl1 : ps1.ig.placements.length = ps.ig.gMap.length + clumps.flatten.length := by
            rw [j1.plen, j5, List.length_append]
          have hflat : clumps.flatten.length = clumps.length * ps.ig.clumpSize :=
            flatten_length_const ps.ig.clumpSize clumps hcl
          have hcl2 : 2 ≤ clumps.length := by
            have : clumps ≠ [] := hne (key, clumps) (List.mem_cons_self _ _)
            have : clumps.length ≠ 0 := fun h0 => this (List.length_eq_zero.1 h0)
            omega
          have hnohet : ∀ c ∈ clumps, ∀ u ∈ c, hetOf st0 u = false := by
            intro c hc u hu
            rw [hh] at hhet
            simp only [Bool.false_or] at hhet
            have hall := hhet.symm
            rw [List.any_eq_false] at hall
            have := hall u (List.mem_flatten.2 ⟨c, hc, hu⟩)
            simpa using this
          have hnew : SetsInv st0
              { ps1.ig with sufficientSets := ps1.ig.sufficientSets ++
                [{ start := ps.ig.placements.length / ps1.ig.clumpSize,
                   length := (ps1.ig.placements.length - ps.ig.placements.length) /
                     ps1.ig.clumpSize,
                   dataMean := [], dataCov := [] }] } := by
            refine ⟨?_, ?_, j2.aligned⟩
            · intro ss hss
              simp only [List.mem_append, List.mem_singleton] at hss
              rcases hss with hss | rfl
              · exact j2.runs ss hss
              · refine ⟨clumps, ps.ig.gMap.length, hcl2, by rw [j3]; exact hcl,
                  by rw [j3]; exact hsets.aligned, by rw [hpl], ?_, ?_, ?_, hnohet⟩
                · simp only
                  rw [hpl1, hpl, Nat.add_sub_cancel_left, hflat, j3,
                    Nat.mul_div_cancel _ hpos]
                · simp only
                  rw [j5, List.drop_left, j3, ← hflat, List.take_length]
                · simp only
                  rw [j5, List.length_append, hflat, j3]
            · simp only
              rw [List.pairwise_append]
              refine ⟨j2.sorted, List.pairwise_singleton _ _, ?_⟩
              intro a ha b hb
              simp only [List.mem_singleton] at hb
              subst hb
              simp only
              rw [j4] at ha
              obtain ⟨-, hb2⟩ := setRun_bound st0 ps.ig a (hsets.runs a ha)
              rw [hpl, j3, Nat.le_div_iff_mul_le hpos]
              exact hb2
          have hinv1 : PSInv m G st0
              { ps1 with ig := { ps1.ig with sufficientSets := ps1.ig.sufficientSets ++
                [{ start := ps.ig.placements.length / ps1.ig.clumpSize,
                   length := (ps1.ig.placements.length - ps.ig.placements.length) /
                     ps1.ig.clumpSize,
                   dataMean := [], dataCov := [] }] } } :=
            ⟨j1.assign, j1.frame, j1.plen, j1.offsets⟩
          obtain ⟨k1, k2, k3⟩ := ih _ ps' hinv1 (by simp only; rw [j3]; exact hrest) hne2
            (by simp only; rw [j3]; exact hpos) hnew h
          exact ⟨k1, k2, by rw [k3]; exact j3⟩

/-- The sufficient sets of the group that `planGroup` builds from clumps of
one length. -/
theorem planGroup_sets (m : Model α) (budget : Nat) (G : List (List Nat)) (st0 st st' : State α)
    (clumps : List (List Nat)) (hassign : AssignInv (G ++ [[]]) st) (hframe : PlanFrame st0 st)
    (hG : G.length = st.group.length)
    (hlen : ∀ c ∈ clumps, c.length = (clumps.headD []).length)
    (h : planGroup m budget st clumps = .ok st') :
    ∃ ig, st'.group = st.group ++ [ig] ∧ SetsInv st0 ig ∧ 0 < ig.clumpSize ∧
      ig.placements.length = ig.gMap.length ∧
      (m.useSufficientSets = false → ig.sufficientSets = []) := by
  unfold planGroup at h
  simp only at h
  cases hcm : collectMeans m st budget clumps [] with
  | error err => rw [hcm] at h; cases h
  | ok cmm =>
    rw [hcm] at h
    simp only at h
    obtain ⟨-, -, c3⟩ := collectMeans_spec m st budget clumps [] cmm hcm
    have hsub : ∀ e ∈ cmm, ∀ c ∈ e.2, c ∈ clumps := by
      intro e he c hc
      rcases c3 e he c hc with h1 | ⟨e0, he0, -⟩
      · exact h1
      · simp at he0
    have hne := collectMeans_nonempty m st budget clumps [] cmm hcm (fun e he => by simp at he)
    rw [← hG] at h
    have hpsinit : PSInv m G st0
        { st := st, ig := IndependentGroup.new ((clumps.headD []).length) } := by
      refine ⟨hassign, hframe, rfl, ?_⟩
      intro q pl hq
      simp [IndependentGroup.new] at hq
    have hsinit : SetsInv st0 (IndependentGroup.new ((clumps.headD []).length) :
        IndependentGroup α) :=
      ⟨fun ss hss => by simp [IndependentGroup.new] at hss, List.Pairwise.nil,
        by simp [IndependentGroup.new]⟩
    have hcmmlen : ∀ e ∈ cmm, ∀ c ∈ e.2, c.length = (clumps.headD []).length :=
      fun e he c hc => hlen c (hsub e he c hc)
    cases hpl : placeLoose m G.length cmm
        { st := st, ig := IndependentGroup.new ((clumps.headD []).length) } with
    | error err => rw [hpl] at h; cases h
    | ok ps1 =>
      rw [hpl] at h
      simp only at h
      obtain ⟨d1, d2, d3⟩ := placeLoose_sets m G st0 cmm _ ps1 hpsinit hcmmlen hsinit hpl
      have hsize1 : ps1.ig.clumpSize = (clumps.headD []).length := d3
      cases hsf : placeSufficient m G.length cmm ps1 with
      | error err => rw [hsf] at h; cases h
      | ok ps2 =>
        rw [hsf] at h
        simp only at h
        -- the group has a unit, since `prep` returns
        have hinit : PlacedInv m G st0 st.group clumps []
            { st := st, ig := IndependentGroup.new ((clumps.headD []).length) } := by
          refine ⟨hpsinit, rfl, fun c hc => by simp at hc, rfl, rfl, rfl, rfl,
            rfl, fun ss hss => by simp [IndependentGroup.new] at hss⟩
        obtain ⟨cl1, p1, -, -, -⟩ := placeLoose_spec m G st0 st.group clumps cmm [] _ ps1
          hsub hinit hpl
        obtain ⟨cl2, e1, -, -⟩ := placeSufficient_spec m G st0 st.group clumps cmm cl1 ps1 ps2
          hsub hne p1 hsf
        have hps3 : PSInv m G st0 (if m.useSufficientSets then ps2
             else { ps2 with ig := { ps2.ig with sufficientSets := [] } }) := by
          split
          · exact e1.inv
          · exact ⟨e1.inv.assign, e1.inv.frame, e1.inv.plen, e1.inv.offsets⟩
        cases hpr : prep m (if m.useSufficientSets then ps2
             else { ps2 with ig := { ps2.ig with sufficientSets := [] } }) with
        | error err => rw [hpr] at h; cases h
        | ok ps4 =>
          rw [hpr] at h
          simp only [Except.ok.injEq] at h
          obtain ⟨f1, f2, f3, f4, f5, f6, f7, -⟩ := prep_spec m G st0 _ ps4 hps3 hpr
          have hsize3 : (if m.useSufficientSets then ps2
              else { ps2 with ig := { ps2.ig with sufficientSets := [] } }).ig.clumpSize =
              ps2.ig.clumpSize := by
            split <;> rfl
          have hpos1 : 0 < ps1.ig.clumpSize := by
            rw [hsize3, e1.size] at f7
            rw [hsize1]
            exact f7
          obtain ⟨g1, g2, g3⟩ := placeSufficient_sets m G st0 cmm ps1 ps2 d1
            (by rw [hsize1]; exact hcmmlen) hne hpos1 d2 hsf
          have hsets3 : SetsInv st0 (if m.useSufficientSets then ps2
              else { ps2 with ig := { ps2.ig with sufficientSets := [] } }).ig := by
            split
            · exact g2
            · exact ⟨fun ss hss => by simp at hss, List.Pairwise.nil, g2.aligned⟩
          refine ⟨ps4.ig, ?_, ?_, by rw [f6]; exact f7, f1.plen, ?_⟩
          · rw [← h]
            simp only
            rw [f2]
            congr 1
            split
            · exact e1.group
            · exact e1.group
          · exact setsInv_append st0 _ ps4.ig [] hsets3 f5 f6 (by rw [f3, List.append_nil])
              (by simp)
          · intro hno
            rw [f5, hno]
            rfl

theorem planGroups_sets (m : Model α) (budget : Nat) (st0 : State α)
    (P : IndependentGroup α → Prop)
    (hP : ∀ ig, SetsInv st0 ig → 0 < ig.clumpSize → ig.placements.length = ig.gMap.length →
      (m.useSufficientSets = false → ig.sufficientSets = []) → P ig) :
    ∀ (cgm : List (List Nat × List (List Nat))) (done : List (List (List Nat)))
      (st st' : State α), PlanInv m st0 done st →
      (∀ e ∈ cgm, ∀ c ∈ e.2, c.length = (e.2.headD []).length) →
      (∀ ig ∈ st.group, P ig) → planGroups m budget cgm st = .ok st' →
      ∀ ig ∈ st'.group, P ig := by
  intro cgm
  induction cgm with
  | nil =>
    intro done st st' _ _ hold h
    simp only [planGroups, Except.ok.injEq] at h
    subst h
    exact hold
  | cons e rest ih =>
    intro done st st' hinv hlen hold h
    obtain ⟨key, clumps⟩ := e
    rw [planGroups] at h
    cases hg : planGroup m budget st clumps with
    | error err => rw [hg] at h; cases h
    | ok st1 =>
      rw [hg] at h
      simp only at h
      obtain ⟨ig, i1, i2, i3, i4, i5⟩ := planGroup_sets m budget
        (st.group.map (fun g => g.gMap)) st0 st st1 clumps hinv.assign hinv.frame
        (by rw [List.length_map]) (hlen (key, clumps) (List.mem_cons_self _ _)) hg
      apply ih (done ++ [clumps]) st1 st' (planInv_step m budget st0 st st1 done clumps hinv hg)
        (fun e he => hlen e (List.mem_cons_of_mem _ he)) ?_ h
      intro g hgm
      rw [i1, List.mem_append, List.mem_singleton] at hgm
      rcases hgm with hgm | rfl
      · exact hold g hgm
      · exact hP _ i2 i3 i4 i5

/-- C19 (sufficient sets are well-formed runs): in every group that a
returning `planModelEval` builds, every sufficient set has a length of 2 or
more and ends inside the placements, `(start + length) * clumpSize <=
placements.size()`; it is a run of clumps: before it `frm` units were placed,
a multiple of `clumpSize`, with `start = frm / clumpSize`, then its `length`
clumps of `clumpSize` units each, none of them flagged `heterogenousMean`; the
sufficient sets of a group lie one after the other without overlap; and with
`useSufficientSets = false` the list is empty. -/
theorem sufficient_sets_well_formed (m : Model α) (budget : Nat) (st st' : State α)
    (hstart : PlanStart st) (h : planModelEval m budget st = .ok st') :
    ∀ ig ∈ st'.group,
      (∀ ss ∈ ig.sufficientSets,
        2 ≤ ss.length ∧ (ss.start + ss.length) * ig.clumpSize ≤ ig.placements.length ∧
        ∃ (mid : List (List Nat)) (frm : Nat), 2 ≤ mid.length ∧
          (∀ c ∈ mid, c.length = ig.clumpSize) ∧ ig.clumpSize ∣ frm ∧
          ss.start = frm / ig.clumpSize ∧ ss.length = mid.length ∧
          (ig.gMap.drop frm).take (mid.length * ig.clumpSize) = mid.flatten ∧
          frm + mid.length * ig.clumpSize ≤ ig.gMap.length ∧
          ∀ c ∈ mid, ∀ u ∈ c, ∀ s, st'.layoutSetup[u]? = some s →
            s.heterogenousMean = false) ∧
      ig.sufficientSets.Pairwise (fun a b => a.start + a.length ≤ b.start) ∧
      (m.useSufficientSets = false → ig.sufficientSets = []) := by
  obtain ⟨sets, hplan, -⟩ := planModelEval_spec m budget st st' hstart h
  have hsetup : st'.layoutSetup = st.layoutSetup := hplan.frame.setup
  have hP : ∀ ig : IndependentGroup α, SetsInv st ig → 0 < ig.clumpSize →
      ig.placements.length = ig.gMap.length →
      (m.useSufficientSets = false → ig.sufficientSets = []) →
      ((∀ ss ∈ ig.sufficientSets,
        2 ≤ ss.length ∧ (ss.start + ss.length) * ig.clumpSize ≤ ig.placements.length ∧
        ∃ (mid : List (List Nat)) (frm : Nat), 2 ≤ mid.length ∧
          (∀ c ∈ mid, c.length = ig.clumpSize) ∧ ig.clumpSize ∣ frm ∧
          ss.start = frm / ig.clumpSize ∧ ss.length = mid.length ∧
          (ig.gMap.drop frm).take (mid.length * ig.clumpSize) = mid.flatten ∧
          frm + mid.length * ig.clumpSize ≤ ig.gMap.length ∧
          ∀ c ∈ mid, ∀ u ∈ c, ∀ s, st'.layoutSetup[u]? = some s →
            s.heterogenousMean = false) ∧
      ig.sufficientSets.Pairwise (fun a b => a.start + a.length ≤ b.start) ∧
      (m.useSufficientSets = false → ig.sufficientSets = [])) := by
    intro ig hinv _ hpl hno
    refine ⟨?_, hinv.sorted, hno⟩
    intro ss hss
    obtain ⟨b1, b2⟩ := setRun_bound st ig ss (hinv.runs ss hss)
    obtain ⟨mid, frm, h1, h2, h3, h4, h5, h6, h7, h8⟩ := hinv.runs ss hss
    refine ⟨b1, by rw [hpl]; exact b2, mid, frm, h1, h2, h3, h4, h5, h6, h7, ?_⟩
    intro c hc u hu s hs
    have := h8 c hc u hu
    unfold hetOf at this
    rw [← hsetup, hs] at this
    exact this
  unfold planModelEval at h
  cases hf : m.forceSingleGroup with
  | true =>
    rw [hf] at h
    simp only [if_true] at h
    rw [hstart.no_group] at h
    cases hp : placeAll m ([] : List (IndependentGroup α)).length (List.range st.layout.length)
        { st := st, ig := IndependentGroup.new st.layout.length } with
    | error err => rw [hp] at h; cases h
    | ok ps =>
      rw [hp] at h
      simp only at h
      have hinit : PSInv m [] st { st := st, ig := IndependentGroup.new st.layout.length } := by
        refine ⟨planStart_assign st hstart, PlanFrame.refl_plan st, rfl, ?_⟩
        intro q pl hq
        simp [IndependentGroup.new] at hq
      obtain ⟨a1, a2, a3⟩ := placeAll_spec m [] st _ _ ps hinit hp
      cases hpr : prep m ps with
      | error err => rw [hpr] at h; cases h
      | ok ps4 =>
        rw [hpr] at h
        simp only [Except.ok.injEq] at h
        obtain ⟨f1, f2, f3, f4, f5, f6, f7, -⟩ := prep_spec m [] st ps ps4 a1 hpr
        have hsets : ps4.ig.sufficientSets = [] := by
          rw [f5, a2]
          rfl
        intro ig hig
        rw [← h] at hig
        simp only [List.mem_append, List.mem_singleton] at hig
        rcases hig with hig | rfl
        · rw [f2, a3] at hig
          simp only at hig
          rw [hstart.no_group] at hig
          cases hig
        · refine ⟨fun ss hss => ?_, ?_, fun _ => hsets⟩
          · rw [hsets] at hss
            cases hss
          · rw [hsets]
            exact List.Pairwise.nil
  | false =>
    rw [hf] at h
    simp only [Bool.false_eq_true, if_false] at h
    cases hcc : computeConnected m st with
    | error err => rw [hcc] at h; cases h
    | ok cc =>
      rw [hcc] at h
      simp only at h
      cases hacc : collectClumps m st budget cc.region st.layout.length 0
          { connected := cc.connected, cgm := [] } with
      | error err => rw [hacc] at h; cases h
      | ok acc =>
        rw [hacc] at h
        simp only at h
        obtain ⟨c1, c2, -⟩ := computeConnected_spec m st cc hcc
        obtain ⟨-, d2⟩ := collectClumps_spec m st budget cc c1 c2 acc hacc
        refine planGroups_sets m budget st _ hP acc.cgm [] st st' (planStart_inv m st hstart) ?_
          ?_ h
        · intro e he c hc
          have hk := covEq_length m st e.1 c (d2 e he c hc)
          cases hh : e.2 with
          | nil => rw [hh] at hc; cases hc
          | cons x xs =>
            have hx := covEq_length m st e.1 x (d2 e he x (by rw [hh]; exact List.mem_cons_self _ _))
            simp only [List.headD_cons]
            omega
        · intro ig hig
          rw [hstart.no_group] at hig
          cases hig

theorem sufficient_sets_well_formed_witness :
    PlanStart plainFlat ∧
    ∃ st' : State ℚ, planModelEval (familyModel false) 10 plainFlat = .ok st' ∧
      (st'.group.map (fun g => (g.clumpSize, g.placements.length,
        g.sufficientSets.map (fun s => (s.start, s.length))))) = [(4, 8, [(0, 2)])] ∧
      ∀ ig ∈ st'.group,
        (∀ ss ∈ ig.sufficientSets,
          2 ≤ ss.length ∧ (ss.start + ss.length) * ig.clumpSize ≤ ig.placements.length ∧
          ∃ (mid : List (List Nat)) (frm : Nat), 2 ≤ mid.length ∧
            (∀ c ∈ mid, c.length = ig.clumpSize) ∧ ig.clumpSize ∣ frm ∧
            ss.start = frm / ig.clumpSize ∧ ss.length = mid.length ∧
            (ig.gMap.drop frm).take (mid.length * ig.clumpSize) = mid.flatten ∧
            frm + mid.length * ig.clumpSize ≤ ig.gMap.length ∧
            ∀ c ∈ mid, ∀ u ∈ c, ∀ s, st'.layoutSetup[u]? = some s →
              s.heterogenousMean = false) ∧
        ig.sufficientSets.Pairwise (fun a b => a.start + a.length ≤ b.start) ∧
        ((familyModel false).useSufficientSets = false → ig.sufficientSets = []) := by
  have hstart : PlanStart plainFlat := by
    refine ⟨?_, by decide⟩
    have h : plainFlat.group.isEmpty = true := by decide
    exact List.isEmpty_iff.1 h
  refine ⟨hstart, ?_⟩
  cases hrun : planModelEval (familyModel false) 10 plainFlat with
  | error err =>
    have hok : (match planModelEval (familyModel false) 10 plainFlat with
      | .ok _ => true
      | .error _ => false) = true := by decide
    rw [hrun] at hok
    cases hok
  | ok st' =>
    have hshape : (match planModelEval (familyModel false) 10 plainFlat with
      | .ok st => decide ((st.group.map (fun g => (g.clumpSize, g.placements.length,
          g.sufficientSets.map (fun s => (s.start, s.length))))) = [(4, 8, [(0, 2)])])
      | .error _ => false) = true := by decide
    rw [hrun] at hshape
    exact ⟨st', rfl, of_decide_eq_true hshape,
      sufficient_sets_well_formed (familyModel false) 10 plainFlat st' hstart hrun⟩

theorem reach_le (st : State α) (hf : ClumpForest st) (a w : Nat)
    (h : Relation.ReflTransGen (Child st) a w) : a ≤ w := by
  induction h with
  | refl => exact Nat.le_refl _
  | tail _ hc ih => exact Nat.le_trans ih (Nat.le_of_lt (hf.lt _ _ hc))

/-- Two units from which one unit is reached through clumps lie on one chain.
-/
theorem reach_chain (st : State α) (hf : ClumpForest st) (a b w : Nat)
    (ha : Relation.ReflTransGen (Child st) a w) (hb : Relation.ReflTransGen (Child st) b w) :
    Relation.ReflTransGen (Child st) a b ∨ Relation.ReflTransGen (Child st) b a := by
  induction ha with
  | refl => exact Or.inr hb
  | tail hax hxw ih =>
    rcases Relation.ReflTransGen.cases_tail hb with hbw | ⟨y, hby, hyw⟩
    · left
      rw [← hbw]
      exact Relation.ReflTransGen.tail hax hxw
    · have := hf.uniq _ _ _ hxw hyw
      subst this
      exact ih hby

theorem reach_loose (st : State α) (hf : ClumpForest st) (a r : Nat) (hr : Loose st r)
    (h : Relation.ReflTransGen (Child st) a r) : a = r := by
  rcases Relation.ReflTransGen.cases_tail h with h1 | ⟨y, -, hy⟩
  · exact h1.symm
  · obtain ⟨s, hs, hc⟩ := hr
    obtain ⟨sv, hsv, hcl⟩ := hf.child_clumped _ _ hy
    rw [hs] at hsv
    cases hsv
    rw [hc] at hcl
    cases hcl

/-- Two members of one clump have no unit below both. -/
theorem siblings_apart (st : State α) (hf : ClumpForest st) (u x y w : Nat)
    (hx : Child st u x) (hy : Child st u y) (hne : x ≠ y)
    (h1 : Relation.ReflTransGen (Child st) x w) (h2 : Relation.ReflTransGen (Child st) y w) :
    False := by
  have key : ∀ p q, Child st u p → Child st u q → p ≠ q →
      Relation.ReflTransGen (Child st) p q → False := by
    intro p q hp hq hpq hreach
    rcases Relation.ReflTransGen.cases_tail hreach with h | ⟨z, hpz, hzq⟩
    · exact hpq h.symm
    · have := hf.uniq _ _ _ hzq hq
      subst this
      have h3 := reach_le st hf _ _ hpz
      have h4 := hf.lt _ _ hp
      omega
  rcases reach_chain st hf x y w h1 h2 with h | h
  · exact key x y hx hy hne h
  · exact key y x hy hx (fun e => hne e.symm) h

theorem appendClumpLoop_exact (st : State α) (hf : ClumpForest st) (u : Nat)
    (app : Nat → List Nat → Except Error (List Nat))
    (happ : ∀ x clump clump2, app x clump = .ok clump2 →
      ∃ T, clump2 = clump ++ T ∧ T.Nodup ∧ ∀ w, w ∈ T ↔ Relation.ReflTransGen (Child st) x w) :
    ∀ (cs clump clump2 : List Nat), cs.Nodup → (∀ x ∈ cs, Child st u x) →
      appendClumpLoop app cs clump = .ok clump2 →
      ∃ T, clump2 = clump ++ T ∧ T.Nodup ∧
        ∀ w, w ∈ T ↔ ∃ x ∈ cs, Relation.ReflTransGen (Child st) x w := by
  intro cs
  induction cs with
  | nil =>
    intro clump clump2 _ _ h
    simp only [appendClumpLoop, Except.ok.injEq] at h
    exact ⟨[], by simp [h], List.nodup_nil, fun w => by simp⟩
  | cons x rest ih =>
    intro clump clump2 hnd hch h
    rw [appendClumpLoop] at h
    cases h1 : app x clump with
    | error err => rw [h1] at h; cases h
    | ok clump1 =>
      rw [h1] at h
      simp only at h
      obtain ⟨T1, e1, n1, m1⟩ := happ x clump clump1 h1
      obtain ⟨T2, e2, n2, m2⟩ := ih clump1 clump2 (List.nodup_cons.1 hnd).2
        (fun y hy => hch y (List.mem_cons_of_mem _ hy)) h
      refine ⟨T1 ++ T2, by rw [e2, e1, List.append_assoc], ?_, ?_⟩
      · rw [List.nodup_append]
        refine ⟨n1, n2, ?_⟩
        intro w hw1 hw2
        obtain ⟨y, hy, hyw⟩ := (m2 w).1 hw2
        have hxy : x ≠ y := fun e => (List.nodup_cons.1 hnd).1 (e ▸ hy)
        exact siblings_apart st hf u x y w (hch x (List.mem_cons_self _ _))
          (hch y (List.mem_cons_of_mem _ hy)) hxy ((m1 w).1 hw1) hyw
      · intro w
        rw [List.mem_append, m1, m2]
        constructor
        · rintro (h | ⟨y, hy, hyw⟩)
          · exact ⟨x, List.mem_cons_self _ _, h⟩
          · exact ⟨y, List.mem_cons_of_mem _ hy, hyw⟩
        · rintro ⟨y, hy, hyw⟩
          rcases List.mem_cons.1 hy with rfl | hy
          · exact Or.inl hyw
          · exact Or.inr ⟨y, hy, hyw⟩

/-- In a forest of clumps `appendClump` appends the units reached from `ax`
through clumps, each once. -/
theorem appendClump_exact (st : State α) (hf : ClumpForest st) :
    ∀ (fuel ax : Nat) (clump clump2 : List Nat), appendClump st fuel ax clump = .ok clump2 →
      ∃ T, clump2 = clump ++ T ∧ T.Nodup ∧
        ∀ w, w ∈ T ↔ Relation.ReflTransGen (Child st) ax w := by
  intro fuel
  induction fuel with
  | zero => intro ax clump clump2 h; simp [appendClump] at h
  | succ fuel ih =>
    intro ax clump clump2 h
    rw [appendClump] at h
    cases h1 : st.getSetup ax with
    | error err => rw [h1] at h; cases h
    | ok a1 =>
      rw [h1] at h
      simp only at h
      have hs := (getSetup_ok _ _ _).1 h1
      obtain ⟨T, e1, n1, m1⟩ := appendClumpLoop_exact st hf ax (appendClump st fuel)
        (fun x cl cl2 hx => ih x cl cl2 hx) a1.clump _ clump2 (hf.nodup ax a1 hs)
        (fun x hx => ⟨a1, hs, hx⟩) h
      refine ⟨ax :: T, by rw [e1, List.append_assoc]; rfl, ?_, ?_⟩
      · rw [List.nodup_cons]
        refine ⟨?_, n1⟩
        intro hmem
        obtain ⟨x, hx, hxw⟩ := (m1 ax).1 hmem
        have h3 := reach_le st hf _ _ hxw
        have h4 := hf.lt ax x ⟨a1, hs, hx⟩
        omega
      · intro w
        rw [List.mem_cons, m1]
        constructor
        · rintro (rfl | ⟨x, hx, hxw⟩)
          · exact Relation.ReflTransGen.refl
          · exact Relation.ReflTransGen.head ⟨a1, hs, hx⟩ hxw
        · intro hr
          rcases Relation.ReflTransGen.cases_head hr with h5 | ⟨x, hax, hxw⟩
          · exact Or.inl h5.symm
          · obtain ⟨s, hs2, hx⟩ := hax
            rw [hs] at hs2
            cases hs2
            exact Or.inr ⟨x, hx, hxw⟩

theorem firstLoose_loose (st : State α) :
    ∀ (l : List Nat) (u : Nat), firstLoose st l = .ok (some u) → Loose st u := by
  intro l
  induction l with
  | nil => intro u h; simp [firstLoose] at h
  | cons x xs ih =>
    intro u h
    rw [firstLoose] at h
    cases h1 : st.getSetup x with
    | error err => rw [h1] at h; cases h
    | ok as2 =>
      rw [h1] at h
      simp only at h
      by_cases hc : as2.clumped = true
      · rw [if_pos hc] at h
        exact ih u h
      · rw [if_neg hc] at h
        simp only [Except.ok.injEq, Option.some.injEq] at h
        rw [← h]
        exact ⟨as2, (getSetup_ok _ _ _).1 h1, by simpa using hc⟩

theorem firstLoose_none (st : State α) :
    ∀ (l : List Nat), firstLoose st l = .ok none → ∀ u ∈ l, ¬ Loose st u := by
  intro l
  induction l with
  | nil => intro _ u hu; cases hu
  | cons x xs ih =>
    intro h u hu
    rw [firstLoose] at h
    cases h1 : st.getSetup x with
    | error err => rw [h1] at h; cases h
    | ok as2 =>
      rw [h1] at h
      simp only at h
      by_cases hc : as2.clumped = true
      · rw [if_pos hc] at h
        rcases List.mem_cons.1 hu with rfl | hu
        · rintro ⟨s, hs, hcl⟩
          rw [(getSetup_ok _ _ _).1 h1] at hs
          cases hs
          rw [hc] at hcl
          cases hcl
        · exact ih h u hu
      · rw [if_neg hc] at h
        cases h

/-- In a forest of clumps the loop that orders a component appends, each once,
the units reached from the units of the component that are not clumped; what
it leaves is clumped and not appended. -/
theorem sortClump_exact (st : State α) (hf : ClumpForest st) (budget : Nat) :
    ∀ (n : Nat) (S clump clump2 left : List Nat), S.length ≤ n →
      sortClump st budget n S clump = .ok (clump2, left) →
      ∃ T, clump2 = clump ++ T ∧ T.Nodup ∧
        (∀ w ∈ T, ∃ r ∈ S, Loose st r ∧ Relation.ReflTransGen (Child st) r w) ∧
        (∀ r ∈ S, Loose st r → ∀ w, Relation.ReflTransGen (Child st) r w → w ∈ T) ∧
        (∀ u ∈ left, u ∈ S ∧ u ∉ T ∧ ¬ Loose st u) := by
  intro n
  induction n with
  | zero =>
    intro S clump clump2 left hlen h
    simp only [sortClump, Except.ok.injEq, Prod.mk.injEq] at h
    obtain ⟨h1, h2⟩ := h
    have hS : S = [] := List.length_eq_zero.1 (by omega)
    subst hS
    refine ⟨[], by simp [h1], List.nodup_nil, ?_, ?_, ?_⟩
    · intro w hw
      cases hw
    · intro r hr
      cases hr
    · intro u hu
      rw [← h2] at hu
      cases hu
  | succ n ih =>
    intro S clump clump2 left hlen h
    rw [sortClump] at h
    cases h1 : firstLoose st S with
    | error err => rw [h1] at h; cases h
    | ok r0 =>
      rw [h1] at h
      cases r0 with
      | none =>
        simp only [Except.ok.injEq, Prod.mk.injEq] at h
        obtain ⟨h2, h3⟩ := h
        have hnone := firstLoose_none st S h1
        refine ⟨[], by simp [h2], List.nodup_nil, ?_,
          fun r hr hl => absurd hl (hnone r hr), ?_⟩
        · intro w hw
          cases hw
        · intro u hu
          rw [← h3] at hu
          exact ⟨hu, by simp, hnone u hu⟩
      | some u0 =>
        simp only at h
        have hu0S := firstLoose_mem st S u0 h1
        have hu0L := firstLoose_loose st S u0 h1
        cases h2 : appendClump st budget u0 clump with
        | error err => rw [h2] at h; cases h
        | ok clump1 =>
          rw [h2] at h
          simp only at h
          obtain ⟨T0, e0, n0, m0⟩ := appendClump_exact st hf budget u0 clump clump1 h2
          have hdrop : clump1.drop clump.length = T0 := by
            rw [e0]; simp
          rw [hdrop] at h
          have hu0T : u0 ∈ T0 := (m0 u0).2 Relation.ReflTransGen.refl
          have hfl : (S.filter (fun x => !(T0.contains x))).length ≤ n := by
            have hlt : (S.filter (fun x => !(T0.contains x))).length < S.length := by
              apply List.length_filter_lt_length_iff_exists.2
              exact ⟨u0, hu0S, by simp [hu0T]⟩
            omega
          obtain ⟨T1, e1, n1, a1, b1, c1⟩ := ih _ clump1 clump2 left hfl h
          have hmemf : ∀ x, x ∈ S.filter (fun x => !(T0.contains x)) ↔ x ∈ S ∧ x ∉ T0 := by
            intro x
            rw [List.mem_filter]
            simp
          refine ⟨T0 ++ T1, by rw [e1, e0, List.append_assoc], ?_, ?_, ?_, ?_⟩
          · rw [List.nodup_append]
            refine ⟨n0, n1, ?_⟩
            intro w hw0 hw1
            obtain ⟨r, hr, hrl, hrw⟩ := a1 w hw1
            have hr2 := (hmemf r).1 hr
            rcases reach_chain st hf u0 r w ((m0 w).1 hw0) hrw with hc | hc
            · have := reach_loose st hf u0 r hrl hc
              exact hr2.2 (this ▸ hu0T)
            · have := reach_loose st hf r u0 hu0L hc
              exact hr2.2 (this ▸ hu0T)
          · intro w hw
            rcases List.mem_append.1 hw with hw | hw
            · exact ⟨u0, hu0S, hu0L, (m0 w).1 hw⟩
            · obtain ⟨r, hr, hrl, hrw⟩ := a1 w hw
              exact ⟨r, ((hmemf r).1 hr).1, hrl, hrw⟩
          · intro r hr hrl w hrw
            by_cases hin : r ∈ T0
            · have := reach_loose st hf u0 r hrl ((m0 r).1 hin)
              subst this
              exact List.mem_append_left _ ((m0 w).2 hrw)
            · exact List.mem_append_right _ (b1 r ((hmemf r).2 ⟨hr, hin⟩) hrl w hrw)
          · intro u hu
            obtain ⟨d1, d2, d3⟩ := c1 u hu
            have hu2 := (hmemf u).1 d1
            refine ⟨hu2.1, ?_, d3⟩
            intro hmem
            rcases List.mem_append.1 hmem with hm | hm
            · exact hu2.2 hm
            · exact d2 hm

/-- Every unit is reached through clumps from a unit that is not clumped. -/
theorem loose_root (st : State α) (hf : ClumpForest st) :
    ∀ (w : Nat) (sw : AddrSetup), st.layoutSetup[w]? = some sw →
      ∃ r, Loose st r ∧ Relation.ReflTransGen (Child st) r w := by
  intro w
  induction w using Nat.strong_induction_on with
  | _ w ih =>
    intro sw hsw
    cases hc : sw.clumped with
    | false => exact ⟨w, ⟨sw, hsw, hc⟩, Relation.ReflTransGen.refl⟩
    | true =>
      obtain ⟨u, hu⟩ := hf.clumped_child w sw hsw hc
      have hu2 := hu
      obtain ⟨su, hsu, -⟩ := hu2
      obtain ⟨r, hr, hru⟩ := ih u (hf.lt u w hu) su hsu
      exact ⟨r, hr, Relation.ReflTransGen.tail hru hu⟩

/-- For a component that is closed under the clumps the loop that orders it
leaves nothing: its result holds every unit of the component once. -/
theorem sortClump_component (st : State α) (hf : ClumpForest st) (budget : Nat)
    (S clump2 left : List Nat)
    (hsetup : ∀ u ∈ S, ∃ s, st.layoutSetup[u]? = some s)
    (hup : ∀ u v, Child st u v → v ∈ S → u ∈ S)
    (hdown : ∀ u v, Child st u v → u ∈ S → v ∈ S)
    (h : sortClump st budget S.length S [] = .ok (clump2, left)) :
    left = [] ∧ clump2.Nodup ∧ ∀ w, w ∈ clump2 ↔ w ∈ S := by
  obtain ⟨T, e1, n1, a1, b1, c1⟩ := sortClump_exact st hf budget S.length S [] clump2 left
    (Nat.le_refl _) h
  rw [List.nil_append] at e1
  subst e1
  have hupR : ∀ r w, Relation.ReflTransGen (Child st) r w → w ∈ S → r ∈ S := by
    intro r w hr
    induction hr with
    | refl => exact fun h => h
    | tail _ hc ih => exact fun hw => ih (hup _ _ hc hw)
  have hdownR : ∀ r w, Relation.ReflTransGen (Child st) r w → r ∈ S → w ∈ S := by
    intro r w hr hrS
    induction hr with
    | refl => exact hrS
    | tail _ hc ih => exact hdown _ _ hc ih
  have hall : ∀ w ∈ S, w ∈ clump2 := by
    intro w hw
    obtain ⟨sw, hsw⟩ := hsetup w hw
    obtain ⟨r, hr, hrw⟩ := loose_root st hf w sw hsw
    exact b1 r (hupR r w hrw hw) hr w hrw
  refine ⟨?_, n1, fun w => ⟨?_, hall w⟩⟩
  · cases hl : left with
    | nil => rfl
    | cons x xs =>
      exfalso
      obtain ⟨d1, d2, -⟩ := c1 x (by rw [hl]; exact List.mem_cons_self _ _)
      exact d2 (hall x d1)
  · intro hw
    obtain ⟨r, hr, -, hrw⟩ := a1 w hw
    exact hdownR r w hrw hr

theorem getD_none_iff (l : List (Option Nat)) (u : Nat) (hu : u < l.length) :
    l.getD u none = none ↔ l[u]? = some none := by
  simp only [List.getD_eq_getElem?_getD]
  rw [List.getElem?_eq_getElem hu]
  simp

theorem getD_some_iff (l : List (Option Nat)) (u r : Nat) :
    l.getD u none = some r ↔ l[u]? = some (some r) := by
  simp only [List.getD_eq_getElem?_getD]
  cases h : l[u]? with
  | none => simp
  | some v => simp

theorem preconnect_members (cc : Connectedness) (ax : Nat) (hax : ax < cc.region.length)
    (h : cc.Members) : (cc.preconnect ax).Members := by
  unfold Connectedness.preconnect
  split
  · exact h
  · rename_i hnone
    have hnone2 := (getD_none_iff _ _ hax).1 hnone
    intro rg u hu
    simp only at hu ⊢
    by_cases hrg : rg < cc.connected.length
    · rw [List.getElem?_append_left hrg] at hu
      have hold := h rg u hu
      have hne : ax ≠ u := by
        intro e
        subst e
        rw [hnone2] at hold
        cases hold
      rw [List.getElem?_set_ne hne]
      exact hold
    · by_cases hrg2 : rg = cc.connected.length
      · subst hrg2
        simp only [List.getElem?_concat_length, Option.getD_some, List.mem_singleton] at hu
        subst hu
        rw [List.getElem?_set_self hax]
      · rw [List.getElem?_eq_none (by simp; omega)] at hu
        simp at hu

theorem merge_members (cc : Connectedness) (ra rb : Nat) (hne : ra ≠ rb)
    (h : cc.Members) : (cc.merge ra rb).Members := by
  intro rg u hu
  simp only [Connectedness.merge] at hu ⊢
  by_cases hrb : rg = rb
  · subst hrb
    by_cases hlt : rg < (cc.connected.modify
        (fun s => (cc.connected.getD rg []).foldl (fun t x => setInsert x t) s) ra).length
    · rw [List.getElem?_set_self hlt] at hu
      simp at hu
    · rw [List.getElem?_eq_none (by simp at hlt ⊢; omega)] at hu
      simp at hu
  · rw [List.getElem?_set_ne (fun e => hrb e.symm)] at hu
    by_cases hra : ra = rg
    · subst hra
      rw [List.getElem?_modify_eq] at hu
      cases hs : cc.connected[ra]? with
      | none => rw [hs] at hu; simp at hu
      | some s =>
        rw [hs] at hu
        simp only [Option.map_eq_map, Option.map_some', Option.getD_some,
          foldl_setInsert_mem] at hu
        rcases hu with hu | hu
        · have hold := h rb u (by simpa [List.getD_eq_getElem?_getD] using hu)
          rw [List.getElem?_map, hold]
          simp
        · have hold := h ra u (by rw [hs]; simpa using hu)
          rw [List.getElem?_map, hold]
          simp [hne]
    · rw [List.getElem?_modify_ne _ _ hra] at hu
      have hold := h rg u hu
      rw [List.getElem?_map, hold]
      simp [hrb]

theorem connect_members (cc : Connectedness) (ax bx : Nat) (hax : ax < cc.region.length)
    (hbx : bx < cc.region.length) (h : cc.Members) : (cc.connect ax bx).Members := by
  have hp := preconnect_members cc ax hax h
  have hbx2 : bx < (cc.preconnect ax).region.length := by
    rw [preconnect_region_length]; exact hbx
  unfold Connectedness.connect
  split
  · exact hp
  · rename_i ra hra
    split
    · rename_i hnone
      have hnone2 := (getD_none_iff _ _ hbx2).1 hnone
      intro rg u hu
      simp only at hu ⊢
      by_cases hr : ra = rg
      · subst hr
        rw [List.getElem?_modify_eq] at hu
        cases hs : (cc.preconnect ax).connected[ra]? with
        | none => rw [hs] at hu; simp at hu
        | some s =>
          rw [hs] at hu
          simp only [Option.map_eq_map, Option.map_some', Option.getD_some, setInsert_mem] at hu
          rcases hu with rfl | hu
          · rw [List.getElem?_set_self hbx2]
          · have hold := hp ra u (by rw [hs]; simpa using hu)
            have hne : bx ≠ u := by
              intro e
              subst e
              rw [hnone2] at hold
              cases hold
            rw [List.getElem?_set_ne hne]
            exact hold
      · rw [List.getElem?_modify_ne _ _ hr] at hu
        have hold := hp rg u hu
        have hne : bx ≠ u := by
          intro e
          subst e
          rw [hnone2] at hold
          cases hold
        rw [List.getElem?_set_ne hne]
        exact hold
    · rename_i rb hrb
      split
      · exact hp
      · rename_i hne
        exact merge_members _ ra rb hne hp

theorem connectJoins_members (m : Model α) (st : State α) (ax : Nat) (a1 : Addr α)
    (hmap : ∀ k v, st.rowToLayoutMap k = some v → Int.toNat v < st.layout.length) :
    ∀ (bs : List Between) (cc cc2 : Connectedness),
      connectJoins m st ax a1 bs cc = .ok cc2 → cc.Members → ax < cc.region.length →
      cc.region.length = st.layout.length → cc2.Members := by
  intro bs
  induction bs with
  | nil =>
    intro cc cc2 h hinv _ _
    simp only [connectJoins, Except.ok.injEq] at h
    subst h
    exact hinv
  | cons b1 rest ih =>
    intro cc cc2 h hinv hax hlen
    rw [connectJoins] at h
    cases hkey : m.keyElement (m.data a1.model) a1.row b1.joinKey with
    | none =>
      rw [hkey] at h
      exact ih cc cc2 h hinv hax hlen
    | some key =>
      rw [hkey] at h
      simp only at h
      cases hrow : m.lookupRowOfKey (m.data b1.joinModel) key with
      | none => rw [hrow] at h; cases h
      | some row =>
        rw [hrow] at h
        simp only at h
        cases hm : st.rowToLayoutMap (m.data b1.joinModel, row) with
        | none => rw [hm] at h; cases h
        | some bx =>
          rw [hm] at h
          simp only at h
          have hl := connect_region_length cc ax (Int.toNat bx)
          exact ih _ cc2 h (connect_members cc ax _ hax (by rw [hlen]; exact hmap _ _ hm) hinv)
            (by rw [hl]; exact hax) (by rw [hl]; exact hlen)

theorem connectUnits_members (m : Model α) (st : State α)
    (hmap : ∀ k v, st.rowToLayoutMap k = some v → Int.toNat v < st.layout.length) :
    ∀ (count : Nat) (cc cc2 : Connectedness),
      connectUnits m st count cc = .ok cc2 → cc.Members → cc.Inv →
      cc.region.length = st.layout.length → count ≤ st.layout.length → cc2.Members := by
  intro count
  induction count with
  | zero =>
    intro cc cc2 h hinv _ _ _
    simp only [connectUnits, Except.ok.injEq] at h
    subst h
    exact hinv
  | succ n ih =>
    intro cc cc2 h hinv hI hlen hcount
    rw [connectUnits] at h
    cases hget : st.getAddr n with
    | error err => rw [hget] at h; cases h
    | ok a0 =>
      rw [hget] at h
      simp only at h
      by_cases hskip : a0.rampartScale = 0 ∨ (m.between a0.model).length = 0
      · rw [if_pos hskip] at h
        exact ih cc cc2 h hinv hI hlen (by omega)
      · rw [if_neg hskip] at h
        cases hj : connectJoins m st n a0 (m.between a0.model) cc with
        | error err => rw [hj] at h; cases h
        | ok cc1 =>
          rw [hj] at h
          simp only at h
          obtain ⟨j1, j2, -, -⟩ := connectJoins_spec m st n a0 _ cc cc1 hj hI (by omega)
          exact ih cc1 cc2 h
            (connectJoins_members m st n a0 hmap _ cc cc1 hj hinv (by omega) hlen) j1
            (by rw [j2, hlen]) (by omega)

/-- The components that `computeConnected` builds: every member of the set of
a component is a unit of that component. -/
theorem computeConnected_members (m : Model α) (st : State α) (cc : Connectedness)
    (hmap : ∀ k v, st.rowToLayoutMap k = some v → Int.toNat v < st.layout.length)
    (h : computeConnected m st = .ok cc) : cc.Members := by
  refine connectUnits_members m st hmap _ _ cc h ?_ (init_inv _)
    (by simp [Connectedness.init]) (Nat.le_refl _)
  intro rg u hu
  simp [Connectedness.init] at hu

theorem clumpUnits_append (l1 l2 : List (List Nat × List (List Nat))) :
    clumpUnits (l1 ++ l2) = clumpUnits l1 ++ clumpUnits l2 := by
  simp [clumpUnits]

theorem clumpUnits_cons (e : List Nat × List (List Nat))
    (l : List (List Nat × List (List Nat))) :
    clumpUnits (e :: l) = e.2.flatten ++ clumpUnits l := by
  simp [clumpUnits]

theorem clumpSetInsert_flatten (x : List Nat) :
    ∀ (v : List (List Nat)), (x = [] ∨ x ∉ v) →
      (clumpSetInsert x v).flatten.Perm (x ++ v.flatten) := by
  intro v
  induction v with
  | nil => intro _; simp [clumpSetInsert]
  | cons y ys ih =>
    intro hx
    rw [clumpSetInsert]
    cases h1 : lexLt x y with
    | true => simp
    | false =>
      cases h2 : lexLt y x with
      | true =>
        simp only [Bool.false_eq_true, if_false, if_true, List.flatten_cons]
        have hx2 : x = [] ∨ x ∉ ys := by
          rcases hx with h | h
          · exact Or.inl h
          · exact Or.inr (fun hm => h (List.mem_cons_of_mem _ hm))
        have := (ih hx2).append_left y
        refine this.trans ?_
        rw [← List.append_assoc, ← List.append_assoc]
        exact List.perm_append_comm.append_right _
      | false =>
        simp only [Bool.false_eq_true, if_false]
        have hxy := lexLt_total x y h1 h2
        rcases hx with h | h
        · rw [h]; simp
        · exact absurd (hxy ▸ List.mem_cons_self _ _) h

/-- Entering a clump whose units are in no clump of the map adds its units to
the units of the map. -/
theorem mapUpsertM_units (cmp : List Nat → List Nat → Except Error Bool) (x : List Nat)
    (l l2 : List (List Nat × List (List Nat)))
    (h : mapUpsertM cmp x [] (clumpSetInsert x) l = .ok l2)
    (hx : ∀ u ∈ x, u ∉ clumpUnits l) : (clumpUnits l2).Perm (x ++ clumpUnits l) := by
  obtain ⟨l1, l3, hcase⟩ := mapUpsertM_ok cmp x [] (clumpSetInsert x) l l2 h
  rcases hcase with ⟨hl, hl2⟩ | ⟨k, v, hl, hl2, -, -⟩
  · subst hl; subst hl2
    rw [clumpUnits_append, clumpUnits_cons, clumpUnits_append]
    simp only [clumpSetInsert, List.flatten_cons, List.flatten_nil, List.append_nil]
    rw [← List.append_assoc, ← List.append_assoc]
    exact List.perm_append_comm.append_right _
  · subst hl; subst hl2
    rw [clumpUnits_append, clumpUnits_cons, clumpUnits_append, clumpUnits_cons]
    simp only
    have hxv : x = [] ∨ x ∉ v := by
      cases x with
      | nil => exact Or.inl rfl
      | cons a as =>
        right
        intro hm
        apply hx a (List.mem_cons_self _ _)
        rw [clumpUnits_append, clumpUnits_cons]
        exact List.mem_append_right _ (List.mem_append_left _
          (List.mem_flatten.2 ⟨_, hm, List.mem_cons_self _ _⟩))
    have h1 := ((clumpSetInsert_flatten x v hxv).append_right (clumpUnits l3)).append_left
      (clumpUnits l1)
    refine h1.trans ?_
    rw [List.append_assoc, ← List.append_assoc, ← List.append_assoc x]
    exact List.perm_append_comm.append_right _

theorem clumpsApart_step (m : Model α) (st : State α) (hf : ClumpForest st) (budget : Nat)
    (cc : Connectedness) (hinv : cc.Inv) (hmem : cc.Members)
    (hlen : cc.region.length = st.layout.length)
    (hsetup : st.layoutSetup.length = st.layout.length)
    (hlink : ∀ u v, Child st u v → cc.Linked u v) :
    ∀ (count ax : Nat) (acc acc2 : ClumpLoop),
      collectClumps m st budget cc.region count ax acc = .ok acc2 →
      ax + count ≤ st.layout.length →
      ClumpsApart cc ax acc → ClumpsApart cc (ax + count) acc2 := by
  intro count
  induction count with
  | zero =>
    intro ax acc acc2 h _ hacc
    simp only [collectClumps, Except.ok.injEq] at h
    subst h
    exact hacc
  | succ count ih =>
    intro ax acc acc2 h hbound hacc
    rw [collectClumps] at h
    rw [show ax + (count + 1) = ax + 1 + count by omega]
    have hax : ax < cc.region.length := by omega
    cases hreg : cc.region.getD ax none with
    | none =>
      rw [hreg] at h
      simp only at h
      have hreg2 := (getD_none_iff _ _ hax).1 hreg
      cases hup : mapUpsertM (compatibleCovCompare m st) [ax] [] (clumpSetInsert [ax])
          acc.cgm with
      | error err => rw [hup] at h; cases h
      | ok cgm =>
        rw [hup] at h
        simp only at h
        have hfresh : ∀ u ∈ [ax], u ∉ clumpUnits acc.cgm := by
          intro u hu hin
          simp only [List.mem_singleton] at hu
          subst hu
          rcases hacc.done u hin with ⟨-, hlt⟩ | ⟨rg, hr, -⟩
          · omega
          · rw [hreg2] at hr
            cases hr
        have hperm := mapUpsertM_units _ _ _ _ hup hfresh
        refine ih (ax + 1) _ acc2 h (by omega) ⟨?_, ?_, hacc.kept⟩
        · rw [hperm.nodup_iff]
          simp only [List.singleton_append, List.nodup_cons]
          exact ⟨fun hin => hfresh ax (List.mem_singleton_self _) hin, hacc.nodup⟩
        · intro w hw
          rw [hperm.mem_iff] at hw
          simp only [List.singleton_append, List.mem_cons] at hw
          rcases hw with rfl | hw
          · exact Or.inl ⟨hreg2, by omega⟩
          · rcases hacc.done w hw with ⟨h1, h2⟩ | h1
            · exact Or.inl ⟨h1, by omega⟩
            · exact Or.inr h1
    | some rg =>
      rw [hreg] at h
      simp only at h
      have hreg2 := (getD_some_iff _ _ _).1 hreg
      by_cases hS : (acc.connected.getD rg []).length = 0
      · rw [if_pos hS] at h
        refine ih (ax + 1) acc acc2 h (by omega) ⟨hacc.nodup, ?_, hacc.kept⟩
        intro w hw
        rcases hacc.done w hw with ⟨h1, h2⟩ | h1
        · exact Or.inl ⟨h1, by omega⟩
        · exact Or.inr h1
      · rw [if_neg hS] at h
        have hSne : acc.connected.getD rg [] ≠ [] := fun e => hS (by rw [e]; rfl)
        have hSeq : acc.connected.getD rg [] = cc.connected.getD rg [] := by
          rcases hacc.kept rg with h1 | h1
          · exact h1
          · exact absurd h1 hSne
        have hSmem : ∀ u, u ∈ acc.connected.getD rg [] ↔ cc.region[u]? = some (some rg) := by
          intro u
          rw [hSeq, List.getD_eq_getElem?_getD]
          exact ⟨fun hu => hmem rg u hu, fun hu => hinv u rg hu⟩
        cases hsort : sortClump st budget (acc.connected.getD rg []).length
            (acc.connected.getD rg []) [] with
        | error err => rw [hsort] at h; cases h
        | ok res =>
          obtain ⟨clump0, left⟩ := res
          rw [hsort] at h
          simp only at h
          obtain ⟨hleft, hnd0, hmem0⟩ := sortClump_component st hf budget _ clump0 left
            (fun u hu => by
              have hlt : u < st.layoutSetup.length := by
                rw [hsetup, ← hlen]
                exact getElem?_lt_length _ _ _ ((hSmem u).1 hu)
              exact ⟨_, List.getElem?_eq_getElem hlt⟩)
            (fun u v hc hv => by
              obtain ⟨r, h1, h2⟩ := hlink u v hc
              rw [(hSmem v).1 hv] at h2
              cases h2
              exact (hSmem u).2 h1)
            (fun u v hc hu => by
              obtain ⟨r, h1, h2⟩ := hlink u v hc
              rw [(hSmem u).1 hu] at h1
              cases h1
              exact (hSmem v).2 h2)
            hsort
          subst hleft
          rw [List.append_nil] at h
          cases hup : mapUpsertM (compatibleCovCompare m st) clump0 []
              (clumpSetInsert clump0) acc.cgm with
          | error err => rw [hup] at h; cases h
          | ok cgm =>
            rw [hup] at h
            simp only at h
            have hfresh : ∀ u ∈ clump0, u ∉ clumpUnits acc.cgm := by
              intro u hu hin
              have hur := (hSmem u).1 ((hmem0 u).1 hu)
              rcases hacc.done u hin with ⟨h1, -⟩ | ⟨r, h1, h2⟩
              · rw [hur] at h1
                cases h1
              · rw [hur] at h1
                cases h1
                exact hSne h2
            have hperm := mapUpsertM_units _ _ _ _ hup hfresh
            have hset : ∀ r, (acc.connected.set rg []).getD r [] =
                if r = rg then [] else acc.connected.getD r [] := by
              intro r
              simp only [List.getD_eq_getElem?_getD]
              by_cases hr : r = rg
              · subst hr
                simp only [if_true]
                by_cases hlt : r < acc.connected.length
                · rw [List.getElem?_set_self hlt]
                  rfl
                · rw [List.getElem?_eq_none (by simp; omega)]
                  rfl
              · rw [if_neg hr, List.getElem?_set_ne (fun e => hr e.symm)]
            refine ih (ax + 1) _ acc2 h (by omega) ⟨?_, ?_, ?_⟩
            · rw [hperm.nodup_iff, List.nodup_append]
              exact ⟨hnd0, hacc.nodup, fun u hu hin => hfresh u hu hin⟩
            · intro w hw
              rw [hperm.mem_iff, List.mem_append] at hw
              rcases hw with hw | hw
              · exact Or.inr ⟨rg, (hSmem w).1 ((hmem0 w).1 hw),
                  by simp only; rw [hset, if_pos rfl]⟩
              · rcases hacc.done w hw with ⟨h1, h2⟩ | ⟨r, h1, h2⟩
                · exact Or.inl ⟨h1, by omega⟩
                · refine Or.inr ⟨r, h1, ?_⟩
                  simp only
                  rw [hset]
                  split
                  · rfl
                  · exact h2
            · intro r
              simp only
              rw [hset]
              by_cases hr : r = rg
              · rw [if_pos hr]
                exact Or.inr rfl
              · rw [if_neg hr]
                exact hacc.kept r

/-- In a forest of clumps whose members are linked to the unit of their clump,
no unit is in two clumps of the map that the first loop of `planModelEval`
builds, or twice in one. -/
theorem collectClumps_apart (m : Model α) (st : State α) (hf : ClumpForest st) (budget : Nat)
    (cc : Connectedness) (hinv : cc.Inv) (hmem : cc.Members)
    (hlen : cc.region.length = st.layout.length)
    (hsetup : st.layoutSetup.length = st.layout.length)
    (hlink : ∀ u v, Child st u v → cc.Linked u v) (acc : ClumpLoop)
    (h : collectClumps m st budget cc.region st.layout.length 0
      { connected := cc.connected, cgm := [] } = .ok acc) :
    (clumpUnits acc.cgm).Nodup := by
  have := clumpsApart_step m st hf budget cc hinv hmem hlen hsetup hlink _ 0 _ acc h
    (by omega) ⟨by simp [clumpUnits], fun w hw => by simp [clumpUnits] at hw,
      fun rg => Or.inl rfl⟩
  exact this.nodup

/-- The units of the map `cmm` of one group are the units of the clumps it is
built from. -/
theorem collectMeans_units (m : Model α) (st : State α) (budget : Nat) :
    ∀ (clumps : List (List Nat)) (cmm cmm2 : List (List Nat × List (List Nat))),
      collectMeans m st budget clumps cmm = .ok cmm2 →
      (clumps.flatten ++ clumpUnits cmm).Nodup →
      (clumpUnits cmm2).Perm (clumps.flatten ++ clumpUnits cmm) := by
  intro clumps
  induction clumps with
  | nil =>
    intro cmm cmm2 h _
    simp only [collectMeans, Except.ok.injEq] at h
    subst h
    simp
  | cons x rest ih =>
    intro cmm cmm2 h hnd
    rw [collectMeans] at h
    cases hup : mapUpsertM (compatibleMeanCompare m st budget) x [] (clumpSetInsert x) cmm with
    | error err => rw [hup] at h; cases h
    | ok cmm1 =>
      rw [hup] at h
      simp only at h
      simp only [List.flatten_cons, List.append_assoc] at hnd ⊢
      have hx : ∀ u ∈ x, u ∉ clumpUnits cmm := by
        intro u hu hin
        exact (List.nodup_append.1 hnd).2.2 hu (List.mem_append_right _ hin)
      have hperm := mapUpsertM_units _ _ _ _ hup hx
      have hnd1 : (rest.flatten ++ clumpUnits cmm1).Nodup := by
        have h1 : (rest.flatten ++ (x ++ clumpUnits cmm)).Nodup := by
          refine (List.Perm.nodup_iff ?_).1 hnd
          rw [← List.append_assoc, ← List.append_assoc]
          exact List.perm_append_comm.append_right _
        exact (List.Perm.nodup_iff (hperm.append_left rest.flatten)).2 h1
      refine (ih cmm1 cmm2 h hnd1).trans ((hperm.append_left rest.flatten).trans ?_)
      rw [← List.append_assoc, ← List.append_assoc]
      exact List.perm_append_comm.append_right _

theorem getAddr_safe (st : State α) (u : Nat) (e : Error) (h : st.getAddr u = .error e) :
    e.isAssigned = false := by
  unfold State.getAddr at h
  split at h
  · cases h
  · simp only [Except.error.injEq] at h
    rw [← h]
    rfl

theorem getSetup_safe (st : State α) (u : Nat) (e : Error) (h : st.getSetup u = .error e) :
    e.isAssigned = false := by
  unfold State.getSetup at h
  split at h
  · cases h
  · simp only [Except.error.injEq] at h
    rw [← h]
    rfl

theorem compatibleCovLoop_safe (m : Model α) (st : State α) :
    ∀ (l : List (Nat × Nat)) (e : Error), compatibleCovLoop m st l = .error e →
      e.isAssigned = false := by
  intro l
  induction l with
  | nil => intro e h; simp [compatibleCovLoop] at h
  | cons p rest ih =>
    intro e h
    obtain ⟨x, y⟩ := p
    rw [compatibleCovLoop] at h
    cases hx : st.getAddr x with
    | error err =>
      rw [hx] at h
      simp only [Except.error.injEq] at h
      rw [← h]
      exact getAddr_safe st x err hx
    | ok la =>
      cases hy : st.getAddr y with
      | error err =>
        rw [hx, hy] at h
        simp only [Except.error.injEq] at h
        rw [← h]
        exact getAddr_safe st y err hy
      | ok ra =>
        rw [hx, hy] at h
        simp only at h
        split at h
        · cases h
        · exact ih e h

theorem compatibleCovCompare_safe (m : Model α) (st : State α) (lhs rhs : List Nat) (e : Error)
    (h : compatibleCovCompare m st lhs rhs = .error e) : e.isAssigned = false := by
  unfold compatibleCovCompare at h
  split at h
  · cases h
  · exact compatibleCovLoop_safe m st _ e h

theorem joinedWith_safe (m : Model α) (st : State α) (la : Addr α) (b : Between) (e : Error)
    (h : joinedWith m st la b = .error e) : e.isAssigned = false := by
  unfold joinedWith at h
  split at h
  · cases h
  · split at h
    · simp only [Except.error.injEq] at h
      rw [← h]
      rfl
    · split at h
      · simp only [Except.error.injEq] at h
        rw [← h]
        rfl
      · cases h

theorem meanJoinLoop_safe (m : Model α) (st : State α)
    (cmp : Nat → Nat → Except Error (Bool × Bool))
    (hcmp : ∀ l r e, cmp l r = .error e → e.isAssigned = false) (la ra : Addr α) :
    ∀ (rest : List Between) (jx : Nat) (e : Error),
      meanJoinLoop m st cmp la ra jx rest = .error e → e.isAssigned = false := by
  intro rest
  induction rest with
  | nil => intro jx e h; simp [meanJoinLoop] at h
  | cons b1 rest ih =>
    intro jx e h
    rw [meanJoinLoop] at h
    cases hb : (m.between ra.model)[jx]? with
    | none =>
      rw [hb] at h
      simp only [Except.error.injEq] at h
      rw [← h]
      rfl
    | some b2 =>
      rw [hb] at h
      simp only at h
      cases hjl : joinedWith m st la b1 with
      | error err =>
        rw [hjl] at h
        simp only [Except.error.injEq] at h
        rw [← h]
        exact joinedWith_safe m st la b1 err hjl
      | ok lp =>
        cases hjr : joinedWith m st ra b2 with
        | error err =>
          rw [hjl, hjr] at h
          simp only [Except.error.injEq] at h
          rw [← h]
          exact joinedWith_safe m st ra b2 err hjr
        | ok rp =>
          rw [hjl, hjr] at h
          simp only at h
          cases lp with
          | none =>
            cases rp with
            | none => exact ih (jx + 1) e h
            | some r2 => cases h
          | some l2 =>
            cases rp with
            | none => cases h
            | some r2 =>
              simp only at h
              cases hc : cmp l2 r2 with
              | error err =>
                rw [hc] at h
                simp only [Except.error.injEq] at h
                rw [← h]
                exact hcmp l2 r2 err hc
              | ok p =>
                rw [hc] at h
                simp only at h
                split at h
                · cases h
                · exact ih (jx + 1) e h

theorem compareMeanDeep_safe (m : Model α) (st : State α) :
    ∀ (fuel l r : Nat) (e : Error), compareMeanDeep m st fuel l r = .error e →
      e.isAssigned = false := by
  intro fuel
  induction fuel with
  | zero =>
    intro l r e h
    simp only [compareMeanDeep, Except.error.injEq] at h
    rw [← h]
    rfl
  | succ fuel ih =>
    intro l r e h
    rw [compareMeanDeep] at h
    cases hl : st.getAddr l with
    | error err =>
      rw [hl] at h
      simp only [Except.error.injEq] at h
      rw [← h]
      exact getAddr_safe st l err hl
    | ok la =>
      cases hr : st.getAddr r with
      | error err =>
        rw [hl, hr] at h
        simp only [Except.error.injEq] at h
        rw [← h]
        exact getAddr_safe st r err hr
      | ok ra =>
        rw [hl, hr] at h
        simp only at h
        cases hx : meanJoinLoop m st (compareMeanDeep m st fuel) la ra 0
            (m.between la.model) with
        | error err =>
          rw [hx] at h
          simp only [Except.error.injEq] at h
          rw [← h]
          exact meanJoinLoop_safe m st _ ih la ra _ 0 err hx
        | ok x =>
          rw [hx] at h
          cases x with
          | none =>
            simp only at h
            split at h <;> cases h
          | some g => cases h

theorem compatibleMeanCompare_safe (m : Model α) (st : State α) (fuel : Nat) :
    ∀ (k d : List Nat) (e : Error), compatibleMeanCompare m st fuel k d = .error e →
      e.isAssigned = false := by
  intro k
  induction k with
  | nil => intro d e h; simp [compatibleMeanCompare] at h
  | cons x xs ih =>
    intro d e h
    cases d with
    | nil =>
      rw [compatibleMeanCompare] at h
      simp only [Except.error.injEq] at h
      rw [← h]
      rfl
    | cons y ys =>
      rw [compatibleMeanCompare] at h
      cases hp : compareMeanDeep m st fuel x y with
      | error err =>
        rw [hp] at h
        simp only [Except.error.injEq] at h
        rw [← h]
        exact compareMeanDeep_safe m st fuel x y err hp
      | ok p =>
        rw [hp] at h
        simp only at h
        split at h
        · cases h
        · exact ih ys e h

theorem mapUpsertM_safe {κ ν : Type} (cmp : κ → κ → Except Error Bool)
    (hcmp : ∀ a b e, cmp a b = .error e → e.isAssigned = false) (k : κ) (init : ν)
    (f : ν → ν) :
    ∀ (l : List (κ × ν)) (e : Error), mapUpsertM cmp k init f l = .error e →
      e.isAssigned = false := by
  intro l
  induction l with
  | nil => intro e h; simp [mapUpsertM] at h
  | cons p rest ih =>
    intro e h
    obtain ⟨k2, v⟩ := p
    rw [mapUpsertM] at h
    cases h1 : cmp k2 k with
    | error err =>
      rw [h1] at h
      simp only [Except.error.injEq] at h
      rw [← h]
      exact hcmp _ _ err h1
    | ok b1 =>
      rw [h1] at h
      cases b1 with
      | true =>
        simp only at h
        cases h2 : mapUpsertM cmp k init f rest with
        | error err =>
          rw [h2] at h
          simp only [Except.error.injEq] at h
          rw [← h]
          exact ih err h2
        | ok r => rw [h2] at h; cases h
      | false =>
        simp only at h
        cases h2 : cmp k k2 with
        | error err =>
          rw [h2] at h
          simp only [Except.error.injEq] at h
          rw [← h]
          exact hcmp _ _ err h2
        | ok b2 =>
          rw [h2] at h
          cases b2 <;> cases h

theorem collectMeans_safe (m : Model α) (st : State α) (budget : Nat) :
    ∀ (clumps : List (List Nat)) (cmm : List (List Nat × List (List Nat))) (e : Error),
      collectMeans m st budget clumps cmm = .error e → e.isAssigned = false := by
  intro clumps
  induction clumps with
  | nil => intro cmm e h; simp [collectMeans] at h
  | cons x rest ih =>
    intro cmm e h
    rw [collectMeans] at h
    cases hup : mapUpsertM (compatibleMeanCompare m st budget) x [] (clumpSetInsert x) cmm with
    | error err =>
      rw [hup] at h
      simp only [Except.error.injEq] at h
      rw [← h]
      exact mapUpsertM_safe _ (compatibleMeanCompare_safe m st budget) _ _ _ _ err hup
    | ok cmm1 =>
      rw [hup] at h
      exact ih cmm1 e h

theorem appendClumpLoop_safe (app : Nat → List Nat → Except Error (List Nat))
    (happ : ∀ x clump e, app x clump = .error e → e.isAssigned = false) :
    ∀ (cs clump : List Nat) (e : Error), appendClumpLoop app cs clump = .error e →
      e.isAssigned = false := by
  intro cs
  induction cs with
  | nil => intro clump e h; simp [appendClumpLoop] at h
  | cons x rest ih =>
    intro clump e h
    rw [appendClumpLoop] at h
    cases h1 : app x clump with
    | error err =>
      rw [h1] at h
      simp only [Except.error.injEq] at h
      rw [← h]
      exact happ x clump err h1
    | ok clump1 =>
      rw [h1] at h
      exact ih clump1 e h

theorem appendClump_safe (st : State α) :
    ∀ (fuel ax : Nat) (clump : List Nat) (e : Error), appendClump st fuel ax clump = .error e →
      e.isAssigned = false := by
  intro fuel
  induction fuel with
  | zero =>
    intro ax clump e h
    simp only [appendClump, Except.error.injEq] at h
    rw [← h]
    rfl
  | succ fuel ih =>
    intro ax clump e h
    rw [appendClump] at h
    cases h1 : st.getSetup ax with
    | error err =>
      rw [h1] at h
      simp only [Except.error.injEq] at h
      rw [← h]
      exact getSetup_safe st ax err h1
    | ok a1 =>
      rw [h1] at h
      exact appendClumpLoop_safe _ ih _ _ e h

theorem firstLoose_safe (st : State α) :
    ∀ (l : List Nat) (e : Error), firstLoose st l = .error e → e.isAssigned = false := by
  intro l
  induction l with
  | nil => intro e h; simp [firstLoose] at h
  | cons x xs ih =>
    intro e h
    rw [firstLoose] at h
    cases h1 : st.getSetup x with
    | error err =>
      rw [h1] at h
      simp only [Except.error.injEq] at h
      rw [← h]
      exact getSetup_safe st x err h1
    | ok as2 =>
      rw [h1] at h
      simp only at h
      split at h
      · exact ih e h
      · cases h

theorem sortClump_safe (st : State α) (budget : Nat) :
    ∀ (n : Nat) (S clump : List Nat) (e : Error), sortClump st budget n S clump = .error e →
      e.isAssigned = false := by
  intro n
  induction n with
  | zero => intro S clump e h; simp [sortClump] at h
  | succ n ih =>
    intro S clump e h
    rw [sortClump] at h
    cases h1 : firstLoose st S with
    | error err =>
      rw [h1] at h
      simp only [Except.error.injEq] at h
      rw [← h]
      exact firstLoose_safe st S err h1
    | ok r0 =>
      rw [h1] at h
      cases r0 with
      | none => cases h
      | some u0 =>
        simp only at h
        cases h2 : appendClump st budget u0 clump with
        | error err =>
          rw [h2] at h
          simp only [Except.error.injEq] at h
          rw [← h]
          exact appendClump_safe st budget u0 clump err h2
        | ok clump1 =>
          rw [h2] at h
          exact ih _ _ e h

theorem collectClumps_safe (m : Model α) (st : State α) (budget : Nat)
    (region : List (Option Nat)) :
    ∀ (count ax : Nat) (acc : ClumpLoop) (e : Error),
      collectClumps m st budget region count ax acc = .error e → e.isAssigned = false := by
  intro count
  induction count with
  | zero => intro ax acc e h; simp [collectClumps] at h
  | succ count ih =>
    intro ax acc e h
    rw [collectClumps] at h
    cases hreg : region.getD ax none with
    | none =>
      rw [hreg] at h
      simp only at h
      cases hup : mapUpsertM (compatibleCovCompare m st) [ax] [] (clumpSetInsert [ax])
          acc.cgm with
      | error err =>
        rw [hup] at h
        simp only [Except.error.injEq] at h
        rw [← h]
        exact mapUpsertM_safe _ (compatibleCovCompare_safe m st) _ _ _ _ err hup
      | ok cgm =>
        rw [hup] at h
        exact ih _ _ e h
    | some rg =>
      rw [hreg] at h
      simp only at h
      split at h
      · exact ih _ _ e h
      · cases hsort : sortClump st budget (acc.connected.getD rg []).length
            (acc.connected.getD rg []) [] with
        | error err =>
          rw [hsort] at h
          simp only [Except.error.injEq] at h
          rw [← h]
          exact sortClump_safe st budget _ _ _ err hsort
        | ok res =>
          obtain ⟨clump0, left⟩ := res
          rw [hsort] at h
          simp only at h
          cases hup : mapUpsertM (compatibleCovCompare m st) (clump0 ++ left) []
              (clumpSetInsert (clump0 ++ left)) acc.cgm with
          | error err =>
            rw [hup] at h
            simp only [Except.error.injEq] at h
            rw [← h]
            exact mapUpsertM_safe _ (compatibleCovCompare_safe m st) _ _ _ _ err hup
          | ok cgm =>
            rw [hup] at h
            exact ih _ _ e h

theorem connectJoins_safe (m : Model α) (st : State α) (ax : Nat) (a1 : Addr α) :
    ∀ (bs : List Between) (cc : Connectedness) (e : Error),
      connectJoins m st ax a1 bs cc = .error e → e.isAssigned = false := by
  intro bs
  induction bs with
  | nil => intro cc e h; simp [connectJoins] at h
  | cons b1 rest ih =>
    intro cc e h
    rw [connectJoins] at h
    split at h
    · exact ih cc e h
    · split at h
      · simp only [Except.error.injEq] at h
        rw [← h]
        rfl
      · split at h
        · simp only [Except.error.injEq] at h
          rw [← h]
          rfl
        · exact ih _ e h

theorem connectUnits_safe (m : Model α) (st : State α) :
    ∀ (count : Nat) (cc : Connectedness) (e : Error),
      connectUnits m st count cc = .error e → e.isAssigned = false := by
  intro count
  induction count with
  | zero => intro cc e h; simp [connectUnits] at h
  | succ n ih =>
    intro cc e h
    rw [connectUnits] at h
    cases hget : st.getAddr n with
    | error err =>
      rw [hget] at h
      simp only [Except.error.injEq] at h
      rw [← h]
      exact getAddr_safe st n err hget
    | ok a0 =>
      rw [hget] at h
      simp only at h
      split at h
      · exact ih cc e h
      · cases hj : connectJoins m st n a0 (m.between a0.model) cc with
        | error err =>
          rw [hj] at h
          simp only [Except.error.injEq] at h
          rw [← h]
          exact connectJoins_safe m st n a0 _ cc err hj
        | ok cc1 =>
          rw [hj] at h
          exact ih cc1 e h

theorem shallowJoins_safe (m : Model α) (ig : IndependentGroup α) (a1 : Addr α) :
    ∀ (bs : List Between) (e : Error), shallowJoins m ig a1 bs = .error e →
      e.isAssigned = false := by
  intro bs
  induction bs with
  | nil => intro e h; simp [shallowJoins] at h
  | cons b rest ih =>
    intro e h
    rw [shallowJoins] at h
    split at h
    · exact ih e h
    · split at h
      · simp only [Except.error.injEq] at h
        rw [← h]
        rfl
      · split at h
        · simp only [Except.error.injEq] at h
          rw [← h]
          rfl
        · exact ih e h

theorem determineShallowDepth_safe (m : Model α) (st : State α) (ig : IndependentGroup α) :
    ∀ (l : List Nat) (e : Error), determineShallowDepth m st ig l = .error e →
      e.isAssigned = false := by
  intro l
  induction l with
  | nil => intro e h; simp [determineShallowDepth] at h
  | cons u rest ih =>
    intro e h
    rw [determineShallowDepth] at h
    cases hget : st.getAddr u with
    | error err =>
      rw [hget] at h
      simp only [Except.error.injEq] at h
      rw [← h]
      exact getAddr_safe st u err hget
    | ok a1 =>
      rw [hget] at h
      simp only at h
      split at h
      · cases hs : shallowJoins m ig a1 (m.between a1.model) with
        | error err =>
          rw [hs] at h
          simp only [Except.error.injEq] at h
          rw [← h]
          exact shallowJoins_safe m ig a1 _ err hs
        | ok x =>
          rw [hs] at h
          exact ih e h
      · exact ih e h

theorem prepLoop_safe (m : Model α) :
    ∀ (l : List (Nat × Placement)) (ax : Nat) (ps : PlaceState α) (e : Error),
      prepLoop m ax l ps = .error e → e.isAssigned = false := by
  intro l
  induction l with
  | nil => intro ax ps e h; simp [prepLoop] at h
  | cons p rest ih =>
    intro ax ps e h
    obtain ⟨u, pl⟩ := p
    rw [prepLoop] at h
    cases hget : ps.st.getAddr u with
    | error err =>
      rw [hget] at h
      simp only [Except.error.injEq] at h
      rw [← h]
      exact getAddr_safe ps.st u err hget
    | ok a1 =>
      rw [hget] at h
      simp only at h
      split at h
      · simp only [Except.error.injEq] at h
        rw [← h]
        rfl
      · exact ih _ _ e h

theorem prep_safe (m : Model α) (ps : PlaceState α) (e : Error) (h : prep m ps = .error e) :
    e.isAssigned = false := by
  unfold prep at h
  split at h
  · simp only [Except.error.injEq] at h
    rw [← h]
    rfl
  · split at h
    · rename_i en lastUnit _ _
      cases hget : ps.st.getAddr lastUnit with
      | error err =>
        rw [hget] at h
        simp only [Except.error.injEq] at h
        rw [← h]
        exact getAddr_safe ps.st lastUnit err hget
      | ok a1 =>
        rw [hget] at h
        simp only at h
        split at h
        · rename_i err hl
          simp only [Except.error.injEq] at h
          rw [← h]
          exact prepLoop_safe m _ _ _ err hl
        · split at h
          · split at h
            · rename_i err hd
              simp only [Except.error.injEq] at h
              rw [← h]
              exact determineShallowDepth_safe m _ _ _ err hd
            · cases h
          · cases h
    · simp only [Except.error.injEq] at h
      rw [← h]
      rfl

theorem place_safe (m : Model α) (G : List (List Nat)) (st0 : State α) (ps : PlaceState α)
    (ax : Nat) (e : Error) (hinv : PSInv m G st0 ps)
    (hfresh : ∀ gm ∈ G ++ [ps.ig.gMap], ax ∉ gm) (h : place m G.length ps ax = .error e) :
    e.isAssigned = false := by
  unfold place at h
  cases h0 : ps.st.getAddr ax with
  | error err =>
    rw [h0] at h
    simp only [Except.error.injEq] at h
    rw [← h]
    exact getAddr_safe _ _ err h0
  | ok a0 =>
    rw [h0] at h
    simp only at h
    have ha0 := (getAddr_ok _ _ _).1 h0
    cases hig : a0.ig with
    | some g =>
      exfalso
      have hmem := (hinv.assign.ig_iff ax a0 g ha0).1 hig
      cases hg : (G ++ [ps.ig.gMap])[g]? with
      | none => rw [hg] at hmem; simp at hmem
      | some gm =>
        rw [hg] at hmem
        exact hfresh gm (List.getElem?_mem hg) hmem
    | none =>
      rw [hig] at h
      simp only [Option.isSome_none, Bool.false_eq_true, if_false] at h
      split at h
      · rename_i prev lastUnit _ _
        split at h
        · rename_i err hl
          simp only [Except.error.injEq] at h
          rw [← h]
          exact getAddr_safe _ _ err hl
        · cases h
      · cases h

theorem placeClump_safe (m : Model α) (G : List (List Nat)) (st0 : State α) :
    ∀ (clump : List Nat) (ps : PlaceState α) (het : Bool) (e : Error),
      PSInv m G st0 ps → clump.Nodup →
      (∀ u ∈ clump, ∀ gm ∈ G ++ [ps.ig.gMap], u ∉ gm) →
      placeClump m G.length clump (ps, het) = .error e → e.isAssigned = false := by
  intro clump
  induction clump with
  | nil => intro ps het e _ _ _ h; simp [placeClump] at h
  | cons u rest ih =>
    intro ps het e hinv hnd hfresh h
    rw [placeClump] at h
    cases hsu : ps.st.getSetup u with
    | error err =>
      rw [hsu] at h
      simp only [Except.error.injEq] at h
      rw [← h]
      exact getSetup_safe _ _ err hsu
    | ok su =>
      rw [hsu] at h
      simp only at h
      cases hp : place m G.length ps u with
      | error err =>
        rw [hp] at h
        simp only [Except.error.injEq] at h
        rw [← h]
        exact place_safe m G st0 ps u err hinv (hfresh u (List.mem_cons_self _ _)) hp
      | ok ps1 =>
        rw [hp] at h
        simp only at h
        obtain ⟨a0, -, -, -, hg, -, -, -⟩ := place_ok m G.length ps ps1 u hp
        refine ih ps1 _ e (place_inv m G st0 ps ps1 u hinv hp) (List.nodup_cons.1 hnd).2 ?_ h
        intro v hv gm hgm
        rcases List.mem_append.1 hgm with hgm | hgm
        · exact hfresh v (List.mem_cons_of_mem _ hv) gm (List.mem_append_left _ hgm)
        · simp only [List.mem_singleton] at hgm
          subst hgm
          rw [hg, List.mem_append, List.mem_singleton]
          rintro (hin | rfl)
          · exact hfresh v (List.mem_cons_of_mem _ hv) ps.ig.gMap
              (List.mem_append_right _ (List.mem_singleton_self _)) hin
          · exact (List.nodup_cons.1 hnd).1 hv

theorem placeSet_safe (m : Model α) (G : List (List Nat)) (st0 : State α) :
    ∀ (clumps : List (List Nat)) (ps : PlaceState α) (het : Bool) (e : Error),
      PSInv m G st0 ps → clumps.flatten.Nodup →
      (∀ u ∈ clumps.flatten, ∀ gm ∈ G ++ [ps.ig.gMap], u ∉ gm) →
      placeSet m G.length clumps (ps, het) = .error e → e.isAssigned = false := by
  intro clumps
  induction clumps with
  | nil => intro ps het e _ _ _ h; simp [placeSet] at h
  | cons x rest ih =>
    intro ps het e hinv hnd hfresh h
    rw [placeSet] at h
    simp only [List.flatten_cons] at hnd hfresh
    obtain ⟨n1, n2, n3⟩ := List.nodup_append.1 hnd
    cases hc : placeClump m G.length x (ps, het) with
    | error err =>
      rw [hc] at h
      simp only [Except.error.injEq] at h
      rw [← h]
      exact placeClump_safe m G st0 x ps het err hinv n1
        (fun u hu => hfresh u (List.mem_append_left _ hu)) hc
    | ok acc =>
      obtain ⟨ps1, het1⟩ := acc
      rw [hc] at h
      simp only at h
      obtain ⟨i1, i2, -⟩ := placeClump_spec m G st0 x ps ps1 het het1 hinv hc
      have hg : ps1.ig.gMap = ps.ig.gMap ++ x := by rw [i2]
      refine ih ps1 het1 e i1 n2 ?_ h
      intro v hv gm hgm
      rcases List.mem_append.1 hgm with hgm | hgm
      · exact hfresh v (List.mem_append_right _ hv) gm (List.mem_append_left _ hgm)
      · simp only [List.mem_singleton] at hgm
        subst hgm
        rw [hg, List.mem_append]
        rintro (hin | hin)
        · exact hfresh v (List.mem_append_right _ hv) ps.ig.gMap
            (List.mem_append_right _ (List.mem_singleton_self _)) hin
        · exact n3 hin hv

theorem placeAll_safe (m : Model α) (G : List (List Nat)) (st0 : State α) :
    ∀ (units : List Nat) (ps : PlaceState α) (e : Error),
      PSInv m G st0 ps → units.Nodup →
      (∀ u ∈ units, ∀ gm ∈ G ++ [ps.ig.gMap], u ∉ gm) →
      placeAll m G.length units ps = .error e → e.isAssigned = false := by
  intro units
  induction units with
  | nil => intro ps e _ _ _ h; simp [placeAll] at h
  | cons u rest ih =>
    intro ps e hinv hnd hfresh h
    rw [placeAll] at h
    cases hp : place m G.length ps u with
    | error err =>
      rw [hp] at h
      simp only [Except.error.injEq] at h
      rw [← h]
      exact place_safe m G st0 ps u err hinv (hfresh u (List.mem_cons_self _ _)) hp
    | ok ps1 =>
      rw [hp] at h
      simp only at h
      obtain ⟨a0, -, -, -, hg, -, -, -⟩ := place_ok m G.length ps ps1 u hp
      refine ih ps1 e (place_inv m G st0 ps ps1 u hinv hp) (List.nodup_cons.1 hnd).2 ?_ h
      intro v hv gm hgm
      rcases List.mem_append.1 hgm with hgm | hgm
      · exact hfresh v (List.mem_cons_of_mem _ hv) gm (List.mem_append_left _ hgm)
      · simp only [List.mem_singleton] at hgm
        subst hgm
        rw [hg, List.mem_append, List.mem_singleton]
        rintro (hin | rfl)
        · exact hfresh v (List.mem_cons_of_mem _ hv) ps.ig.gMap
            (List.mem_append_right _ (List.mem_singleton_self _)) hin
        · exact (List.nodup_cons.1 hnd).1 hv

/-- The loop that places the clumps with means of their own places the units
of the entries of at most one clump, in the order of the map, and raises no
"already assigned" when none of them is placed and none occurs twice. -/
theorem placeLoose_safe (m : Model α) (G : List (List Nat)) (st0 : State α) :
    ∀ (cmm : List (List Nat × List (List Nat))) (ps : PlaceState α),
      PSInv m G st0 ps →
      (clumpUnits (cmm.filter (fun e => decide (e.2.length ≤ 1)))).Nodup →
      (∀ u ∈ clumpUnits (cmm.filter (fun e => decide (e.2.length ≤ 1))),
        ∀ gm ∈ G ++ [ps.ig.gMap], u ∉ gm) →
      (∀ e, placeLoose m G.length cmm ps = .error e → e.isAssigned = false) ∧
      (∀ ps2, placeLoose m G.length cmm ps = .ok ps2 →
        PSInv m G st0 ps2 ∧ ps2.ig.gMap = ps.ig.gMap ++
          clumpUnits (cmm.filter (fun e => decide (e.2.length ≤ 1)))) := by
  intro cmm
  induction cmm with
  | nil =>
    intro ps hinv _ _
    refine ⟨fun e h => by simp [placeLoose] at h, fun ps2 h => ?_⟩
    simp only [placeLoose, Except.ok.injEq] at h
    subst h
    exact ⟨hinv, by simp [clumpUnits]⟩
  | cons e0 rest ih =>
    intro ps hinv hnd hfresh
    obtain ⟨key, clumps⟩ := e0
    by_cases h1 : 1 < clumps.length
    · have hfil : ((key, clumps) :: rest).filter (fun e => decide (e.2.length ≤ 1)) =
          rest.filter (fun e => decide (e.2.length ≤ 1)) := by
        rw [List.filter_cons]
        simp only [decide_eq_true_eq]
        rw [if_neg (by omega)]
      rw [hfil] at hnd hfresh ⊢
      have := ih ps hinv hnd hfresh
      rw [placeLoose, if_pos h1]
      exact this
    · have hfil : ((key, clumps) :: rest).filter (fun e => decide (e.2.length ≤ 1)) =
          (key, clumps) :: rest.filter (fun e => decide (e.2.length ≤ 1)) := by
        rw [List.filter_cons]
        simp only [decide_eq_true_eq]
        rw [if_pos (by omega)]
      rw [hfil, clumpUnits_cons] at hnd hfresh ⊢
      simp only at hnd hfresh ⊢
      obtain ⟨n1, n2, n3⟩ := List.nodup_append.1 hnd
      rw [placeLoose, if_neg h1]
      cases hp : placeSet m G.length clumps (ps, false) with
      | error err =>
        refine ⟨fun e h => ?_, fun ps2 h => by cases h⟩
        simp only [Except.error.injEq] at h
        rw [← h]
        exact placeSet_safe m G st0 clumps ps false err hinv n1
          (fun u hu => hfresh u (List.mem_append_left _ hu)) hp
      | ok acc =>
        obtain ⟨ps1, het1⟩ := acc
        simp only
        obtain ⟨i1, i2, -⟩ := placeSet_spec m G st0 clumps ps ps1 false het1 hinv hp
        have hg : ps1.ig.gMap = ps.ig.gMap ++ clumps.flatten := by rw [i2]
        have hfresh1 : ∀ u ∈ clumpUnits (rest.filter (fun e => decide (e.2.length ≤ 1))),
            ∀ gm ∈ G ++ [ps1.ig.gMap], u ∉ gm := by
          intro v hv gm hgm
          rcases List.mem_append.1 hgm with hgm | hgm
          · exact hfresh v (List.mem_append_right _ hv) gm (List.mem_append_left _ hgm)
          · simp only [List.mem_singleton] at hgm
            subst hgm
            rw [hg, List.mem_append]
            rintro (hin | hin)
            · exact hfresh v (List.mem_append_right _ hv) ps.ig.gMap
                (List.mem_append_right _ (List.mem_singleton_self _)) hin
            · exact n3 hin hv
        obtain ⟨j1, j2⟩ := ih ps1 i1 n2 hfresh1
        refine ⟨j1, fun ps2 h => ?_⟩
        obtain ⟨k1, k2⟩ := j2 ps2 h
        exact ⟨k1, by rw [k2, hg, List.append_assoc]⟩

/-- The loop that places the sets of clumps with shared means places the
units of the entries of no or several clumps, in the order of the map, and
raises no "already assigned" when none of them is placed and none occurs
twice. -/
theorem placeSufficient_safe (m : Model α) (G : List (List Nat)) (st0 : State α) :
    ∀ (cmm : List (List Nat × List (List Nat))) (ps : PlaceState α),
      PSInv m G st0 ps →
      (clumpUnits (cmm.filter (fun e => decide (e.2.length ≠ 1)))).Nodup →
      (∀ u ∈ clumpUnits (cmm.filter (fun e => decide (e.2.length ≠ 1))),
        ∀ gm ∈ G ++ [ps.ig.gMap], u ∉ gm) →
      ∀ e, placeSufficient m G.length cmm ps = .error e → e.isAssigned = false := by
  intro cmm
  induction cmm with
  | nil => intro ps _ _ _ e h; simp [placeSufficient] at h
  | cons e0 rest ih =>
    intro ps hinv hnd hfresh e h
    obtain ⟨key, clumps⟩ := e0
    rw [placeSufficient] at h
    by_cases h1 : clumps.length = 1
    · have hfil : ((key, clumps) :: rest).filter (fun e => decide (e.2.length ≠ 1)) =
          rest.filter (fun e => decide (e.2.length ≠ 1)) := by
        rw [List.filter_cons]
        simp only [decide_eq_true_eq]
        rw [if_neg (by simpa using h1)]
      rw [hfil] at hnd hfresh
      rw [if_pos h1] at h
      exact ih ps hinv hnd hfresh e h
    · have hfil : ((key, clumps) :: rest).filter (fun e => decide (e.2.length ≠ 1)) =
          (key, clumps) :: rest.filter (fun e => decide (e.2.length ≠ 1)) := by
        rw [List.filter_cons]
        simp only [decide_eq_true_eq]
        rw [if_pos (by simpa using h1)]
      rw [hfil, clumpUnits_cons] at hnd hfresh
      simp only at hnd hfresh
      obtain ⟨n1, n2, n3⟩ := List.nodup_append.1 hnd
      rw [if_neg h1] at h
      simp only at h
      cases hp : placeSet m G.length clumps (ps, false) with
      | error err =>
        rw [hp] at h
        simp only [Except.error.injEq] at h
        rw [← h]
        exact placeSet_safe m G st0 clumps ps false err hinv n1
          (fun u hu => hfresh u (List.mem_append_left _ hu)) hp
      | ok acc =>
        obtain ⟨ps1, het1⟩ := acc
        rw [hp] at h
        simp only at h
        obtain ⟨i1, i2, -⟩ := placeSet_spec m G st0 clumps ps ps1 false het1 hinv hp
        have hg : ps1.ig.gMap = ps.ig.gMap ++ clumps.flatten := by rw [i2]
        have hfresh1 : ∀ u ∈ clumpUnits (rest.filter (fun e => decide (e.2.length ≠ 1))),
            ∀ gm ∈ G ++ [ps1.ig.gMap], u ∉ gm := by
          intro v hv gm hgm
          rcases List.mem_append.1 hgm with hgm | hgm
          · exact hfresh v (List.mem_append_right _ hv) gm (List.mem_append_left _ hgm)
          · simp only [List.mem_singleton] at hgm
            subst hgm
            rw [hg, List.mem_append]
            rintro (hin | hin)
            · exact hfresh v (List.mem_append_right _ hv) ps.ig.gMap
                (List.mem_append_right _ (List.mem_singleton_self _)) hin
            · exact n3 hin hv
        split at h
        · exact ih ps1 i1 n2 hfresh1 e h
        · exact ih { ps1 with ig := { ps1.ig with
              sufficientSets := ps1.ig.sufficientSets ++
                [{ start := ps.ig.placements.length / ps1.ig.clumpSize,
                   length := (ps1.ig.placements.length - ps.ig.placements.length) /
                     ps1.ig.clumpSize,
                   dataMean := [], dataCov := [] }] } }
            ⟨i1.assign, i1.frame, i1.plen, i1.offsets⟩ n2 hfresh1 e h

theorem clumpUnits_filter_sublist (p : List Nat × List (List Nat) → Bool)
    (l : List (List Nat × List (List Nat))) :
    (clumpUnits (l.filter p)).Sublist (clumpUnits l) := by
  induction l with
  | nil => simp [clumpUnits]
  | cons e rest ih =>
    rw [List.filter_cons]
    split
    · rw [clumpUnits_cons, clumpUnits_cons]
      exact List.Sublist.append_left ih _
    · rw [clumpUnits_cons]
      exact ih.trans (List.sublist_append_right _ _)

theorem clumpUnits_filter_both (p q : List Nat × List (List Nat) → Bool) :
    ∀ (l : List (List Nat × List (List Nat))), (clumpUnits l).Nodup →
      ∀ u, u ∈ clumpUnits (l.filter p) → u ∈ clumpUnits (l.filter q) →
      ∃ e ∈ l, p e = true ∧ q e = true ∧ u ∈ e.2.flatten := by
  intro l
  induction l with
  | nil => intro _ u hu; simp [clumpUnits] at hu
  | cons e rest ih =>
    intro hnd u hp hq
    rw [clumpUnits_cons] at hnd
    obtain ⟨n1, n2, n3⟩ := List.nodup_append.1 hnd
    have hsubp := (clumpUnits_filter_sublist p rest).subset
    have hsubq := (clumpUnits_filter_sublist q rest).subset
    rw [List.filter_cons] at hp hq
    by_cases hpe : p e = true
    · rw [if_pos hpe, clumpUnits_cons, List.mem_append] at hp
      by_cases hqe : q e = true
      · rw [if_pos hqe, clumpUnits_cons, List.mem_append] at hq
        rcases hp with hp | hp
        · exact ⟨e, List.mem_cons_self _ _, hpe, hqe, hp⟩
        · rcases hq with hq | hq
          · exact ⟨e, List.mem_cons_self _ _, hpe, hqe, hq⟩
          · obtain ⟨e2, he2, r⟩ := ih n2 u hp hq
            exact ⟨e2, List.mem_cons_of_mem _ he2, r⟩
      · rw [if_neg hqe] at hq
        rcases hp with hp | hp
        · exact absurd (hsubq hq) (fun h2 => n3 hp h2)
        · obtain ⟨e2, he2, r⟩ := ih n2 u hp hq
          exact ⟨e2, List.mem_cons_of_mem _ he2, r⟩
    · rw [if_neg hpe] at hp
      by_cases hqe : q e = true
      · rw [if_pos hqe, clumpUnits_cons, List.mem_append] at hq
        rcases hq with hq | hq
        · exact absurd (hsubp hp) (fun h2 => n3 hq h2)
        · obtain ⟨e2, he2, r⟩ := ih n2 u hp hq
          exact ⟨e2, List.mem_cons_of_mem _ he2, r⟩
      · rw [if_neg hqe] at hq
        obtain ⟨e2, he2, r⟩ := ih n2 u hp hq
        exact ⟨e2, List.mem_cons_of_mem _ he2, r⟩

/-- The body of the second loop of `planModelEval` raises no "already
assigned" for clumps that share no unit with each other or with the groups
built before. -/
theorem planGroup_safe (m : Model α) (budget : Nat) (G : List (List Nat)) (st0 st : State α)
    (clumps : List (List Nat)) (hassign : AssignInv (G ++ [[]]) st) (hframe : PlanFrame st0 st)
    (hG : G.length = st.group.length) (hnd : clumps.flatten.Nodup)
    (hfresh : ∀ u ∈ clumps.flatten, ∀ gm ∈ G, u ∉ gm) (e : Error)
    (h : planGroup m budget st clumps = .error e) : e.isAssigned = false := by
  unfold planGroup at h
  simp only at h
  cases hcm : collectMeans m st budget clumps [] with
  | error err =>
    rw [hcm] at h
    simp only [Except.error.injEq] at h
    rw [← h]
    exact collectMeans_safe m st budget clumps [] err hcm
  | ok cmm =>
    rw [hcm] at h
    simp only at h
    have hperm := collectMeans_units m st budget clumps [] cmm hcm
      (by simpa [clumpUnits] using hnd)
    have hperm2 : (clumpUnits cmm).Perm clumps.flatten := by
      simpa [clumpUnits] using hperm
    have hndc : (clumpUnits cmm).Nodup := hperm2.nodup_iff.2 hnd
    rw [← hG] at h
    have hpsinit : PSInv m G st0
        { st := st, ig := IndependentGroup.new ((clumps.headD []).length) } := by
      refine ⟨hassign, hframe, rfl, ?_⟩
      intro q pl hq
      simp [IndependentGroup.new] at hq
    have hfreshAll : ∀ u ∈ clumpUnits cmm, ∀ gm ∈ G, u ∉ gm :=
      fun u hu => hfresh u (hperm2.mem_iff.1 hu)
    obtain ⟨l1, l2⟩ := placeLoose_safe m G st0 cmm _ hpsinit
      (hndc.sublist (clumpUnits_filter_sublist _ cmm))
      (by
        intro u hu gm hgm
        rcases List.mem_append.1 hgm with hgm | hgm
        · exact hfreshAll u ((clumpUnits_filter_sublist _ cmm).subset hu) gm hgm
        · simp only [List.mem_singleton] at hgm
          subst hgm
          simp [IndependentGroup.new])
    cases hpl : placeLoose m G.length cmm
        { st := st, ig := IndependentGroup.new ((clumps.headD []).length) } with
    | error err =>
      rw [hpl] at h
      simp only [Except.error.injEq] at h
      rw [← h]
      exact l1 err hpl
    | ok ps1 =>
      rw [hpl] at h
      simp only at h
      obtain ⟨p1, p2⟩ := l2 ps1 hpl
      have hg1 : ps1.ig.gMap =
          clumpUnits (cmm.filter (fun e => decide (e.2.length ≤ 1))) := by
        rw [p2]
        simp [IndependentGroup.new]
      cases hsf : placeSufficient m G.length cmm ps1 with
      | error err =>
        rw [hsf] at h
        simp only [Except.error.injEq] at h
        rw [← h]
        refine placeSufficient_safe m G st0 cmm ps1 p1
          (hndc.sublist (clumpUnits_filter_sublist _ cmm)) ?_ err hsf
        intro u hu gm hgm
        rcases List.mem_append.1 hgm with hgm | hgm
        · exact hfreshAll u ((clumpUnits_filter_sublist _ cmm).subset hu) gm hgm
        · simp only [List.mem_singleton] at hgm
          subst hgm
          rw [hg1]
          intro hin
          obtain ⟨e2, -, q1, q2, q3⟩ := clumpUnits_filter_both _ _ cmm hndc u hin hu
          simp only [decide_eq_true_eq] at q1 q2
          have h0 : e2.2 = [] := List.length_eq_zero.1 (by omega)
          rw [h0] at q3
          simp at q3
      | ok ps2 =>
        rw [hsf] at h
        simp only at h
        split at h
        · rename_i err hpr
          simp only [Except.error.injEq] at h
          rw [← h]
          exact prep_safe m _ err hpr
        · cases h

/-- The second loop of `planModelEval` raises no "already assigned" for a map
whose clumps share no unit with each other or with the groups built before.
-/
theorem planGroups_safe (m : Model α) (budget : Nat) (st0 : State α) :
    ∀ (cgm : List (List Nat × List (List Nat))) (done : List (List (List Nat)))
      (st : State α), PlanInv m st0 done st → (clumpUnits cgm).Nodup →
      (∀ u ∈ clumpUnits cgm, ∀ g ∈ st.group, u ∉ g.gMap) →
      ∀ e, planGroups m budget cgm st = .error e → e.isAssigned = false := by
  intro cgm
  induction cgm with
  | nil => intro done st _ _ _ e h; simp [planGroups] at h
  | cons e0 rest ih =>
    intro done st hinv hnd hfresh e h
    obtain ⟨key, clumps⟩ := e0
    rw [clumpUnits_cons] at hnd hfresh
    simp only at hnd hfresh
    obtain ⟨n1, n2, n3⟩ := List.nodup_append.1 hnd
    rw [planGroups] at h
    cases hg : planGroup m budget st clumps with
    | error err =>
      rw [hg] at h
      simp only [Except.error.injEq] at h
      rw [← h]
      refine planGroup_safe m budget (st.group.map (fun g => g.gMap)) st0 st clumps
        hinv.assign hinv.frame (by rw [List.length_map]) n1 ?_ err hg
      intro u hu gm hgm
      obtain ⟨g, hgg, rfl⟩ := List.mem_map.1 hgm
      exact hfresh u (List.mem_append_left _ hu) g hgg
    | ok st1 =>
      rw [hg] at h
      simp only at h
      obtain ⟨ig, cl, i1, -, -, i4⟩ := planGroup_spec m budget
        (st.group.map (fun g => g.gMap)) st0 st st1 clumps hinv.assign hinv.frame
        (by rw [List.length_map]) hg
      refine ih (done ++ [clumps]) st1 (planInv_step m budget st0 st st1 done clumps hinv hg)
        n2 ?_ e h
      intro u hu g hgm
      rw [i1, List.mem_append, List.mem_singleton] at hgm
      rcases hgm with hgm | rfl
      · exact hfresh u (List.mem_append_right _ hu) g hgm
      · rw [i4.gmap]
        intro hin
        obtain ⟨x, hx, hux⟩ := List.mem_flatten.1 hin
        exact n3 (List.mem_flatten.2 ⟨x, i4.sub x hx, hux⟩) hu

/-- On a state without group whose clumps form a forest, each member linked
to the unit of its clump, `planModelEval` raises no "already assigned". -/
theorem planModelEval_safe (m : Model α) (budget : Nat) (st : State α) (hstart : PlanStart st)
    (hf : ClumpForest st) (hsetup : st.layoutSetup.length = st.layout.length)
    (hmap : ∀ k v, st.rowToLayoutMap k = some v → Int.toNat v < st.layout.length)
    (hlink : ∀ cc, computeConnected m st = .ok cc → ∀ u v, Child st u v → cc.Linked u v)
    (e : Error) (h : planModelEval m budget st = .error e) : e.isAssigned = false := by
  unfold planModelEval at h
  cases hfs : m.forceSingleGroup with
  | true =>
    rw [hfs] at h
    simp only [if_true] at h
    rw [hstart.no_group] at h
    have hinit : PSInv m [] st { st := st, ig := IndependentGroup.new st.layout.length } := by
      refine ⟨planStart_assign st hstart, PlanFrame.refl_plan st, rfl, ?_⟩
      intro q pl hq
      simp [IndependentGroup.new] at hq
    cases hp : placeAll m ([] : List (IndependentGroup α)).length (List.range st.layout.length)
        { st := st, ig := IndependentGroup.new st.layout.length } with
    | error err =>
      rw [hp] at h
      simp only [Except.error.injEq] at h
      rw [← h]
      refine placeAll_safe m [] st _ _ err hinit (List.nodup_range _) ?_ hp
      intro u _ gm hgm
      simp only [List.nil_append, List.mem_singleton] at hgm
      subst hgm
      simp [IndependentGroup.new]
    | ok ps =>
      rw [hp] at h
      simp only at h
      split at h
      · rename_i err hpr
        simp only [Except.error.injEq] at h
        rw [← h]
        exact prep_safe m ps err hpr
      · cases h
  | false =>
    rw [hfs] at h
    simp only [Bool.false_eq_true, if_false] at h
    cases hcc : computeConnected m st with
    | error err =>
      rw [hcc] at h
      simp only [Except.error.injEq] at h
      rw [← h]
      exact connectUnits_safe m st _ _ err hcc
    | ok cc =>
      rw [hcc] at h
      simp only at h
      cases hacc : collectClumps m st budget cc.region st.layout.length 0
          { connected := cc.connected, cgm := [] } with
      | error err =>
        rw [hacc] at h
        simp only [Except.error.injEq] at h
        rw [← h]
        exact collectClumps_safe m st budget _ _ _ _ err hacc
      | ok acc =>
        rw [hacc] at h
        simp only at h
        obtain ⟨c1, c2, -⟩ := computeConnected_spec m st cc hcc
        have hnd := collectClumps_apart m st hf budget cc c1
          (computeConnected_members m st cc hmap hcc) c2 hsetup (hlink cc hcc) acc hacc
        refine planGroups_safe m budget st acc.cgm [] st (planStart_inv m st hstart) hnd ?_ e h
        intro u _ g hg
        rw [hstart.no_group] at hg
        cases hg

theorem getElem?_of_lt {β : Type} (l : List β) (i : Nat) (h : i < l.length) :
    ∃ b, l[i]? = some b :=
  ⟨l[i], List.getElem?_eq_getElem h⟩

theorem trackStep_keeps (st st' : State α) (ht : ClumpTrack st) (hs : TrackStep st st') :
    ClumpTrack st' := by
  have hback : ∀ (u : Nat) (s : AddrSetup), st.layoutSetup[u]? = some s →
      ∃ s2, st'.layoutSetup[u]? = some s2 ∧ s2.clump.Perm s.clump ∧ s2.clumped = s.clumped ∧
        s2.parent1 = s.parent1 ∧ (s2.numJoins = s.numJoins ∨ s2.numJoins ≠ 1) := by
    intro u s hu
    have hlt := getElem?_lt_length _ _ _ hu
    obtain ⟨s2, hs2⟩ := getElem?_of_lt st'.layoutSetup u (by rw [hs.setup_len]; exact hlt)
    obtain ⟨s0, h0, hrest⟩ := hs.setup u s2 hs2
    rw [hu] at h0
    cases h0
    exact ⟨s2, hs2, hrest⟩
  refine ⟨by rw [hs.setup_len, hs.layout_len]; exact ht.len, ?_, ?_, ?_, ?_, ?_⟩
  · intro u s2 hu
    obtain ⟨s, h0, hp, -⟩ := hs.setup u s2 hu
    exact (hp.nodup_iff).2 (ht.nodup u s h0)
  · rintro u v ⟨s2, hu, hv⟩
    obtain ⟨s, h0, hp, -⟩ := hs.setup u s2 hu
    obtain ⟨sv, av, hsv, hcl, hpar, hav, hsc⟩ := ht.child u v ⟨s, h0, hp.mem_iff.1 hv⟩
    obtain ⟨sv2, hsv2, -, hcl2, hpar2, -⟩ := hback v sv hsv
    have hlt := getElem?_lt_length _ _ _ hav
    obtain ⟨a2, ha2⟩ := getElem?_of_lt st'.layout v (by rw [hs.layout_len]; exact hlt)
    obtain ⟨a, ha, hcase⟩ := hs.layout v a2 ha2
    rw [hav] at ha
    cases ha
    refine ⟨sv2, a2, hsv2, by rw [hcl2]; exact hcl, by rw [hpar2]; exact hpar, ha2, ?_⟩
    rcases hcase with h1 | h1 | h1
    · rw [h1]; exact hsc
    · exact h1
    · have := (h1 sv2 hsv2).1
      rw [hcl2, hcl] at this
      cases this
  · intro v sv2 hv hcl
    obtain ⟨sv, h0, -, hcl2, -⟩ := hs.setup v sv2 hv
    obtain ⟨u, s, hu, hmem⟩ := ht.clumped_child v sv h0 (by rw [← hcl2]; exact hcl)
    obtain ⟨s2, hs2, hp, -⟩ := hback u s hu
    exact ⟨u, s2, hs2, hp.mem_iff.2 hmem⟩
  · intro v sv2 a2 hv ha2 hcl hnj
    obtain ⟨sv, h0, -, hcl2, -, hj⟩ := hs.setup v sv2 hv
    obtain ⟨a, ha, hcase⟩ := hs.layout v a2 ha2
    rcases hj with hj | hj
    · have hsc := ht.scale v sv a h0 ha (by rw [← hcl2]; exact hcl) (by rw [← hj]; exact hnj)
      rcases hcase with h1 | h1 | h1
      · rw [h1]; exact hsc
      · exact h1
      · exact absurd hnj (h1 sv2 hv).2
    · exact absurd hnj hj
  · intro v sv2 p hv hpar
    obtain ⟨sv, h0, -, -, hpar2, -⟩ := hs.setup v sv2 hv
    exact ht.parent_lt v sv p h0 (by rw [← hpar2]; exact hpar)

theorem FlagsKept.refl_flags (T : List Nat) (st : State α) : FlagsKept T st st :=
  fun _ s _ h => ⟨s, h, rfl, rfl, rfl⟩

theorem FlagsKept.trans_flags {T : List Nat} {a b c : State α} (h1 : FlagsKept T a b)
    (h2 : FlagsKept T b c) : FlagsKept T a c := by
  intro u s hu hs
  obtain ⟨s1, hs1, e1, e2, e3⟩ := h1 u s hu hs
  obtain ⟨s2, hs2, f1, f2, f3⟩ := h2 u s1 hu hs1
  exact ⟨s2, hs2, by rw [f1, e1], by rw [f2, e2], by rw [f3, e3]⟩

theorem FlagsKept.mono_flags {T T' : List Nat} {a b : State α} (h : FlagsKept T a b)
    (hsub : ∀ u, u ∈ T → u ∈ T') : FlagsKept T' a b :=
  fun u s hu hs => h u s (fun hm => hu (hsub u hm)) hs

/-- A step of `oertzenRotate` clumps no unit. -/
theorem trackStep_oertzen (st st' : State α) (h : OertzenFrame st st') : TrackStep st st' := by
  have hlen : st'.layoutSetup.length = st.layoutSetup.length := by
    simpa using congrArg List.length h.setup
  have hlen2 : st'.layout.length = st.layout.length := by
    simpa using congrArg List.length h.units
  refine ⟨?_, hlen, ?_, hlen2⟩
  · intro u s2 hu
    have hlt := getElem?_lt_length _ _ _ hu
    obtain ⟨s, hs⟩ := getElem?_of_lt st.layoutSetup u (by rw [← hlen]; exact hlt)
    obtain ⟨s', hs', hk⟩ := h.setup_at u s hs
    rw [hu] at hs'
    cases hs'
    simp only [AddrSetup.planKey, Prod.mk.injEq] at hk
    obtain ⟨-, k2, k3, -, k5, k6, -⟩ := hk
    exact ⟨s, hs, by rw [k6], k5, k3, Or.inl k2⟩
  · intro v a2 hv
    have hlt := getElem?_lt_length _ _ _ hv
    obtain ⟨a, ha⟩ := getElem?_of_lt st.layout v (by rw [← hlen2]; exact hlt)
    obtain ⟨a', ha', hk⟩ := h.scaleKept [] v a (by simp) ha
    rw [hv] at ha'
    cases ha'
    exact ⟨a, ha, Or.inl hk⟩

theorem flagsKept_oertzen (st st' : State α) (h : OertzenFrame st st') (T : List Nat) :
    FlagsKept T st st' := by
  intro u s _ hs
  obtain ⟨s', hs', hk⟩ := h.setup_at u s hs
  simp only [AddrSetup.planKey, Prod.mk.injEq] at hk
  obtain ⟨-, k2, k3, -, k5, -, -⟩ := hk
  exact ⟨s', hs', k5, k2, k3⟩

/-- An assignment to fields of a unit other than its clump, `clumped` and
`parent1` clumps no unit, when `numJoins` is kept or is not `1` afterwards. -/
theorem trackStep_modifySetup (st : State α) (ax : Nat) (f : AddrSetup → AddrSetup)
    (hf : ∀ s, st.layoutSetup[ax]? = some s → (f s).clump.Perm s.clump ∧
      (f s).clumped = s.clumped ∧ (f s).parent1 = s.parent1 ∧
      ((f s).numJoins = s.numJoins ∨ (f s).numJoins ≠ 1)) :
    TrackStep st (st.modifySetup ax f) := by
  refine ⟨?_, by simp [State.modifySetup], fun v a2 hv => ⟨a2, hv, Or.inl rfl⟩, rfl⟩
  intro u s2 hu
  rw [modifySetup_get] at hu
  cases hs : st.layoutSetup[u]? with
  | none => rw [hs] at hu; cases hu
  | some s =>
    rw [hs] at hu
    simp only [Option.map_eq_map, Option.map_some', Option.some.injEq] at hu
    by_cases hax : ax = u
    · subst hax
      simp only [if_true] at hu
      subst hu
      exact ⟨s, rfl, hf s hs⟩
    · simp only [hax, if_false] at hu
      subst hu
      exact ⟨s, rfl, List.Perm.refl _, rfl, rfl, Or.inl rfl⟩

theorem flagsKept_modifySetup (T : List Nat) (st : State α) (ax : Nat)
    (f : AddrSetup → AddrSetup)
    (hf : ax ∈ T ∨ ∀ s, (f s).clumped = s.clumped ∧ (f s).numJoins = s.numJoins ∧
      (f s).parent1 = s.parent1) :
    FlagsKept T st (st.modifySetup ax f) := by
  intro u s hu hs
  rw [modifySetup_get, hs]
  simp only [Option.map_eq_map, Option.map_some', Option.some.injEq]
  by_cases hax : ax = u
  · subst hax
    rcases hf with hf | hf
    · exact absurd hf hu
    · simp only [if_true]
      exact ⟨f s, rfl, hf s⟩
  · simp only [hax, if_false]
    exact ⟨s, rfl, rfl, rfl, rfl⟩

theorem flagsKept_modifyAddr (T : List Nat) (st : State α) (ax : Nat) (f : Addr α → Addr α) :
    FlagsKept T st (st.modifyAddr ax f) :=
  fun _ s _ h => ⟨s, h, rfl, rfl, rfl⟩

/-- The assignment of a scale that is not zero clumps no unit. -/
theorem trackStep_modifyAddr (st : State α) (ax : Nat) (f : Addr α → Addr α)
    (hf : ∀ a, (f a).rampartScale ≠ 0) : TrackStep st (st.modifyAddr ax f) := by
  refine ⟨fun u s2 hu => ⟨s2, hu, List.Perm.refl _, rfl, rfl, Or.inl rfl⟩, rfl, ?_,
    by simp [State.modifyAddr]⟩
  intro v a2 hv
  rw [modifyAddr_get] at hv
  cases ha : st.layout[v]? with
  | none => rw [ha] at hv; cases hv
  | some a =>
    rw [ha] at hv
    simp only [Option.map_eq_map, Option.map_some', Option.some.injEq] at hv
    by_cases hax : ax = v
    · simp only [hax, if_true] at hv
      subst hv
      exact ⟨a, rfl, Or.inr (Or.inl (hf a))⟩
    · simp only [hax, if_false] at hv
      subst hv
      exact ⟨a, rfl, Or.inl rfl⟩

theorem foldl_zero_length (st : State α) (l : List Nat) :
    (l.foldl (fun s u =>
      (s.modifyAddr u (fun a => { a with rampartScale := 0 })).modifySetup u
        (fun a => { a with numJoins := 0 })) st).layoutSetup.length = st.layoutSetup.length ∧
    (l.foldl (fun s u =>
      (s.modifyAddr u (fun a => { a with rampartScale := 0 })).modifySetup u
        (fun a => { a with numJoins := 0 })) st).layout.length = st.layout.length := by
  induction l generalizing st with
  | nil => exact ⟨rfl, rfl⟩
  | cons u rest ih =>
    simp only [List.foldl_cons]
    obtain ⟨h1, h2⟩ := ih ((st.modifyAddr u (fun a => { a with rampartScale := 0 })).modifySetup u
        (fun a => { a with numJoins := 0 }))
    rw [h1, h2]
    simp [State.modifySetup, State.modifyAddr]

/-- The loop of `rampartRotate` that sets the scale and `numJoins` of the other
units of a group to zero clumps no unit, when these units are not clumped. -/
theorem trackStep_zero (st : State α) (l : List Nat)
    (hl : ∀ u ∈ l, ∀ s, st.layoutSetup[u]? = some s → s.clumped = false) :
    TrackStep st (l.foldl (fun s u =>
      (s.modifyAddr u (fun a => { a with rampartScale := 0 })).modifySetup u
        (fun a => { a with numJoins := 0 })) st) := by
  have hsetup := foldl_modifyBoth_setup (fun a : Addr α => { a with rampartScale := 0 })
    (fun a => { a with numJoins := 0 }) (fun _ => rfl) l st
  have hlayout := foldl_modifyBoth_layout (fun a : Addr α => { a with rampartScale := 0 })
    (fun a => { a with numJoins := 0 }) (fun _ => rfl) l st
  have hget : ∀ (u : Nat) (s2 : AddrSetup),
      (l.foldl (fun s u => (s.modifyAddr u (fun a => { a with rampartScale := 0 })).modifySetup u
        (fun a => { a with numJoins := 0 })) st).layoutSetup[u]? = some s2 →
      ∃ s, st.layoutSetup[u]? = some s ∧ s2 = (if u ∈ l then { s with numJoins := 0 } else s) := by
    intro u s2 hu
    rw [hsetup] at hu
    cases hs : st.layoutSetup[u]? with
    | none => rw [hs] at hu; cases hu
    | some s =>
      rw [hs] at hu
      simp only [Option.map_some', Option.some.injEq] at hu
      exact ⟨s, rfl, hu.symm⟩
  refine ⟨?_, ?_, ?_, ?_⟩
  · intro u s2 hu
    obtain ⟨s, hs, he⟩ := hget u s2 hu
    refine ⟨s, hs, ?_⟩
    by_cases hm : u ∈ l
    · rw [if_pos hm] at he
      subst he
      exact ⟨List.Perm.refl _, rfl, rfl, Or.inr (by simp)⟩
    · rw [if_neg hm] at he
      subst he
      exact ⟨List.Perm.refl _, rfl, rfl, Or.inl rfl⟩
  · exact (foldl_zero_length st l).1
  · intro v a2 hv
    rw [hlayout] at hv
    cases ha : st.layout[v]? with
    | none => rw [ha] at hv; cases hv
    | some a =>
      rw [ha] at hv
      simp only [Option.map_some', Option.some.injEq] at hv
      refine ⟨a, rfl, ?_⟩
      by_cases hm : v ∈ l
      · right; right
        intro sv hsv
        obtain ⟨s, hs, he⟩ := hget v sv hsv
        rw [if_pos hm] at he
        subst he
        exact ⟨hl v hm s hs, by simp⟩
      · rw [if_neg hm] at hv
        subst hv
        exact Or.inl rfl
  · exact (foldl_zero_length st l).2

theorem flagsKept_zero (st : State α) (l T : List Nat) (hsub : ∀ u, u ∈ l → u ∈ T) :
    FlagsKept T st (l.foldl (fun s u =>
      (s.modifyAddr u (fun a => { a with rampartScale := 0 })).modifySetup u
        (fun a => { a with numJoins := 0 })) st) := by
  intro u s hu hs
  rw [foldl_modifyBoth_setup (fun a : Addr α => { a with rampartScale := 0 })
    (fun a => { a with numJoins := 0 }) (fun _ => rfl) l st, hs]
  have hm : u ∉ l := fun hm => hu (hsub u hm)
  simp only [Option.map_some', hm, if_false]
  exact ⟨s, rfl, rfl, rfl, rfl⟩

theorem clumpWith_get (st : State α) (p v u : Nat) :
    (st.clumpWith p v).layoutSetup[u]? =
      (st.layoutSetup[u]?).map (fun a =>
        { a with clump := if p = u then a.clump ++ [v] else a.clump,
                 clumped := if v = u then true else a.clumped }) := by
  unfold State.clumpWith
  rw [modifySetup_get, modifySetup_get]
  cases st.layoutSetup[u]? with
  | none => rfl
  | some a =>
    simp only [Option.map_eq_map, Option.map_some', Option.some.injEq]
    by_cases h1 : p = u
    · by_cases h2 : v = u
      · simp [h1, h2]
      · simp [h1, h2]
    · by_cases h2 : v = u
      · simp [h1, h2]
      · simp [h1, h2]

theorem flagsKept_clumpWith (st : State α) (p v : Nat) (T : List Nat) (hv : v ∈ T) :
    FlagsKept T st (st.clumpWith p v) := by
  intro u s hu hs
  rw [clumpWith_get, hs]
  have : ¬ v = u := fun h => hu (h ▸ hv)
  simp only [Option.map_some', this, if_false]
  exact ⟨_, rfl, rfl, rfl, rfl⟩

/-- Clumping a unit that is not clumped yet into its `parent1` keeps the
clumps in order. -/
theorem clumpTrack_clumpWith (st : State α) (p v : Nat) (ht : ClumpTrack st)
    (hp : p < st.layoutSetup.length) (sv : AddrSetup) (av : Addr α)
    (hsv : st.layoutSetup[v]? = some sv) (hcl : sv.clumped = false)
    (hpar : sv.parent1 = some p) (hav : st.layout[v]? = some av)
    (hsc : av.rampartScale ≠ 0) : ClumpTrack (st.clumpWith p v) := by
  have hnew : ∀ (u : Nat) (s2 : AddrSetup), (st.clumpWith p v).layoutSetup[u]? = some s2 →
      ∃ s, st.layoutSetup[u]? = some s ∧
        s2 = { s with clump := if p = u then s.clump ++ [v] else s.clump,
                      clumped := if v = u then true else s.clumped } := by
    intro u s2 hu
    rw [clumpWith_get] at hu
    cases hs : st.layoutSetup[u]? with
    | none => rw [hs] at hu; cases hu
    | some s =>
      rw [hs] at hu
      simp only [Option.map_some', Option.some.injEq] at hu
      exact ⟨s, rfl, hu.symm⟩
  have hold : ∀ (u : Nat) (s : AddrSetup), st.layoutSetup[u]? = some s →
      (st.clumpWith p v).layoutSetup[u]? =
        some { s with clump := if p = u then s.clump ++ [v] else s.clump,
                      clumped := if v = u then true else s.clumped } := by
    intro u s hs
    rw [clumpWith_get, hs]
    rfl
  have hnotin : ∀ (u : Nat) (s : AddrSetup), st.layoutSetup[u]? = some s → v ∉ s.clump := by
    intro u s hs hmem
    obtain ⟨sv', _, hsv', hcl', -⟩ := ht.child u v ⟨s, hs, hmem⟩
    rw [hsv] at hsv'
    cases hsv'
    rw [hcl] at hcl'
    cases hcl'
  have hlay : (st.clumpWith p v).layout = st.layout := rfl
  refine ⟨?_, ?_, ?_, ?_, ?_, ?_⟩
  · rw [hlay, ← ht.len]
    simp [State.clumpWith, State.modifySetup]
  · intro u s2 hu
    obtain ⟨s, hs, he⟩ := hnew u s2 hu
    subst he
    by_cases h1 : p = u
    · simp only [h1, if_true]
      refine List.Nodup.append (ht.nodup u s hs) (List.nodup_singleton v) ?_
      intro x hx hx2
      simp only [List.mem_singleton] at hx2
      subst hx2
      exact hnotin u s hs hx
    · simp only [h1, if_false]
      exact ht.nodup u s hs
  · rintro u w ⟨s2, hu, hw⟩
    obtain ⟨s, hs, he⟩ := hnew u s2 hu
    subst he
    have hcase : w ∈ s.clump ∨ (p = u ∧ w = v) := by
      by_cases h1 : p = u
      · simp only [h1, if_true, List.mem_append, List.mem_singleton] at hw
        rcases hw with hw | hw
        · exact Or.inl hw
        · exact Or.inr ⟨h1, hw⟩
      · simp only [h1, if_false] at hw
        exact Or.inl hw
    rcases hcase with hw1 | ⟨h1, h2⟩
    · obtain ⟨sw, aw, hsw, hclw, hparw, haw, hscw⟩ := ht.child u w ⟨s, hs, hw1⟩
      refine ⟨_, aw, hold w sw hsw, ?_, hparw, by rw [hlay]; exact haw, hscw⟩
      by_cases h3 : v = w
      · simp [h3]
      · simp only [h3, if_false]
        exact hclw
    · subst h1
      subst h2
      exact ⟨_, av, hold w sv hsv, by simp, hpar, by rw [hlay]; exact hav, hsc⟩
  · intro w s2 hw hclw
    obtain ⟨s, hs, he⟩ := hnew w s2 hw
    subst he
    by_cases h3 : v = w
    · subst h3
      obtain ⟨sp, hsp⟩ := getElem?_of_lt st.layoutSetup p hp
      exact ⟨p, _, hold p sp hsp, by simp⟩
    · simp only [h3, if_false] at hclw
      obtain ⟨u, su, hsu, hmem⟩ := ht.clumped_child w s hs hclw
      refine ⟨u, _, hold u su hsu, ?_⟩
      by_cases h1 : p = u
      · simp only [h1, if_true, List.mem_append]
        exact Or.inl hmem
      · simp only [h1, if_false]
        exact hmem
  · intro w s2 aw hw haw hclw hnj
    obtain ⟨s, hs, he⟩ := hnew w s2 hw
    subst he
    by_cases h3 : v = w
    · simp [h3] at hclw
    · simp only [h3, if_false] at hclw
      exact ht.scale w s aw hs (by rw [← hlay]; exact haw) hclw hnj
  · intro w s2 q hw hq
    obtain ⟨s, hs, he⟩ := hnew w s2 hw
    subst he
    exact ht.parent_lt w s q hs hq

theorem orderedInsertM_perm (cmp : Nat → Nat → Except Error Bool) (x : Nat) :
    ∀ (l l' : List Nat), orderedInsertM cmp x l = .ok l' → l'.Perm (x :: l) := by
  intro l
  induction l with
  | nil =>
    intro l' h
    simp only [orderedInsertM, Except.ok.injEq] at h
    subst h
    exact List.Perm.refl _
  | cons z zs ih =>
    intro l' h
    rw [orderedInsertM] at h
    cases h1 : cmp x z with
    | error err => rw [h1] at h; cases h
    | ok b =>
      rw [h1] at h
      cases b with
      | true =>
        simp only [Except.ok.injEq] at h
        subst h
        exact List.Perm.refl _
      | false =>
        simp only at h
        cases h2 : orderedInsertM cmp x zs with
        | error err => rw [h2] at h; cases h
        | ok zs' =>
          rw [h2] at h
          simp only [Except.ok.injEq] at h
          subst h
          exact ((ih zs' h2).cons z).trans (List.Perm.swap x z zs)

theorem sortM_perm (cmp : Nat → Nat → Except Error Bool) :
    ∀ (l l' : List Nat), sortM cmp l = .ok l' → l'.Perm l := by
  intro l
  induction l with
  | nil =>
    intro l' h
    simp only [sortM, Except.ok.injEq] at h
    subst h
    exact List.Perm.refl _
  | cons x xs ih =>
    intro l' h
    rw [sortM] at h
    cases h1 : sortM cmp xs with
    | error err => rw [h1] at h; cases h
    | ok sorted =>
      rw [h1] at h
      simp only at h
      exact (orderedInsertM_perm cmp x sorted l' h).trans ((ih sorted h1).cons x)

/-- The body of the second loop of `rampartRotate` keeps the clumps in order,
when the square root of a count of two or more is not zero. -/
theorem rampartGroup_track (m : Model α) (sqrt : α → α) (budget : Nat) (st st' : State α)
    (t1 : List Nat) (hsqrt : ∀ n : Nat, 2 ≤ n → sqrt (n : α) ≠ 0) (ht : ClumpTrack st)
    (hne : t1 ≠ []) (hnd : t1.Nodup)
    (hel : ∀ u ∈ t1, ∃ s, st.layoutSetup[u]? = some s ∧ s.clumped = false ∧ s.numJoins = 1)
    (h : rampartGroup m sqrt budget st t1 = .ok st') :
    ClumpTrack st' ∧ FlagsKept t1 st st' := by
  obtain ⟨first, rest, rfl⟩ : ∃ first rest, t1 = first :: rest := by
    cases t1 with
    | nil => exact absurd rfl hne
    | cons x xs => exact ⟨x, xs, rfl⟩
  have hg : (first :: rest).getD 0 0 = first := rfl
  obtain ⟨s0, hs0, hcl0, hnj0⟩ := hel first (List.mem_cons_self _ _)
  unfold rampartGroup at h
  rw [hg] at h
  split at h
  · rename_i hlen
    cases h1 : oertzenRotate m sqrt budget (decide (1 ≤ m.optimizeMean)) budget (first :: rest)
        st with
    | error err => rw [h1] at h; cases h
    | ok st1 =>
      rw [h1] at h
      simp only at h
      have hfr := oertzenRotate_frame m sqrt budget _ _ _ _ _ h1
      have ht1 := trackStep_keeps st st1 ht (trackStep_oertzen st st1 hfr)
      have hk1 : FlagsKept [] st st1 := flagsKept_oertzen st st1 hfr []
      have ht2 := trackStep_keeps _ _ ht1
        (trackStep_modifyAddr st1 first
          (fun a => { a with rampartScale := sqrt ((first :: rest).length : α) })
          (fun _ => hsqrt _ hlen))
      have hk2 : FlagsKept [] st (st1.modifyAddr first
          (fun a => { a with rampartScale := sqrt ((first :: rest).length : α) })) :=
        hk1.trans_flags (flagsKept_modifyAddr [] st1 _ _)
      cases h2 : groupParent (st1.modifyAddr first
          (fun a => { a with rampartScale := sqrt ((first :: rest).length : α) }))
          (first :: rest) with
      | error err => rw [h2] at h; cases h
      | ok p =>
        rw [h2] at h
        simp only [Except.ok.injEq] at h
        obtain ⟨sg, hsg, hparg, hpg⟩ := groupParent_ok _ _ _ h2
        rw [hg] at hsg
        have ht3 := trackStep_keeps _ _ ht2
          (trackStep_modifySetup (st1.modifyAddr first
            (fun a => { a with rampartScale := sqrt ((first :: rest).length : α) })) p
            (fun a => { a with numKids := a.numKids - ((first :: rest).length : Int) })
            (fun s _ => ⟨List.Perm.refl _, rfl, rfl, Or.inl rfl⟩))
        have hk3 : FlagsKept [] st ((st1.modifyAddr first
            (fun a => { a with rampartScale := sqrt ((first :: rest).length : α) })).modifySetup p
            (fun a => { a with numKids := a.numKids - ((first :: rest).length : Int) })) :=
          hk2.trans_flags (flagsKept_modifySetup [] _ p _ (Or.inr (fun s => ⟨rfl, rfl, rfl⟩)))
        obtain ⟨s3, hs3, hcl3, hnj3, hpar3⟩ := hk3 first s0 (by simp) hs0
        obtain ⟨s2, hs2, -, -, hpar2⟩ := hk2 first s0 (by simp) hs0
        rw [hsg] at hs2
        cases hs2
        obtain ⟨a3, ha3⟩ := getElem?_of_lt _ first
          (by rw [← ht3.len]; exact getElem?_lt_length _ _ _ hs3)
        have hsc3 := ht3.scale first s3 a3 hs3 ha3 (by rw [hcl3]; exact hcl0)
          (by rw [hnj3]; exact hnj0)
        have ht4 := clumpTrack_clumpWith _ p first ht3
          (by simpa [State.modifySetup] using hpg) s3 a3 hs3 (by rw [hcl3]; exact hcl0)
          (by rw [hpar3, ← hpar2]; exact hparg) ha3 hsc3
        have hk4 : FlagsKept (first :: rest) st (((st1.modifyAddr first
            (fun a => { a with rampartScale := sqrt ((first :: rest).length : α) })).modifySetup p
            (fun a => { a with numKids := a.numKids - ((first :: rest).length : Int) })).clumpWith
            p first) :=
          (hk3.mono_flags (fun u hu => by cases hu)).trans_flags
            (flagsKept_clumpWith _ p first _ (List.mem_cons_self _ _))
        have hk4b : FlagsKept [first] st (((st1.modifyAddr first
            (fun a => { a with rampartScale := sqrt ((first :: rest).length : α) })).modifySetup p
            (fun a => { a with numKids := a.numKids - ((first :: rest).length : Int) })).clumpWith
            p first) :=
          (hk3.mono_flags (fun u hu => by cases hu)).trans_flags
            (flagsKept_clumpWith _ p first _ (List.mem_singleton_self _))
        subst h
        simp only [List.drop_one, List.tail_cons]
        refine ⟨trackStep_keeps _ _ ht4 (trackStep_zero _ rest ?_),
          hk4.trans_flags (flagsKept_zero _ rest _ (fun u hu => List.mem_cons_of_mem _ hu))⟩
        intro u hu s hs
        obtain ⟨su, hsu, hclu, -⟩ := hel u (List.mem_cons_of_mem _ hu)
        have hne1 : u ∉ [first] := by
          simp only [List.mem_singleton]
          rintro rfl
          exact (List.nodup_cons.1 hnd).1 hu
        obtain ⟨s', hs', hcl', -⟩ := hk4b u su hne1 hsu
        rw [hs] at hs'
        cases hs'
        rw [hcl']; exact hclu
  · rename_i hlen
    have hrest : rest = [] := by
      cases rest with
      | nil => rfl
      | cons y ys => simp at hlen
    subst hrest
    cases h2 : groupParent st [first] with
    | error err => rw [h2] at h; cases h
    | ok p =>
      rw [h2] at h
      simp only [Except.ok.injEq, List.foldl_cons, List.foldl_nil] at h
      obtain ⟨sg, hsg, hparg, hpg⟩ := groupParent_ok _ _ _ h2
      rw [show ([first] : List Nat).getD 0 0 = first from rfl, hs0] at hsg
      cases hsg
      have ht3 := trackStep_keeps _ _ ht
        (trackStep_modifySetup st p
          (fun a => { a with numKids := a.numKids - (([first] : List Nat).length : Int) })
          (fun s _ => ⟨List.Perm.refl _, rfl, rfl, Or.inl rfl⟩))
      have hk3 : FlagsKept [] st (st.modifySetup p
          (fun a => { a with numKids := a.numKids - (([first] : List Nat).length : Int) })) :=
        flagsKept_modifySetup [] _ p _ (Or.inr (fun s => ⟨rfl, rfl, rfl⟩))
      obtain ⟨s3, hs3, hcl3, hnj3, hpar3⟩ := hk3 first s0 (by simp) hs0
      obtain ⟨a3, ha3⟩ := getElem?_of_lt _ first
        (by rw [← ht3.len]; exact getElem?_lt_length _ _ _ hs3)
      have hsc3 := ht3.scale first s3 a3 hs3 ha3 (by rw [hcl3]; exact hcl0)
        (by rw [hnj3]; exact hnj0)
      have ht4 := clumpTrack_clumpWith _ p first ht3
        (by simpa [State.modifySetup] using hpg) s3 a3 hs3 (by rw [hcl3]; exact hcl0)
        (by rw [hpar3]; exact hparg) ha3 hsc3
      subst h
      exact ⟨ht4, (hk3.mono_flags (fun u hu => by cases hu)).trans_flags
        (flagsKept_clumpWith _ p first _ (List.mem_singleton_self _))⟩

theorem rampartGroups_track (m : Model α) (sqrt : α → α) (budget : Nat)
    (hsqrt : ∀ n : Nat, 2 ≤ n → sqrt (n : α) ≠ 0) :
    ∀ (todo : List (Nat × List Nat)) (st : State α) (u : Nat) (st' : State α) (u' : Nat),
      ClumpTrack st → (todo.map (fun e => e.2)).flatten.Nodup → (∀ e ∈ todo, e.2 ≠ []) →
      (∀ e ∈ todo, ∀ x ∈ e.2, ∃ s, st.layoutSetup[x]? = some s ∧ s.clumped = false ∧
        s.numJoins = 1) →
      rampartGroups m sqrt budget todo (st, u) = .ok (st', u') → ClumpTrack st' := by
  intro todo
  induction todo with
  | nil =>
    intro st u st' u' ht _ _ _ h
    simp only [rampartGroups, Except.ok.injEq, Prod.mk.injEq] at h
    rw [← h.1]
    exact ht
  | cons e rest ih =>
    intro st u st' u' ht hnd hne hel h
    obtain ⟨k, t1⟩ := e
    rw [rampartGroups] at h
    simp only [List.map_cons, List.flatten_cons] at hnd
    obtain ⟨hnd1, hnd2, hdis⟩ := List.nodup_append.1 hnd
    cases h1 : rampartGroup m sqrt budget st t1 with
    | error err => rw [h1] at h; cases h
    | ok st1 =>
      rw [h1] at h
      simp only at h
      obtain ⟨a1, a2⟩ := rampartGroup_track m sqrt budget st st1 t1 hsqrt ht
        (hne (k, t1) (List.mem_cons_self _ _)) hnd1
        (hel (k, t1) (List.mem_cons_self _ _)) h1
      refine ih st1 _ st' u' a1 hnd2 (fun e he => hne e (List.mem_cons_of_mem _ he)) ?_ h
      intro e he x hx
      obtain ⟨s, hs, hcl, hnj⟩ := hel e (List.mem_cons_of_mem _ he) x hx
      have hx1 : x ∉ t1 := by
        intro hm
        exact hdis hm (List.mem_flatten.2 ⟨e.2, List.mem_map.2 ⟨e, he, rfl⟩, hx⟩)
      obtain ⟨s', hs', hcl', hnj', -⟩ := a2 x s hx1 hs
      exact ⟨s', hs', by rw [hcl']; exact hcl, by rw [hnj']; exact hnj⟩

theorem rampartSort_track (m : Model α) (budget : Nat) :
    ∀ (count ax : Nat) (st st' : State α), ClumpTrack st →
      rampartSort m budget count ax st = .ok st' → ClumpTrack st' := by
  intro count
  induction count with
  | zero =>
    intro ax st st' ht h
    simp only [rampartSort, Except.ok.injEq] at h
    subst h
    exact ht
  | succ count ih =>
    intro ax st st' ht h
    rw [rampartSort] at h
    cases h1 : st.getSetup ax with
    | error err => rw [h1] at h; cases h
    | ok a1 =>
      rw [h1] at h
      simp only at h
      have hs := (getSetup_ok _ _ _).1 h1
      split at h
      · exact ih _ _ _ ht h
      · cases h2 : sortM (rampartClumpCompare m st budget) a1.clump with
        | error err => rw [h2] at h; cases h
        | ok sorted =>
          rw [h2] at h
          simp only at h
          refine ih _ _ _ (trackStep_keeps _ _ ht (trackStep_modifySetup st ax _ ?_)) h
          intro s hs2
          rw [hs] at hs2
          cases hs2
          exact ⟨sortM_perm _ _ _ h2, rfl, rfl, Or.inl rfl⟩

/-- A round of `rampartRotate` keeps the clumps in order. -/
theorem rampartRotate_track (m : Model α) (sqrt : α → α) (budget : Nat) (st st' : State α)
    (unlinked : Nat) (hsqrt : ∀ n : Nat, 2 ≤ n → sqrt (n : α) ≠ 0) (ht : ClumpTrack st)
    (h : rampartRotate m sqrt budget st = .ok (st', unlinked)) : ClumpTrack st' := by
  unfold rampartRotate at h
  cases h1 : rampartCollect m st budget (rampartLoopTo m st) 0 [] with
  | error err => rw [h1] at h; cases h
  | ok todo =>
    rw [h1] at h
    simp only at h
    have hinv := rampartCollect_inv m st budget _ 0 [] todo h1 (todoInv_nil st)
    cases h2 : rampartGroups m sqrt budget todo (st, 0) with
    | error err => rw [h2] at h; cases h
    | ok res =>
      obtain ⟨st1, u1⟩ := res
      rw [h2] at h
      simp only at h
      cases h3 : rampartSort m budget st1.layout.length 0 st1 with
      | error err => rw [h3] at h; cases h
      | ok st2 =>
        rw [h3] at h
        simp only [Except.ok.injEq, Prod.mk.injEq] at h
        rw [← h.1]
        refine rampartSort_track m budget _ _ _ _ ?_ h3
        refine rampartGroups_track m sqrt budget hsqrt todo st 0 st1 u1 ht hinv.nodup
          hinv.nonempty ?_ h2
        intro e he x hx
        obtain ⟨s, hs, -, hnj, hcl⟩ := hinv.eligible e he x hx
        exact ⟨s, hs, hcl, hnj⟩

theorem rampartLoop_track (m : Model α) (sqrt : α → α) (budget : Nat)
    (hsqrt : ∀ n : Nat, 2 ≤ n → sqrt (n : α) ≠ 0) :
    ∀ (fuel : Nat) (maxIter : Option Int) (st st' : State α), ClumpTrack st →
      rampartLoop m sqrt budget fuel maxIter st = .ok st' → ClumpTrack st' := by
  intro fuel
  induction fuel with
  | zero => intro maxIter st st' _ h; simp [rampartLoop] at h
  | succ fuel ih =>
    intro maxIter st st' ht h
    rw [rampartLoop] at h
    cases h1 : rampartRotate m sqrt budget st with
    | error err => rw [h1] at h; cases h
    | ok res =>
      obtain ⟨st1, more⟩ := res
      rw [h1] at h
      simp only at h
      have hm := rampartRotate_track m sqrt budget st st1 more hsqrt ht h1
      have husage : ClumpTrack { st1 with rampartUsage := st1.rampartUsage ++ [more] } :=
        ⟨hm.len, hm.nodup, hm.child, hm.clumped_child, hm.scale, hm.parent_lt⟩
      split at h
      · simp only [Except.ok.injEq] at h
        rw [← h]; exact hm
      · cases maxIter with
        | none =>
          simp only at h
          exact ih _ _ _ husage h
        | some k =>
          simp only at h
          split at h
          · simp only [Except.ok.injEq] at h
            rw [← h]; exact husage
          · exact ih _ _ _ husage h

/-- The Rampart part of `state::init` keeps the clumps in order. -/
theorem rampart_track (m : Model α) (sqrt : α → α) (budget fuel : Nat) (st st' : State α)
    (hsqrt : ∀ n : Nat, 2 ≤ n → sqrt (n : α) ≠ 0) (ht : ClumpTrack st)
    (h : rampart m sqrt budget fuel st = .ok st') : ClumpTrack st' := by
  unfold rampart at h
  split at h
  · exact rampartLoop_track m sqrt budget hsqrt fuel _ st st' ht h
  · simp only [Except.ok.injEq] at h
    rw [← h]; exact ht

/-- Clumps in order form a forest. -/
theorem ClumpTrack.forest {st : State α} (ht : ClumpTrack st) : ClumpForest st := by
  refine ⟨?_, ?_, ht.nodup, ?_, ht.clumped_child⟩
  · intro u u2 v h1 h2
    obtain ⟨sv, _, hsv, -, hpar, -⟩ := ht.child u v h1
    obtain ⟨sv2, _, hsv2, -, hpar2, -⟩ := ht.child u2 v h2
    rw [hsv] at hsv2
    cases hsv2
    rw [hpar] at hpar2
    cases hpar2
    rfl
  · intro u v h1
    obtain ⟨sv, _, hsv, -, hpar, -⟩ := ht.child u v h1
    exact ht.parent_lt v sv u hsv hpar
  · intro u v h1
    obtain ⟨sv, _, hsv, hcl, -⟩ := ht.child u v h1
    exact ⟨sv, hsv, hcl⟩

theorem bumpKids_foldl_parent1 (parents : List Nat) :
    ∀ (ls : List AddrSetup) (v : Nat) (s2 : AddrSetup),
      (parents.foldl bumpKids ls)[v]? = some s2 →
      ∃ s, ls[v]? = some s ∧ s2.parent1 = s.parent1 := by
  induction parents with
  | nil => intro ls v s2 h; exact ⟨s2, h, rfl⟩
  | cons p rest ih =>
    intro ls v s2 h
    simp only [List.foldl_cons] at h
    obtain ⟨s1, hs1, he⟩ := ih _ v s2 h
    unfold bumpKids at hs1
    rw [List.getElem?_modify] at hs1
    cases hs : ls[v]? with
    | none => rw [hs] at hs1; cases hs1
    | some s =>
      rw [hs] at hs1
      simp only [Option.map_eq_map, Option.map_some', Option.some.injEq] at hs1
      refine ⟨s, rfl, ?_⟩
      rw [he, ← hs1]
      by_cases hpv : p = v
      · simp [hpv]
      · simp [hpv]

theorem finishRow_setup (m : Model α) (e r : Nat) (jl : JoinLoop α)
    (hmm : m.missingMeans e = false) :
    (finishRow m e r jl).2.1.layoutSetup =
      jl.parents.foldl bumpKids jl.st.layoutSetup ++
        [{ numKids := 0, numJoins := (jl.parents.length : Int), parent1 := jl.parent1,
           fk1 := jl.fk1, clumped := false, clump := [], heterogenousMean := false,
           skipMean := none, rset := none }] := by
  unfold finishRow
  by_cases hpk : m.hasPrimaryKey (m.data e) = true <;> simp [hmm, hpk]

theorem parentLink_ext (m : Model α) (st st' : State α) (h : ParentLink m st)
    (hlen : st.layoutSetup.length = st.layout.length)
    (hlay : ∃ new, st'.layout = st.layout ++ new)
    (hset : ∀ (v : Nat) (s2 : AddrSetup), v < st.layoutSetup.length →
      st'.layoutSetup[v]? = some s2 → ∃ s, st.layoutSetup[v]? = some s ∧ s2.parent1 = s.parent1)
    (hnew : ∀ (v : Nat) (sv : AddrSetup) (av : Addr α) (p : Nat), st.layout.length ≤ v →
      st'.layoutSetup[v]? = some sv → st'.layout[v]? = some av → sv.parent1 = some p →
      p < v ∧ ∃ (b0 : Between) (key : Int) (row : Nat) (ap : Addr α),
        (m.between av.model)[0]? = some b0 ∧
        m.keyElement (m.data av.model) av.row b0.joinKey = some key ∧
        m.lookupRowOfKey (m.data b0.joinModel) key = some row ∧
        st'.layout[p]? = some ap ∧ (ap.model, ap.row) = (b0.joinModel, row)) :
    ParentLink m st' := by
  obtain ⟨new, hnewl⟩ := hlay
  intro v sv av p hsv hav hpar
  rcases Nat.lt_or_ge v st.layout.length with hv | hv
  · obtain ⟨s, hs, hp⟩ := hset v sv (by rw [hlen]; exact hv) hsv
    have hav0 : st.layout[v]? = some av := by
      rw [hnewl, List.getElem?_append_left hv] at hav
      exact hav
    obtain ⟨hlt, b0, key, row, ap, h1, h2, h3, h4, h5⟩ :=
      h v s av p hs hav0 (by rw [← hp]; exact hpar)
    exact ⟨hlt, b0, key, row, ap, h1, h2, h3,
      by rw [hnewl]; exact getElem?_append_of_some _ _ _ _ h4, h5⟩
  · exact hnew v sv av p hv hsv hav hpar

/-- A call of `flattenOneRow` that raises no error keeps the meaning of
`parent1`. -/
theorem flattenOneRow_link (m : Model α) (nodes : Finset (Nat × Nat))
    (hwf : m.WellFormed nodes) :
    ∀ (fuel e r : Nat) (st : State α) (ms i : Nat) (st' : State α) (ms' : Nat),
      FlatInv m st →
      (m.hasPrimaryKey (m.data e) = false → (m.data e, r) ∉ st.layout.map m.keyOf) →
      ParentLink m st →
      flattenOneRow m fuel e r (st, ms) = .ok (i, st', ms') →
      st'.errorRaised = false → ParentLink m st' := by
  intro fuel
  induction fuel with
  | zero => intro e r st ms i st' ms' _ _ _ h; simp [flattenOneRow] at h
  | succ fuel ih =>
    intro e r st ms i st' ms' hinv hkeyless hlink h herr
    cases hmemo : memoOf m st e r with
    | some v =>
      rw [flattenOneRow_succ_some m fuel e r st ms v hmemo] at h
      by_cases hv : v < 0
      · simp [hv] at h
      · simp only [hv, if_false, Except.ok.injEq, Prod.mk.injEq] at h
        obtain ⟨-, hst, -⟩ := h
        subst hst
        exact hlink
    | none =>
      rw [flattenOneRow_succ_none m fuel e r st ms hmemo] at h
      split at h
      · cases h
      · rename_i jl hfold
        simp only [Except.ok.injEq] at h
        have hst' : st' = (finishRow m e r jl).2.1 := by rw [h]
        have hstep : ∀ (pre : List Between) (b : JoinLoop α) (c : Between) (b' : JoinLoop α),
            (FlatInv m b.st ∧ b.jx = pre.length ∧
              (b.st.errorRaised = false → ParentLink m b.st ∧
                ∀ p, b.parent1 = some p → ∃ (b0 : Between) (key : Int) (row : Nat)
                  (ap : Addr α), pre[0]? = some b0 ∧
                  m.keyElement (m.data e) r b0.joinKey = some key ∧
                  m.lookupRowOfKey (m.data b0.joinModel) key = some row ∧
                  b.st.layout[p]? = some ap ∧ (ap.model, ap.row) = (b0.joinModel, row))) →
            joinStep m (flattenOneRow m fuel) (m.data e) r b c = .ok b' →
            (FlatInv m b'.st ∧ b'.jx = (pre ++ [c]).length ∧
              (b'.st.errorRaised = false → ParentLink m b'.st ∧
                ∀ p, b'.parent1 = some p → ∃ (b0 : Between) (key : Int) (row : Nat)
                  (ap : Addr α), (pre ++ [c])[0]? = some b0 ∧
                  m.keyElement (m.data e) r b0.joinKey = some key ∧
                  m.lookupRowOfKey (m.data b0.joinModel) key = some row ∧
                  b'.st.layout[p]? = some ap ∧ (ap.model, ap.row) = (b0.joinModel, row))) := by
          intro pre b c b' hb hjs
          obtain ⟨hb1, hb2, hb3⟩ := hb
          rcases joinStep_ok m _ _ _ b b' c hjs with ⟨hnone, rfl⟩ |
            ⟨key, row, parentPos, st1, ms1, hkey, hrow, hvisit, rfl⟩
          · refine ⟨hb1, by simp [hb2], ?_⟩
            intro herr1
            obtain ⟨hl, hp⟩ := hb3 herr1
            refine ⟨hl, ?_⟩
            intro p hp1
            obtain ⟨b0, key, row, ap, h1, h2, h3, h4, h5⟩ := hp p hp1
            refine ⟨b0, key, row, ap, ?_, h2, h3, h4, h5⟩
            have hlt := getElem?_lt_length _ _ _ h1
            rw [List.getElem?_append_left hlt]
            exact h1
          · have hext := flattenOneRow_ext m _ _ _ _ _ _ _ _ hvisit
            have hcpk : m.hasPrimaryKey (m.data c.joinModel) = true :=
              hwf.key_declared _ _ _ hrow
            obtain ⟨hinv1, ⟨new1, hnew1, -⟩, hres1⟩ :=
              flattenOneRow_inv m nodes hwf _ _ _ _ _ _ _ _ hb1
                (fun hf => by rw [hcpk] at hf; cases hf) hvisit
            refine ⟨hinv1, by simp [hb2], ?_⟩
            intro herr1
            have herr1' : st1.errorRaised = false := herr1
            have hberr : b.st.errorRaised = false := by
              cases hbe : b.st.errorRaised with
              | false => rfl
              | true => rw [hext.error_mono hbe] at herr1'; cases herr1'
            obtain ⟨hl, hp⟩ := hb3 hberr
            have hl1 := ih _ _ _ _ _ _ _ hb1 (fun hf => by rw [hcpk] at hf; cases hf) hl
              hvisit herr1'
            refine ⟨hl1, ?_⟩
            intro p hp1
            by_cases hjx : b.jx = 0
            · simp only [hjx, if_true, Option.some.injEq] at hp1
              subst hp1
              have hpre : pre = [] := by
                rw [hjx] at hb2
                exact List.length_eq_zero.1 hb2.symm
              subst hpre
              obtain ⟨a, ha, hak, -⟩ := hres1 herr1'
              exact ⟨c, key, row, a, by simp, hkey, hrow, ha, hak⟩
            · simp only [hjx, if_false] at hp1
              obtain ⟨b0, key0, row0, ap, h1, h2, h3, h4, h5⟩ := hp p hp1
              refine ⟨b0, key0, row0, ap, ?_, h2, h3, ?_, h5⟩
              · have hlt := getElem?_lt_length _ _ _ h1
                rw [List.getElem?_append_left hlt]
                exact h1
              · show st1.layout[p]? = some ap
                rw [hnew1]
                exact getElem?_append_of_some _ _ _ _ h4
        obtain ⟨hj1, hj2, hj3⟩ :=
          foldlM_ok_inv (joinStep m (flattenOneRow m fuel) (m.data e) r)
            (fun pre b => FlatInv m b.st ∧ b.jx = pre.length ∧
              (b.st.errorRaised = false → ParentLink m b.st ∧
                ∀ p, b.parent1 = some p → ∃ (b0 : Between) (key : Int) (row : Nat)
                  (ap : Addr α), pre[0]? = some b0 ∧
                  m.keyElement (m.data e) r b0.joinKey = some key ∧
                  m.lookupRowOfKey (m.data b0.joinModel) key = some row ∧
                  b.st.layout[p]? = some ap ∧ (ap.model, ap.row) = (b0.joinModel, row)))
            hstep (m.between e) [] _ jl
            ⟨flatInv_beginRow m st e r hmemo hinv, rfl, fun _ => ⟨by
              intro v sv av p hsv hav hpar
              rw [beginRow_setup] at hsv
              rw [beginRow_layout] at hav
              obtain ⟨hlt, b0, key, row, ap, h1, h2, h3, h4, h5⟩ := hlink v sv av p hsv hav hpar
              exact ⟨hlt, b0, key, row, ap, h1, h2, h3, by rw [beginRow_layout]; exact h4, h5⟩,
              fun p hp => by cases hp⟩⟩ hfold
        rw [hst', finishRow_error] at herr
        simp only [Bool.or_eq_false_iff] at herr
        obtain ⟨hjerr, hmm⟩ := herr
        obtain ⟨hjl, hjp⟩ := hj3 hjerr
        rw [hst']
        have hlayout : (finishRow m e r jl).2.1.layout = jl.st.layout ++ [newAddr m e r] := by
          rw [finishRow_layout]; simp [hmm]
        refine parentLink_ext m jl.st _ hjl hj1.setup_len ⟨_, hlayout⟩ ?_ ?_
        · intro v s2 hv hs2
          rw [finishRow_setup m e r jl hmm,
            List.getElem?_append_left (by rw [bumpKids_foldl_length]; exact hv)] at hs2
          exact bumpKids_foldl_parent1 _ _ v s2 hs2
        · intro v sv av p hv hsv hav hpar
          rw [hlayout] at hav
          have hv2 : v = jl.st.layout.length := by
            have := getElem?_lt_length _ _ _ hav
            simp only [List.length_append, List.length_singleton] at this
            omega
          subst hv2
          rw [List.getElem?_append_right (Nat.le_refl _)] at hav
          simp only [Nat.sub_self, List.getElem?_cons_zero, Option.some.injEq] at hav
          subst hav
          rw [finishRow_setup m e r jl hmm, List.getElem?_append_right
            (by rw [bumpKids_foldl_length, hj1.setup_len])] at hsv
          rw [bumpKids_foldl_length, hj1.setup_len] at hsv
          simp only [Nat.sub_self, List.getElem?_cons_zero, Option.some.injEq] at hsv
          subst hsv
          obtain ⟨b0, key, row, ap, h1, h2, h3, h4, h5⟩ := hjp p hpar
          have hplt := getElem?_lt_length _ _ _ h4
          refine ⟨hplt, b0, key, row, ap, by simpa using h1, h2, h3, ?_, h5⟩
          rw [hlayout]
          exact getElem?_append_of_some _ _ _ _ h4

theorem flattenRows_link (m : Model α) (nodes : Finset (Nat × Nat)) (hwf : m.WellFormed nodes)
    (fuel : Nat) :
    ∀ (count row : Nat) (st : State α) (ms : Nat) (st' : State α) (ms' : Nat),
      RowsInv m row st → ParentLink m st →
      flattenRows m fuel count row (st, ms) = .ok (st', ms') →
      st'.errorRaised = false → ParentLink m st' := by
  intro count
  induction count with
  | zero =>
    intro row st ms st' ms' _ hl h _
    simp only [flattenRows, Except.ok.injEq, Prod.mk.injEq] at h
    rw [← h.1]; exact hl
  | succ count ih =>
    intro row st ms st' ms' hrows hl h herr
    rw [flattenRows] at h
    cases h1 : flattenOneRow m fuel m.homeEx row (st, ms) with
    | error err => rw [h1] at h; cases h
    | ok res =>
      obtain ⟨i, st1, ms1⟩ := res
      rw [h1] at h
      simp only at h
      have hkeyless : m.hasPrimaryKey (m.data m.homeEx) = false →
          (m.data m.homeEx, row) ∉ st.layout.map m.keyOf := by
        intro hpk hmem
        obtain ⟨a, ha, hak⟩ := List.mem_map.1 hmem
        have hax : (a.model, a.row) = (m.homeEx, row) :=
          key_inj m hwf.data_inj (a.model, a.row) (m.homeEx, row) hak
        have := hrows.home_rows (homeNotJoined_of_keyless m nodes hwf hpk) a ha
          (congrArg Prod.fst hax)
        have hrow : a.row = row := congrArg Prod.snd hax
        omega
      cases he : st1.errorRaised with
      | true =>
        rw [he] at h
        simp only [if_true, Except.ok.injEq, Prod.mk.injEq] at h
        rw [← h.1, he] at herr
        cases herr
      | false =>
        rw [he] at h
        simp only [Bool.false_eq_true, if_false] at h
        exact ih _ _ _ _ _ (rowsInv_step m nodes hwf fuel row st ms i st1 ms1 hrows h1 he)
          (flattenOneRow_link m nodes hwf _ _ _ _ _ _ _ _ hrows.inv hkeyless hl h1 he) h herr

/-- After flattening without a raised error, `parent1` of a unit is the unit
of the row joined through the first between matrix. -/
theorem flatten_link (m : Model α) (nodes : Finset (Nat × Nat)) (hwf : m.WellFormed nodes)
    (fuel : Nat) (st : State α) (ms : Nat) (h : flatten m fuel = .ok (st, ms))
    (herr : st.errorRaised = false) : ParentLink m st := by
  refine flattenRows_link m nodes hwf fuel _ 0 State.empty 0 st ms (rowsInv_empty m) ?_ h herr
  intro v sv av p hsv
  simp [State.empty] at hsv

/-- The state after flattening has its clumps in order: there is none. -/
theorem flatten_track (m : Model α) (nodes : Finset (Nat × Nat)) (hwf : m.WellFormed nodes)
    (fuel : Nat) (st : State α) (ms : Nat) (h : flatten m fuel = .ok (st, ms))
    (herr : st.errorRaised = false) : ClumpTrack st := by
  have hrows := flatten_inv m nodes hwf fuel st ms h herr
  have hfresh := freshUnits_flatten m fuel st ms h
  have hlink := flatten_link m nodes hwf fuel st ms h herr
  refine ⟨hrows.inv.setup_len, ?_, ?_, ?_, ?_, ?_⟩
  · intro u s hs
    rw [(hfresh.setup s (List.getElem?_mem hs)).2.1]
    exact List.nodup_nil
  · rintro u v ⟨s, hs, hv⟩
    rw [(hfresh.setup s (List.getElem?_mem hs)).2.1] at hv
    cases hv
  · intro v sv hsv hcl
    rw [(hfresh.setup sv (List.getElem?_mem hsv)).1] at hcl
    cases hcl
  · intro v sv av _ hav _ _
    rw [hfresh.units av (List.getElem?_mem hav)]
    show (1 : α) ≠ 0
    exact one_ne_zero
  · intro v sv p hsv hpar
    obtain ⟨av, hav⟩ := getElem?_of_lt st.layout v
      (by rw [← hrows.inv.setup_len]; exact getElem?_lt_length _ _ _ hsv)
    exact (hlink v sv av p hsv hav hpar).1

/-- The Rampart rounds keep the meaning of `parent1`. -/
theorem parentLink_rotMono (m : Model α) (st st' : State α) (hl : ParentLink m st)
    (h : RotMono st st') : ParentLink m st' := by
  intro v sv av p hsv hav hpar
  obtain ⟨a0, ha0, hk⟩ := h.key_back v av hav
  obtain ⟨-, k2, k3, -, -⟩ := rotKey_keyOf m a0 av hk
  obtain ⟨s0, hs0⟩ := getElem?_of_lt st.layoutSetup v
    (by rw [← h.setup_len]; exact getElem?_lt_length _ _ _ hsv)
  obtain ⟨s', hs', hp', -⟩ := h.setup v s0 hs0
  rw [hsv] at hs'
  cases hs'
  obtain ⟨hlt, b0, key, row, ap, h1, h2, h3, h4, h5⟩ :=
    hl v s0 a0 p hs0 ha0 (by rw [← hp']; exact hpar)
  obtain ⟨ap', hap', hkp⟩ := h.key_at p ap h4
  obtain ⟨-, j2, j3, -, -⟩ := rotKey_keyOf m ap ap' hkp
  refine ⟨hlt, b0, key, row, ap', by rw [k2]; exact h1, by rw [k2, k3]; exact h2, h3, hap', ?_⟩
  rw [j2, j3]; exact h5

/-- The state after flattening without a raised error and the Rampart rounds
is ready for planning. -/
theorem rotated_ready (m : Model α) (nodes : Finset (Nat × Nat)) (hwf : m.WellFormed nodes)
    (sqrt : α → α) (budget : Nat) (st0 : State α) (ms : Nat) (st1 : State α)
    (hflat : flatten m budget = .ok (st0, ms)) (herr : st0.errorRaised = false)
    (hramp : rampart m sqrt budget budget st0 = .ok st1) : PlanReady m st1 := by
  have hrows := flatten_inv m nodes hwf budget st0 ms hflat herr
  have hfresh := freshUnits_flatten m budget st0 ms hflat
  have hmono := rampart_mono m sqrt budget budget st0 st1 hramp
  refine ⟨flatInv_rotMono m st0 st1 hrows.inv hmono, ?_, ⟨?_, ?_⟩, ?_, ?_⟩
  · intro k v hk
    rw [hmono.map] at hk
    by_contra hneg
    exact CleanState.no_marker m st0 hrows.clean k ⟨v, hk, by omega⟩
  · rw [hmono.group]; exact hfresh.no_group
  · intro a' ha'
    obtain ⟨i, hi⟩ := List.getElem?_of_mem ha'
    obtain ⟨a, ha, hk⟩ := hmono.key_back i a' hi
    obtain ⟨-, -, -, k4, -⟩ := rotKey_keyOf m a a' hk
    rw [k4, hfresh.units a (List.getElem?_mem ha)]
    rfl
  · intro a' ha'
    obtain ⟨i, hi⟩ := List.getElem?_of_mem ha'
    obtain ⟨a, ha, hk⟩ := hmono.key_back i a' hi
    obtain ⟨-, k2, k3, -, k5⟩ := rotKey_keyOf m a a' hk
    rw [k5, k2, k3, hfresh.units a (List.getElem?_mem ha)]
    rfl
  · rw [hmono.err]; exact herr

/-- A unit and the members of its clump are in one connected component. -/
theorem child_linked (m : Model α) (nodes : Finset (Nat × Nat)) (hwf : m.WellFormed nodes)
    (st : State α) (hinv : FlatInv m st) (ht : ClumpTrack st) (hl : ParentLink m st)
    (cc : Connectedness) (hcc : computeConnected m st = .ok cc) (u v : Nat)
    (h : Child st u v) : cc.Linked u v := by
  obtain ⟨sv, av, hsv, -, hpar, hav, hsc⟩ := ht.child u v h
  obtain ⟨hlt, b0, key, row, ap, h1, h2, h3, h4, h5⟩ := hl v sv av u hsv hav hpar
  have hm5 : ap.model = b0.joinModel := congrArg Prod.fst h5
  have hr5 : ap.row = row := congrArg Prod.snd h5
  have hpk : m.hasPrimaryKey (m.data ap.model) = true := by
    rw [hm5]
    exact hwf.key_declared _ _ _ h3
  have hmap := hinv.unit_map u ap h4 hpk
  have hkey : m.keyOf ap = (m.data b0.joinModel, row) := by
    simp only [Model.keyOf]
    rw [hm5, hr5]
  rw [hkey] at hmap
  obtain ⟨-, -, hspec⟩ := computeConnected_spec m st cc hcc
  have hvu := hspec v av hav hsc b0 (List.getElem?_mem h1) key row (u : Int) h2 h3 hmap
    (by simpa using getElem?_lt_length _ _ _ h4)
  simp only [Int.toNat_ofNat] at hvu
  obtain ⟨rg, hr1, hr2⟩ := hvu
  exact ⟨rg, hr2, hr1⟩

/-- C7: for a layout produced by flattening a well-formed model without a
raised error and by the Rampart rounds (with a square root that is not zero at
a count of two or more), `planModelEval`, with or without `forceSingleGroup`,
never throws the error "Unit already assigned" of `place`; and when it
returns, every unit index of the layout occurs exactly once in the
concatenation of the lists `gMap` of all groups, these lists hold unit indices
only, and `layout[ax].ig` is the group whose `gMap` holds `ax`. -/
theorem plan_exactly_one_group_per_unit (m : Model α) (nodes : Finset (Nat × Nat))
    (hwf : m.WellFormed nodes) (sqrt : α → α) (hsqrt : ∀ n : Nat, 2 ≤ n → sqrt (n : α) ≠ 0)
    (budget : Nat) (st0 : State α) (ms : Nat) (st1 : State α)
    (hflat : flatten m budget = .ok (st0, ms)) (herr : st0.errorRaised = false)
    (hramp : rampart m sqrt budget budget st0 = .ok st1) :
    (∀ ax, planModelEval m budget st1 ≠ .error (Error.alreadyAssigned ax)) ∧
    ∀ st', planModelEval m budget st1 = .ok st' →
      (∀ u, u < st'.layout.length →
        ((st'.group.map (fun g => g.gMap)).flatten).count u = 1) ∧
      (∀ u ∈ (st'.group.map (fun g => g.gMap)).flatten, u < st'.layout.length) ∧
      (∀ (u : Nat) (a : Addr α) (g : Nat) (ig : IndependentGroup α),
        st'.layout[u]? = some a → st'.group[g]? = some ig → (a.ig = some g ↔ u ∈ ig.gMap)) := by
  have hready := rotated_ready m nodes hwf sqrt budget st0 ms st1 hflat herr hramp
  have hmono := rampart_mono m sqrt budget budget st0 st1 hramp
  have htrack := rampart_track m sqrt budget budget st0 st1 hsqrt
    (flatten_track m nodes hwf budget st0 ms hflat herr) hramp
  have hlink := parentLink_rotMono m st0 st1 (flatten_link m nodes hwf budget st0 ms hflat herr)
    hmono
  refine ⟨?_, fun st' h => planModelEval_partition m budget st1 st' hready.start h⟩
  intro ax hax
  have := planModelEval_safe m budget st1 hready.start htrack.forest hready.inv.setup_len
    (fun k v hk => by
      obtain ⟨a, ha, -⟩ := hready.inv.map_unit k v hk (hready.no_marker k v hk)
      exact getElem?_lt_length _ _ _ ha)
    (fun cc hcc u v huv => child_linked m nodes hwf st1 hready.inv htrack hlink cc hcc u v huv)
    _ hax
  cases this

theorem plan_exactly_one_group_per_unit_witness :
    ∃ (ms : Nat) (st1 : State ℚ),
      flatten (familyModel true) 10 = .ok (familyFlat, ms) ∧
      familyFlat.errorRaised = false ∧
      rampart (familyModel true) (fun x => x) 10 10 familyFlat = .ok st1 ∧
      (∃ st', planModelEval (familyModel true) 10 st1 = .ok st' ∧
        st'.group.map (fun g => g.gMap) = [[2, 3, 6, 7], [0, 1, 4, 5]]) ∧
      (∀ ax, planModelEval (familyModel true) 10 st1 ≠ .error (Error.alreadyAssigned ax)) ∧
      ∀ st', planModelEval (familyModel true) 10 st1 = .ok st' →
        (∀ u, u < st'.layout.length →
          ((st'.group.map (fun g => g.gMap)).flatten).count u = 1) ∧
        (∀ u ∈ (st'.group.map (fun g => g.gMap)).flatten, u < st'.layout.length) ∧
        (∀ (u : Nat) (a : Addr ℚ) (g : Nat) (ig : IndependentGroup ℚ),
          st'.layout[u]? = some a → st'.group[g]? = some ig →
          (a.ig = some g ↔ u ∈ ig.gMap)) := by
  cases hf : flatten (familyModel true) 10 with
  | error err =>
    have hok : (match flatten (familyModel true) 10 with
      | .ok _ => true
      | .error _ => false) = true := by decide
    rw [hf] at hok
    cases hok
  | ok res =>
    obtain ⟨st0, ms⟩ := res
    have hst0 : familyFlat = st0 := by
      unfold familyFlat
      rw [hf]
    subst hst0
    have herr : familyFlat.errorRaised = false := by decide
    cases hr : rampart (familyModel true) (fun x => x) 10 10 familyFlat with
    | error err =>
      have hok : (match rampart (familyModel true) (fun x => x) 10 10 familyFlat with
        | .ok _ => true
        | .error _ => false) = true := by decide
      rw [hr] at hok
      cases hok
    | ok st1 =>
      have hshape : (match rampart (familyModel true) (fun x => x) 10 10 familyFlat with
        | .ok st1 =>
          (match planModelEval (familyModel true) 10 st1 with
            | .ok st' => decide (st'.group.map (fun g => g.gMap) = [[2, 3, 6, 7], [0, 1, 4, 5]])
            | .error _ => false)
        | .error _ => false) = true := by decide
      rw [hr] at hshape
      simp only at hshape
      refine ⟨ms, st1, rfl, herr, rfl, ?_,
        plan_exactly_one_group_per_unit (familyModel true) _ (familyModel_wellFormed true)
          (fun x => x) (fun n hn => by
            have : (0 : ℚ) < (n : ℚ) := by exact_mod_cast (by omega : 0 < n)
            exact ne_of_gt this) 10 familyFlat ms st1 hf herr hr⟩
      cases hp : planModelEval (familyModel true) 10 st1 with
      | error err => rw [hp] at hshape; cases hshape
      | ok st' =>
        rw [hp] at hshape
        exact ⟨st', rfl, of_decide_eq_true hshape⟩

end PlanClaims

end RelationalRAMExpectation
